import Mathlib

/-!
SBF framing and B2b page gating of the PPP-B2b decoder

A shallow embedding of `SBFDecoder.cpp` (frame synchronisation, CRC-16,
block hand-over) and of the head of `PPPB2bDecoder.cpp` (SVID to PRN mapping,
page filter, idle-page check), with the properties proved about them.

Bytes are natural numbers below 256; a buffer is a `List Nat`.  Reads of
multi-byte fields follow the host order of the original build (little endian).
-/

namespace B2b

/-! Bytes and little-endian fields -/

/-- A buffer holds bytes: every element is below 256. -/
def isBytes (buf : List Nat) : Prop := ∀ b ∈ buf, b < 256

instance (buf : List Nat) : Decidable (isBytes buf) := by
  unfold isBytes; infer_instance

/-- The `U2(p + off)` of the source: a 16-bit host-order (little-endian) load.
A read past the end of the list yields 0. -/
def U2 (p : List Nat) (off : Nat) : Nat :=
  p.getD off 0 + 256 * p.getD (off + 1) 0

/-- The `U4(p + off)` of the source: a 32-bit host-order (little-endian) load. -/
def U4 (p : List Nat) (off : Nat) : Nat :=
  p.getD off 0 + 256 * p.getD (off + 1) 0 + 65536 * p.getD (off + 2) 0
    + 16777216 * p.getD (off + 3) 0

/-! CRC-16 -/

/-- The table `CRC_16CCIT_LookUp[256]` of `SBFDecoder.cpp`. -/
def CRC_16CCIT_LookUp : List Nat := [
  0x0000, 0x1021, 0x2042, 0x3063, 0x4084, 0x50a5, 0x60c6, 0x70e7,
  0x8108, 0x9129, 0xa14a, 0xb16b, 0xc18c, 0xd1ad, 0xe1ce, 0xf1ef,
  0x1231, 0x0210, 0x3273, 0x2252, 0x52b5, 0x4294, 0x72f7, 0x62d6,
  0x9339, 0x8318, 0xb37b, 0xa35a, 0xd3bd, 0xc39c, 0xf3ff, 0xe3de,
  0x2462, 0x3443, 0x0420, 0x1401, 0x64e6, 0x74c7, 0x44a4, 0x5485,
  0xa56a, 0xb54b, 0x8528, 0x9509, 0xe5ee, 0xf5cf, 0xc5ac, 0xd58d,
  0x3653, 0x2672, 0x1611, 0x0630, 0x76d7, 0x66f6, 0x5695, 0x46b4,
  0xb75b, 0xa77a, 0x9719, 0x8738, 0xf7df, 0xe7fe, 0xd79d, 0xc7bc,
  0x48c4, 0x58e5, 0x6886, 0x78a7, 0x0840, 0x1861, 0x2802, 0x3823,
  0xc9cc, 0xd9ed, 0xe98e, 0xf9af, 0x8948, 0x9969, 0xa90a, 0xb92b,
  0x5af5, 0x4ad4, 0x7ab7, 0x6a96, 0x1a71, 0x0a50, 0x3a33, 0x2a12,
  0xdbfd, 0xcbdc, 0xfbbf, 0xeb9e, 0x9b79, 0x8b58, 0xbb3b, 0xab1a,
  0x6ca6, 0x7c87, 0x4ce4, 0x5cc5, 0x2c22, 0x3c03, 0x0c60, 0x1c41,
  0xedae, 0xfd8f, 0xcdec, 0xddcd, 0xad2a, 0xbd0b, 0x8d68, 0x9d49,
  0x7e97, 0x6eb6, 0x5ed5, 0x4ef4, 0x3e13, 0x2e32, 0x1e51, 0x0e70,
  0xff9f, 0xefbe, 0xdfdd, 0xcffc, 0xbf1b, 0xaf3a, 0x9f59, 0x8f78,
  0x9188, 0x81a9, 0xb1ca, 0xa1eb, 0xd10c, 0xc12d, 0xf14e, 0xe16f,
  0x1080, 0x00a1, 0x30c2, 0x20e3, 0x5004, 0x4025, 0x7046, 0x6067,
  0x83b9, 0x9398, 0xa3fb, 0xb3da, 0xc33d, 0xd31c, 0xe37f, 0xf35e,
  0x02b1, 0x1290, 0x22f3, 0x32d2, 0x4235, 0x5214, 0x6277, 0x7256,
  0xb5ea, 0xa5cb, 0x95a8, 0x8589, 0xf56e, 0xe54f, 0xd52c, 0xc50d,
  0x34e2, 0x24c3, 0x14a0, 0x0481, 0x7466, 0x6447, 0x5424, 0x4405,
  0xa7db, 0xb7fa, 0x8799, 0x97b8, 0xe75f, 0xf77e, 0xc71d, 0xd73c,
  0x26d3, 0x36f2, 0x0691, 0x16b0, 0x6657, 0x7676, 0x4615, 0x5634,
  0xd94c, 0xc96d, 0xf90e, 0xe92f, 0x99c8, 0x89e9, 0xb98a, 0xa9ab,
  0x5844, 0x4865, 0x7806, 0x6827, 0x18c0, 0x08e1, 0x3882, 0x28a3,
  0xcb7d, 0xdb5c, 0xeb3f, 0xfb1e, 0x8bf9, 0x9bd8, 0xabbb, 0xbb9a,
  0x4a75, 0x5a54, 0x6a37, 0x7a16, 0x0af1, 0x1ad0, 0x2ab3, 0x3a92,
  0xfd2e, 0xed0f, 0xdd6c, 0xcd4d, 0xbdaa, 0xad8b, 0x9de8, 0x8dc9,
  0x7c26, 0x6c07, 0x5c64, 0x4c45, 0x3ca2, 0x2c83, 0x1ce0, 0x0cc1,
  0xef1f, 0xff3e, 0xcf5d, 0xdf7c, 0xaf9b, 0xbfba, 0x8fd9, 0x9ff8,
  0x6e17, 0x7e36, 0x4e55, 0x5e74, 0x2e93, 0x3eb2, 0x0ed1, 0x1ef0]

/-- One iteration of the loop of `sbf_checksum`:
`crc = (crc << 8) ^ CRC_16CCIT_LookUp[(crc >> 8) ^ buff[i]]`, the assignment
truncating to `unsigned short`. -/
def sbf_checksum_step (crc b : Nat) : Nat :=
  ((crc <<< 8) ^^^ CRC_16CCIT_LookUp.getD ((crc >>> 8) ^^^ b) 0) % 65536

/-- The `SBFDecoder::sbf_checksum(buff, len)` of the source, on the `len` bytes
it is given. -/
def sbf_checksum (buff : List Nat) : Nat :=
  buff.foldl sbf_checksum_step 0

/-- One shift of the bit-by-bit CRC-16 with polynomial 0x1021, most significant
bit first: when the top bit of the 16-bit register is set the register is
shifted left and the polynomial is added, otherwise it is only shifted. -/
def crc16_shift (crc : Nat) : Nat :=
  if crc &&& 0x8000 ≠ 0 then ((crc <<< 1) ^^^ 0x1021) % 65536
  else (crc <<< 1) % 65536

/-- Eight shifts of the register. -/
def crc16_shift8 (crc : Nat) : Nat :=
  crc16_shift (crc16_shift (crc16_shift (crc16_shift
    (crc16_shift (crc16_shift (crc16_shift (crc16_shift crc)))))))

/-- The bit-by-bit CRC-16 of one byte: the byte is added into the high half of
the register, which is then shifted eight times.  No reflection of the input. -/
def crc16_bitwise_byte (crc b : Nat) : Nat :=
  crc16_shift8 (crc ^^^ (b <<< 8))

/-- The bit-by-bit CRC-16 described by the specification: polynomial 0x1021,
initial value 0x0000, no reflection, no final XOR. -/
def crc16_bitwise (buff : List Nat) : Nat :=
  buff.foldl crc16_bitwise_byte 0

/-! The SBF framer (`SBFDecoder`) -/

/-- First sync byte of an SBF block. -/
def SBF_SYNC1 : Nat := 0x24
/-- Second sync byte of an SBF block. -/
def SBF_SYNC2 : Nat := 0x40

/-- Return code of `Decode`. -/
inductive t_irc where
  | failure
  | success
  deriving DecidableEq

/-- The members of `SBFDecoder` that `Decode` reads or writes: the accumulator
`_acc`, the log limiter `_logTypes`, the list `_typeList` of recorded block
types and the counter `_totalFrames`. -/
structure SBFDecoder where
  acc : List Nat
  logTypes : Nat
  typeList : List Nat
  totalFrames : Nat
  deriving DecidableEq

/-- What `Decode` does with an extracted frame.
`crcError type logged`: the checksum comparison failed and the frame was skipped;
`logged` tells whether the "SBF CRC error" message was sent (`_logTypes < 3`).
`block b len`: the call `_b2bDec->input(b, len)`. -/
inductive SbfEvent where
  | crcError (type : Nat) (logged : Bool)
  | block (b : List Nat) (len : Nat)
  deriving DecidableEq

/-- The `SBFDecoder::trySync` of the source on the accumulator: drops leading
bytes until the first two bytes are the sync pair or fewer than two bytes are
left.  Returns the flag and the accumulator left. -/
def trySync : List Nat → Bool × List Nat
  | [] => (false, [])
  | b0 :: rest =>
    match rest with
    | [] => (false, [b0])
    | b1 :: _ =>
      if b0 = SBF_SYNC1 ∧ b1 = SBF_SYNC2 then (true, b0 :: rest) else trySync rest

/-- The `SBFDecoder::hasWholeFrame` of the source: `some len` stands for `true`
with the declared length in `len`. -/
def hasWholeFrame (acc : List Nat) : Option Nat :=
  if acc.length < 8 then none
  else
    let len := U2 acc 6
    if len = 0 then none
    else if acc.length ≥ len then some len else none

/-- The `SBFDecoder::takeOneFrame` of the source: the frame `_acc.left(len)` and
the accumulator after `_acc.remove(0, len)`. -/
def takeOneFrame (acc : List Nat) : Option (List Nat × List Nat) :=
  match hasWholeFrame acc with
  | none => none
  | some len => some (acc.take len, acc.drop len)

/-- The `for (;;)` loop of `Decode`.  The result is the decoder after the loop,
the local counter `frames` and the events in the order they happened.  Every
pass removes at least one byte, so a bound of the accumulator length on the
number of passes is never reached before `takeOneFrame` fails (see
`frameLoop_fuel`).  The fields of a frame are read from the copy `frame`; a
read past the end of a frame shorter than 8 bytes is outside the copy and is
taken as 0 here. -/
def frameLoop : Nat → SBFDecoder → SBFDecoder × Nat × List SbfEvent
  | 0, st => (st, 0, [])
  | fuel + 1, st =>
    match takeOneFrame st.acc with
    | none => (st, 0, [])
    | some (frame, rest) =>
      let type := U2 frame 4 &&& 0x1FFF
      let crcH := U2 frame 2
      let len := U2 frame 6
      if sbf_checksum ((frame.drop 4).take (len - 4)) ≠ crcH then
        let r := frameLoop fuel { st with acc := rest }
        (r.1, r.2.1 + 1, SbfEvent.crcError type (decide (st.logTypes < 3)) :: r.2.2)
      else
        let r := frameLoop fuel
          { st with
            acc := rest
            typeList := st.typeList ++ [type]
            logTypes := if st.logTypes < 5 then st.logTypes + 1 else st.logTypes }
        (r.1, r.2.1 + 1, SbfEvent.block frame len :: r.2.2)

/-- The `SBFDecoder::Decode(buffer, bufLen, errmsg)` of the source: return code,
decoder afterwards, and the events of the call. -/
def Decode (st : SBFDecoder) (buffer : List Nat) : t_irc × SBFDecoder × List SbfEvent :=
  if buffer.length = 0 then (t_irc.failure, st, [])
  else
    let synced := trySync (st.acc ++ buffer)
    if synced.1 = false then (t_irc.failure, { st with acc := synced.2 }, [])
    else
      let r := frameLoop synced.2.length { st with acc := synced.2 }
      if r.2.1 > 0 then
        (t_irc.success, { r.1 with totalFrames := r.1.totalFrames + r.2.1 }, r.2.2)
      else (t_irc.failure, r.1, r.2.2)

/-- Successive `Decode` calls, one per buffer: the decoder at the end and the
return code and events of each call. -/
def DecodeCalls (st : SBFDecoder) : List (List Nat) → SBFDecoder × List (t_irc × List SbfEvent)
  | [] => (st, [])
  | buffer :: more =>
    let r := Decode st buffer
    let rs := DecodeCalls r.2.1 more
    (rs.1, (r.1, r.2.2) :: rs.2)

/-- A freshly constructed `SBFDecoder`. -/
def SBFDecoder.init : SBFDecoder :=
  { acc := [], logTypes := 0, typeList := [], totalFrames := 0 }

/-- A valid SBF frame: bytes, at least the 8-byte header, the sync pair, the
length field at offset 6 equal to the number of bytes, and the CRC field at
offset 2 equal to the checksum of the bytes from offset 4 on. -/
def validFrame (F : List Nat) : Prop :=
  isBytes F ∧ 8 ≤ F.length ∧ F.getD 0 0 = SBF_SYNC1 ∧ F.getD 1 0 = SBF_SYNC2 ∧
    U2 F 6 = F.length ∧ U2 F 2 = sbf_checksum (F.drop 4)

instance (F : List Nat) : Decidable (validFrame F) := by
  unfold validFrame; infer_instance

/-- The blocks handed to the B2b decoder among the events. -/
def blocksOf : List SbfEvent → List (List Nat)
  | [] => []
  | SbfEvent.block b _ :: es => b :: blocksOf es
  | SbfEvent.crcError _ _ :: es => blocksOf es

/-- The number of CRC-error events among the events. -/
def crcErrorsOf : List SbfEvent → Nat
  | [] => 0
  | SbfEvent.block _ _ :: es => crcErrorsOf es
  | SbfEvent.crcError _ _ :: es => crcErrorsOf es + 1

/-- The buffer `F` with bit `k` (0 = least significant) of the byte at index `i`
inverted. -/
def flipBit (F : List Nat) (i k : Nat) : List Nat :=
  F.set i (F.getD i 0 ^^^ 2 ^ k)

/-- Whether the byte string contains the sync pair 0x24, 0x40 at adjacent
positions. -/
def hasSyncPair : List Nat → Bool
  | [] => false
  | b0 :: rest =>
    match rest with
    | [] => false
    | b1 :: _ => (b0 == SBF_SYNC1 && b1 == SBF_SYNC2) || hasSyncPair rest

/-! SVID to PRN text (`svid2prn`) -/

/-- A `QString`, as the list of its characters. -/
abbrev QString := List Char

/-- The `QString::arg(a, fieldWidth, base, QLatin1Char('0'))` of Qt for a
non-negative number: the digits of `a` in the base, padded on the left with '0'
to at least `fieldWidth` characters. -/
def qarg (a fieldWidth base : Nat) : QString :=
  List.replicate (fieldWidth - (Nat.toDigits base a).length) '0' ++ Nat.toDigits base a

/-- The `SBFDecoder::svid2prn` of `SBFDecoder.cpp`. -/
def SBFDecoder.svid2prn (svid : Nat) : QString :=
  if svid ≥ 1 ∧ svid ≤ 37 then 'G' :: qarg svid 2 10
  else if svid ≥ 38 ∧ svid ≤ 61 then 'R' :: qarg (svid - 37) 2 10
  else if svid = 62 then ['R', '?', '?']
  else if svid ≥ 63 ∧ svid ≤ 68 then 'R' :: qarg (svid - 38) 2 10
  else if svid ≥ 71 ∧ svid ≤ 106 then 'E' :: qarg (svid - 70) 2 10
  else if svid ≥ 120 ∧ svid ≤ 140 then 'S' :: qarg (svid - 100) 2 10
  else if svid ≥ 141 ∧ svid ≤ 180 then 'C' :: qarg (svid - 140) 2 10
  else if svid ≥ 181 ∧ svid ≤ 190 then 'J' :: qarg (svid - 180) 2 10
  else if svid ≥ 191 ∧ svid ≤ 197 then 'I' :: qarg (svid - 190) 2 10
  else if svid ≥ 198 ∧ svid ≤ 215 then 'S' :: qarg (svid - 157) 3 10
  else if svid ≥ 216 ∧ svid ≤ 222 then 'I' :: qarg (svid - 208) 2 10
  else if svid ≥ 223 ∧ svid ≤ 245 then 'C' :: qarg (svid - 182) 2 10
  else ['U', 'N', 'K', '_'] ++ qarg svid 0 10

/-- The `PPPB2bDecoder::svid2prn` of `PPPB2bDecoder.cpp`. -/
def PPPB2bDecoder.svid2prn (svid : Nat) : QString :=
  if svid ≥ 1 ∧ svid ≤ 37 then 'G' :: qarg svid 2 10
  else if svid ≥ 38 ∧ svid ≤ 61 then 'R' :: qarg (svid - 37) 2 10
  else if svid = 62 then ['R', '?', '?']
  else if svid ≥ 63 ∧ svid ≤ 68 then 'R' :: qarg (svid - 38) 2 10
  else if svid ≥ 71 ∧ svid ≤ 106 then 'E' :: qarg (svid - 70) 2 10
  else if svid ≥ 120 ∧ svid ≤ 140 then 'S' :: qarg (svid - 100) 2 10
  else if svid ≥ 141 ∧ svid ≤ 180 then 'C' :: qarg (svid - 140) 2 10
  else if svid ≥ 181 ∧ svid ≤ 190 then 'J' :: qarg (svid - 180) 2 10
  else if svid ≥ 191 ∧ svid ≤ 197 then 'I' :: qarg (svid - 190) 2 10
  else if svid ≥ 198 ∧ svid ≤ 215 then 'S' :: qarg (svid - 157) 3 10
  else if svid ≥ 216 ∧ svid ≤ 222 then 'I' :: qarg (svid - 208) 2 10
  else if svid ≥ 223 ∧ svid ≤ 245 then 'C' :: qarg (svid - 182) 2 10
  else ['U', 'N', 'K', '_'] ++ qarg svid 0 10

/-- What the SVID table of the specification gives for an SVID: a constellation
letter with a number, the text "R??", or no entry. -/
inductive SvidEntry where
  | sat (letter : Char) (number : Nat)
  | glonassUnknown
  | unknown
  deriving DecidableEq

/-- The SVID table as the specification lists it: 1-37 G(SVID); 38-61
R(SVID-37); 62 R??; 63-68 R(SVID-38); 71-106 E(SVID-70); 120-140 S(SVID-100);
141-180 C(SVID-140); 181-190 J(SVID-180); 191-197 I(SVID-190); 198-215
S(SVID-157); 216-222 I(SVID-208); 223-245 C(SVID-182); else unknown. -/
def svidTable (svid : Nat) : SvidEntry :=
  if 1 ≤ svid ∧ svid ≤ 37 then SvidEntry.sat 'G' svid
  else if 38 ≤ svid ∧ svid ≤ 61 then SvidEntry.sat 'R' (svid - 37)
  else if svid = 62 then SvidEntry.glonassUnknown
  else if 63 ≤ svid ∧ svid ≤ 68 then SvidEntry.sat 'R' (svid - 38)
  else if 71 ≤ svid ∧ svid ≤ 106 then SvidEntry.sat 'E' (svid - 70)
  else if 120 ≤ svid ∧ svid ≤ 140 then SvidEntry.sat 'S' (svid - 100)
  else if 141 ≤ svid ∧ svid ≤ 180 then SvidEntry.sat 'C' (svid - 140)
  else if 181 ≤ svid ∧ svid ≤ 190 then SvidEntry.sat 'J' (svid - 180)
  else if 191 ≤ svid ∧ svid ≤ 197 then SvidEntry.sat 'I' (svid - 190)
  else if 198 ≤ svid ∧ svid ≤ 215 then SvidEntry.sat 'S' (svid - 157)
  else if 216 ≤ svid ∧ svid ≤ 222 then SvidEntry.sat 'I' (svid - 208)
  else if 223 ≤ svid ∧ svid ≤ 245 then SvidEntry.sat 'C' (svid - 182)
  else SvidEntry.unknown

/-- The text of a table entry: the letter followed by the number in decimal,
zero-padded to `width` digits; "R??"; or the unknown marker "UNK_" followed by
the SVID. -/
def SvidEntry.text (svid width : Nat) : SvidEntry → QString
  | SvidEntry.sat letter number => letter :: qarg number width 10
  | SvidEntry.glonassUnknown => ['R', '?', '?']
  | SvidEntry.unknown => ['U', 'N', 'K', '_'] ++ qarg svid 0 10

/-! The B2b page gate (`PPPB2bDecoder::decode_b2b_payload`) -/

/-- The `QString::toUpper` of Qt on the characters met here. -/
def toUpper (s : QString) : QString := s.map Char.toUpper

/-- The `QString::startsWith(pre, Qt::CaseInsensitive)` of Qt. -/
def startsWithCI (s pre : QString) : Bool :=
  decide (pre.length ≤ s.length) &&
    ((s.take pre.length).map Char.toLower == pre.map Char.toLower)

/-- The text `navHex` built by the loop over the 31 NAVBits words: word `w` is
loaded with `U4(payload + 12 + w * 4)` and appended as 8 upper-case hexadecimal
digits, most significant digit first. -/
def navHexOf (payload : List Nat) : QString :=
  (List.range 31).foldl (fun navHex w => navHex ++ toUpper (qarg (U4 payload (12 + w * 4)) 8 16)) []

/-- What `decode_b2b_payload` does, in order.
`headLog`: the "PPPB2b: TOW=... PRN=..." message of a C59 page;
`skipLog`: the "Skipping frame starting with EC0FC" message;
`ldpc navHex WNc TOW`: the call `SBFcoDecoder::decode_LDPC_navbitsRaw(navHex)`
and the code that follows it. -/
inductive B2bEvent where
  | headLog (TOW WNc : Nat) (prn : QString) (CRCp Src RxCh : Nat)
  | skipLog
  | ldpc (navHex : QString) (WNc TOW : Nat)
  deriving DecidableEq

/-- The `PPPB2bDecoder::decode_b2b_payload(payload, payload_len)` of the source up
to the idle-page check.  The decoder state is any type `σ`; the rest of the
function (LDPC decoding of `navHex`, parsing and ingestion, lines 272-342) is
the parameter `decodePage`, which receives the state, `navHex`, `WNc` and `TOW`.
Result: return value, state afterwards, events. -/
def PPPB2bDecoder.decode_b2b_payload {σ : Type} (decodePage : σ → QString → Nat → Nat → σ)
    (st : σ) (payload : List Nat) : Int × σ × List B2bEvent :=
  if payload.length < 12 then (-1, st, [])
  else
    let TOW := U4 payload 0 / 1000
    let WNc := U2 payload 4
    let SVIDb := payload.getD 6 0
    let CRCp := payload.getD 7 0
    let Src := payload.getD 9 0
    let RxCh := payload.getD 11 0
    let prnMask := PPPB2bDecoder.svid2prn SVIDb
    if prnMask = ['C', '5', '9'] then
      let head := B2bEvent.headLog TOW WNc (PPPB2bDecoder.svid2prn SVIDb) CRCp Src RxCh
      if payload.length ≥ 12 + 31 * 4 then
        let navHex := navHexOf payload
        if startsWithCI navHex ['E', 'C', '0', 'F', 'C'] then
          (1, st, [head, B2bEvent.skipLog])
        else
          (1, decodePage st navHex WNc TOW, [head, B2bEvent.ldpc navHex WNc TOW])
      else (1, st, [head])
    else (1, st, [])

/-- Whether the events include the call of the LDPC decoder. -/
def ldpcCalled : List B2bEvent → Bool
  | [] => false
  | B2bEvent.ldpc _ _ _ :: _ => true
  | _ :: es => ldpcCalled es

/-- A sample payload of 136 bytes: the SVID byte at offset 6 and the four
bytes of the first NAVBits word at offsets 12..15 are given, all else is 0. -/
def testPayload (svid w0 w1 w2 w3 : Nat) : List Nat :=
  [0, 0, 0, 0, 0, 0, svid, 0, 0, 0, 0, 0, w0, w1, w2, w3] ++ List.replicate 120 0

/-! Bit fields of the decoded message (`getbitu`, `getbits`) -/

/-- The `PPPB2bDecoder::getbitu(buff, pos, len)` of the source: `len` times
`bits = (bits << 1) + ((buff[(pos + i) / 8] >> (7 - (pos + i) % 8)) & 1u)` on an
`unsigned int` of 32 bits. -/
def PPPB2bDecoder.getbitu (buff : List Nat) (pos len : Nat) : Nat :=
  (List.range len).foldl
    (fun bits i =>
      ((bits <<< 1) + ((buff.getD ((pos + i) / 8) 0 >>> (7 - (pos + i) % 8)) &&& 1))
        % 4294967296)
    0

/-- The conversion `(int)` of an `unsigned int` of 32 bits (two's complement). -/
def toInt32 (u : Nat) : Int :=
  if u < 2147483648 then (u : Int) else (u : Int) - 4294967296

/-- The `PPPB2bDecoder::getbits(buff, pos, len)` of the source. -/
def PPPB2bDecoder.getbits (buff : List Nat) (pos len : Nat) : Int :=
  let bits := PPPB2bDecoder.getbitu buff pos len
  if len ≤ 0 ∨ 32 ≤ len ∨ bits &&& (1 <<< (len - 1)) = 0 then toInt32 bits
  else toInt32 (bits ||| ((4294967295 <<< len) % 4294967296))

/-- Bit `k` of a buffer, bit 0 being the most significant bit of byte 0. -/
def bitAt (buff : List Nat) (k : Nat) : Nat :=
  buff.getD (k / 8) 0 / 2 ^ (7 - k % 8) % 2

/-- The unsigned integer whose binary digits, most significant first, are the
bits `pos .. pos + len - 1` of the buffer. -/
def msbFirstValue (buff : List Nat) (pos len : Nat) : Nat :=
  ∑ i in Finset.range len, bitAt buff (pos + i) * 2 ^ (len - 1 - i)

/-! The parsed PPP-B2b message (`pppdata`, `b2b_parse_ppp`) -/

/-- `IF_MAXSAT` of `PPPB2bDecoder.h`. -/
def IF_MAXSAT : Nat := 255
/-- `IF_MAXSSR` of `PPPB2bDecoder.h`. -/
def IF_MAXSSR : Nat := 120
/-- `IF_MAXMASK` of `PPPB2bDecoder.h`. -/
def IF_MAXMASK : Nat := 16

/-- One orbit sub-record, `Trackcp`.  The source holds `double`s that are
products of an integer field and a constant; here the integer is kept:
`radial` in units of 0.0016 m, `Tangentialdir` and `Normaldir` in units of
0.0064 m, and `ura` in units of 0.25 (the source computes
`pow(3, URAclass) * (1 + 0.25 * URAvalue) - 1`, which is exact in binary
floating point).  `IODN` and `IODCorr` are `unsigned char`. -/
structure Trackcp where
  satslot : Nat
  IODN : Nat
  IODCorr : Nat
  radial : Int
  Tangentialdir : Int
  Normaldir : Int
  URAclass : Nat
  URAvalue : Nat
  ura : Nat
  deriving DecidableEq

/-- The member `type1` of the union: `IODP` and the 255 mask bits `prn_make`.
The bits `sub1NULL`, parsed and read nowhere, are left out. -/
structure ppp_sub1 where
  IODP : Nat
  prn_make : List Nat
  deriving DecidableEq

/-- The member `type2` of the union: the six orbit sub-records. -/
structure ppp_sub2 where
  trasub : List Trackcp
  deriving DecidableEq

/-- The member `type4` of the union: `IODP`, `subtupe1`, and the 23 pairs of
`IDO_corr` and `c` (the latter in units of 0.0016 m). -/
structure ppp_sub4 where
  IODP : Nat
  subtupe1 : Nat
  IDO_corr : List Nat
  c : List Int
  deriving DecidableEq

/-- The `pppdata` of the source.  Of the union `type` the members read by
`b2b_fillmem` are kept, side by side; the members of subtypes 3, 5, 6 and 7
are written by the parser and read nowhere.  `BDSsod` and `BDSsow` are
`double`s holding whole seconds. -/
structure pppdata where
  mestype : Nat
  CRC : Nat
  nudata : Nat
  SSR : Nat
  prn : Nat
  BDSweek : Int
  BDSsod : Int
  BDSsow : Int
  type1 : ppp_sub1
  type2 : ppp_sub2
  type4 : ppp_sub4
  deriving DecidableEq

/-- A `Trackcp` of zero bytes. -/
def Trackcp.zero : Trackcp :=
  { satslot := 0, IODN := 0, IODCorr := 0, radial := 0, Tangentialdir := 0, Normaldir := 0,
    URAclass := 0, URAvalue := 0, ura := 0 }

/-- The initial value of `pppdata p_sbas`, all bytes zero. -/
def pppdata.zero : pppdata :=
  { mestype := 0, CRC := 0, nudata := 0, SSR := 0, prn := 0, BDSweek := 0, BDSsod := 0,
    BDSsow := 0,
    type1 := { IODP := 0, prn_make := List.replicate 255 0 },
    type2 := { trasub := List.replicate 6 Trackcp.zero },
    type4 := { IODP := 0, subtupe1 := 0, IDO_corr := List.replicate 23 0,
               c := List.replicate 23 0 } }

/-- One pass of the `case 2` loop of `b2b_parse_ppp`, for sub-record `a`, whose
fields start at bit `r = 29 + 69 * a`.  The assignment to the `unsigned char`
`IODN` keeps the low 8 bits of the field of 10 bits. -/
def parseTrackcp (datapackage : List Nat) (a : Nat) : Trackcp :=
  let r := 29 + 69 * a
  let URAclass := PPPB2bDecoder.getbitu datapackage (r + 63) 3
  let URAvalue := PPPB2bDecoder.getbitu datapackage (r + 66) 3
  { satslot := PPPB2bDecoder.getbitu datapackage r 9
    IODN := PPPB2bDecoder.getbitu datapackage (r + 9) 10 % 256
    IODCorr := PPPB2bDecoder.getbitu datapackage (r + 19) 3 % 256
    radial := PPPB2bDecoder.getbits datapackage (r + 22) 15
    Tangentialdir := PPPB2bDecoder.getbits datapackage (r + 37) 13
    Normaldir := PPPB2bDecoder.getbits datapackage (r + 50) 13
    URAclass := URAclass
    URAvalue := URAvalue
    ura := 3 ^ URAclass * (4 + URAvalue) - 4 }

/-- The `PPPB2bDecoder::b2b_parse_ppp(datapackage, PPPB2B)` of the source: the
return value and the record written.  The buffer is the 1024-byte `mh.data`,
zero beyond the decoded bytes, which a read past the end of the list gives. -/
def PPPB2bDecoder.b2b_parse_ppp (datapackage : List Nat) (PPPB2B : pppdata) : Bool × pppdata :=
  let type := PPPB2bDecoder.getbitu datapackage 0 6
  let p : pppdata :=
    { PPPB2B with
      mestype := type
      BDSsod := PPPB2bDecoder.getbitu datapackage 6 17
      nudata := PPPB2bDecoder.getbitu datapackage 23 4
      SSR := PPPB2bDecoder.getbitu datapackage 27 2 % 256
      CRC := PPPB2bDecoder.getbitu datapackage 462 24 }
  if 8 ≤ p.mestype ∧ p.mestype ≤ 63 then (true, p)
  else if type = 1 then
    (true, { p with type1 :=
      { IODP := PPPB2bDecoder.getbitu datapackage 29 4 % 256
        prn_make := (List.range IF_MAXSAT).map
          (fun a => PPPB2bDecoder.getbitu datapackage (33 + a) 1) } })
  else if type = 2 then
    (true, { p with type2 := { trasub := (List.range 6).map (parseTrackcp datapackage) } })
  else if type = 3 then (true, p)
  else if type = 4 then
    (true, { p with type4 :=
      { IODP := PPPB2bDecoder.getbitu datapackage 29 4 % 256
        subtupe1 := PPPB2bDecoder.getbitu datapackage 33 5 % 256
        IDO_corr := (List.range 23).map
          (fun a => PPPB2bDecoder.getbitu datapackage (38 + 18 * a) 3 % 256)
        c := (List.range 23).map
          (fun a => PPPB2bDecoder.getbits datapackage (38 + 18 * a + 3) 15) } })
  else if type = 5 then (true, p)
  else if type = 6 then (true, p)
  else if type = 7 then (true, p)
  else (false, p)

/-! The correction store (`b2b_fillmem`) and the emission buffers -/

/-- One cell of `ssr_orbits`.  `RAC` holds, per slot, the three integers of
`Trackcp` (see there for the units); `ura` is in units of 0.25. -/
structure ppp_ssr_orbit where
  SSR : Int
  bweek : Int
  bsow : Int
  RAC : List (Int × Int × Int)
  ura : List Nat
  iode : List Int
  iodcorr : List Int
  deriving DecidableEq

/-- One cell of `ssr_clocks`.  `C0` is in units of 0.0016 m. -/
structure ppp_ssr_clock where
  SSR : Int
  iodp : Int
  bweek : Int
  bsow : Int
  C0 : List Int
  iode : List Int
  iodcorr : List Int
  deriving DecidableEq

/-- One cell of `ssr_masks`. -/
structure ppp_ssr_mask where
  SSR : Int
  iodp : Int
  cmake : List Nat
  deriving DecidableEq

/-- A cell of `ssr_orbits` as `memset` leaves it. -/
def ppp_ssr_orbit.zero : ppp_ssr_orbit :=
  { SSR := 0, bweek := 0, bsow := 0, RAC := List.replicate 255 (0, 0, 0),
    ura := List.replicate 255 0, iode := List.replicate 255 0,
    iodcorr := List.replicate 255 0 }

/-- A cell of `ssr_clocks` as `memset` leaves it. -/
def ppp_ssr_clock.zero : ppp_ssr_clock :=
  { SSR := 0, iodp := 0, bweek := 0, bsow := 0, C0 := List.replicate 255 0,
    iode := List.replicate 255 0, iodcorr := List.replicate 255 0 }

/-- Modelled from the spec: the class `bncTime` of the BNC core, which is not
part of the sources at hand.  A time is undefined (`none`) or a whole number of
seconds of GPS time; `set(week, sec)` gives `week * 604800 + sec`. -/
abbrev bncTime := Option Int

/-- Modelled from the spec: `bncTime::set(week, sec)`. -/
def bncTime.set (week sec : Nat) : bncTime := some ((week : Int) * 604800 + sec)

/-- Modelled from the spec: the difference `a - b` of two times in seconds; it
is only taken between defined times, and is 0 here otherwise. -/
def bncTime.diff (a b : bncTime) : Int :=
  match a, b with
  | some x, some y => x - y
  | _, _ => 0

/-- Modelled from the spec: the `t_orbCorr` of the BNC core, as far as
`emitCorrections` fills it: satellite (system letter and number), `_iod`,
`_time`, and `_xr` (the three integers of `RAC`); `_updateInt` and `_dotXr` are
always 0 and `_staID` is the station name. -/
structure t_orbCorr where
  sys : Char
  prn : Int
  iod : Int
  time : bncTime
  xr : Int × Int × Int
  deriving DecidableEq

/-- Modelled from the spec: the `t_clkCorr` of the BNC core, as far as
`emitCorrections` fills it: satellite, `_iod`, `_time`, and `C0` in units of
0.0016 m, from which `_dClk = C0 / c` is computed; the rates are always 0. -/
structure t_clkCorr where
  sys : Char
  prn : Int
  iod : Int
  time : bncTime
  C0 : Int
  deriving DecidableEq

/-- A signal emitted by the decoder. -/
inductive B2bSignal where
  | newOrbCorrections (l : List t_orbCorr)
  | newClkCorrections (l : List t_clkCorr)
  deriving DecidableEq

/-- The members of `PPPB2bDecoder` that the ingestion reads or writes.  The
tables are the first `ssr_mask_count`, `ssr_orbit_count` and `ssr_clock_count`
cells of the arrays, so the counts are the lengths of the lists; the cells
beyond a count hold zero bytes. -/
structure PPPB2bDecoder where
  ssr_masks : List ppp_ssr_mask
  ssr_orbits : List ppp_ssr_orbit
  ssr_clocks : List ppp_ssr_clock
  orbBuffer : List t_orbCorr
  clkBuffer : List t_clkCorr
  lastTime : bncTime
  lastEmitTime : bncTime
  deriving DecidableEq

/-- The decoder after its constructor. -/
def PPPB2bDecoder.init : PPPB2bDecoder :=
  { ssr_masks := [], ssr_orbits := [], ssr_clocks := [], orbBuffer := [], clkBuffer := [],
    lastTime := none, lastEmitTime := none }

/-- The `satslot_prn` of the source. -/
def satslot_prn (prn : Int) : Int :=
  if 1 ≤ prn ∧ prn ≤ 63 then prn
  else if 64 ≤ prn ∧ prn ≤ 100 then prn - 63
  else if 101 ≤ prn ∧ prn ≤ 137 then prn - 100
  else if 138 ≤ prn ∧ prn ≤ 174 then prn - 137
  else -1

/-- The `syssig_prn` of the source. -/
def syssig_prn (prn : Int) : Int :=
  if 1 ≤ prn ∧ prn ≤ 63 then 0
  else if 64 ≤ prn ∧ prn < 100 then 1
  else if 101 ≤ prn ∧ prn < 137 then 2
  else if 138 ≤ prn ∧ prn < 174 then 3
  else -1

/-- The `PPPB2bDecoder::b2b_updateiode(SSR, prn, iodcrc)` of the source, on the
orbit table: the cells `ssr_orbit_count - 1` down to `ssr_orbit_count - 7` (or
0) are searched in that order. -/
def PPPB2bDecoder.b2b_updateiode (ssr_orbits : List ppp_ssr_orbit) (SSR : Int) (prn : Nat)
    (iodcrc : Int) : Int :=
  match ((ssr_orbits.drop (ssr_orbits.length - 7)).reverse).find?
      (fun o => decide (o.SSR = SSR) && decide (o.iodcorr.getD prn 0 = iodcrc)) with
  | some o => o.iode.getD prn 0
  | none => -1

/-- The loop of `subtype_prn` from index `i` on, `b` ones having been counted. -/
def subtype_prn_loop (ipos : Nat) : List Nat → Nat → Nat → Int
  | [], _, _ => -1
  | m :: rest, i, b =>
    let b1 := if m = 1 then b + 1 else b
    if b1 = ipos then (i : Int) else subtype_prn_loop ipos rest (i + 1) b1

/-- The `PPPB2bDecoder::subtype_prn(make, subtype, ix)` of the source, `make`
being the 255 bytes of a mask. -/
def PPPB2bDecoder.subtype_prn (make : List Nat) (subtype ix : Nat) : Int :=
  subtype_prn_loop (subtype * 23 + ix) make 0 0

/-- The `processBufferedCorrections` of the source: decoder afterwards and the
signals emitted. -/
def PPPB2bDecoder.processBufferedCorrections (st : PPPB2bDecoder) :
    PPPB2bDecoder × List B2bSignal :=
  let lastEmit : bncTime := if st.lastEmitTime = none then st.lastTime else st.lastEmitTime
  if |bncTime.diff st.lastTime lastEmit| ≥ 5 then
    let orbSig := if st.orbBuffer = [] then []
      else [B2bSignal.newOrbCorrections
        (st.orbBuffer.map (fun o => { o with time := st.lastTime }))]
    let clkSig := if st.clkBuffer = [] then []
      else [B2bSignal.newClkCorrections
        (st.clkBuffer.map (fun c => { c with time := st.lastTime }))]
    ({ st with orbBuffer := [], clkBuffer := [], lastEmitTime := st.lastTime },
      orbSig ++ clkSig)
  else ({ st with lastEmitTime := lastEmit }, [])

/-- The system letter chosen in `emitCorrections` for an index of `SYS`. -/
def sysChOf (sysIdx : Int) : Char :=
  if sysIdx = 0 then 'C' else if sysIdx = 1 then 'G' else if sysIdx = 2 then 'E'
  else if sysIdx = 3 then 'R' else ' '

/-- The orbit corrections that the loop over `isat` of `emitCorrections`
appends for one orbit set. -/
def orbCorrsOf (lastTime : bncTime) (o : ppp_ssr_orbit) : List t_orbCorr :=
  (List.range IF_MAXSAT).filterMap (fun isat =>
    if o.iode.getD isat 0 = -1 then none
    else if syssig_prn ((isat : Int) + 1) < 0 then none
    else some
      { sys := sysChOf (syssig_prn ((isat : Int) + 1))
        prn := satslot_prn ((isat : Int) + 1)
        iod := o.iode.getD isat 0
        time := lastTime
        xr := o.RAC.getD isat (0, 0, 0) })

/-- The clock corrections that the loop over `isat` of `emitCorrections`
appends for one clock set. -/
def clkCorrsOf (lastTime : bncTime) (c : ppp_ssr_clock) : List t_clkCorr :=
  (List.range IF_MAXSAT).filterMap (fun isat =>
    if c.iode.getD isat 0 = -1 then none
    else if syssig_prn ((isat : Int) + 1) < 0 then none
    else some
      { sys := sysChOf (syssig_prn ((isat : Int) + 1))
        prn := satslot_prn ((isat : Int) + 1)
        iod := c.iode.getD isat 0
        time := lastTime
        C0 := c.C0.getD isat 0 })

/-- The `PPPB2bDecoder::emitCorrections(p_sbas)` of the source. -/
def PPPB2bDecoder.emitCorrections (st : PPPB2bDecoder) (p_sbas : pppdata) :
    PPPB2bDecoder × List B2bSignal :=
  let current_orbits := st.ssr_orbits.find? (fun o => decide (o.SSR = (p_sbas.SSR : Int)))
  let current_clocks := st.ssr_clocks.find? (fun c => decide (c.SSR = (p_sbas.SSR : Int)))
  let st1 : PPPB2bDecoder :=
    match current_orbits with
    | some o =>
      if p_sbas.mestype = 2 then { st with orbBuffer := st.orbBuffer ++ orbCorrsOf st.lastTime o }
      else st
    | none => st
  let st2 : PPPB2bDecoder :=
    match current_clocks with
    | some c =>
      if p_sbas.mestype = 4 then
        { st1 with clkBuffer := st1.clkBuffer ++ clkCorrsOf st1.lastTime c }
      else st1
    | none => st1
  PPPB2bDecoder.processBufferedCorrections st2

/-- One pass of the loop over the six sub-records in `case 2` of `b2b_fillmem`:
a sub-record with `ura == 0` is skipped, the others are written at index
`satslot - 1`.  The arrays have `IF_MAXSAT` entries; a write outside them has no
defined effect and gives `none`. -/
def fillOrbitRecord (o : ppp_ssr_orbit) (t : Trackcp) : Option ppp_ssr_orbit :=
  if t.ura = 0 then some o
  else if 1 ≤ t.satslot ∧ t.satslot ≤ IF_MAXSAT then
    some { o with
      RAC := o.RAC.set (t.satslot - 1) (t.radial, t.Tangentialdir, t.Normaldir)
      iodcorr := o.iodcorr.set (t.satslot - 1) (t.IODCorr : Int)
      iode := o.iode.set (t.satslot - 1) (t.IODN : Int)
      ura := o.ura.set (t.satslot - 1) t.ura }
  else none

/-- The loop over the sub-records in `case 2` of `b2b_fillmem`. -/
def fillOrbitRecords : ppp_ssr_orbit → List Trackcp → Option ppp_ssr_orbit
  | o, [] => some o
  | o, t :: ts =>
    match fillOrbitRecord o t with
    | none => none
    | some o1 => fillOrbitRecords o1 ts

/-- The test `fabs(fabs(C0) - 26.2128) < 0.01` of `b2b_fillmem` on a clock value
of `c` units of 0.0016 m, in whole numbers (both sides times 10000).  The
`double` product differs from the exact one by far less than the distance of
any field value from the two thresholds. -/
def clockUnavailable (c : Int) : Bool :=
  decide (|16 * |c| - 262128| < 100)

/-- One pass of the loop over the 23 clock sub-records in `case 4` of
`b2b_fillmem`, for sub-record `i`. -/
def fillClockRecord (ssr_orbits : List ppp_ssr_orbit) (cmake : List Nat) (t4 : ppp_sub4)
    (clk : ppp_ssr_clock) (i : Nat) : ppp_ssr_clock :=
  let prn := PPPB2bDecoder.subtype_prn cmake t4.subtupe1 (i + 1)
  if prn = -1 then clk
  else
    let clk1 := { clk with C0 := clk.C0.set prn.toNat (t4.c.getD i 0) }
    if clockUnavailable (clk1.C0.getD prn.toNat 0) then clk1
    else
      let clk2 := { clk1 with iodcorr := clk1.iodcorr.set prn.toNat (t4.IDO_corr.getD i 0 : Int) }
      let iode := PPPB2bDecoder.b2b_updateiode ssr_orbits clk2.SSR prn.toNat
        (clk2.iodcorr.getD prn.toNat 0)
      { clk2 with iode := clk2.iode.set prn.toNat iode }

/-- The `PPPB2bDecoder::b2b_fillmem(p_sbas)` of the source: the decoder
afterwards and the signals emitted, or `none` when a write falls outside an
array.  The messages sent to the log (`slotMessage`, `m_outorbit`,
`m_outclock`) are left out. -/
def PPPB2bDecoder.b2b_fillmem (st : PPPB2bDecoder) (p_sbas : pppdata) :
    Option (PPPB2bDecoder × List B2bSignal) :=
  if p_sbas.mestype = 1 then
    let bgot := st.ssr_masks.any
      (fun m => decide (m.SSR = (p_sbas.SSR : Int)) && decide (m.iodp = (p_sbas.type1.IODP : Int)))
    if bgot = false then
      let kept := if st.ssr_masks.length ≥ IF_MAXMASK then st.ssr_masks.tail else st.ssr_masks
      some ({ st with ssr_masks := kept ++
        [{ SSR := p_sbas.SSR, iodp := p_sbas.type1.IODP, cmake := p_sbas.type1.prn_make }] }, [])
    else some (st, [])
  else if p_sbas.mestype = 2 then
    let same := fun (o : ppp_ssr_orbit) =>
      decide (o.SSR = (p_sbas.SSR : Int)) && decide (o.bweek = p_sbas.BDSweek) &&
        decide (o.bsow = p_sbas.BDSsow)
    let ipos := st.ssr_orbits.findIdx same
    if ipos < st.ssr_orbits.length then
      match fillOrbitRecords (st.ssr_orbits.getD ipos ppp_ssr_orbit.zero) p_sbas.type2.trasub with
      | none => none
      | some o =>
        some (PPPB2bDecoder.emitCorrections
          { st with ssr_orbits := st.ssr_orbits.set ipos o } p_sbas)
    else
      let full := decide (st.ssr_orbits.length ≥ IF_MAXSSR)
      let kept := if full then st.ssr_orbits.tail else st.ssr_orbits
      let cell := if full then st.ssr_orbits.getLastD ppp_ssr_orbit.zero else ppp_ssr_orbit.zero
      let fresh : ppp_ssr_orbit :=
        { cell with
          bweek := p_sbas.BDSweek
          bsow := p_sbas.BDSsow
          SSR := p_sbas.SSR
          iodcorr := List.replicate IF_MAXSAT (-1)
          iode := List.replicate IF_MAXSAT (-1) }
      match fillOrbitRecords fresh p_sbas.type2.trasub with
      | none => none
      | some o =>
        some (PPPB2bDecoder.emitCorrections { st with ssr_orbits := kept ++ [o] } p_sbas)
  else if p_sbas.mestype = 4 then
    let same := fun (c : ppp_ssr_clock) =>
      decide (c.SSR = (p_sbas.SSR : Int)) && decide (c.bweek = p_sbas.BDSweek) &&
        decide (c.bsow = p_sbas.BDSsow)
    let ipos := st.ssr_clocks.findIdx same
    let found := decide (ipos < st.ssr_clocks.length)
    let full := decide (st.ssr_clocks.length ≥ IF_MAXSSR)
    let kept := if found then st.ssr_clocks else if full then st.ssr_clocks.tail else st.ssr_clocks
    let cell := if full then st.ssr_clocks.getLastD ppp_ssr_clock.zero else ppp_ssr_clock.zero
    let clk : ppp_ssr_clock :=
      if found then st.ssr_clocks.getD ipos ppp_ssr_clock.zero
      else
        { cell with
          SSR := p_sbas.SSR
          bweek := p_sbas.BDSweek
          bsow := p_sbas.BDSsow
          iodp := p_sbas.type4.IODP
          iode := List.replicate IF_MAXSAT (-1)
          iodcorr := List.replicate IF_MAXSAT (-1) }
    let clk1 : ppp_ssr_clock :=
      match st.ssr_masks.find? (fun m => decide (m.iodp = clk.iodp)) with
      | none => clk
      | some m =>
        (List.range 23).foldl (fillClockRecord st.ssr_orbits m.cmake p_sbas.type4) clk
    let clocks := if found then kept.set ipos clk1 else kept ++ [clk1]
    some (PPPB2bDecoder.emitCorrections { st with ssr_clocks := clocks } p_sbas)
  else some (st, [])

/-- The `PPPB2bDecoder::wksow2mjd(week, sow, mjd, sod)` of the source on whole
seconds: the pair `(mjd, sod)`.  The conversion `(int)` and `fmod` round
towards zero. -/
def PPPB2bDecoder.wksow2mjd (week sow : Int) : Int × Int :=
  (Int.tdiv (sow + week * 604800) 86400 + 44244, Int.tmod (sow + week * 604800) 86400)

/-- The `PPPB2bDecoder::mjd2wksow(mjd, sod, week, sow)` of the source on whole
seconds: the pair `(week, sow)`. -/
def PPPB2bDecoder.mjd2wksow (mjd sod : Int) : Int × Int :=
  let total_sec := (mjd - 44244) * 86400 + sod
  let week := Int.tdiv total_sec 604800
  (week, total_sec - week * 604800)

/-- The `struct Message_header` of the source as `b2b_parsecorr` reads it. -/
structure Message_header where
  BDSweek : Nat
  BDSsecond : Nat
  current_PRN : Nat
  data : List Nat
  deriving DecidableEq

/-- The record `p_sbas` that `b2b_parsecorr` hands to `b2b_fillmem` when
`b2b_parse_ppp` succeeds; `none` when it fails. -/
def parsecorrData (mh : Message_header) : Option pppdata :=
  let p0 : pppdata :=
    { pppdata.zero with BDSsow := mh.BDSsecond, BDSweek := mh.BDSweek }
  let mjd := (PPPB2bDecoder.wksow2mjd p0.BDSweek p0.BDSsow).1
  let p1 : pppdata :=
    { p0 with BDSsod := (PPPB2bDecoder.wksow2mjd p0.BDSweek p0.BDSsow).2, prn := mh.current_PRN }
  let r := PPPB2bDecoder.b2b_parse_ppp mh.data p1
  if r.1 then
    let p := r.2
    let near := fun (i : Int) =>
      let ws := PPPB2bDecoder.mjd2wksow (mjd + i) p.BDSsod
      decide (|(ws.1 - p.BDSweek) * 86400 * 7 + ws.2 - p.BDSsow| < 43200)
    let i : Int := if near (-1) then -1 else if near 0 then 0 else 1
    let ws := PPPB2bDecoder.mjd2wksow (mjd + i) p.BDSsod
    some { p with BDSweek := ws.1, BDSsow := ws.2 }
  else none

/-- The `PPPB2bDecoder::b2b_parsecorr(mh)` of the source: return value, decoder
afterwards and signals emitted; `none` when a write falls outside an array. -/
def PPPB2bDecoder.b2b_parsecorr (st : PPPB2bDecoder) (mh : Message_header) :
    Option (Bool × PPPB2bDecoder × List B2bSignal) :=
  match parsecorrData mh with
  | some p =>
    match PPPB2bDecoder.b2b_fillmem st p with
    | some r => some (true, r.1, r.2)
    | none => none
  | none => some (false, st, [])

/-- A sample subtype-1 message: SSR 2, IODP 3, all 255 mask bits set. -/
def sampleMaskMessage : pppdata :=
  { pppdata.zero with
    mestype := 1
    SSR := 2
    type1 := { IODP := 3, prn_make := List.replicate 255 1 } }

/-- A sample decoder whose mask table holds one entry for SSR 2, IODP 3 with no
mask bit set. -/
def sampleMaskStore : PPPB2bDecoder :=
  { PPPB2bDecoder.init with
    ssr_masks := [{ SSR := 2, iodp := 3, cmake := List.replicate 255 0 }] }

/-! The LDPC stage (`SBFcoDecoder`) -/

/-- The `hexNibble` of `SBFcoDecoder.cpp`. -/
def hexNibble (c : Char) : Nat :=
  if '0' ≤ c ∧ c ≤ '9' then c.toNat - '0'.toNat
  else if 'a' ≤ c ∧ c ≤ 'f' then c.toNat - 'a'.toNat + 10
  else if 'A' ≤ c ∧ c ≤ 'F' then c.toNat - 'A'.toNat + 10
  else 0

/-- The test for a hexadecimal digit that `read_hex_bits` and
`hexToBytesSanitized` apply to each character. -/
def isHexChar (c : Char) : Bool :=
  decide (('0' ≤ c ∧ c ≤ '9') ∨ ('a' ≤ c ∧ c ≤ 'f') ∨ ('A' ≤ c ∧ c ≤ 'F'))

/-- The `SBFcoDecoder::read_hex_bits` of the source: the characters that are not
hexadecimal digits (white space included) are dropped, and bit `i` of the result
is `(hexNibble(s[i / 4]) >> (3 - i % 4)) & 1`. -/
def SBFcoDecoder.read_hex_bits (hex : QString) : List Nat :=
  let s := hex.filter isHexChar
  (List.range (s.length * 4)).map
    (fun i => (hexNibble (s.getD (i / 4) '0') >>> (3 - i % 4)) &&& 1)

/-- The loop of `hex_str_from_bits` from bit index `i` on, with the running
value `hex` and the text `out`; returns the value left and the text.
`QString::number(hex, 16).toUpper()` is the text of `hex` in base 16. -/
def hex_str_loop : List Nat → Nat → Nat → QString → Nat × QString
  | [], _, hex, out => (hex, out)
  | b :: bs, i, hex, out =>
    let hex1 := (hex <<< 1) + (b &&& 1)
    if i % 4 = 3 then hex_str_loop bs (i + 1) 0 (out ++ toUpper (qarg hex1 0 16))
    else hex_str_loop bs (i + 1) hex1 out

/-- The `SBFcoDecoder::hex_str_from_bits` of the source. -/
def SBFcoDecoder.hex_str_from_bits (bits : List Nat) : QString :=
  let r := hex_str_loop bits 0 0 []
  let rem := bits.length % 4
  if rem ≠ 0 then r.2 ++ toUpper (qarg (r.1 <<< (4 - rem)) 0 16) else r.2

/-- The loop of `hexToBytesSanitized` over the pairs of digits. -/
def hexPairsToBytes : QString → List Nat
  | hi :: lo :: rest => ((hexNibble hi <<< 4) ||| hexNibble lo) % 256 :: hexPairsToBytes rest
  | _ => []

/-- The `SBFcoDecoder::hexToBytesSanitized` of the source. -/
def SBFcoDecoder.hexToBytesSanitized (hex : QString) : List Nat :=
  let s := hex.filter isHexChar
  let s1 := if s.length % 2 = 1 then s ++ ['0'] else s
  hexPairsToBytes s1

/-- The table `H_idx_raw[81][4]` of `decode_LDPC_navbitsRaw`. -/
def H_idx_raw : List (List Nat) := [
  [19, 67, 109, 130], [27, 71, 85, 161], [31, 78, 96, 122], [2, 44, 83, 125],
  [26, 71, 104, 132], [30, 39, 93, 154], [4, 46, 85, 127], [21, 62, 111, 127],
  [13, 42, 101, 146], [18, 66, 108, 129], [27, 72, 100, 153], [29, 70, 84, 160],
  [23, 61, 113, 126], [8, 50, 89, 131], [34, 74, 111, 157], [12, 44, 100, 145],
  [22, 60, 112, 128], [0, 49, 115, 151], [6, 47, 106, 144], [33, 53, 82, 140],
  [3, 45, 84, 126], [38, 80, 109, 147], [9, 60, 96, 141], [1, 43, 82, 124],
  [20, 77, 88, 158], [37, 54, 122, 159], [3, 65, 104, 149], [5, 47, 86, 128],
  [0, 42, 81, 123], [32, 79, 97, 120], [35, 72, 112, 158], [15, 57, 93, 138],
  [22, 75, 107, 143], [24, 69, 102, 133], [1, 50, 116, 152], [24, 57, 119, 135],
  [17, 59, 95, 140], [7, 45, 107, 145], [34, 51, 83, 138], [14, 43, 99, 144],
  [21, 77, 106, 142], [16, 58, 94, 139], [20, 68, 110, 131], [2, 48, 114, 150],
  [10, 52, 91, 133], [25, 70, 103, 134], [32, 41, 95, 153], [14, 56, 91, 137],
  [33, 73, 113, 156], [28, 73, 101, 154], [4, 63, 102, 147], [6, 48, 87, 129],
  [8, 46, 105, 146], [30, 80, 98, 121], [41, 68, 119, 150], [35, 52, 81, 139],
  [16, 63, 114, 124], [13, 55, 90, 136], [31, 40, 94, 155], [10, 61, 97, 142],
  [36, 56, 121, 161], [29, 74, 99, 155], [5, 64, 103, 148], [18, 75, 89, 156],
  [36, 78, 110, 148], [19, 76, 87, 157], [15, 65, 116, 123], [11, 53, 92, 134],
  [25, 58, 117, 136], [39, 66, 117, 151], [11, 62, 98, 143], [9, 51, 90, 132],
  [38, 55, 120, 160], [7, 49, 88, 130], [17, 64, 115, 125], [28, 69, 86, 159],
  [23, 76, 105, 141], [12, 54, 92, 135], [40, 67, 118, 152], [37, 79, 108, 149],
  [26, 59, 118, 137]]

/-- The table `H_ele_raw[81][4]` of `decode_LDPC_navbitsRaw`. -/
def H_ele_raw : List (List Nat) := [
  [46, 45, 44, 15], [15, 24, 50, 37], [24, 50, 37, 15], [15, 32, 18, 61],
  [58, 56, 60, 62], [37, 53, 61, 29], [46, 58, 18, 6], [36, 19, 3, 57],
  [54, 7, 38, 23], [51, 59, 63, 47], [9, 3, 43, 29], [56, 8, 46, 13],
  [26, 22, 14, 2], [63, 26, 41, 12], [17, 32, 58, 37], [38, 23, 55, 22],
  [35, 1, 31, 44], [44, 51, 35, 13], [30, 1, 44, 7], [27, 5, 2, 62],
  [16, 63, 20, 9], [27, 56, 8, 43], [1, 44, 30, 24], [5, 26, 27, 37],
  [42, 47, 37, 32], [38, 12, 25, 51], [43, 34, 48, 57], [39, 9, 30, 48],
  [63, 13, 54, 10], [2, 46, 56, 35], [47, 20, 33, 26], [62, 54, 56, 60],
  [1, 21, 25, 7], [43, 58, 19, 49], [28, 4, 52, 44], [46, 44, 14, 15],
  [41, 48, 2, 27], [49, 21, 7, 35], [40, 21, 44, 17], [24, 23, 45, 11],
  [46, 25, 22, 48], [13, 29, 53, 61], [52, 17, 24, 61], [29, 41, 10, 16],
  [60, 24, 4, 50], [32, 49, 58, 19], [43, 34, 48, 57], [29, 7, 10, 16],
  [25, 11, 7, 1], [32, 49, 58, 19], [42, 14, 24, 33], [39, 56, 30, 48],
  [13, 27, 56, 8], [53, 40, 61, 18], [8, 43, 27, 56], [18, 40, 32, 61],
  [60, 48, 2, 27], [50, 54, 60, 62], [58, 19, 32, 49], [9, 3, 63, 43],
  [53, 35, 16, 13], [23, 25, 30, 16], [18, 6, 61, 21], [15, 1, 42, 45],
  [20, 16, 63, 9], [27, 37, 5, 26], [29, 7, 10, 16], [11, 60, 6, 49],
  [43, 47, 18, 20], [42, 14, 24, 33], [43, 22, 41, 20], [22, 15, 12, 33],
  [9, 41, 57, 58], [5, 31, 51, 30], [9, 3, 63, 43], [37, 53, 61, 29],
  [6, 45, 56, 19], [33, 45, 36, 34], [19, 24, 42, 14], [1, 45, 15, 6],
  [8, 43, 27, 56]]

/-- The table `GF_VEC[63]` of `decode_LDPC_BCNV3_bits`. -/
def GF_VEC : List Nat := [
  1, 2, 4, 8, 16, 32, 3, 6, 12, 24, 48, 35, 5, 10, 20, 40,
  19, 38, 15, 30, 60, 59, 53, 41, 17, 34, 7, 14, 28, 56, 51, 37,
  9, 18, 36, 11, 22, 44, 27, 54, 47, 29, 58, 55, 45, 25, 50, 39,
  13, 26, 52, 43, 21, 42, 23, 46, 31, 62, 63, 61, 57, 49, 33]

/-- The table `GF_POW[64]` of `decode_LDPC_BCNV3_bits`. -/
def GF_POW : List Nat := [
  0, 0, 1, 6, 2, 12, 7, 26, 3, 32, 13, 35, 8, 48, 27, 18,
  4, 24, 33, 16, 14, 52, 36, 54, 9, 45, 49, 38, 28, 41, 19, 56,
  5, 62, 25, 11, 34, 31, 17, 47, 15, 23, 53, 51, 37, 44, 55, 40,
  10, 61, 46, 30, 50, 22, 39, 43, 29, 60, 42, 21, 20, 59, 57, 58]

/-- The entry `GF_MUL[i][j]` of the table built on the first call of
`decode_LDPC_BCNV3_bits`: 0 in row 0 and in column 0,
`GF_VEC[(GF_POW[i] + GF_POW[j]) % 63]` elsewhere. -/
def GF_MUL (i j : Nat) : Nat :=
  if i = 0 ∨ j = 0 then 0 else GF_VEC.getD ((GF_POW.getD i 0 + GF_POW.getD j 0) % 63) 0

/-- The lambda `gf2bin` of `decode_LDPC_BCNV3_bits`: bit `i * 6 + j` of the
result is `(c[i] >> (5 - j)) & 1`. -/
def gf2bin (c : List Nat) : List Nat :=
  (List.range (c.length * 6)).map (fun k => (c.getD (k / 6) 0 >>> (5 - k % 6)) &&& 1)

/-- The symbols `code` that `decode_LDPC_BCNV3_bits` reads from the bits
`syms`: six bits per symbol, `v = uint8_t((v << 1) | (syms[i * 6 + j] & 1))`. -/
def symbolsOf (syms : List Nat) : List Nat :=
  (List.range (syms.length / 6)).map (fun i =>
    (List.range 6).foldl (fun v j => ((v <<< 1) ||| (syms.getD (i * 6 + j) 0 &&& 1)) % 256) 0)

/-- The edge lists `ie`, `je`, `he` of `decode_LDPC_BCNV3_bits`, one triple per
entry of `H_idx`, row by row. -/
def edgesOf (H_idx H_ele : List (List Nat)) : List (Nat × Nat × Nat) :=
  (List.range H_idx.length).flatMap (fun i =>
    (List.range (H_idx.getD i []).length).map (fun j =>
      (i, (H_idx.getD i []).getD j 0, (H_ele.getD i []).getD j 0)))

/-- The lambda `check_parity` of `decode_LDPC_BCNV3_bits`: the syndrome `s` is
accumulated edge by edge, `s[ie[i]] ^= GF_MUL[he[i]][code[je[i]]]`, and all its
`m` entries are compared with 0. -/
def check_parity (edges : List (Nat × Nat × Nat)) (m : Nat) (code : List Nat) : Bool :=
  let s := edges.foldl
    (fun s e => s.set e.1 (s.getD e.1 0 ^^^ GF_MUL e.2.2 (code.getD e.2.1 0)))
    (List.replicate m 0)
  s.all (fun x => decide (x = 0))

/-- The floating-point part of `decode_LDPC_BCNV3_bits`, kept as a parameter.
The messages `L`, `V2C`, `C2V` are a state of some type `μ`: `start` builds `L`
and `V2C` from the received symbols (lines 257-275), `update` is the check-node
pass followed by the variable-node pass (lines 309-322), and `argmin st i` is the
index `argmin` found for variable `i` (lines 323-329). -/
structure BeliefPropagation (μ : Type) where
  start : List Nat → μ
  update : μ → μ
  argmin : μ → Nat → Nat

/-- The number of positions in which the decoded bits differ from the received
ones, as counted on success in `decode_LDPC_BCNV3_bits`. -/
def countBitErrors (syms_dec syms : List Nat) : Nat :=
  (List.zip syms_dec syms).countP (fun ab => decide ((ab.1 ^^^ ab.2) &&& 1 ≠ 0))

/-- The loop `for (it = 0; it < MAX_ITER; ++it)` of `decode_LDPC_BCNV3_bits` with
`left` passes to go: the decoded bits, the status (`nerr` on success, -1 when
the passes are used up) and the number of passes of belief propagation that
were run. -/
def bcnv3Loop {μ : Type} (bp : BeliefPropagation μ) (edges : List (Nat × Nat × Nat))
    (m : Nat) (syms : List Nat) :
    Nat → μ → List Nat → Nat → List Nat × Int × Nat
  | 0, _, code, done => (gf2bin code, -1, done)
  | left + 1, st, code, done =>
    if check_parity edges m code then
      (gf2bin code, (countBitErrors (gf2bin code) syms : Int), done)
    else
      let st1 := bp.update st
      let code1 := (List.range code.length).map (fun i => bp.argmin st1 i % 256)
      bcnv3Loop bp edges m syms left st1 code1 (done + 1)

/-- The `SBFcoDecoder::decode_LDPC_BCNV3_bits(H_idx, H_ele, m, n, syms)` of the
source, with `MAX_ITER = 15`: decoded bits, status, and the number of passes of
belief propagation run (the count is not in the source; it records how often
lines 309-331 were executed).  The argument `n` is not read by the source and is
left out.  With fewer symbols than the indices of `H_idx` ask for, the source
reads `code` outside its bounds; the model reads 0 there. -/
def SBFcoDecoder.decode_LDPC_BCNV3_bits {μ : Type} (bp : BeliefPropagation μ)
    (H_idx H_ele : List (List Nat)) (m : Nat) (syms : List Nat) : List Nat × Int × Nat :=
  if syms.length / 6 ≤ 0 then ([], 0, 0)
  else
    let code := symbolsOf syms
    bcnv3Loop bp (edgesOf H_idx H_ele) m syms 15 (bp.start code) code 0

/-- The bits that `decode_LDPC_navbitsRaw` passes to the inner decoder: the
text without its last two characters, read as bits, without the first 12. -/
def ldpcInput (navHex : QString) : List Nat :=
  let navHex1 := if navHex.length ≥ 2 then navHex.take (navHex.length - 2) else navHex
  let bits := SBFcoDecoder.read_hex_bits navHex1
  if bits.length ≥ 12 then bits.drop 12 else []

/-- The `SBFcoDecoder::decode_LDPC_navbitsRaw(navBits)` of the source: the bytes
returned.  The status of the inner decoder is not used. -/
def SBFcoDecoder.decode_LDPC_navbitsRaw {μ : Type} (bp : BeliefPropagation μ)
    (navBits : QString) : List Nat :=
  let decBits := (SBFcoDecoder.decode_LDPC_BCNV3_bits bp H_idx_raw H_ele_raw 81
    (ldpcInput navBits)).1
  let hexTxt := SBFcoDecoder.hex_str_from_bits decBits
  let hexTxt1 := if hexTxt.length % 2 = 1 then hexTxt ++ ['0'] else hexTxt
  SBFcoDecoder.hexToBytesSanitized hexTxt1

/-- The code of `decode_b2b_payload` after the idle-page check (lines 272-342):
the page is decoded; when bytes come back the page time is stored in
`_lastTime` and the bytes, copied into the zeroed 1024-byte `mh.data`, are handed
to `b2b_parsecorr` with PRN 59 and the week and second of the block.  The result
is the decoder afterwards and the signals emitted; `none` when a write falls
outside an array. -/
def PPPB2bDecoder.decodePage {μ : Type} (bp : BeliefPropagation μ) (st : PPPB2bDecoder)
    (navHex : QString) (WNc TOW : Nat) : Option (PPPB2bDecoder × List B2bSignal) :=
  let decoded := SBFcoDecoder.decode_LDPC_navbitsRaw bp navHex
  if decoded.length > 0 then
    let mh : Message_header :=
      { current_PRN := 59, BDSweek := WNc, BDSsecond := TOW, data := decoded.take 1024 }
    match PPPB2bDecoder.b2b_parsecorr { st with lastTime := bncTime.set WNc TOW } mh with
    | some r => some r.2
    | none => none
  else some (st, [])

/-- A list of bits: every entry is 0 or 1. -/
def isBits (l : List Nat) : Prop := ∀ b ∈ l, b ≤ 1

/-- The text of the bits, four per character, as upper-case hexadecimal digits. -/
def nibbleChars : List Nat → QString
  | a :: b :: c :: d :: rest =>
    Char.toUpper (Nat.digitChar (8 * a + 4 * b + 2 * c + d)) :: nibbleChars rest
  | _ => []

/-- Row `i` of the syndrome of a word `C` under the tables `H_idx_raw` and
`H_ele_raw`: the sum in GF(64) of the four products of the row. -/
def rowSyndrome (C : List Nat) (i : Nat) : Nat :=
  ((List.range 4).map (fun j =>
    GF_MUL ((H_ele_raw.getD i []).getD j 0) (C.getD ((H_idx_raw.getD i []).getD j 0) 0))).foldl
    (fun a b => a ^^^ b) 0

/-- The bits of a word of symbols, six per symbol, most significant first. -/
def symbolBits (C : List Nat) : List Nat :=
  C.flatMap (fun c => [c / 32 % 2, c / 16 % 2, c / 8 % 2, c / 4 % 2, c / 2 % 2, c % 2])

/-- The NAVBits text of a page: the 12 bits `p`, then the bits of the word `C`,
four bits per character, then the two characters `t1`, `t2`. -/
def pageText (p C : List Nat) (t1 t2 : Char) : QString :=
  nibbleChars (p ++ symbolBits C) ++ [t1, t2]

/-- An instance of the floating-point part whose hard decision never leaves the
received word.  It serves where a concrete instance is needed; no statement
about the source depends on it. -/
def keepReceived : BeliefPropagation (List Nat) :=
  { start := fun code => code, update := fun st => st, argmin := fun st i => st.getD i 0 }

/-- A word with zero syndrome under `H_idx_raw`, `H_ele_raw`. -/
def sampleCodeword : List Nat := [
  31, 55, 17, 6, 41, 2, 30, 19, 16, 48, 45, 44, 14, 3, 25, 29, 26, 50,
  14, 41, 38, 38, 52, 10, 37, 53, 50, 22, 14, 2, 11, 0, 60, 46, 5, 27,
  29, 23, 16, 40, 23, 24, 1, 53, 25, 42, 20, 8, 13, 9, 46, 11, 15, 25,
  4, 28, 17, 45, 39, 39, 38, 60, 22, 24, 20, 8, 0, 30, 55, 36, 57, 36,
  49, 3, 60, 11, 47, 38, 39, 63, 10, 32, 45, 3, 59, 31, 6, 20, 14, 47,
  60, 31, 48, 13, 31, 1, 27, 52, 35, 23, 49, 20, 9, 17, 56, 16, 16, 0,
  0, 26, 27, 21, 21, 37, 40, 25, 26, 23, 25, 49, 38, 2, 46, 53, 21, 18,
  33, 8, 42, 38, 0, 43, 8, 39, 45, 39, 61, 40, 23, 61, 60, 22, 7, 32,
  2, 45, 51, 2, 53, 46, 48, 1, 57, 5, 23, 25, 15, 31, 59, 44, 45, 32]

/-- A page of 248 hexadecimal digits, "00004" followed by 243 digits 0: its
word is symbol 1 followed by 161 symbols 0, which is not a codeword, and the
first six bits of the word read as subtype 1. -/
def samplePage : QString :=
  pageText (List.replicate 12 0) (1 :: List.replicate 161 0) '0' '0'

/-! Sequences of ingested messages, and sample messages -/

/-- The decoder after a sequence of messages handed to `b2b_fillmem`, each with
the page time that `decode_b2b_payload` stored in `_lastTime` before it, and the
signals emitted on the way; `none` when a write falls outside an array.  Between
two calls of `b2b_fillmem` the decoder changes nothing else of its store. -/
def ingestAll : PPPB2bDecoder → List (bncTime × pppdata) →
    Option (PPPB2bDecoder × List B2bSignal)
  | st, [] => some (st, [])
  | st, tp :: rest =>
    match PPPB2bDecoder.b2b_fillmem { st with lastTime := tp.1 } tp.2 with
    | none => none
    | some r =>
      match ingestAll r.1 rest with
      | none => none
      | some r2 => some (r2.1, r.2 ++ r2.2)

/-- The orbit sets among the last seven cells of the orbit table whose SSR is
`SSR`, the most recently stored first. -/
def recentOrbits (ssr_orbits : List ppp_ssr_orbit) (SSR : Int) : List ppp_ssr_orbit :=
  ((ssr_orbits.drop (ssr_orbits.length - 7)).filter (fun o => decide (o.SSR = SSR))).reverse

/-- A sub-record of a subtype-2 message for slot `satslot` with the given IODN
and IODCorr, radial correction `radial`, and URA class 1 (so `ura` is not 0). -/
def sampleTrack (satslot IODN IODCorr : Nat) (radial : Int) : Trackcp :=
  { satslot := satslot, IODN := IODN, IODCorr := IODCorr, radial := radial,
    Tangentialdir := 0, Normaldir := 0, URAclass := 1, URAvalue := 0, ura := 8 }

/-- A subtype-2 message with SSR 1, week 900 and second of week `sow`, whose
first sub-record is `t`; the other five have `ura = 0`. -/
def sampleOrbitMessage (sow : Int) (t : Trackcp) : pppdata :=
  { pppdata.zero with
    mestype := 2
    SSR := 1
    BDSweek := 900
    BDSsow := sow
    type2 := { trasub := t :: List.replicate 5 Trackcp.zero } }

/-- The test of `case 2` of `b2b_fillmem` for the orbit set of the message:
same SSR, week and second of week. -/
def orbitHasKey (p_sbas : pppdata) (o : ppp_ssr_orbit) : Bool :=
  decide (o.SSR = (p_sbas.SSR : Int)) && decide (o.bweek = p_sbas.BDSweek) &&
    decide (o.bsow = p_sbas.BDSsow)

/-- The test of `case 4` of `b2b_fillmem` for the clock set of the message:
same SSR, week and second of week. -/
def clockHasKey (p_sbas : pppdata) (c : ppp_ssr_clock) : Bool :=
  decide (c.SSR = (p_sbas.SSR : Int)) && decide (c.bweek = p_sbas.BDSweek) &&
    decide (c.bsow = p_sbas.BDSsow)

/-- The orbit items that `emitCorrections` appends to `_orbBuffer` for the
message `p_sbas`: for a subtype-2 message, those of the first orbit set of the
table whose SSR is the message's. -/
def orbPushed (st : PPPB2bDecoder) (p_sbas : pppdata) : List t_orbCorr :=
  match st.ssr_orbits.find? (fun o => decide (o.SSR = (p_sbas.SSR : Int))) with
  | some o => if p_sbas.mestype = 2 then orbCorrsOf st.lastTime o else []
  | none => []

/-- The clock items that `emitCorrections` appends to `_clkBuffer` for the
message `p_sbas`: for a subtype-4 message, those of the first clock set of the
table whose SSR is the message's. -/
def clkPushed (st : PPPB2bDecoder) (p_sbas : pppdata) : List t_clkCorr :=
  match st.ssr_clocks.find? (fun c => decide (c.SSR = (p_sbas.SSR : Int))) with
  | some c => if p_sbas.mestype = 4 then clkCorrsOf st.lastTime c else []
  | none => []

/-- One run of `processBufferedCorrections` as `emitCorrections` brings it
about: the page time `_lastTime` is `t`, and the items `orb` and `clk` have just
been appended to the pending buffers. -/
structure PageRun where
  t : Int
  orb : List t_orbCorr
  clk : List t_clkCorr

/-- The decoder and the signals after the run `r` from the decoder `st`. -/
def runPage (st : PPPB2bDecoder) (r : PageRun) : PPPB2bDecoder × List B2bSignal :=
  PPPB2bDecoder.processBufferedCorrections
    { st with
      lastTime := some r.t
      orbBuffer := st.orbBuffer ++ r.orb
      clkBuffer := st.clkBuffer ++ r.clk }

/-- The page time and the signals of each run of a sequence of runs. -/
def runPages : PPPB2bDecoder → List PageRun → List (Int × List B2bSignal)
  | _, [] => []
  | st, r :: rs => (r.t, (runPage st r).2) :: runPages (runPage st r).1 rs

/-- The `_iod` of the items of a published list. -/
def B2bSignal.iods : B2bSignal → List Int
  | B2bSignal.newOrbCorrections l => l.map (fun o => o.iod)
  | B2bSignal.newClkCorrections l => l.map (fun c => c.iod)

/-- The clock set `ptr_clk` of `case 4` of `b2b_fillmem` before the loop over
the sub-records: the set of the table with the key of the message or, when
there is none, the freshly allocated one. -/
def clockTarget (st : PPPB2bDecoder) (p_sbas : pppdata) : ppp_ssr_clock :=
  let ipos := st.ssr_clocks.findIdx (clockHasKey p_sbas)
  let full := decide (st.ssr_clocks.length ≥ IF_MAXSSR)
  let cell := if full then st.ssr_clocks.getLastD ppp_ssr_clock.zero else ppp_ssr_clock.zero
  if ipos < st.ssr_clocks.length then st.ssr_clocks.getD ipos ppp_ssr_clock.zero
  else
    { cell with
      SSR := p_sbas.SSR
      bweek := p_sbas.BDSweek
      bsow := p_sbas.BDSsow
      iodp := p_sbas.type4.IODP
      iode := List.replicate IF_MAXSAT (-1)
      iodcorr := List.replicate IF_MAXSAT (-1) }

/-- The clock set `ptr_clk` of `case 4` of `b2b_fillmem` after the loop over the
sub-records. -/
def clockFilled (st : PPPB2bDecoder) (p_sbas : pppdata) : ppp_ssr_clock :=
  match st.ssr_masks.find? (fun m => decide (m.iodp = (clockTarget st p_sbas).iodp)) with
  | none => clockTarget st p_sbas
  | some m =>
    (List.range 23).foldl (fillClockRecord st.ssr_orbits m.cmake p_sbas.type4)
      (clockTarget st p_sbas)

/-- The clock table after `case 4` of `b2b_fillmem`. -/
def clockTable (st : PPPB2bDecoder) (p_sbas : pppdata) : List ppp_ssr_clock :=
  let ipos := st.ssr_clocks.findIdx (clockHasKey p_sbas)
  if ipos < st.ssr_clocks.length then st.ssr_clocks.set ipos (clockFilled st p_sbas)
  else
    (if st.ssr_clocks.length ≥ IF_MAXSSR then st.ssr_clocks.tail else st.ssr_clocks) ++
      [clockFilled st p_sbas]

/-- No item of the two pending buffers has `_iod = -1`. -/
def pendingIodsDefined (st : PPPB2bDecoder) : Prop :=
  (∀ o ∈ st.orbBuffer, o.iod ≠ -1) ∧ (∀ c ∈ st.clkBuffer, c.iod ≠ -1)

/-- No item of the published lists has `_iod = -1`. -/
def publishedIodsDefined (sigs : List B2bSignal) : Prop :=
  ∀ s ∈ sigs, (-1 : Int) ∉ s.iods

/-- A subtype-1 message with SSR 1 and IODP 3 whose mask has slot 1 only. -/
def sampleSlotMaskMessage : pppdata :=
  { pppdata.zero with
    mestype := 1
    SSR := 1
    type1 := { IODP := 3, prn_make := 1 :: List.replicate 254 0 } }

/-- A subtype-4 message with SSR 1, week 900, second of week `sow`, IODP 3 and
subtype 0, whose first sub-record has `IODCorr = 1` and the raw clock value
`c0`; the other sub-records are zero. -/
def sampleClockMessage (sow c0 : Int) : pppdata :=
  { pppdata.zero with
    mestype := 4
    SSR := 1
    BDSweek := 900
    BDSsow := sow
    type4 := { IODP := 3, subtupe1 := 0, IDO_corr := 1 :: List.replicate 22 0,
               c := c0 :: List.replicate 22 0 } }

/-- A decoder with the mask of `sampleSlotMaskMessage` and one clock set for
SSR 1, week 900, second 100, in which slot 1 has `C0 = 100`, `iodcorr = 1` and
`iode = 10`. -/
def sampleClockStore : PPPB2bDecoder :=
  { PPPB2bDecoder.init with
    ssr_masks := [{ SSR := 1, iodp := 3, cmake := 1 :: List.replicate 254 0 }]
    ssr_clocks := [{ SSR := 1, iodp := 3, bweek := 900, bsow := 100,
                     C0 := 100 :: List.replicate 254 0,
                     iode := 10 :: List.replicate 254 (-1),
                     iodcorr := 1 :: List.replicate 254 (-1) }]
    lastTime := some 1000 }

/-- A decoder whose mask table is full: 16 entries with SSR 0 and IODP 0..15. -/
def sampleFullMaskStore : PPPB2bDecoder :=
  { PPPB2bDecoder.init with
    ssr_masks := (List.range 16).map
      (fun i => { SSR := 0, iodp := (i : Int), cmake := List.replicate 255 0 }) }

/-- The four messages of a short session, all at page time 1000: the mask of
slot 1, an orbit message for slot 1 (IODN 10, IODCorr 1), a clock message for
second 100 with the raw value 100 for slot 1, and a clock message for second
`sow` with the raw value `c0` for slot 1. -/
def sampleSession (sow c0 : Int) : List (bncTime × pppdata) :=
  [(some 1000, sampleSlotMaskMessage),
   (some 1000, sampleOrbitMessage 100 (sampleTrack 1 10 1 7)),
   (some 1000, sampleClockMessage 100 100),
   (some 1000, sampleClockMessage sow c0)]

/-- In every orbit set of the table a slot whose `iode` is -1 has `iodcorr = -1`
too: the two are written together. -/
def orbitsConsistent (st : PPPB2bDecoder) : Prop :=
  ∀ o ∈ st.ssr_orbits, ∀ S : Nat, o.iode.getD S 0 = -1 → o.iodcorr.getD S 0 = -1

/-- A subtype-2 message like `sampleOrbitMessage`, with SSR `SSR`. -/
def sampleOrbitMessageOf (SSR : Nat) (sow : Int) (t : Trackcp) : pppdata :=
  { sampleOrbitMessage sow t with SSR := SSR }

/-- The seven most recently stored orbit sets whose SSR is `SSR` (fewer when the
table has fewer such sets), the most recent first: the sets that the words "the
last 7 orbit entries of the same SSR" name. -/
def mostRecentSevenOfSSR (ssr_orbits : List ppp_ssr_orbit) (SSR : Int) : List ppp_ssr_orbit :=
  ((ssr_orbits.filter (fun o => decide (o.SSR = SSR))).reverse).take 7

/-- Eight orbit messages at page time 1000: one with SSR 1 for slot 1 (IODN 10,
IODCorr 1), then seven with SSR 2 for slot 2, for the seconds 200..206. -/
def sampleMixedSession : List (bncTime × pppdata) :=
  (some 1000, sampleOrbitMessageOf 1 100 (sampleTrack 1 10 1 7)) ::
    (List.range 7).map (fun k =>
      ((some 1000 : bncTime), sampleOrbitMessageOf 2 (200 + (k : Int)) (sampleTrack 2 20 2 9)))

/-- Four runs at the page times 1000, 1006, 1009 and 1012; one orbit item is
appended before the first and before the third. -/
def samplePageRuns : List PageRun :=
  [{ t := 1000, orb := [{ sys := 'C', prn := 1, iod := 10, time := none, xr := (7, 0, 0) }],
     clk := [] },
   { t := 1006, orb := [], clk := [] },
   { t := 1009, orb := [{ sys := 'C', prn := 2, iod := 20, time := none, xr := (9, 0, 0) }],
     clk := [] },
   { t := 1012, orb := [], clk := [] }]

/-- Two orbit sets of SSR 1 in which only slot 1 is written: the set of second
100 with IODCorr 1 and IODN 10, the set of second 148 with IODCorr 2 and IODN 20. -/
def sampleOrbitTable : List ppp_ssr_orbit :=
  [{ ppp_ssr_orbit.zero with
      SSR := 1, bweek := 900, bsow := 100,
      iode := (List.replicate 255 (-1)).set 0 10,
      iodcorr := (List.replicate 255 (-1)).set 0 1 },
   { ppp_ssr_orbit.zero with
      SSR := 1, bweek := 900, bsow := 148,
      iode := (List.replicate 255 (-1)).set 0 20,
      iodcorr := (List.replicate 255 (-1)).set 0 2 }]

/-! Invariants of the three tables -/

/-- The key (SSR, IODP) of a mask entry. -/
def maskKey (m : ppp_ssr_mask) : Int × Int := (m.SSR, m.iodp)

/-- The key (SSR, week, second of week) of an orbit set. -/
def orbitKey (o : ppp_ssr_orbit) : Int × Int × Int := (o.SSR, o.bweek, o.bsow)

/-- The key (SSR, week, second of week) of a clock set. -/
def clockKey (c : ppp_ssr_clock) : Int × Int × Int := (c.SSR, c.bweek, c.bsow)

/-- The counts are within the capacities `IF_MAXMASK`, `IF_MAXSSR`, and no key
occurs twice in a table. -/
def tablesWellFormed (st : PPPB2bDecoder) : Prop :=
  st.ssr_masks.length ≤ IF_MAXMASK ∧ st.ssr_orbits.length ≤ IF_MAXSSR ∧
  st.ssr_clocks.length ≤ IF_MAXSSR ∧
  (st.ssr_masks.map maskKey).Nodup ∧ (st.ssr_orbits.map orbitKey).Nodup ∧
  (st.ssr_clocks.map clockKey).Nodup

/-- The sixteen hexadecimal digits in the order of their values: the characters
`0` to `9` (codes 48..57) and `a` to `f` (codes 97..102). -/
def hexDigits : List Char :=
  (List.range 10).map (fun i => Char.ofNat (48 + i)) ++
    (List.range 6).map (fun i => Char.ofNat (97 + i))

/-- The value of a hexadecimal digit, upper and lower case alike: its place
among the sixteen digits. -/
def hexDigitValue (c : Char) : Nat := hexDigits.indexOf c.toLower

/-- The product of a polynomial over GF(2) of degree below 6, held as the bits
of `v`, and `x`, reduced modulo `x^6 + x + 1` (the bits of 67). -/
def mulByX (v : Nat) : Nat :=
  if 32 ≤ v then (2 * v) ^^^ 67 else 2 * v

/-- The polynomial `x^i` reduced modulo `x^6 + x + 1`, as bits. -/
def xPowMod : Nat → Nat
  | 0 => 1
  | i + 1 => mulByX (xPowMod i)

/-- The part of the product `GF_MUL a b` that bit `k` of `b` accounts for. -/
def gfTerm (a b k : Nat) : Nat :=
  if b.testBit k then GF_MUL a (2 ^ k) else 0

/-! The calendar functions of `PPPB2bDecoder.cpp` -/

/-- The table `doy_of_month` of `md_julday`. -/
def doy_of_month : List Int := [0, 31, 59, 90, 120, 151, 181, 212, 243, 273, 304, 334]

/-- The `md_julday(iyear, imonth, iday)` of the source; the division of `int`
rounds towards zero. -/
def md_julday (iyear imonth iday : Int) : Int :=
  if iyear < 0 ∨ imonth < 0 ∨ iday < 0 ∨ imonth > 12 ∨ iday > 366 ∨
      (imonth ≠ 0 ∧ iday > 31) then 0
  else
    let iyr := if imonth ≤ 2 then iyear - 1 else iyear
    let result :=
      365 * iyear - 678941 + Int.tdiv iyr 4 - Int.tdiv iyr 100 + Int.tdiv iyr 400 + iday
    if imonth ≠ 0 then result + doy_of_month.getD (imonth - 1).toNat 0 else result

/-- The loop `while (*idoy <= 0)` of `mjd2doy`, with a bound on the number of
tests of the condition: `none` when the bound is used up. -/
def mjd2doy_loop (jd : Int) : Nat → Int → Int → Option (Int × Int)
  | 0, _, _ => none
  | fuel + 1, iyear, idoy =>
    if idoy ≤ 0 then mjd2doy_loop jd fuel (iyear - 1) (jd - md_julday (iyear - 1) 1 1 + 1)
    else some (iyear, idoy)

/-- The `mjd2doy(jd, iyear, idoy)` of the source: the pair `(iyear, idoy)`. -/
def mjd2doy (fuel : Nat) (jd : Int) : Option (Int × Int) :=
  let iyear := Int.tdiv (jd + 678940) 365
  mjd2doy_loop jd fuel iyear (jd - md_julday iyear 1 1)

/-- The test of `yeardoy2monthday` for a leap year; `%` of `int` takes the sign
of the dividend. -/
def isLeapYear (iyear : Int) : Bool :=
  decide ((Int.tmod iyear 4 = 0 ∧ Int.tmod iyear 100 ≠ 0) ∨ Int.tmod iyear 400 = 0)

/-- The table `days_in_month` of `yeardoy2monthday` after the test for a leap
year. -/
def days_in_month (leap : Bool) : List Int :=
  [31, if leap then 29 else 28, 31, 30, 31, 30, 31, 31, 30, 31, 30, 31]

/-- The loop over the months of `yeardoy2monthday` from month index `i` on, the
days `id` being left: the pair `(imonth, iday)`, or `none` when the loop ends
without assigning them. -/
def monthLoop : List Int → Int → Nat → Option (Int × Int)
  | [], _, _ => none
  | dm :: rest, id, i =>
    if id - dm > 0 then monthLoop rest (id - dm) (i + 1)
    else some ((i : Int) + 1, id - dm + dm)

/-- The `yeardoy2monthday(iyear, idoy, imonth, iday)` of the source. -/
def yeardoy2monthday (iyear idoy : Int) : Option (Int × Int) :=
  monthLoop (days_in_month (isLeapYear iyear)) idoy 0

/-- The `mjd2date(jd, sod, iyear, imonth, iday, ih, imin, sec)` of the source
for whole seconds `sod`: year, month, day, hour, minute and second. -/
def mjd2date (fuel : Nat) (jd sod : Int) : Option (Int × Int × Int × Int × Int × Int) :=
  match mjd2doy fuel jd with
  | none => none
  | some (iyear, doy) =>
    match yeardoy2monthday iyear doy with
    | none => none
    | some (imonth, iday) =>
      let ih := Int.tdiv sod 3600
      let imin := Int.tdiv (sod - ih * 3600) 60
      some (iyear, imonth, iday, ih, imin, sod - ih * 3600 - imin * 60)

/-- The rule for leap years: divisible by 4 and not by 100, or divisible by
400. -/
def leapYear (y : Int) : Prop := (y % 4 = 0 ∧ y % 100 ≠ 0) ∨ y % 400 = 0

instance (y : Int) : Decidable (leapYear y) := by
  unfold leapYear; infer_instance

/-- The number of days of month `m` (1..12) of year `y` under the rule for leap
years. -/
def monthLength (y m : Int) : Int :=
  if m = 2 then (if leapYear y then 29 else 28)
  else if m = 4 ∨ m = 6 ∨ m = 9 ∨ m = 11 then 30
  else 31

/-- A page whose first six bits read subtype 2 and whose first orbit sub-record
has `satslot = 0` and URA class 1; all other bits are 0. -/
def sampleSlotZeroHeader : Message_header :=
  { BDSweek := 900, BDSsecond := 0, current_PRN := 59,
    data := [8, 0, 0, 0, 0, 0, 0, 0, 0, 0, 0, 2] }

/-- A page whose first six bits read subtype 2 and whose first orbit sub-record
has `satslot = 300` and URA class 1; all other bits are 0. -/
def sampleSlot300Header : Message_header :=
  { BDSweek := 900, BDSsecond := 0, current_PRN := 59,
    data := [8, 0, 0, 4, 176, 0, 0, 0, 0, 0, 0, 2] }

/-! The accesses of `b2b_parse_ppp` -/

/-- An element of an array of `pppdata` that `b2b_parse_ppp` writes, by array
and index: `prn_make[a]`, `sub1NULL[a]`, `trasub[a]`, `intersub3[a]`,
`intersub3[a].pattern[b]` (with `deciation[b]`), `IDO_corr[a]` (with `c[a]`),
`URAclass[a]` (with `URAvalue[a]`) of subtype 5, `clock_N_sub6[a]`,
`sub6_tarck.numO[a]`, `clock_sub7[a]` and `sub7_tarck.numO[a]`. -/
inductive PppCell where
  | prn_make (a : Nat)
  | sub1NULL (a : Nat)
  | trasub (a : Nat)
  | intersub3 (a : Nat)
  | pattern (a b : Nat)
  | IDO_corr (a : Nat)
  | URAclass5 (a : Nat)
  | clock_N_sub6 (a : Nat)
  | numO6 (a : Nat)
  | clock_sub7 (a : Nat)
  | numO7 (a : Nat)
  deriving DecidableEq

/-- Whether the element lies inside its array as declared in `PPPB2bDecoder.h`:
`prn_make[255]`, `sub1NULL[200]`, `trasub[6]`, `intersub3[31]`, `pattern[16]`,
`IDO_corr[23]`, `URAclass[70]`, `clock_N_sub6[22]`, `numO[6]`, `clock_sub7[22]`. -/
def PppCell.inside : PppCell → Bool
  | PppCell.prn_make a => decide (a < 255)
  | PppCell.sub1NULL a => decide (a < 200)
  | PppCell.trasub a => decide (a < 6)
  | PppCell.intersub3 a => decide (a < 31)
  | PppCell.pattern a b => decide (a < 31) && decide (b < 16)
  | PppCell.IDO_corr a => decide (a < 23)
  | PppCell.URAclass5 a => decide (a < 70)
  | PppCell.clock_N_sub6 a => decide (a < 22)
  | PppCell.numO6 a => decide (a < 6)
  | PppCell.clock_sub7 a => decide (a < 22)
  | PppCell.numO7 a => decide (a < 6)

/-- The accesses of a run of `b2b_parse_ppp`: the bit fields read, each as
position and length of a call of `getbitu` or `getbits`, and the array elements
written, both in the order of the run. -/
structure ParseTrace where
  reads : List (Nat × Nat)
  writes : List PppCell
  deriving DecidableEq

/-- One trace after the other. -/
def ParseTrace.append (s t : ParseTrace) : ParseTrace :=
  { reads := s.reads ++ t.reads, writes := s.writes ++ t.writes }

/-- The eight fields of an orbit sub-record read from bit `r` on (69 bits). -/
def trackReads (r : Nat) : List (Nat × Nat) :=
  [(r, 9), (r + 9, 10), (r + 19, 3), (r + 22, 15), (r + 37, 13), (r + 50, 13), (r + 63, 3),
    (r + 66, 3)]

/-- The loop over `a` of `case 3` from record `a` on with `n` records to go, the
next field at bit `r`: per record `satslot`, `num4` and then `num4` pairs of
`pattern[b]` and `deciation[b]`. -/
def parse3Records (datapackage : List Nat) : Nat → Nat → Nat → ParseTrace
  | 0, _, _ => { reads := [], writes := [] }
  | n + 1, a, r =>
    let num4 := PPPB2bDecoder.getbitu datapackage (r + 9) 4 % 256
    let own : ParseTrace :=
      { reads := [(r, 9), (r + 9, 4)] ++
          (List.range num4).flatMap (fun b => [(r + 13 + 16 * b, 4), (r + 13 + 16 * b + 4, 12)])
        writes := PppCell.intersub3 a :: (List.range num4).map (fun b => PppCell.pattern a b) }
    own.append (parse3Records datapackage n (a + 1) (r + 13 + 16 * num4))

/-- The accesses of `PPPB2bDecoder::b2b_parse_ppp(datapackage, PPPB2B)`, case by
case as in the source; the count fields `num`, `num4`, `NUMC`, `NUMO` are
`unsigned char`.  In `case 7` the bound of the first loop is `type6.NUMC`, the
byte that `type7.NUMC` was stored in. -/
def PPPB2bDecoder.b2b_parse_ppp_trace (datapackage : List Nat) : ParseTrace :=
  let type := PPPB2bDecoder.getbitu datapackage 0 6
  let head : ParseTrace :=
    { reads := [(0, 6), (6, 17), (23, 4), (27, 2), (462, 24)], writes := [] }
  if 8 ≤ type ∧ type ≤ 63 then head
  else if type = 1 then
    head.append
      { reads := (29, 4) :: ((List.range IF_MAXSAT).map (fun a => (33 + a, 1)) ++
          (List.range 174).map (fun a => (288 + a, 1)))
        writes := (List.range IF_MAXSAT).map PppCell.prn_make ++
          (List.range 174).map PppCell.sub1NULL }
  else if type = 2 then
    head.append
      { reads := (List.range 6).flatMap (fun a => trackReads (29 + 69 * a)) ++ [(29 + 69 * 6, 19)]
        writes := (List.range 6).map PppCell.trasub }
  else if type = 3 then
    let num := PPPB2bDecoder.getbitu datapackage 29 5 % 256
    (head.append { reads := [(29, 5)], writes := [] }).append
      (parse3Records datapackage num 0 34)
  else if type = 4 then
    head.append
      { reads := [(29, 4), (33, 5)] ++
          (List.range 23).flatMap (fun a => [(38 + 18 * a, 3), (38 + 18 * a + 3, 15)]) ++
          [(38 + 18 * 23, 10)]
        writes := (List.range 23).map PppCell.IDO_corr }
  else if type = 5 then
    head.append
      { reads := [(29, 4), (33, 3)] ++
          (List.range 70).flatMap (fun a => [(36 + 6 * a, 3), (36 + 6 * a + 3, 3)])
        writes := (List.range 70).map PppCell.URAclass5 }
  else if type = 6 then
    let NUMC := PPPB2bDecoder.getbitu datapackage 29 5 % 256
    let NUMO := PPPB2bDecoder.getbitu datapackage 34 3 % 256
    let r1 := 73 + 18 * NUMC
    head.append
      { reads := [(29, 5), (34, 3), (37, 17), (54, 4), (58, 2), (60, 4), (64, 9)] ++
          (List.range NUMC).flatMap (fun a => [(73 + 18 * a, 3), (73 + 18 * a + 3, 15)]) ++
          [(r1, 17), (r1 + 17, 4), (r1 + 21, 2)] ++
          (List.range NUMO).flatMap (fun a => trackReads (r1 + 23 + 69 * a))
        writes := (List.range NUMC).map PppCell.clock_N_sub6 ++
          (List.range NUMO).map PppCell.numO6 }
  else if type = 7 then
    let NUMC := PPPB2bDecoder.getbitu datapackage 29 5 % 256
    let NUMO := PPPB2bDecoder.getbitu datapackage 34 3 % 256
    let r1 := 60 + 27 * NUMC
    head.append
      { reads := [(29, 5), (34, 3), (37, 17), (54, 4), (58, 2)] ++
          (List.range NUMC).flatMap
            (fun a => [(60 + 27 * a, 9), (60 + 27 * a + 9, 3), (60 + 27 * a + 12, 15)]) ++
          [(r1, 17), (r1 + 17, 4), (r1 + 21, 2)] ++
          (List.range NUMO).flatMap (fun a => trackReads (r1 + 23 + 69 * a))
        writes := (List.range NUMC).map PppCell.clock_sub7 ++
          (List.range NUMO).map PppCell.numO7 }
  else head

/-- A page of 1024 bytes that reads subtype 6 with `NUMC = 31` and `NUMO = 7`:
the bits 0..5 are 000110 and the bits 29..36 are all 1. -/
def sampleCountsPage : List Nat :=
  [24, 0, 0, 7, 248] ++ List.replicate 1019 0

/-- The loop `for (i = -1; i < 1; i++)` of `b2b_parsecorr` and the call of
`mjd2wksow` after it: the week and second of week given to a message with the
seconds of day `sod` under a page header of week `week`, second `sow`. -/
def parsecorrTime (week sow sod : Int) : Int × Int :=
  let mjd := (PPPB2bDecoder.wksow2mjd week sow).1
  let near := fun (i : Int) =>
    let ws := PPPB2bDecoder.mjd2wksow (mjd + i) sod
    decide (|(ws.1 - week) * 86400 * 7 + ws.2 - sow| < 43200)
  let i : Int := if near (-1) then -1 else if near 0 then 0 else 1
  PPPB2bDecoder.mjd2wksow (mjd + i) sod

/-- A page header of week 1, second 0, whose page reads subtype 2 with the
seconds of day 43200; all other bits are 0. -/
def sampleNoonHeader : Message_header :=
  { BDSweek := 1, BDSsecond := 0, current_PRN := 59, data := [9, 81, 128] }

/-! Texts and samples for the settled claims -/

/-- A big-endian load of 32 bits: the byte at `off` is the most significant. -/
def U4be (p : List Nat) (off : Nat) : Nat :=
  16777216 * p.getD off 0 + 65536 * p.getD (off + 1) 0 + 256 * p.getD (off + 2) 0
    + p.getD (off + 3) 0

/-- The hexadecimal text of the 124 NAVBits bytes at payload offset 12 with the
31 words read as big-endian 32-bit words, each written as 8 upper-case digits:
the text of the bytes in their order. -/
def navHexBigEndianOf (payload : List Nat) : QString :=
  (List.range 31).foldl
    (fun navHex w => navHex ++ toUpper (qarg (U4be payload (12 + w * 4)) 8 16)) []

/-- A subtype-2 message with SSR 1, week 900, second of week 100, whose first
sub-record names `satslot = 0` with `ura ≠ 0` (radial value 7, the other two
components 0); the other five sub-records have `ura = 0`. -/
def sampleSlotZeroMessage : pppdata :=
  sampleOrbitMessage 100 (sampleTrack 0 10 1 7)

/-- A subtype-2 message with SSR 0, week 0, second of week 0, all of whose
sub-records have `ura = 0`: its ingestion only allocates the orbit set. -/
def sampleZeroKeyMessage : pppdata :=
  { pppdata.zero with mestype := 2 }

/-- A decoder whose orbit table is full: 120 sets with SSR 1, week 900 and the
seconds of week 1000..1119. -/
def sampleFullOrbitStore : PPPB2bDecoder :=
  { PPPB2bDecoder.init with
    ssr_orbits := (List.range 120).map
      (fun k => { ppp_ssr_orbit.zero with SSR := 1, bweek := 900, bsow := 1000 + (k : Int) }) }

/-- Whether every write of `case 2` of `b2b_fillmem` in a run stays inside the
arrays: each sub-record with `ura ≠ 0` of each subtype-2 message of the run
names a slot in 1..`IF_MAXSAT`. -/
def writesInside (msgs : List (bncTime × pppdata)) : Bool :=
  msgs.all (fun tp => decide (tp.2.mestype ≠ 2) ||
    tp.2.type2.trasub.all (fun t => decide (t.ura = 0) ||
      (decide (1 ≤ t.satslot) && decide (t.satslot ≤ IF_MAXSAT))))

/-! Theorems -/

/-! The table-driven CRC against the bit-by-bit CRC -/

theorem and_0x8000_ne_zero (c : Nat) : c &&& 0x8000 ≠ 0 ↔ c.testBit 15 = true := by
  have h : (0x8000 : Nat) = 2 ^ 15 := by norm_num
  rw [h, Nat.and_two_pow]
  cases c.testBit 15 <;> simp

theorem crc16_shift_testBit (c i : Nat) :
    (crc16_shift c).testBit i =
      (decide (i < 16) &&
        ((decide (i ≥ 1) && c.testBit (i - 1)) ^^ (c.testBit 15 && (0x1021 : Nat).testBit i))) := by
  have h16 : (65536 : Nat) = 2 ^ 16 := by norm_num
  unfold crc16_shift
  by_cases h : c.testBit 15 = true
  · rw [if_pos ((and_0x8000_ne_zero c).2 h), h16, Nat.testBit_mod_two_pow, Nat.testBit_xor,
      Nat.testBit_shiftLeft, h]
    simp
  · rw [if_neg (fun hc => h ((and_0x8000_ne_zero c).1 hc)), h16, Nat.testBit_mod_two_pow,
      Nat.testBit_shiftLeft]
    simp [Bool.eq_false_iff.2 h]

theorem crc16_shift_xor (a b : Nat) :
    crc16_shift (a ^^^ b) = crc16_shift a ^^^ crc16_shift b := by
  apply Nat.eq_of_testBit_eq
  intro i
  rw [Nat.testBit_xor, crc16_shift_testBit, crc16_shift_testBit, crc16_shift_testBit,
    Nat.testBit_xor, Nat.testBit_xor]
  cases decide (i < 16) <;> cases decide (i ≥ 1) <;> cases a.testBit (i - 1) <;>
    cases b.testBit (i - 1) <;> cases a.testBit 15 <;> cases b.testBit 15 <;>
    cases (0x1021 : Nat).testBit i <;> rfl

theorem crc16_shift_lt (c : Nat) : crc16_shift c < 65536 := by
  unfold crc16_shift
  split <;> exact Nat.mod_lt _ (by norm_num)

theorem crc16_shift8_xor (a b : Nat) :
    crc16_shift8 (a ^^^ b) = crc16_shift8 a ^^^ crc16_shift8 b := by
  simp only [crc16_shift8, crc16_shift_xor]

theorem crc16_shift8_lt (c : Nat) : crc16_shift8 c < 65536 := crc16_shift_lt _

theorem lookup_eq_shift8 :
    ∀ i < 256, CRC_16CCIT_LookUp.getD i 0 = crc16_shift8 (i <<< 8) := by
  set_option maxRecDepth 20000 in decide

theorem crc16_shift8_low : ∀ l < 256, crc16_shift8 l = l <<< 8 := by
  set_option maxRecDepth 20000 in decide

/-- A 16-bit register splits into its high byte, shifted, and its low byte. -/
theorem split_hi_lo (c : Nat) : c = ((c >>> 8) <<< 8) ^^^ (c % 256) := by
  have h : (256 : Nat) = 2 ^ 8 := by norm_num
  apply Nat.eq_of_testBit_eq
  intro i
  rw [Nat.testBit_xor, Nat.testBit_shiftLeft, Nat.testBit_shiftRight, h, Nat.testBit_mod_two_pow]
  by_cases hi : i < 8
  · simp [hi, Nat.not_le.2 hi]
  · have : 8 + (i - 8) = i := by omega
    simp [hi, Nat.not_lt.1 hi, this]

theorem shiftLeft_xor (a b k : Nat) : (a ^^^ b) <<< k = (a <<< k) ^^^ (b <<< k) := by
  apply Nat.eq_of_testBit_eq
  intro i
  simp only [Nat.testBit_xor, Nat.testBit_shiftLeft]
  cases decide (i ≥ k) <;> simp

theorem xor_mod_65536 (a b : Nat) : (a ^^^ b) % 65536 = (a % 65536) ^^^ (b % 65536) := by
  have h : (65536 : Nat) = 2 ^ 16 := by norm_num
  apply Nat.eq_of_testBit_eq
  intro i
  simp only [h, Nat.testBit_xor, Nat.testBit_mod_two_pow]
  cases decide (i < 16) <;> simp

theorem shiftLeft8_mod (c : Nat) : (c <<< 8) % 65536 = (c % 256) <<< 8 := by
  rw [Nat.shiftLeft_eq, Nat.shiftLeft_eq]
  omega

/-- One byte: the table step of `sbf_checksum` is the bit-by-bit step. -/
theorem sbf_checksum_step_eq (crc b : Nat) (hc : crc < 65536) (hb : b < 256) :
    sbf_checksum_step crc b = crc16_bitwise_byte crc b := by
  have hh : crc >>> 8 < 2 ^ 8 := by
    rw [Nat.shiftRight_eq_div_pow]; omega
  have hidx : (crc >>> 8) ^^^ b < 256 := Nat.xor_lt_two_pow hh (by omega)
  have hl : crc % 256 < 256 := Nat.mod_lt _ (by norm_num)
  have hT : crc16_shift8 (((crc >>> 8) ^^^ b) <<< 8) < 65536 := crc16_shift8_lt _
  unfold sbf_checksum_step crc16_bitwise_byte
  rw [lookup_eq_shift8 _ hidx]
  conv_rhs => rw [split_hi_lo crc]
  rw [Nat.xor_assoc, Nat.xor_comm (crc % 256), ← Nat.xor_assoc, ← shiftLeft_xor,
    crc16_shift8_xor, crc16_shift8_low _ hl, xor_mod_65536, shiftLeft8_mod,
    Nat.mod_eq_of_lt hT, Nat.xor_comm]

theorem sbf_checksum_step_lt (crc b : Nat) : sbf_checksum_step crc b < 65536 :=
  Nat.mod_lt _ (by norm_num)

theorem foldl_sbf_checksum_step_lt (buff : List Nat) (crc : Nat) (hc : crc < 65536) :
    buff.foldl sbf_checksum_step crc < 65536 := by
  induction buff generalizing crc with
  | nil => simpa using hc
  | cons b t ih => exact ih _ (sbf_checksum_step_lt crc b)

theorem foldl_step_eq (buff : List Nat) (crc : Nat) (hc : crc < 65536) (hb : isBytes buff) :
    buff.foldl sbf_checksum_step crc = buff.foldl crc16_bitwise_byte crc := by
  induction buff generalizing crc with
  | nil => rfl
  | cons b t ih =>
    have hb0 : b < 256 := hb b (List.mem_cons_self _ _)
    have ht : isBytes t := fun x hx => hb x (List.mem_cons_of_mem _ hx)
    simp only [List.foldl_cons]
    rw [← sbf_checksum_step_eq crc b hc hb0]
    exact ih _ (sbf_checksum_step_lt crc b) ht

/-! The CRC-16 tells any two buffers apart that differ in one byte -/

theorem crc16_shift_eq_zero (c : Nat) (hc : c < 65536) (h : crc16_shift c = 0) : c = 0 := by
  have hbit : ∀ i, (crc16_shift c).testBit i = false := by
    intro i; rw [h]; exact Nat.zero_testBit i
  have h15 : c.testBit 15 = false := by
    have := hbit 0
    rw [crc16_shift_testBit] at this
    simpa using this
  apply Nat.eq_of_testBit_eq
  intro i
  rw [Nat.zero_testBit]
  by_cases hi : i < 15
  · have := hbit (i + 1)
    rw [crc16_shift_testBit, h15] at this
    have hlt : i + 1 < 16 := by omega
    simpa [hlt] using this
  · by_cases hi2 : i = 15
    · rw [hi2]; exact h15
    · apply Nat.testBit_lt_two_pow
      calc c < 2 ^ 16 := by simpa using hc
        _ ≤ 2 ^ i := Nat.pow_le_pow_right (by norm_num) (by omega)

theorem crc16_shift8_eq_zero (c : Nat) (hc : c < 65536) (h : crc16_shift8 c = 0) : c = 0 := by
  unfold crc16_shift8 at h
  have h1 := crc16_shift_eq_zero _ (crc16_shift_lt _) h
  have h2 := crc16_shift_eq_zero _ (crc16_shift_lt _) h1
  have h3 := crc16_shift_eq_zero _ (crc16_shift_lt _) h2
  have h4 := crc16_shift_eq_zero _ (crc16_shift_lt _) h3
  have h5 := crc16_shift_eq_zero _ (crc16_shift_lt _) h4
  have h6 := crc16_shift_eq_zero _ (crc16_shift_lt _) h5
  have h7 := crc16_shift_eq_zero _ (crc16_shift_lt _) h6
  exact crc16_shift_eq_zero _ hc h7

theorem crc16_shift8_inj (x y : Nat) (hx : x < 65536) (hy : y < 65536)
    (h : crc16_shift8 x = crc16_shift8 y) : x = y := by
  have hxy : x ^^^ y < 65536 := Nat.xor_lt_two_pow (n := 16) (by simpa using hx) (by simpa using hy)
  have h0 : crc16_shift8 (x ^^^ y) = 0 := by
    rw [crc16_shift8_xor, h, Nat.xor_self]
  exact Nat.xor_eq_zero.1 (crc16_shift8_eq_zero _ hxy h0)

theorem shiftLeft8_lt (b : Nat) (hb : b < 256) : b <<< 8 < 65536 := by
  rw [Nat.shiftLeft_eq]; omega

theorem sbf_checksum_step_inj_state (s t b : Nat) (hs : s < 65536) (ht : t < 65536)
    (hb : b < 256) (h : sbf_checksum_step s b = sbf_checksum_step t b) : s = t := by
  rw [sbf_checksum_step_eq s b hs hb, sbf_checksum_step_eq t b ht hb] at h
  have hb8 := shiftLeft8_lt b hb
  have := crc16_shift8_inj _ _
    (Nat.xor_lt_two_pow (n := 16) (by simpa using hs) (by simpa using hb8))
    (Nat.xor_lt_two_pow (n := 16) (by simpa using ht) (by simpa using hb8)) h
  exact Nat.xor_left_inj.1 this

theorem sbf_checksum_step_inj_byte (s b c : Nat) (hs : s < 65536) (hb : b < 256)
    (hc : c < 256) (h : sbf_checksum_step s b = sbf_checksum_step s c) : b = c := by
  rw [sbf_checksum_step_eq s b hs hb, sbf_checksum_step_eq s c hs hc] at h
  have hb8 := shiftLeft8_lt b hb
  have hc8 := shiftLeft8_lt c hc
  have := crc16_shift8_inj _ _
    (Nat.xor_lt_two_pow (n := 16) (by simpa using hs) (by simpa using hb8))
    (Nat.xor_lt_two_pow (n := 16) (by simpa using hs) (by simpa using hc8)) h
  have h8 : b <<< 8 = c <<< 8 := Nat.xor_right_inj.1 this
  rw [Nat.shiftLeft_eq, Nat.shiftLeft_eq] at h8
  omega

theorem foldl_step_inj (suf : List Nat) (hsuf : isBytes suf) (s t : Nat) (hs : s < 65536)
    (ht : t < 65536) (h : suf.foldl sbf_checksum_step s = suf.foldl sbf_checksum_step t) :
    s = t := by
  induction suf generalizing s t with
  | nil => simpa using h
  | cons b r ih =>
    have hb : b < 256 := hsuf b (List.mem_cons_self _ _)
    have hr : isBytes r := fun x hx => hsuf x (List.mem_cons_of_mem _ hx)
    simp only [List.foldl_cons] at h
    exact sbf_checksum_step_inj_state s t b hs ht hb
      (ih hr _ _ (sbf_checksum_step_lt s b) (sbf_checksum_step_lt t b) h)

/-- Two buffers that differ in exactly one byte have different checksums. -/
theorem sbf_checksum_one_byte (pre suf : List Nat) (b c : Nat) (hsuf : isBytes suf)
    (hb : b < 256) (hc : c < 256) (hne : b ≠ c) :
    sbf_checksum (pre ++ b :: suf) ≠ sbf_checksum (pre ++ c :: suf) := by
  intro h
  unfold sbf_checksum at h
  simp only [List.foldl_append, List.foldl_cons] at h
  have hs : pre.foldl sbf_checksum_step 0 < 65536 :=
    foldl_sbf_checksum_step_lt pre 0 (by norm_num)
  have := foldl_step_inj suf hsuf _ _ (sbf_checksum_step_lt _ b) (sbf_checksum_step_lt _ c) h
  exact hne (sbf_checksum_step_inj_byte _ b c hs hb hc this)

/-! The framer on frames delivered in fragments -/

theorem U2_append_left (P S : List Nat) (off : Nat) (h : off + 1 < P.length) :
    U2 (P ++ S) off = U2 P off := by
  unfold U2
  rw [List.getD_append _ _ _ _ (by omega), List.getD_append _ _ _ _ h]

theorem frameLoop_none (fuel : Nat) (st : SBFDecoder) (h : takeOneFrame st.acc = none) :
    frameLoop fuel st = (st, 0, []) := by
  cases fuel with
  | zero => rfl
  | succ n => simp [frameLoop, h]

theorem takeOneFrame_short (acc : List Nat) (h : acc.length < 8) : takeOneFrame acc = none := by
  simp [takeOneFrame, hasWholeFrame, h]

/-- A frame whose length field is its length, at the head of the accumulator,
is what `takeOneFrame` takes. -/
theorem takeOneFrame_head (F rest : List Nat) (h8 : 8 ≤ F.length) (hlen : U2 F 6 = F.length) :
    takeOneFrame (F ++ rest) = some (F, rest) := by
  have hU : U2 (F ++ rest) 6 = F.length := by rw [U2_append_left _ _ _ (by omega), hlen]
  have h1 : ¬ (F.length + rest.length < 8) := by omega
  have h2 : ¬ (F.length = 0) := by omega
  simp [takeOneFrame, hasWholeFrame, hU, h1, h2]

/-- While only a proper part of a frame has arrived, no frame is taken. -/
theorem takeOneFrame_incomplete (P S : List Nat) (hS : S ≠ []) (hlen : U2 (P ++ S) 6 = (P ++ S).length) :
    takeOneFrame P = none := by
  have hSl : 0 < S.length := List.length_pos.2 hS
  by_cases h : P.length < 8
  · exact takeOneFrame_short P h
  · have hU : U2 P 6 = P.length + S.length := by
      rw [← U2_append_left P S 6 (by omega), hlen, List.length_append]
    have h3 : ¬ (P.length ≥ P.length + S.length) := by omega
    simp [takeOneFrame, hasWholeFrame, h, hU, h3]

theorem trySync_head (rest : List Nat) :
    trySync (SBF_SYNC1 :: SBF_SYNC2 :: rest) = (true, SBF_SYNC1 :: SBF_SYNC2 :: rest) := by
  simp [trySync]

/-- A list whose first two bytes are the sync pair. -/
theorem eq_sync_cons (P : List Nat) (h2 : 2 ≤ P.length) (h0 : P.getD 0 0 = SBF_SYNC1)
    (h1 : P.getD 1 0 = SBF_SYNC2) : ∃ rest, P = SBF_SYNC1 :: SBF_SYNC2 :: rest := by
  match P, h2, h0, h1 with
  | b0 :: b1 :: rest, _, h0, h1 =>
    simp at h0 h1
    exact ⟨rest, by rw [h0, h1]⟩

theorem trySync_of_sync (P : List Nat) (h2 : 2 ≤ P.length) (h0 : P.getD 0 0 = SBF_SYNC1)
    (h1 : P.getD 1 0 = SBF_SYNC2) : trySync P = (true, P) := by
  obtain ⟨rest, rfl⟩ := eq_sync_cons P h2 h0 h1
  exact trySync_head rest

theorem trySync_single (b : Nat) : trySync [b] = (false, [b]) := rfl

/-- The checksum span of a frame whose length field is its length is the whole
frame from offset 4 on. -/
theorem crc_span (F : List Nat) : (F.drop 4).take (F.length - 4) = F.drop 4 :=
  List.take_of_length_le (by simp)

/-- A pass of the loop over a frame with a matching checksum at the head of the
accumulator hands the frame on. -/
theorem frameLoop_good (fuel : Nat) (st : SBFDecoder) (F rest : List Nat)
    (hacc : st.acc = F ++ rest) (h8 : 8 ≤ F.length) (hlen : U2 F 6 = F.length)
    (hcrc : U2 F 2 = sbf_checksum (F.drop 4)) :
    frameLoop (fuel + 1) st =
      ((frameLoop fuel { st with
          acc := rest
          typeList := st.typeList ++ [U2 F 4 &&& 0x1FFF]
          logTypes := if st.logTypes < 5 then st.logTypes + 1 else st.logTypes }).1,
       (frameLoop fuel { st with
          acc := rest
          typeList := st.typeList ++ [U2 F 4 &&& 0x1FFF]
          logTypes := if st.logTypes < 5 then st.logTypes + 1 else st.logTypes }).2.1 + 1,
       SbfEvent.block F F.length ::
        (frameLoop fuel { st with
          acc := rest
          typeList := st.typeList ++ [U2 F 4 &&& 0x1FFF]
          logTypes := if st.logTypes < 5 then st.logTypes + 1 else st.logTypes }).2.2) := by
  rw [frameLoop, hacc, takeOneFrame_head F rest h8 hlen]
  simp [hlen, crc_span F, hcrc]

/-- A pass of the loop over a frame with a wrong checksum at the head of the
accumulator skips exactly that frame. -/
theorem frameLoop_bad (fuel : Nat) (st : SBFDecoder) (F rest : List Nat)
    (hacc : st.acc = F ++ rest) (h8 : 8 ≤ F.length) (hlen : U2 F 6 = F.length)
    (hcrc : sbf_checksum (F.drop 4) ≠ U2 F 2) :
    frameLoop (fuel + 1) st =
      ((frameLoop fuel { st with acc := rest }).1,
       (frameLoop fuel { st with acc := rest }).2.1 + 1,
       SbfEvent.crcError (U2 F 4 &&& 0x1FFF) (decide (st.logTypes < 3)) ::
        (frameLoop fuel { st with acc := rest }).2.2) := by
  rw [frameLoop, hacc, takeOneFrame_head F rest h8 hlen]
  simp [hlen, crc_span F, hcrc]

/-- A `Decode` call that leaves the accumulator holding a proper, non-empty part
of a valid frame extracts nothing. -/
theorem Decode_incomplete (st : SBFDecoder) (f S : List Nat) (F : List Nat) (hF : validFrame F)
    (hf : f ≠ []) (hS : S ≠ []) (hP : (st.acc ++ f) ++ S = F) :
    Decode st f = (t_irc.failure, { st with acc := st.acc ++ f }, []) := by
  obtain ⟨_, h8, h0, h1, hlen, _⟩ := hF
  have hfl : f.length ≠ 0 := fun h => hf (List.length_eq_zero.1 h)
  have hnone : takeOneFrame (st.acc ++ f) = none :=
    takeOneFrame_incomplete _ S hS (by rw [hP]; exact hlen)
  unfold Decode
  rw [if_neg hfl]
  by_cases h2 : 2 ≤ (st.acc ++ f).length
  · have hs : trySync (st.acc ++ f) = (true, st.acc ++ f) := by
      apply trySync_of_sync _ h2
      · exact (List.getD_append (st.acc ++ f) S 0 0 (by omega)).symm.trans (by rw [hP]; exact h0)
      · exact (List.getD_append (st.acc ++ f) S 0 1 (by omega)).symm.trans (by rw [hP]; exact h1)
    have hl : ∀ n, frameLoop n { st with acc := st.acc ++ f } =
        ({ st with acc := st.acc ++ f }, 0, []) := fun n => frameLoop_none n _ hnone
    simp [hs, hl]
  · have h1l : (st.acc ++ f).length = 1 := by
      have : 0 < f.length := Nat.pos_of_ne_zero hfl
      simp only [List.length_append] at h2 ⊢
      omega
    obtain ⟨b, hb⟩ := List.length_eq_one.1 h1l
    simp [hb, trySync_single]

/-- The `Decode` call that completes a valid frame hands it on and leaves the
accumulator empty. -/
theorem Decode_complete (st : SBFDecoder) (f F : List Nat) (hF : validFrame F)
    (hf : f ≠ []) (hP : st.acc ++ f = F) :
    Decode st f =
      (t_irc.success,
       { acc := []
         typeList := st.typeList ++ [U2 F 4 &&& 0x1FFF]
         logTypes := if st.logTypes < 5 then st.logTypes + 1 else st.logTypes
         totalFrames := st.totalFrames + 1 },
       [SbfEvent.block F F.length]) := by
  obtain ⟨_, h8, h0, h1, hlen, hcrc⟩ := hF
  have hfl : f.length ≠ 0 := fun h => hf (List.length_eq_zero.1 h)
  have hs : trySync (st.acc ++ f) = (true, F) := by
    rw [hP]; exact trySync_of_sync F (by omega) h0 h1
  obtain ⟨n, hn⟩ : ∃ n, F.length = n + 1 := ⟨F.length - 1, by omega⟩
  unfold Decode
  rw [if_neg hfl]
  simp only [hs, hn]
  rw [frameLoop_good n _ F [] (by simp) h8 hlen hcrc]
  simp [frameLoop_none, takeOneFrame, hasWholeFrame, hn]

theorem DecodeCalls_fragments (F : List Nat) (hF : validFrame F) :
    ∀ (frags : List (List Nat)) (st : SBFDecoder), frags ≠ [] → (∀ f ∈ frags, f ≠ []) →
      st.acc ++ frags.flatten = F →
      (DecodeCalls st frags).1.acc = [] ∧
      (DecodeCalls st frags).2.map (fun r => r.2) =
        List.replicate (frags.length - 1) [] ++ [[SbfEvent.block F F.length]] := by
  intro frags
  induction frags with
  | nil => intro st h; exact absurd rfl h
  | cons f more ih =>
    intro st _ hne hjoin
    have hf : f ≠ [] := hne f (List.mem_cons_self _ _)
    cases more with
    | nil =>
      have hP : st.acc ++ f = F := by simpa using hjoin
      simp [DecodeCalls, Decode_complete st f F hF hf hP]
    | cons g rest =>
      have hg : g ≠ [] := hne g (List.mem_cons_of_mem _ (List.mem_cons_self _ _))
      have hS : (g :: rest).flatten ≠ [] := by
        simp only [List.flatten_cons, ne_eq, List.append_eq_nil, not_and]
        exact fun h => absurd h hg
      have hP : (st.acc ++ f) ++ (g :: rest).flatten = F := by
        rw [← hjoin]
        simp only [List.flatten_cons, List.append_assoc]
      have hD := Decode_incomplete st f _ F hF hf hS hP
      have h := ih { st with acc := st.acc ++ f } (List.cons_ne_nil _ _)
        (fun x hx => hne x (List.mem_cons_of_mem _ hx)) hP
      rw [DecodeCalls, hD]
      refine ⟨h.1, ?_⟩
      simp only [List.map_cons, h.2, List.length_cons, Nat.add_sub_cancel]
      rfl

/-- C1: a valid SBF frame delivered in non-empty fragments, one per `Decode`
call, to a framer with an empty accumulator: every call but the last extracts
nothing, the call that delivers the last byte hands exactly the block `F` to the
B2b decoder, and the accumulator is empty afterwards. -/
theorem framer_fragments_one_block (F : List Nat) (hF : validFrame F)
    (frags : List (List Nat)) (hne : ∀ f ∈ frags, f ≠ []) (hjoin : frags.flatten = F)
    (st : SBFDecoder) (hacc : st.acc = []) :
    (DecodeCalls st frags).1.acc = [] ∧
    (DecodeCalls st frags).2.map (fun r => r.2) =
      List.replicate (frags.length - 1) [] ++ [[SbfEvent.block F F.length]] := by
  have hnil : frags ≠ [] := by
    rintro rfl
    have h8 := hF.2.1
    rw [← hjoin] at h8
    simp at h8
  exact DecodeCalls_fragments F hF frags st hnil hne (by rw [hacc]; simpa using hjoin)

theorem framer_fragments_one_block_witness :
    validFrame [0x24, 0x40, 0xa9, 0x89, 0, 0, 8, 0] ∧
    (∀ f ∈ [[0x24], [0x40, 0xa9, 0x89, 0], [0, 8, 0]], f ≠ []) ∧
    [[0x24], [0x40, 0xa9, 0x89, 0], [0, 8, 0]].flatten = [0x24, 0x40, 0xa9, 0x89, 0, 0, 8, 0] ∧
    SBFDecoder.init.acc = [] ∧
    (DecodeCalls SBFDecoder.init [[0x24], [0x40, 0xa9, 0x89, 0], [0, 8, 0]]).1.acc = [] ∧
    (DecodeCalls SBFDecoder.init [[0x24], [0x40, 0xa9, 0x89, 0], [0, 8, 0]]).2.map (fun r => r.2) =
      List.replicate ([[0x24], [0x40, 0xa9, 0x89, 0], [0, 8, 0]].length - 1) [] ++
        [[SbfEvent.block [0x24, 0x40, 0xa9, 0x89, 0, 0, 8, 0]
          [0x24, 0x40, 0xa9, 0x89, 0, 0, 8, 0].length]] :=
  ⟨by decide, by decide, by decide, rfl,
    framer_fragments_one_block [0x24, 0x40, 0xa9, 0x89, 0, 0, 8, 0] (by decide)
      [[0x24], [0x40, 0xa9, 0x89, 0], [0, 8, 0]] (by decide) (by decide) SBFDecoder.init rfl⟩

/-! Corrupted frames -/

theorem getD_set_ne (l : List Nat) (i j v : Nat) (h : i ≠ j) :
    (l.set i v).getD j 0 = l.getD j 0 := by
  simp [List.getD_eq_getElem?_getD, List.getElem?_set_ne h]

theorem U2_set_ne (l : List Nat) (i off v : Nat) (h1 : i ≠ off) (h2 : i ≠ off + 1) :
    U2 (l.set i v) off = U2 l off := by
  unfold U2
  rw [getD_set_ne l i off v h1, getD_set_ne l i (off + 1) v h2]

theorem isBytes_drop (l : List Nat) (n : Nat) (h : isBytes l) : isBytes (l.drop n) :=
  fun x hx => h x (List.mem_of_mem_drop hx)

/-- Replacing one byte of a buffer by a different byte changes its checksum. -/
theorem sbf_checksum_set (D : List Nat) (hD : isBytes D) (j v : Nat) (hj : j < D.length)
    (hv : v < 256) (hne : v ≠ D.getD j 0) : sbf_checksum (D.set j v) ≠ sbf_checksum D := by
  have hset : D.set j v = D.take j ++ v :: D.drop (j + 1) := by
    rw [List.set_eq_take_append_cons_drop, if_pos hj]
  have hid : D = D.take j ++ D.getD j 0 :: D.drop (j + 1) := by
    rw [List.getD_eq_getElem _ _ hj, ← List.drop_eq_getElem_cons hj, List.take_append_drop]
  have hb : D.getD j 0 < 256 := by
    rw [List.getD_eq_getElem _ _ hj]; exact hD _ (List.getElem_mem _)
  rw [hset]
  conv_rhs => rw [hid]
  exact sbf_checksum_one_byte _ _ _ _ (isBytes_drop D (j + 1) hD) hv hb hne

/-- A valid frame with one byte outside the sync, CRC and length fields replaced
by a different byte: the framing fields are unchanged and the checksum no
longer matches the CRC field. -/
theorem corrupted_frame (F : List Nat) (hF : validFrame F) (i v : Nat)
    (hi : i < F.length) (hr : (4 ≤ i ∧ i < 6) ∨ 8 ≤ i) (hv : v < 256) (hne : v ≠ F.getD i 0) :
    8 ≤ (F.set i v).length ∧ U2 (F.set i v) 6 = (F.set i v).length ∧
      (F.set i v).getD 0 0 = SBF_SYNC1 ∧ (F.set i v).getD 1 0 = SBF_SYNC2 ∧
      sbf_checksum ((F.set i v).drop 4) ≠ U2 (F.set i v) 2 := by
  obtain ⟨hb, h8, h0, h1, hlen, hcrc⟩ := hF
  have h4 : 4 ≤ i := by omega
  refine ⟨by simpa using h8, ?_, ?_, ?_, ?_⟩
  · rw [U2_set_ne F i 6 v (by omega) (by omega), hlen, List.length_set]
  · rw [getD_set_ne F i 0 v (by omega), h0]
  · rw [getD_set_ne F i 1 v (by omega), h1]
  · rw [U2_set_ne F i 2 v (by omega) (by omega), hcrc, List.drop_set,
      if_neg (by omega : ¬ i < 4)]
    apply sbf_checksum_set _ (isBytes_drop F 4 hb) _ _ (by simp; omega) hv
    rw [List.getD_eq_getElem _ _ (by simp; omega), List.getElem_drop]
    rw [List.getD_eq_getElem _ _ hi] at hne
    have : 4 + (i - 4) = i := by omega
    simpa [this] using hne

theorem flipBit_byte (b k : Nat) (hb : b < 256) (hk : k < 8) :
    b ^^^ 2 ^ k < 256 ∧ b ^^^ 2 ^ k ≠ b := by
  constructor
  · have h2 : 2 ^ k < 2 ^ 8 := Nat.pow_lt_pow_right (by norm_num) hk
    exact Nat.xor_lt_two_pow (n := 8) (by simpa using hb) h2
  · intro h
    have h0 : b ^^^ 2 ^ k = b ^^^ 0 := by simpa using h
    have := Nat.xor_right_inj.1 h0
    exact absurd this (Nat.pos_iff_ne_zero.1 (Nat.two_pow_pos k))

/-- A `Decode` call, from an empty accumulator, on a frame with a wrong checksum
followed by a valid frame. -/
theorem Decode_bad_good (st : SBFDecoder) (hacc : st.acc = []) (G F2 : List Nat)
    (h8 : 8 ≤ G.length) (hlen : U2 G 6 = G.length) (h0 : G.getD 0 0 = SBF_SYNC1)
    (h1 : G.getD 1 0 = SBF_SYNC2) (hcrc : sbf_checksum (G.drop 4) ≠ U2 G 2)
    (hF2 : validFrame F2) :
    Decode st (G ++ F2) =
      (t_irc.success,
       { acc := []
         logTypes := if st.logTypes < 5 then st.logTypes + 1 else st.logTypes
         typeList := st.typeList ++ [U2 F2 4 &&& 0x1FFF]
         totalFrames := st.totalFrames + 2 },
       [SbfEvent.crcError (U2 G 4 &&& 0x1FFF) (decide (st.logTypes < 3)),
        SbfEvent.block F2 F2.length]) := by
  obtain ⟨_, g8, _, _, glen, gcrc⟩ := hF2
  have hl : (G ++ F2).length ≠ 0 := by simp only [List.length_append]; omega
  have hs : trySync (G ++ F2) = (true, G ++ F2) :=
    trySync_of_sync _ (by simp only [List.length_append]; omega)
      (by rw [List.getD_append _ _ _ _ (by omega), h0])
      (by rw [List.getD_append _ _ _ _ (by omega), h1])
  obtain ⟨n, hn⟩ : ∃ n, (G ++ F2).length = n + 2 :=
    ⟨(G ++ F2).length - 2, by simp only [List.length_append]; omega⟩
  unfold Decode
  rw [if_neg hl, hacc, List.nil_append]
  simp only [hs, hn]
  rw [frameLoop_bad (n + 1) _ G F2 rfl h8 hlen hcrc,
    frameLoop_good n _ F2 [] (by simp) g8 glen gcrc]
  simp [frameLoop_none, takeOneFrame, hasWholeFrame]

/-- A `Decode` call, from an empty accumulator, on a single frame with a wrong
checksum. -/
theorem Decode_bad (st : SBFDecoder) (hacc : st.acc = []) (G : List Nat)
    (h8 : 8 ≤ G.length) (hlen : U2 G 6 = G.length) (h0 : G.getD 0 0 = SBF_SYNC1)
    (h1 : G.getD 1 0 = SBF_SYNC2) (hcrc : sbf_checksum (G.drop 4) ≠ U2 G 2) :
    Decode st G =
      (t_irc.success, { st with acc := [], totalFrames := st.totalFrames + 1 },
       [SbfEvent.crcError (U2 G 4 &&& 0x1FFF) (decide (st.logTypes < 3))]) := by
  have hl : G.length ≠ 0 := by omega
  have hs : trySync G = (true, G) := trySync_of_sync _ (by omega) h0 h1
  obtain ⟨n, hn⟩ : ∃ n, G.length = n + 1 := ⟨G.length - 1, by omega⟩
  unfold Decode
  rw [if_neg hl, hacc, List.nil_append]
  simp only [hs, hn]
  rw [frameLoop_bad n _ G [] (by simp) h8 hlen hcrc]
  simp [frameLoop_none, takeOneFrame, hasWholeFrame]

/-- C3 (as amended): a valid SBF frame with one bit inverted in bytes 4..5 or
8..len-1 (the length field at offsets 6..7 left intact), fed to a framer with an
empty accumulator, yields no validated block and exactly one CRC-error event;
the event is logged while `_logTypes < 3`. -/
theorem bit_flip_outside_length_rejected (F : List Nat) (hF : validFrame F) (i k : Nat)
    (hi : i < F.length) (hr : (4 ≤ i ∧ i < 6) ∨ 8 ≤ i) (hk : k < 8)
    (st : SBFDecoder) (hacc : st.acc = []) :
    blocksOf (Decode st (flipBit F i k)).2.2 = [] ∧
    crcErrorsOf (Decode st (flipBit F i k)).2.2 = 1 ∧
    (Decode st (flipBit F i k)).2.2 =
      [SbfEvent.crcError (U2 (flipBit F i k) 4 &&& 0x1FFF) (decide (st.logTypes < 3))] ∧
    (Decode st (flipBit F i k)).2.1.acc = [] := by
  have hb : F.getD i 0 < 256 := by
    rw [List.getD_eq_getElem _ _ hi]; exact hF.1 _ (List.getElem_mem _)
  obtain ⟨hv, hne⟩ := flipBit_byte _ k hb hk
  obtain ⟨h8, hlen, h0, h1, hcrc⟩ := corrupted_frame F hF i _ hi hr hv hne
  unfold flipBit
  rw [Decode_bad st hacc _ h8 hlen h0 h1 hcrc]
  simp [blocksOf, crcErrorsOf]

theorem bit_flip_outside_length_rejected_witness :
    validFrame [0x24, 0x40, 0xa9, 0x89, 0, 0, 8, 0] ∧
    4 < [0x24, 0x40, 0xa9, 0x89, 0, 0, 8, 0].length ∧ ((4 ≤ 4 ∧ 4 < 6) ∨ 8 ≤ 4) ∧ 7 < 8 ∧
    SBFDecoder.init.acc = [] ∧
    blocksOf (Decode SBFDecoder.init (flipBit [0x24, 0x40, 0xa9, 0x89, 0, 0, 8, 0] 4 7)).2.2 = [] ∧
    crcErrorsOf (Decode SBFDecoder.init (flipBit [0x24, 0x40, 0xa9, 0x89, 0, 0, 8, 0] 4 7)).2.2 = 1 ∧
    (Decode SBFDecoder.init (flipBit [0x24, 0x40, 0xa9, 0x89, 0, 0, 8, 0] 4 7)).2.2 =
      [SbfEvent.crcError (U2 (flipBit [0x24, 0x40, 0xa9, 0x89, 0, 0, 8, 0] 4 7) 4 &&& 0x1FFF)
        (decide (SBFDecoder.init.logTypes < 3))] ∧
    (Decode SBFDecoder.init (flipBit [0x24, 0x40, 0xa9, 0x89, 0, 0, 8, 0] 4 7)).2.1.acc = [] :=
  ⟨by decide, by decide, by decide, by decide, rfl,
    bit_flip_outside_length_rejected [0x24, 0x40, 0xa9, 0x89, 0, 0, 8, 0] (by decide) 4 7
      (by decide) (by decide) (by decide) SBFDecoder.init rfl⟩

/-- C3 (as stated) fails: inverting the lowest bit of the length field of the
valid 8-byte frame raises the declared length to 9, so the framer waits for
more bytes: no block and no CRC-error event. -/
theorem bit_flip_in_length_field_no_crc_error :
    validFrame [0x24, 0x40, 0xa9, 0x89, 0, 0, 8, 0] ∧
    flipBit [0x24, 0x40, 0xa9, 0x89, 0, 0, 8, 0] 6 0 = [0x24, 0x40, 0xa9, 0x89, 0, 0, 9, 0] ∧
    Decode SBFDecoder.init (flipBit [0x24, 0x40, 0xa9, 0x89, 0, 0, 8, 0] 6 0) =
      (t_irc.failure, { SBFDecoder.init with acc := [0x24, 0x40, 0xa9, 0x89, 0, 0, 9, 0] }, []) ∧
    crcErrorsOf (Decode SBFDecoder.init (flipBit [0x24, 0x40, 0xa9, 0x89, 0, 0, 8, 0] 6 0)).2.2
      ≠ 1 := by
  decide

/-- C4: a valid frame `F1` with one payload byte (index 8..len1-1) replaced by a
different byte, followed by a valid frame `F2`, in one `Decode` call from an
empty accumulator: exactly one CRC-error event, for the corrupted frame, which
takes exactly its `len1` bytes off the accumulator, then `F2` is handed
unchanged to the B2b decoder. -/
theorem corrupt_payload_then_next_frame (F1 F2 : List Nat) (hF1 : validFrame F1)
    (hF2 : validFrame F2) (i v : Nat) (hi8 : 8 ≤ i) (hi : i < F1.length) (hv : v < 256)
    (hne : v ≠ F1.getD i 0) (st : SBFDecoder) (hacc : st.acc = []) :
    (Decode st (F1.set i v ++ F2)).2.2 =
      [SbfEvent.crcError (U2 F1 4 &&& 0x1FFF) (decide (st.logTypes < 3)),
       SbfEvent.block F2 F2.length] ∧
    takeOneFrame (F1.set i v ++ F2) = some (F1.set i v, F2) ∧
    (F1.set i v).length = F1.length ∧
    (Decode st (F1.set i v ++ F2)).2.1.acc = [] ∧
    (Decode st (F1.set i v ++ F2)).1 = t_irc.success := by
  obtain ⟨h8, hlen, h0, h1, hcrc⟩ := corrupted_frame F1 hF1 i v hi (Or.inr hi8) hv hne
  rw [Decode_bad_good st hacc _ F2 h8 hlen h0 h1 hcrc hF2,
    U2_set_ne F1 i 4 v (by omega) (by omega)]
  exact ⟨rfl, takeOneFrame_head _ _ h8 hlen, List.length_set _ _ _, rfl, rfl⟩

theorem corrupt_payload_then_next_frame_witness :
    validFrame [0x24, 0x40, 0x91, 0x9e, 0, 0, 9, 0, 0] ∧
    validFrame [0x24, 0x40, 0xa9, 0x89, 0, 0, 8, 0] ∧
    8 ≤ 8 ∧ 8 < [0x24, 0x40, 0x91, 0x9e, 0, 0, 9, 0, 0].length ∧ 5 < 256 ∧
    5 ≠ [0x24, 0x40, 0x91, 0x9e, 0, 0, 9, 0, 0].getD 8 0 ∧ SBFDecoder.init.acc = [] ∧
    (Decode SBFDecoder.init
        ([0x24, 0x40, 0x91, 0x9e, 0, 0, 9, 0, 0].set 8 5 ++ [0x24, 0x40, 0xa9, 0x89, 0, 0, 8, 0])).2.2 =
      [SbfEvent.crcError (U2 [0x24, 0x40, 0x91, 0x9e, 0, 0, 9, 0, 0] 4 &&& 0x1FFF)
         (decide (SBFDecoder.init.logTypes < 3)),
       SbfEvent.block [0x24, 0x40, 0xa9, 0x89, 0, 0, 8, 0]
         [0x24, 0x40, 0xa9, 0x89, 0, 0, 8, 0].length] ∧
    takeOneFrame ([0x24, 0x40, 0x91, 0x9e, 0, 0, 9, 0, 0].set 8 5 ++
        [0x24, 0x40, 0xa9, 0x89, 0, 0, 8, 0]) =
      some ([0x24, 0x40, 0x91, 0x9e, 0, 0, 9, 0, 0].set 8 5, [0x24, 0x40, 0xa9, 0x89, 0, 0, 8, 0]) ∧
    ([0x24, 0x40, 0x91, 0x9e, 0, 0, 9, 0, 0].set 8 5).length =
      [0x24, 0x40, 0x91, 0x9e, 0, 0, 9, 0, 0].length ∧
    (Decode SBFDecoder.init
        ([0x24, 0x40, 0x91, 0x9e, 0, 0, 9, 0, 0].set 8 5 ++
          [0x24, 0x40, 0xa9, 0x89, 0, 0, 8, 0])).2.1.acc = [] ∧
    (Decode SBFDecoder.init
        ([0x24, 0x40, 0x91, 0x9e, 0, 0, 9, 0, 0].set 8 5 ++
          [0x24, 0x40, 0xa9, 0x89, 0, 0, 8, 0])).1 = t_irc.success :=
  ⟨by decide, by decide, by decide, by decide, by decide, by decide, rfl,
    corrupt_payload_then_next_frame [0x24, 0x40, 0x91, 0x9e, 0, 0, 9, 0, 0]
      [0x24, 0x40, 0xa9, 0x89, 0, 0, 8, 0] (by decide) (by decide) 8 5 (by decide) (by decide)
      (by decide) (by decide) SBFDecoder.init rfl⟩

/-! The loop bound is never reached -/

theorem takeOneFrame_shorter (acc frame rest : List Nat)
    (h : takeOneFrame acc = some (frame, rest)) : rest.length < acc.length := by
  unfold takeOneFrame hasWholeFrame at h
  by_cases h8 : acc.length < 8
  · simp [h8] at h
  · by_cases h0 : U2 acc 6 = 0
    · simp [h8, h0] at h
    · by_cases hl : acc.length ≥ U2 acc 6
      · simp [h8, h0, hl] at h
        rw [← h.2, List.length_drop]
        omega
      · simp [h8, h0, hl] at h

theorem frameLoop_succ (fuel : Nat) (st : SBFDecoder) (frame rest : List Nat)
    (h : takeOneFrame st.acc = some (frame, rest)) :
    frameLoop (fuel + 1) st =
      if sbf_checksum ((frame.drop 4).take (U2 frame 6 - 4)) ≠ U2 frame 2 then
        ((frameLoop fuel { st with acc := rest }).1,
         (frameLoop fuel { st with acc := rest }).2.1 + 1,
         SbfEvent.crcError (U2 frame 4 &&& 0x1FFF) (decide (st.logTypes < 3)) ::
          (frameLoop fuel { st with acc := rest }).2.2)
      else
        ((frameLoop fuel { st with
            acc := rest
            typeList := st.typeList ++ [U2 frame 4 &&& 0x1FFF]
            logTypes := if st.logTypes < 5 then st.logTypes + 1 else st.logTypes }).1,
         (frameLoop fuel { st with
            acc := rest
            typeList := st.typeList ++ [U2 frame 4 &&& 0x1FFF]
            logTypes := if st.logTypes < 5 then st.logTypes + 1 else st.logTypes }).2.1 + 1,
         SbfEvent.block frame (U2 frame 6) ::
          (frameLoop fuel { st with
            acc := rest
            typeList := st.typeList ++ [U2 frame 4 &&& 0x1FFF]
            logTypes := if st.logTypes < 5 then st.logTypes + 1 else st.logTypes }).2.2) := by
  rw [frameLoop, h]

/-- More passes than the accumulator has bytes change nothing: the loop of
`Decode` always ends by `takeOneFrame` failing. -/
theorem frameLoop_fuel (fuel : Nat) :
    ∀ st : SBFDecoder, st.acc.length ≤ fuel → frameLoop (fuel + 1) st = frameLoop fuel st := by
  induction fuel with
  | zero =>
    intro st h
    have : takeOneFrame st.acc = none := takeOneFrame_short _ (by omega)
    rw [frameLoop_none _ _ this, frameLoop_none _ _ this]
  | succ n ih =>
    intro st h
    cases hto : takeOneFrame st.acc with
    | none => rw [frameLoop_none _ _ hto, frameLoop_none _ _ hto]
    | some p =>
      obtain ⟨frame, rest⟩ := p
      have hr : rest.length ≤ n := by
        have := takeOneFrame_shorter _ _ _ hto
        omega
      rw [frameLoop_succ (n + 1) st frame rest hto, frameLoop_succ n st frame rest hto,
        ih _ hr, ih _ hr]

theorem frameLoop_count (fuel : Nat) :
    ∀ st : SBFDecoder, (frameLoop fuel st).2.1 = (frameLoop fuel st).2.2.length := by
  induction fuel with
  | zero => intro st; rfl
  | succ n ih =>
    intro st
    cases hto : takeOneFrame st.acc with
    | none => rw [frameLoop_none _ _ hto]; rfl
    | some p =>
      obtain ⟨frame, rest⟩ := p
      rw [frameLoop_succ n st frame rest hto]
      split
      · simp [ih]
      · simp [ih]

/-! Settled properties of the framer -/

theorem lookup_length : CRC_16CCIT_LookUp.length = 256 := by
  set_option maxRecDepth 20000 in decide

/-- C5: on every byte sequence the table-driven `sbf_checksum` is the bit-by-bit
CRC-16 with polynomial 0x1021, initial value 0, most significant bit first,
no reflection and no final XOR; the table has 256 entries and entry `i` is
that CRC of the single byte `i`. -/
theorem sbf_checksum_eq_crc16_bitwise (buff : List Nat) (hb : isBytes buff) :
    sbf_checksum buff = crc16_bitwise buff ∧
    CRC_16CCIT_LookUp.length = 256 ∧
    ∀ i, i < 256 → CRC_16CCIT_LookUp.getD i 0 = crc16_bitwise [i] := by
  refine ⟨foldl_step_eq buff 0 (by norm_num) hb, lookup_length, ?_⟩
  intro i hi
  rw [lookup_eq_shift8 i hi]
  simp [crc16_bitwise, crc16_bitwise_byte]

theorem sbf_checksum_eq_crc16_bitwise_witness :
    isBytes [0x00, 0x12, 0x08, 0xff] ∧
    sbf_checksum [0x00, 0x12, 0x08, 0xff] = crc16_bitwise [0x00, 0x12, 0x08, 0xff] ∧
    CRC_16CCIT_LookUp.length = 256 ∧
    CRC_16CCIT_LookUp.getD 1 0 = crc16_bitwise [1] :=
  ⟨by decide, (sbf_checksum_eq_crc16_bitwise [0x00, 0x12, 0x08, 0xff] (by decide)).1,
    (sbf_checksum_eq_crc16_bitwise [0x00, 0x12, 0x08, 0xff] (by decide)).2.1,
    (sbf_checksum_eq_crc16_bitwise [0x00, 0x12, 0x08, 0xff] (by decide)).2.2 1 (by decide)⟩

/-- C2 (the code at the failing input): two valid frames with eight garbage
bytes between them, none of them a sync pair, in one `Decode` call from the
fresh decoder.  After the first frame the loop does not look for the sync pair
again: it reads the garbage as a header of declared length 9, takes the garbage
and the first byte of the second frame as a frame, and the second frame is never
handed on; what is left of it stays in the accumulator without its first byte. -/
theorem garbage_between_frames_consumes_next_frame :
    validFrame [0x24, 0x40, 0xa9, 0x89, 0, 0, 8, 0] ∧
    validFrame [0x24, 0x40, 0x1d, 0xff, 1, 0, 8, 0] ∧
    hasSyncPair [0, 0, 0, 0, 0, 0, 9, 0] = false ∧
    Decode SBFDecoder.init
        ([0x24, 0x40, 0xa9, 0x89, 0, 0, 8, 0] ++ [0, 0, 0, 0, 0, 0, 9, 0] ++
          [0x24, 0x40, 0x1d, 0xff, 1, 0, 8, 0]) =
      (t_irc.success,
       { acc := [0x40, 0x1d, 0xff, 1, 0, 8, 0], logTypes := 1, typeList := [0], totalFrames := 2 },
       [SbfEvent.block [0x24, 0x40, 0xa9, 0x89, 0, 0, 8, 0] 8, SbfEvent.crcError 0 true]) ∧
    blocksOf (Decode SBFDecoder.init
        ([0x24, 0x40, 0xa9, 0x89, 0, 0, 8, 0] ++ [0, 0, 0, 0, 0, 0, 9, 0] ++
          [0x24, 0x40, 0x1d, 0xff, 1, 0, 8, 0])).2.2 = [[0x24, 0x40, 0xa9, 0x89, 0, 0, 8, 0]] := by
  decide

theorem Decode_stalled (st : SBFDecoder) (c0 c1 t0 t1 : Nat) (tail buffer : List Nat) :
    Decode { st with acc := SBF_SYNC1 :: SBF_SYNC2 :: c0 :: c1 :: t0 :: t1 :: 0 :: 0 :: tail }
        buffer =
      (t_irc.failure,
       { st with
          acc := SBF_SYNC1 :: SBF_SYNC2 :: c0 :: c1 :: t0 :: t1 :: 0 :: 0 :: (tail ++ buffer) },
       []) := by
  unfold Decode
  by_cases hb : buffer.length = 0
  · have : buffer = [] := List.length_eq_zero.1 hb
    simp [this]
  · rw [if_neg hb]
    have hs : trySync (SBF_SYNC1 :: SBF_SYNC2 :: c0 :: c1 :: t0 :: t1 :: 0 :: 0 :: tail ++ buffer)
        = (true, SBF_SYNC1 :: SBF_SYNC2 :: c0 :: c1 :: t0 :: t1 :: 0 :: 0 :: (tail ++ buffer)) :=
      trySync_head _
    have hn : ∀ n, frameLoop n
        { st with
          acc := SBF_SYNC1 :: SBF_SYNC2 :: c0 :: c1 :: t0 :: t1 :: 0 :: 0 :: (tail ++ buffer) } =
        ({ st with
          acc := SBF_SYNC1 :: SBF_SYNC2 :: c0 :: c1 :: t0 :: t1 :: 0 :: 0 :: (tail ++ buffer) },
          0, []) :=
      fun n => frameLoop_none n _ (by simp [takeOneFrame, hasWholeFrame, U2])
    simp only [hs, hn]
    simp

/-- C6 (the code at the failing inputs): once the accumulator starts with a
header that has the sync pair and a length field of 0, every later `Decode`
call, whatever it delivers, returns failure and extracts nothing, and the
accumulator only grows: no frame fed afterwards is ever handed on. -/
theorem zero_length_header_never_recovers (st : SBFDecoder) (c0 c1 t0 t1 : Nat)
    (calls : List (List Nat)) : ∀ tail : List Nat,
    (DecodeCalls
        { st with acc := SBF_SYNC1 :: SBF_SYNC2 :: c0 :: c1 :: t0 :: t1 :: 0 :: 0 :: tail }
        calls).2 = List.replicate calls.length (t_irc.failure, []) ∧
    (DecodeCalls
        { st with acc := SBF_SYNC1 :: SBF_SYNC2 :: c0 :: c1 :: t0 :: t1 :: 0 :: 0 :: tail }
        calls).1.acc =
      SBF_SYNC1 :: SBF_SYNC2 :: c0 :: c1 :: t0 :: t1 :: 0 :: 0 :: (tail ++ calls.flatten) := by
  induction calls with
  | nil => intro tail; simp [DecodeCalls]
  | cons b more ih =>
    intro tail
    have h := ih (tail ++ b)
    rw [DecodeCalls, Decode_stalled]
    simp only [List.flatten_cons, List.length_cons, List.replicate_succ]
    rw [← List.append_assoc]
    exact ⟨by rw [h.1], h.2⟩

/-- C7 (as stated) fails: a call whose only extracted frame fails its CRC
returns success although no CRC-validated block was extracted. -/
theorem success_without_validated_block :
    (Decode SBFDecoder.init [0x24, 0x40, 0, 0, 0, 0, 8, 0]).1 = t_irc.success ∧
    blocksOf (Decode SBFDecoder.init [0x24, 0x40, 0, 0, 0, 0, 8, 0]).2.2 = [] ∧
    (Decode SBFDecoder.init [0x24, 0x40, 0, 0, 0, 0, 8, 0]).2.2 = [SbfEvent.crcError 0 true] := by
  decide

/-- C7 (as amended): `Decode` returns success exactly when at least one frame was
extracted during the call, whether or not its CRC matched. -/
theorem Decode_success_iff_frame_extracted (st : SBFDecoder) (buffer : List Nat) :
    (Decode st buffer).1 = t_irc.success ↔ (Decode st buffer).2.2 ≠ [] := by
  unfold Decode
  by_cases hb : buffer.length = 0
  · simp [hb]
  · rw [if_neg hb]
    by_cases hs : (trySync (st.acc ++ buffer)).1 = false
    · simp [hs]
    · simp only [hs, if_false]
      rw [frameLoop_count]
      cases (frameLoop (trySync (st.acc ++ buffer)).2.length
        { st with acc := (trySync (st.acc ++ buffer)).2 }).2.2 with
      | nil => simp
      | cons e es => simp

/-! SVID mapping and the page gate -/

theorem svid2prn_table_low : ∀ svid < 246,
    PPPB2bDecoder.svid2prn svid =
      (svidTable svid).text svid (if 198 ≤ svid ∧ svid ≤ 215 then 3 else 2) := by
  set_option maxRecDepth 100000 in decide

theorem svidTable_unknown_low : ∀ svid < 246,
    svidTable svid = SvidEntry.unknown ↔
      svid = 0 ∨ (69 ≤ svid ∧ svid ≤ 70) ∨ (107 ≤ svid ∧ svid ≤ 119) ∨ 246 ≤ svid := by
  set_option maxRecDepth 100000 in decide

/-- Above 245 an SVID lies in none of the ranges of the table. -/
theorem above_table (svid : Nat) (h : 246 ≤ svid) :
    ¬ (1 ≤ svid ∧ svid ≤ 37) ∧ ¬ (38 ≤ svid ∧ svid ≤ 61) ∧ ¬ svid = 62 ∧
    ¬ (63 ≤ svid ∧ svid ≤ 68) ∧ ¬ (71 ≤ svid ∧ svid ≤ 106) ∧ ¬ (120 ≤ svid ∧ svid ≤ 140) ∧
    ¬ (141 ≤ svid ∧ svid ≤ 180) ∧ ¬ (181 ≤ svid ∧ svid ≤ 190) ∧ ¬ (191 ≤ svid ∧ svid ≤ 197) ∧
    ¬ (198 ≤ svid ∧ svid ≤ 215) ∧ ¬ (216 ≤ svid ∧ svid ≤ 222) ∧ ¬ (223 ≤ svid ∧ svid ≤ 245) := by
  omega

theorem svid2prn_high (svid : Nat) (h : 246 ≤ svid) :
    PPPB2bDecoder.svid2prn svid = ['U', 'N', 'K', '_'] ++ qarg svid 0 10 := by
  obtain ⟨g, r1, r62, r2, e, s1, c1, j, i1, s2, i2, c2⟩ := above_table svid h
  unfold PPPB2bDecoder.svid2prn
  rw [if_neg g, if_neg r1, if_neg r62, if_neg r2, if_neg e, if_neg s1, if_neg c1, if_neg j,
    if_neg i1, if_neg s2, if_neg i2, if_neg c2]

theorem svidTable_high (svid : Nat) (h : 246 ≤ svid) : svidTable svid = SvidEntry.unknown := by
  obtain ⟨g, r1, r62, r2, e, s1, c1, j, i1, s2, i2, c2⟩ := above_table svid h
  unfold svidTable
  rw [if_neg g, if_neg r1, if_neg r62, if_neg r2, if_neg e, if_neg s1, if_neg c1, if_neg j,
    if_neg i1, if_neg s2, if_neg i2, if_neg c2]

/-- C9: for every SVID both copies of `svid2prn` return the text of the entry
that the SVID table of the specification gives: the constellation letter and the
number (two decimal digits, three in the range 198..215), "R??" for 62, and the
unknown marker for every other value; the two copies agree everywhere. -/
theorem svid2prn_follows_table (svid : Nat) :
    PPPB2bDecoder.svid2prn svid =
      (svidTable svid).text svid (if 198 ≤ svid ∧ svid ≤ 215 then 3 else 2) ∧
    (svidTable svid = SvidEntry.unknown ↔
      svid = 0 ∨ (69 ≤ svid ∧ svid ≤ 70) ∨ (107 ≤ svid ∧ svid ≤ 119) ∨ 246 ≤ svid) ∧
    SBFDecoder.svid2prn svid = PPPB2bDecoder.svid2prn svid := by
  by_cases h : svid < 246
  · exact ⟨svid2prn_table_low svid h, svidTable_unknown_low svid h, rfl⟩
  · refine ⟨?_, ?_, rfl⟩
    · rw [svid2prn_high svid (by omega), svidTable_high svid (by omega)]
      rfl
    · rw [svidTable_high svid (by omega)]
      exact ⟨fun _ => Or.inr (Or.inr (Or.inr (by omega))), fun _ => rfl⟩

theorem svid2prn_C59_byte :
    ∀ svid < 256, PPPB2bDecoder.svid2prn svid = ['C', '5', '9'] ↔ svid = 241 := by
  set_option maxRecDepth 100000 in decide

/-- Only SVID 241 is given the PRN text "C59". -/
theorem svid2prn_C59_iff (svid : Nat) :
    PPPB2bDecoder.svid2prn svid = ['C', '5', '9'] ↔ svid = 241 := by
  by_cases h : svid < 256
  · exact svid2prn_C59_byte svid h
  · constructor
    · intro hs
      rw [svid2prn_high svid (by omega)] at hs
      simp at hs
    · intro hs; omega

theorem decode_b2b_payload_other {σ : Type} (decodePage : σ → QString → Nat → Nat → σ)
    (st : σ) (payload : List Nat) (hlen : 12 ≤ payload.length)
    (hs : PPPB2bDecoder.svid2prn (payload.getD 6 0) ≠ ['C', '5', '9']) :
    PPPB2bDecoder.decode_b2b_payload decodePage st payload = (1, st, []) := by
  unfold PPPB2bDecoder.decode_b2b_payload
  rw [if_neg (by omega)]
  simp only []
  rw [if_neg hs]

theorem decode_b2b_payload_idle {σ : Type} (decodePage : σ → QString → Nat → Nat → σ)
    (st : σ) (payload : List Nat) (hlen : 136 ≤ payload.length)
    (hs : PPPB2bDecoder.svid2prn (payload.getD 6 0) = ['C', '5', '9'])
    (hi : startsWithCI (navHexOf payload) ['E', 'C', '0', 'F', 'C'] = true) :
    PPPB2bDecoder.decode_b2b_payload decodePage st payload =
      (1, st,
       [B2bEvent.headLog (U4 payload 0 / 1000) (U2 payload 4) ['C', '5', '9']
          (payload.getD 7 0) (payload.getD 9 0) (payload.getD 11 0),
        B2bEvent.skipLog]) := by
  unfold PPPB2bDecoder.decode_b2b_payload
  rw [if_neg (by omega)]
  simp only []
  rw [if_pos hs, if_pos (by omega), if_pos hi, hs]

theorem decode_b2b_payload_page {σ : Type} (decodePage : σ → QString → Nat → Nat → σ)
    (st : σ) (payload : List Nat) (hlen : 136 ≤ payload.length)
    (hs : PPPB2bDecoder.svid2prn (payload.getD 6 0) = ['C', '5', '9'])
    (hi : startsWithCI (navHexOf payload) ['E', 'C', '0', 'F', 'C'] = false) :
    PPPB2bDecoder.decode_b2b_payload decodePage st payload =
      (1, decodePage st (navHexOf payload) (U2 payload 4) (U4 payload 0 / 1000),
       [B2bEvent.headLog (U4 payload 0 / 1000) (U2 payload 4) ['C', '5', '9']
          (payload.getD 7 0) (payload.getD 9 0) (payload.getD 11 0),
        B2bEvent.ldpc (navHexOf payload) (U2 payload 4) (U4 payload 0 / 1000)]) := by
  unfold PPPB2bDecoder.decode_b2b_payload
  rw [if_neg (by omega)]
  simp only []
  rw [if_pos hs, if_pos (by omega), if_neg (by rw [hi]; exact Bool.false_ne_true), hs]

/-- C8 (as stated) fails: SVID 199 maps to "S042", not to "C59"; a 136-byte page
with SVID 199 is discarded, and a page with SVID 241 is the one that goes on to
LDPC decoding. -/
theorem svid_199_discarded_svid_241_processed :
    PPPB2bDecoder.svid2prn 199 = ['S', '0', '4', '2'] ∧
    PPPB2bDecoder.svid2prn 241 = ['C', '5', '9'] ∧
    (testPayload 199 0 0 0 0).length = 136 ∧
    PPPB2bDecoder.decode_b2b_payload (fun (s : Nat) _ _ _ => s + 1) 0 (testPayload 199 0 0 0 0) =
      (1, 0, []) ∧
    ldpcCalled (PPPB2bDecoder.decode_b2b_payload (fun (s : Nat) _ _ _ => s + 1) 0
      (testPayload 241 0 0 0 0)).2.2 = true := by
  set_option maxRecDepth 100000 in decide

/-- C8 (as amended): for a payload of at least 136 bytes the page goes on to LDPC
decoding exactly when the SVID byte at offset 6 is 241, the SVID that maps to
"C59", and the NAVBits text does not begin with "EC0FC"; for every other SVID
the page is discarded with the state unchanged and nothing logged. -/
theorem page_processed_iff_svid_241 {σ : Type} (decodePage : σ → QString → Nat → Nat → σ)
    (st : σ) (payload : List Nat) (hlen : 136 ≤ payload.length) :
    (ldpcCalled (PPPB2bDecoder.decode_b2b_payload decodePage st payload).2.2 = true ↔
      payload.getD 6 0 = 241 ∧
        startsWithCI (navHexOf payload) ['E', 'C', '0', 'F', 'C'] = false) ∧
    (payload.getD 6 0 ≠ 241 →
      PPPB2bDecoder.decode_b2b_payload decodePage st payload = (1, st, [])) := by
  by_cases hs : payload.getD 6 0 = 241
  · have hC := (svid2prn_C59_iff _).2 hs
    refine ⟨?_, fun h => absurd hs h⟩
    cases hi : startsWithCI (navHexOf payload) ['E', 'C', '0', 'F', 'C'] with
    | true =>
      rw [decode_b2b_payload_idle decodePage st payload hlen hC hi]
      exact ⟨fun h => absurd h (by simp [ldpcCalled]), fun h => absurd h.2 (by simp)⟩
    | false =>
      rw [decode_b2b_payload_page decodePage st payload hlen hC hi]
      exact ⟨fun _ => ⟨hs, rfl⟩, fun _ => rfl⟩
  · have hC : PPPB2bDecoder.svid2prn (payload.getD 6 0) ≠ ['C', '5', '9'] :=
      fun h => hs ((svid2prn_C59_iff _).1 h)
    have hd := decode_b2b_payload_other decodePage st payload (by omega) hC
    refine ⟨?_, fun _ => hd⟩
    rw [hd]
    exact ⟨fun h => absurd h (by simp [ldpcCalled]), fun h => absurd h.1 hs⟩

theorem page_processed_iff_svid_241_witness :
    136 ≤ (testPayload 241 1 2 3 4).length ∧
    (ldpcCalled (PPPB2bDecoder.decode_b2b_payload (fun (s : Nat) _ _ _ => s + 1) 0
        (testPayload 241 1 2 3 4)).2.2 = true ↔
      (testPayload 241 1 2 3 4).getD 6 0 = 241 ∧
        startsWithCI (navHexOf (testPayload 241 1 2 3 4)) ['E', 'C', '0', 'F', 'C'] = false) :=
  ⟨by set_option maxRecDepth 100000 in decide,
    (page_processed_iff_svid_241 (fun (s : Nat) _ _ _ => s + 1) 0 (testPayload 241 1 2 3 4)
      (by set_option maxRecDepth 100000 in decide)).1⟩

/-- C10 (as amended): a C59 page with its 124 NAVBits bytes present is dropped
before LDPC decoding, with the decoder state (tables, pending buffers, last
page time) unchanged, exactly when the text `navHex` built by the code begins
with "EC0FC" (in either case): the text of the 31 words, each loaded with `U4`,
a host-order (little-endian) load, and written as 8 hexadecimal digits, most
significant digit first.  Otherwise the page goes to the LDPC decoder with that
text. -/
theorem idle_page_dropped_iff_EC0FC {σ : Type} (decodePage : σ → QString → Nat → Nat → σ)
    (st : σ) (payload : List Nat) (hlen : 136 ≤ payload.length)
    (hC59 : PPPB2bDecoder.svid2prn (payload.getD 6 0) = ['C', '5', '9']) :
    (ldpcCalled (PPPB2bDecoder.decode_b2b_payload decodePage st payload).2.2 = false ↔
      startsWithCI (navHexOf payload) ['E', 'C', '0', 'F', 'C'] = true) ∧
    (startsWithCI (navHexOf payload) ['E', 'C', '0', 'F', 'C'] = true →
      PPPB2bDecoder.decode_b2b_payload decodePage st payload =
        (1, st,
         [B2bEvent.headLog (U4 payload 0 / 1000) (U2 payload 4) ['C', '5', '9']
            (payload.getD 7 0) (payload.getD 9 0) (payload.getD 11 0),
          B2bEvent.skipLog])) ∧
    (startsWithCI (navHexOf payload) ['E', 'C', '0', 'F', 'C'] = false →
      PPPB2bDecoder.decode_b2b_payload decodePage st payload =
        (1, decodePage st (navHexOf payload) (U2 payload 4) (U4 payload 0 / 1000),
         [B2bEvent.headLog (U4 payload 0 / 1000) (U2 payload 4) ['C', '5', '9']
            (payload.getD 7 0) (payload.getD 9 0) (payload.getD 11 0),
          B2bEvent.ldpc (navHexOf payload) (U2 payload 4) (U4 payload 0 / 1000)])) := by
  refine ⟨?_, decode_b2b_payload_idle decodePage st payload hlen hC59,
    decode_b2b_payload_page decodePage st payload hlen hC59⟩
  cases hi : startsWithCI (navHexOf payload) ['E', 'C', '0', 'F', 'C'] with
  | true =>
    rw [decode_b2b_payload_idle decodePage st payload hlen hC59 hi]
    exact ⟨fun _ => rfl, fun _ => rfl⟩
  | false =>
    rw [decode_b2b_payload_page decodePage st payload hlen hC59 hi]
    exact ⟨fun h => absurd h (by simp [ldpcCalled]), fun h => absurd h (by simp)⟩

theorem idle_page_dropped_iff_EC0FC_witness :
    136 ≤ (testPayload 241 0x12 0xC3 0x0F 0xEC).length ∧
    PPPB2bDecoder.svid2prn ((testPayload 241 0x12 0xC3 0x0F 0xEC).getD 6 0) = ['C', '5', '9'] ∧
    (navHexOf (testPayload 241 0x12 0xC3 0x0F 0xEC)).take 8 =
      ['E', 'C', '0', 'F', 'C', '3', '1', '2'] ∧
    startsWithCI (navHexOf (testPayload 241 0x12 0xC3 0x0F 0xEC)) ['E', 'C', '0', 'F', 'C']
      = true ∧
    (ldpcCalled (PPPB2bDecoder.decode_b2b_payload (fun (s : Nat) _ _ _ => s + 1) 0
        (testPayload 241 0x12 0xC3 0x0F 0xEC)).2.2 = false ↔
      startsWithCI (navHexOf (testPayload 241 0x12 0xC3 0x0F 0xEC)) ['E', 'C', '0', 'F', 'C']
        = true) :=
  ⟨by set_option maxRecDepth 100000 in decide,
    by set_option maxRecDepth 100000 in decide,
    by set_option maxRecDepth 100000 in decide,
    by set_option maxRecDepth 100000 in decide,
    (idle_page_dropped_iff_EC0FC (fun (s : Nat) _ _ _ => s + 1) 0
      (testPayload 241 0x12 0xC3 0x0F 0xEC) (by set_option maxRecDepth 100000 in decide)
      (by set_option maxRecDepth 100000 in decide)).1⟩

/-! Bit fields -/

theorem shr_and_one (x s : Nat) : (x >>> s) &&& 1 = x / 2 ^ s % 2 := by
  rw [Nat.shiftRight_eq_div_pow, Nat.and_one_is_mod]

theorem msbFirstValue_succ (buff : List Nat) (pos n : Nat) :
    msbFirstValue buff pos (n + 1) = 2 * msbFirstValue buff pos n + bitAt buff (pos + n) := by
  unfold msbFirstValue
  rw [Finset.sum_range_succ, Finset.mul_sum]
  congr 1
  · apply Finset.sum_congr rfl
    intro i hi
    have hi' : i < n := Finset.mem_range.1 hi
    have : n + 1 - 1 - i = (n - 1 - i) + 1 := by omega
    rw [this, pow_succ]
    ring
  · simp

theorem bitAt_le_one (buff : List Nat) (k : Nat) : bitAt buff k ≤ 1 := by
  unfold bitAt
  have := Nat.mod_lt (buff.getD (k / 8) 0 / 2 ^ (7 - k % 8)) (by norm_num : 0 < 2)
  omega

theorem msbFirstValue_lt (buff : List Nat) (pos n : Nat) : msbFirstValue buff pos n < 2 ^ n := by
  induction n with
  | zero => simp [msbFirstValue]
  | succ n ih =>
    rw [msbFirstValue_succ, pow_succ]
    have := bitAt_le_one buff (pos + n)
    omega

theorem getbitu_succ (buff : List Nat) (pos n : Nat) :
    PPPB2bDecoder.getbitu buff pos (n + 1) =
      ((PPPB2bDecoder.getbitu buff pos n <<< 1) +
        ((buff.getD ((pos + n) / 8) 0 >>> (7 - (pos + n) % 8)) &&& 1)) % 4294967296 := by
  unfold PPPB2bDecoder.getbitu
  rw [List.range_succ, List.foldl_append]
  rfl

/-- Up to 32 bits `getbitu` is the value of the bits read most significant first. -/
theorem getbitu_eq_msbFirstValue (buff : List Nat) (pos n : Nat) (hn : n ≤ 32) :
    PPPB2bDecoder.getbitu buff pos n = msbFirstValue buff pos n := by
  induction n with
  | zero => simp [PPPB2bDecoder.getbitu, msbFirstValue]
  | succ n ih =>
    rw [getbitu_succ, ih (by omega), msbFirstValue_succ, shr_and_one, Nat.shiftLeft_eq]
    have hlt := msbFirstValue_lt buff pos n
    have hb := bitAt_le_one buff (pos + n)
    have hp : 2 ^ n ≤ 2 ^ 31 := Nat.pow_le_pow_right (by norm_num) (by omega)
    have h32 : (2 : Nat) ^ 31 = 2147483648 := by norm_num
    unfold bitAt at hb ⊢
    rw [Nat.mod_eq_of_lt (by omega)]
    ring

/-- C15: for a bit field of at most 32 bits inside the buffer, `getbitu` returns
the unsigned integer whose binary digits, most significant first, are the bits
`pos .. pos + len - 1`, bit 0 being the most significant bit of byte 0: the sum
over `i < len` of `bit (pos + i) * 2 ^ (len - 1 - i)`. -/
theorem getbitu_msb_first (buff : List Nat) (pos len : Nat) (hlen : len ≤ 32)
    (_hin : pos + len ≤ 8 * buff.length) :
    PPPB2bDecoder.getbitu buff pos len =
      ∑ i in Finset.range len, bitAt buff (pos + i) * 2 ^ (len - 1 - i) ∧
    PPPB2bDecoder.getbitu buff pos len < 2 ^ len := by
  have h := getbitu_eq_msbFirstValue buff pos len hlen
  exact ⟨h, by rw [h]; exact msbFirstValue_lt buff pos len⟩

theorem getbitu_msb_first_witness :
    3 ≤ 32 ∧ 5 + 3 ≤ 8 * [0xA6, 0x01].length ∧
    PPPB2bDecoder.getbitu [0xA6, 0x01] 5 3 =
      ∑ i in Finset.range 3, bitAt [0xA6, 0x01] (5 + i) * 2 ^ (3 - 1 - i) ∧
    PPPB2bDecoder.getbitu [0xA6, 0x01] 5 3 = 6 :=
  ⟨by decide, by decide, (getbitu_msb_first [0xA6, 0x01] 5 3 (by decide) (by decide)).1,
    by decide⟩

theorem and_one_shiftLeft_eq_zero (u k : Nat) : u &&& (1 <<< k) = 0 ↔ u / 2 ^ k % 2 = 0 := by
  have h1 : (1 : Nat) <<< k = 2 ^ k := by rw [Nat.shiftLeft_eq, Nat.one_mul]
  rw [h1, Nat.and_two_pow, Nat.testBit_to_div_mod]
  have h2 := Nat.mod_lt (u / 2 ^ k) (by norm_num : 0 < 2)
  have hp : 0 < 2 ^ k := Nat.two_pow_pos k
  by_cases h : u / 2 ^ k % 2 = 1
  · simp [h, Nat.pos_iff_ne_zero.1 hp]
  · have h0 : u / 2 ^ k % 2 = 0 := by omega
    simp [h0]

theorem sign_mask (len : Nat) (hlen : len ≤ 32) :
    (4294967295 <<< len) % 4294967296 = 2 ^ len * (2 ^ (32 - len) - 1) := by
  have h : ∀ l ≤ 32, (4294967295 <<< l) % 4294967296 = 2 ^ l * (2 ^ (32 - l) - 1) := by
    decide
  exact h len hlen

/-- The top bit of a field of `len` bits. -/
theorem top_bit (u len : Nat) (hl : 1 ≤ len) (hu : u < 2 ^ len) :
    (u / 2 ^ (len - 1) % 2 = 0 ↔ u < 2 ^ (len - 1)) := by
  have hp : 2 ^ len = 2 * 2 ^ (len - 1) := by
    rw [← pow_succ']; congr 1; omega
  have hpos : 0 < 2 ^ (len - 1) := Nat.two_pow_pos _
  constructor
  · intro h
    by_contra hc
    have hge : 2 ^ (len - 1) ≤ u := Nat.le_of_not_lt hc
    have h1 : 1 ≤ u / 2 ^ (len - 1) := (Nat.le_div_iff_mul_le hpos).2 (by omega)
    have h2 : u / 2 ^ (len - 1) < 2 := (Nat.div_lt_iff_lt_mul hpos).2 (by omega)
    omega
  · intro h
    rw [Nat.div_eq_of_lt h]

theorem or_sign_mask (u len : Nat) (hlen : len ≤ 31) (hu : u < 2 ^ len) :
    u ||| ((4294967295 <<< len) % 4294967296) = u + (4294967296 - 2 ^ len) := by
  rw [sign_mask len (by omega), Nat.lor_comm, ← Nat.mul_add_lt_is_or hu, Nat.mul_sub,
    ← pow_add, Nat.mul_one]
  have h : len + (32 - len) = 32 := by omega
  rw [h]
  norm_num
  omega

/-- C16: for `1 ≤ len ≤ 32`, `getbits` is the two's-complement value of the field
of `len` bits: `getbitu` when the top bit of the field is 0, `getbitu - 2 ^ len`
when it is 1; the result lies in `[-2 ^ (len - 1), 2 ^ (len - 1) - 1]`. -/
theorem getbits_twos_complement (buff : List Nat) (pos len : Nat) (h1 : 1 ≤ len)
    (h32 : len ≤ 32) :
    (PPPB2bDecoder.getbitu buff pos len / 2 ^ (len - 1) % 2 = 0 →
      PPPB2bDecoder.getbits buff pos len = (PPPB2bDecoder.getbitu buff pos len : Int)) ∧
    (PPPB2bDecoder.getbitu buff pos len / 2 ^ (len - 1) % 2 = 1 →
      PPPB2bDecoder.getbits buff pos len =
        (PPPB2bDecoder.getbitu buff pos len : Int) - 2 ^ len) ∧
    -(2 : Int) ^ (len - 1) ≤ PPPB2bDecoder.getbits buff pos len ∧
    PPPB2bDecoder.getbits buff pos len ≤ 2 ^ (len - 1) - 1 := by
  have hu : PPPB2bDecoder.getbitu buff pos len < 2 ^ len := by
    rw [getbitu_eq_msbFirstValue buff pos len h32]; exact msbFirstValue_lt buff pos len
  unfold PPPB2bDecoder.getbits
  simp only []
  generalize PPPB2bDecoder.getbitu buff pos len = u at hu ⊢
  have htop := top_bit u len h1 hu
  have hp : (2 : Nat) ^ len = 2 * 2 ^ (len - 1) := by
    rw [← pow_succ']; congr 1; omega
  have hmod := Nat.mod_lt (u / 2 ^ (len - 1)) (by norm_num : 0 < 2)
  have hpI : ((2 : Int) ^ len) = 2 * 2 ^ (len - 1) := by exact_mod_cast hp
  have hle : 2 ^ (len - 1) ≤ 2 ^ 31 := Nat.pow_le_pow_right (by norm_num) (by omega)
  have h31 : (2 : Nat) ^ 31 = 2147483648 := by norm_num
  have hcast : ((2 ^ (len - 1) : Nat) : Int) = (2 : Int) ^ (len - 1) := by push_cast; rfl
  by_cases hb : u / 2 ^ (len - 1) % 2 = 0
  · have hlt : u < 2 ^ (len - 1) := htop.1 hb
    have hcond : len ≤ 0 ∨ 32 ≤ len ∨ u &&& (1 <<< (len - 1)) = 0 :=
      Or.inr (Or.inr ((and_one_shiftLeft_eq_zero u (len - 1)).2 hb))
    rw [if_pos hcond]
    have hv : toInt32 u = (u : Int) := by
      unfold toInt32; rw [if_pos (by omega)]
    rw [hv]
    refine ⟨fun _ => rfl, fun h => absurd h (by omega), by omega, by omega⟩
  · have hb1 : u / 2 ^ (len - 1) % 2 = 1 := by omega
    have hge : 2 ^ (len - 1) ≤ u := Nat.le_of_not_lt (fun h => hb (htop.2 h))
    by_cases hl : len = 32
    · have hcond : len ≤ 0 ∨ 32 ≤ len ∨ u &&& (1 <<< (len - 1)) = 0 := Or.inr (Or.inl (by omega))
      rw [if_pos hcond]
      subst hl
      have hgeN : 2147483648 ≤ u := by norm_num at hge; exact hge
      have huN : u < 4294967296 := by norm_num at hu; exact hu
      have hv : toInt32 u = (u : Int) - 4294967296 := by
        unfold toInt32; rw [if_neg (by omega)]
      rw [hv]
      refine ⟨fun h => absurd h hb, fun _ => by norm_num, ?_, ?_⟩
      · norm_num; omega
      · norm_num; omega
    · have hcond : ¬ (len ≤ 0 ∨ 32 ≤ len ∨ u &&& (1 <<< (len - 1)) = 0) := by
        rintro (h | h | h)
        · omega
        · omega
        · exact hb ((and_one_shiftLeft_eq_zero u (len - 1)).1 h)
      rw [if_neg hcond, or_sign_mask u len (by omega) hu]
      have hlen32 : 2 ^ len ≤ 2 ^ 31 := Nat.pow_le_pow_right (by norm_num) (by omega)
      have hv : toInt32 (u + (4294967296 - 2 ^ len)) = (u : Int) - 2 ^ len := by
        unfold toInt32
        rw [if_neg (by omega)]
        have : ((u + (4294967296 - 2 ^ len) : Nat) : Int) = (u : Int) + 4294967296 - 2 ^ len := by
          rw [Nat.cast_add, Nat.cast_sub (by omega)]
          push_cast
          ring
        rw [this]
        ring
      rw [hv]
      have hgeI : ((2 : Int) ^ (len - 1)) ≤ (u : Int) := by rw [← hcast]; exact_mod_cast hge
      have huI : (u : Int) < 2 ^ len := by exact_mod_cast hu
      refine ⟨fun h => absurd h hb, fun _ => rfl, by omega, by omega⟩

theorem getbits_twos_complement_witness :
    1 ≤ 3 ∧ 3 ≤ 32 ∧
    (PPPB2bDecoder.getbitu [0xA6, 0x01] 5 3 / 2 ^ (3 - 1) % 2 = 1 →
      PPPB2bDecoder.getbits [0xA6, 0x01] 5 3 =
        (PPPB2bDecoder.getbitu [0xA6, 0x01] 5 3 : Int) - 2 ^ 3) ∧
    PPPB2bDecoder.getbits [0xA6, 0x01] 5 3 = -2 :=
  ⟨by decide, by decide, (getbits_twos_complement [0xA6, 0x01] 5 3 (by decide) (by decide)).2.1,
    by decide⟩

/-! Parsing and ingestion of masks and orbits -/

theorem getbitu_one_bit (buff : List Nat) (pos : Nat) :
    PPPB2bDecoder.getbitu buff pos 1 = bitAt buff pos := by
  rw [getbitu_eq_msbFirstValue buff pos 1 (by norm_num)]
  simp [msbFirstValue]

theorem getbitu_lt (buff : List Nat) (pos len : Nat) (h : len ≤ 32) :
    PPPB2bDecoder.getbitu buff pos len < 2 ^ len := by
  rw [getbitu_eq_msbFirstValue buff pos len h]; exact msbFirstValue_lt buff pos len

/-- What `b2b_parse_ppp` returns for a message of subtype 1. -/
theorem b2b_parse_ppp_type1 (data : List Nat) (p0 : pppdata)
    (h : PPPB2bDecoder.getbitu data 0 6 = 1) :
    PPPB2bDecoder.b2b_parse_ppp data p0 =
      (true,
       { p0 with
         mestype := 1
         BDSsod := PPPB2bDecoder.getbitu data 6 17
         nudata := PPPB2bDecoder.getbitu data 23 4
         SSR := PPPB2bDecoder.getbitu data 27 2 % 256
         CRC := PPPB2bDecoder.getbitu data 462 24
         type1 :=
           { IODP := PPPB2bDecoder.getbitu data 29 4 % 256
             prn_make := (List.range IF_MAXSAT).map
               (fun a => PPPB2bDecoder.getbitu data (33 + a) 1) } }) := by
  unfold PPPB2bDecoder.b2b_parse_ppp
  simp only [h]
  rw [if_neg (by omega), if_pos trivial]

/-- C17: a payload whose first 6 bits give subtype 1, parsed by `b2b_parse_ppp`
and ingested by `b2b_fillmem` into an empty store, leaves exactly one mask
entry: its SSR is the field of bits 27..28, its IODP the field of bits 29..32
and `cmake[a]` is bit `33 + a` for every `a` in 0..254; the orbit table, the
clock table and both pending buffers stay empty and nothing is emitted. -/
theorem mask_message_into_empty_store (data : List Nat) (p0 : pppdata) (st : PPPB2bDecoder)
    (hm : msbFirstValue data 0 6 = 1)
    (hst : st.ssr_masks = [] ∧ st.ssr_orbits = [] ∧ st.ssr_clocks = [] ∧ st.orbBuffer = [] ∧
      st.clkBuffer = []) :
    (PPPB2bDecoder.b2b_parse_ppp data p0).1 = true ∧
    ∃ st1 : PPPB2bDecoder,
      PPPB2bDecoder.b2b_fillmem st (PPPB2bDecoder.b2b_parse_ppp data p0).2 = some (st1, []) ∧
      st1.ssr_masks =
        [{ SSR := (msbFirstValue data 27 2 : Nat)
           iodp := (msbFirstValue data 29 4 : Nat)
           cmake := (List.range 255).map (fun a => bitAt data (33 + a)) }] ∧
      st1.ssr_orbits = [] ∧ st1.ssr_clocks = [] ∧ st1.orbBuffer = [] ∧ st1.clkBuffer = [] := by
  obtain ⟨hmask, horb, hclk, hob, hcb⟩ := hst
  have h1 : PPPB2bDecoder.getbitu data 0 6 = 1 := by
    rw [getbitu_eq_msbFirstValue data 0 6 (by norm_num)]; exact hm
  have hssr : PPPB2bDecoder.getbitu data 27 2 % 256 = msbFirstValue data 27 2 := by
    have := getbitu_lt data 27 2 (by norm_num)
    rw [Nat.mod_eq_of_lt (by norm_num at this; omega),
      getbitu_eq_msbFirstValue data 27 2 (by norm_num)]
  have hiodp : PPPB2bDecoder.getbitu data 29 4 % 256 = msbFirstValue data 29 4 := by
    have := getbitu_lt data 29 4 (by norm_num)
    rw [Nat.mod_eq_of_lt (by norm_num at this; omega),
      getbitu_eq_msbFirstValue data 29 4 (by norm_num)]
  have hbits : (List.range IF_MAXSAT).map (fun a => PPPB2bDecoder.getbitu data (33 + a) 1) =
      (List.range 255).map (fun a => bitAt data (33 + a)) := by
    apply List.map_congr_left
    intro a _
    exact getbitu_one_bit data (33 + a)
  rw [b2b_parse_ppp_type1 data p0 h1, hssr, hiodp, hbits]
  refine ⟨rfl, ?_⟩
  unfold PPPB2bDecoder.b2b_fillmem
  simp only [hmask, List.any_nil, List.length_nil, if_true]
  refine ⟨_, rfl, ?_, horb, hclk, hob, hcb⟩
  simp [IF_MAXMASK]

theorem mask_message_into_empty_store_witness :
    msbFirstValue [0x04, 0x00, 0x00, 0x15, 0xC0] 0 6 = 1 ∧
    (PPPB2bDecoder.init.ssr_masks = [] ∧ PPPB2bDecoder.init.ssr_orbits = [] ∧
      PPPB2bDecoder.init.ssr_clocks = [] ∧ PPPB2bDecoder.init.orbBuffer = [] ∧
      PPPB2bDecoder.init.clkBuffer = []) ∧
    (PPPB2bDecoder.b2b_parse_ppp [0x04, 0x00, 0x00, 0x15, 0xC0] pppdata.zero).1 = true :=
  ⟨by decide, by decide,
    (mask_message_into_empty_store [0x04, 0x00, 0x00, 0x15, 0xC0] pppdata.zero
      PPPB2bDecoder.init (by decide) (by decide)).1⟩

/-- The `IODN` that the parser stores is the field of 10 bits modulo 256. -/
theorem parseTrackcp_IODN (data : List Nat) (a : Nat) :
    (parseTrackcp data a).IODN = msbFirstValue data (29 + 69 * a + 9) 10 % 256 := by
  unfold parseTrackcp
  simp only []
  rw [getbitu_eq_msbFirstValue _ _ 10 (by norm_num)]

/-- C18 (the code at a failing input): a subtype-2 message whose first sub-record
names slot 1 with IODN = 300, IODCorr = 5 and a non-zero URA.  After parsing and
ingestion into the fresh decoder the orbit set has `iode[0] = 44 = 300 mod 256`,
not 300, as `Trackcp::IODN` is an `unsigned char`; `iodcorr[0]` is 5. -/
theorem orbit_iode_keeps_low_byte_of_IODN :
    msbFirstValue [8, 0, 0, 0, 5, 44, 160, 0, 0, 0, 0, 2, 0] 0 6 = 2 ∧
    msbFirstValue [8, 0, 0, 0, 5, 44, 160, 0, 0, 0, 0, 2, 0] 29 9 = 1 ∧
    msbFirstValue [8, 0, 0, 0, 5, 44, 160, 0, 0, 0, 0, 2, 0] 38 10 = 300 ∧
    msbFirstValue [8, 0, 0, 0, 5, 44, 160, 0, 0, 0, 0, 2, 0] 48 3 = 5 ∧
    ((PPPB2bDecoder.b2b_parse_ppp [8, 0, 0, 0, 5, 44, 160, 0, 0, 0, 0, 2, 0]
        pppdata.zero).2.type2.trasub.map (fun t => t.ura)) = [8, 0, 0, 0, 0, 0] ∧
    (match PPPB2bDecoder.b2b_fillmem PPPB2bDecoder.init
        (PPPB2bDecoder.b2b_parse_ppp [8, 0, 0, 0, 5, 44, 160, 0, 0, 0, 0, 2, 0] pppdata.zero).2
      with
      | some r => r.1.ssr_orbits.map (fun o => (o.SSR, o.bweek, o.bsow, o.iode.getD 0 0,
          o.iodcorr.getD 0 0))
      | none => []) = [(0, 0, 0, 44, 5)] := by
  set_option maxRecDepth 100000 in decide

/-- The subtype that `b2b_parse_ppp` stores is the field of the first 6 bits. -/
theorem b2b_parse_ppp_mestype (data : List Nat) (p0 : pppdata) :
    (PPPB2bDecoder.b2b_parse_ppp data p0).2.mestype = PPPB2bDecoder.getbitu data 0 6 := by
  unfold PPPB2bDecoder.b2b_parse_ppp
  simp only []
  split_ifs <;> rfl

/-- The return value of `b2b_parse_ppp` as a function of the subtype. -/
theorem b2b_parse_ppp_ok (data : List Nat) (p0 : pppdata) :
    (PPPB2bDecoder.b2b_parse_ppp data p0).1 = decide (PPPB2bDecoder.getbitu data 0 6 ≠ 0) := by
  have hlt := getbitu_lt data 0 6 (by norm_num)
  unfold PPPB2bDecoder.b2b_parse_ppp
  simp only []
  generalize PPPB2bDecoder.getbitu data 0 6 = t at hlt ⊢
  split_ifs <;> simp <;> omega

/-- A message of a subtype other than 1, 2 and 4 leaves the decoder as it is. -/
theorem b2b_fillmem_other (st : PPPB2bDecoder) (p : pppdata) (h1 : p.mestype ≠ 1)
    (h2 : p.mestype ≠ 2) (h4 : p.mestype ≠ 4) :
    PPPB2bDecoder.b2b_fillmem st p = some (st, []) := by
  unfold PPPB2bDecoder.b2b_fillmem
  rw [if_neg h1, if_neg h2, if_neg h4]

/-- C19: `b2b_parse_ppp` returns false exactly when the subtype of 6 bits is 0;
for a subtype in 8..63, and for the subtypes 3, 5, 6 and 7, it returns true and
the following `b2b_fillmem` leaves the whole decoder (the mask, orbit and clock
tables and both pending buffers) unchanged and emits nothing. -/
theorem parse_fails_only_for_subtype_zero (data : List Nat) (p0 : pppdata)
    (st : PPPB2bDecoder) :
    ((PPPB2bDecoder.b2b_parse_ppp data p0).1 = false ↔ msbFirstValue data 0 6 = 0) ∧
    (msbFirstValue data 0 6 = 3 ∨ msbFirstValue data 0 6 = 5 ∨ msbFirstValue data 0 6 = 6 ∨
        msbFirstValue data 0 6 = 7 ∨
        (8 ≤ msbFirstValue data 0 6 ∧ msbFirstValue data 0 6 ≤ 63) →
      (PPPB2bDecoder.b2b_parse_ppp data p0).1 = true ∧
      PPPB2bDecoder.b2b_fillmem st (PPPB2bDecoder.b2b_parse_ppp data p0).2 = some (st, [])) := by
  have hv := getbitu_eq_msbFirstValue data 0 6 (by norm_num)
  have hok := b2b_parse_ppp_ok data p0
  have hty := b2b_parse_ppp_mestype data p0
  rw [hv] at hok hty
  constructor
  · rw [hok]; simp
  · intro h
    refine ⟨by rw [hok]; simp; omega, ?_⟩
    apply b2b_fillmem_other <;> rw [hty] <;> omega

/-- C20: a subtype-1 message whose (SSR, IODP) already has an entry in the mask
table leaves the whole decoder unchanged, whatever its mask bits are: the mask
table keeps its count, its order and the bits of every entry. -/
theorem mask_message_known_iodp_is_noop (st : PPPB2bDecoder) (p : pppdata)
    (hm : p.mestype = 1)
    (hex : ∃ m ∈ st.ssr_masks, m.SSR = (p.SSR : Int) ∧ m.iodp = (p.type1.IODP : Int)) :
    PPPB2bDecoder.b2b_fillmem st p = some (st, []) := by
  obtain ⟨m, hmem, hs, hi⟩ := hex
  have hany : st.ssr_masks.any
      (fun m => decide (m.SSR = (p.SSR : Int)) && decide (m.iodp = (p.type1.IODP : Int)))
      = true := by
    rw [List.any_eq_true]
    exact ⟨m, hmem, by simp [hs, hi]⟩
  unfold PPPB2bDecoder.b2b_fillmem
  rw [if_pos hm]
  simp only [hany]
  rfl

theorem mask_message_known_iodp_is_noop_witness :
    sampleMaskMessage.mestype = 1 ∧
    (∃ m ∈ sampleMaskStore.ssr_masks,
      m.SSR = (sampleMaskMessage.SSR : Int) ∧ m.iodp = (sampleMaskMessage.type1.IODP : Int)) ∧
    PPPB2bDecoder.b2b_fillmem sampleMaskStore sampleMaskMessage = some (sampleMaskStore, []) :=
  ⟨rfl, ⟨_, List.mem_singleton.2 rfl, rfl, rfl⟩,
    mask_message_known_iodp_is_noop sampleMaskStore sampleMaskMessage rfl
      ⟨_, List.mem_singleton.2 rfl, rfl, rfl⟩⟩

theorem parse_fails_only_for_subtype_zero_witness :
    (msbFirstValue [0x24] 0 6 = 3 ∨ msbFirstValue [0x24] 0 6 = 5 ∨ msbFirstValue [0x24] 0 6 = 6 ∨
        msbFirstValue [0x24] 0 6 = 7 ∨
        (8 ≤ msbFirstValue [0x24] 0 6 ∧ msbFirstValue [0x24] 0 6 ≤ 63)) ∧
    ((PPPB2bDecoder.b2b_parse_ppp [0x24] pppdata.zero).1 = true ∧
      PPPB2bDecoder.b2b_fillmem PPPB2bDecoder.init
        (PPPB2bDecoder.b2b_parse_ppp [0x24] pppdata.zero).2 = some (PPPB2bDecoder.init, [])) :=
  ⟨by decide,
    (parse_fails_only_for_subtype_zero [0x24] pppdata.zero PPPB2bDecoder.init).2 (by decide)⟩

/-! The LDPC stage -/

theorem map_range_chunks {α β : Type} (k : Nat) (f : α → Nat → β) (d : α) (s : List α)
    (hk : 0 < k) :
    (List.range (s.length * k)).map (fun i => f (s.getD (i / k) d) (i % k)) =
      s.flatMap (fun c => (List.range k).map (f c)) := by
  induction s with
  | nil => simp
  | cons c cs ih =>
    have hlen : (c :: cs).length * k = k + cs.length * k := by
      rw [List.length_cons]; ring
    rw [hlen, List.range_add, List.map_append, List.map_map, List.flatMap_cons, ← ih]
    congr 1
    · apply List.map_congr_left
      intro i hi
      rw [List.mem_range] at hi
      rw [Nat.div_eq_of_lt hi, Nat.mod_eq_of_lt hi]
      rfl
    · apply List.map_congr_left
      intro i _
      have h1 : (k + i) / k = i / k + 1 := by
        rw [Nat.add_comm k i, Nat.add_div_right i hk]
      have h2 : (k + i) % k = i % k := by
        rw [Nat.add_comm k i, Nat.add_mod_right]
      simp only [Function.comp, h1, h2]
      rfl

theorem hexNibble_digit (v : Nat) (h : v < 16) :
    hexNibble (Char.toUpper (Nat.digitChar v)) = v ∧
    isHexChar (Char.toUpper (Nat.digitChar v)) = true ∧
    toUpper (qarg v 0 16) = [Char.toUpper (Nat.digitChar v)] := by
  interval_cases v <;> decide

theorem and_one_le (x : Nat) : x &&& 1 ≤ 1 := by
  rw [Nat.and_one_is_mod]; omega

theorem and_one_of_le (x : Nat) (h : x ≤ 1) : x &&& 1 = x := by
  rw [Nat.and_one_is_mod]; omega

theorem isBits_map_and_one (l : List Nat) : isBits (l.map (fun b => b &&& 1)) := by
  intro b hb
  rw [List.mem_map] at hb
  obtain ⟨x, _, rfl⟩ := hb
  exact and_one_le x

theorem map_and_one_of_isBits (l : List Nat) (h : isBits l) : l.map (fun b => b &&& 1) = l := by
  induction l with
  | nil => rfl
  | cons a l ih =>
    rw [List.map_cons, and_one_of_le a (h a (List.mem_cons_self a l)),
      ih (fun b hb => h b (List.mem_cons_of_mem a hb))]

theorem isBits_cons4 {a b c d : Nat} {rest : List Nat} (h : isBits (a :: b :: c :: d :: rest)) :
    a ≤ 1 ∧ b ≤ 1 ∧ c ≤ 1 ∧ d ≤ 1 ∧ isBits rest := by
  refine ⟨h a (by simp), h b (by simp), h c (by simp), h d (by simp), ?_⟩
  intro x hx
  exact h x (by simp [hx])

theorem hex_str_loop_four (a b c d : Nat) (rest : List Nat) (i : Nat) (out : QString)
    (hi : i % 4 = 0) :
    hex_str_loop (a :: b :: c :: d :: rest) i 0 out =
      hex_str_loop rest (i + 4) 0 (out ++ [Char.toUpper
        (Nat.digitChar (8 * (a &&& 1) + 4 * (b &&& 1) + 2 * (c &&& 1) + (d &&& 1)))]) := by
  have h0 : ¬ i % 4 = 3 := by omega
  have h1 : ¬ (i + 1) % 4 = 3 := by omega
  have h2 : ¬ (i + 1 + 1) % 4 = 3 := by omega
  have h3 : (i + 1 + 1 + 1) % 4 = 3 := by omega
  have ha := and_one_le a
  have hb := and_one_le b
  have hc := and_one_le c
  have hd := and_one_le d
  have hv : (((0 <<< 1 + (a &&& 1)) <<< 1 + (b &&& 1)) <<< 1 + (c &&& 1)) <<< 1 + (d &&& 1) =
      8 * (a &&& 1) + 4 * (b &&& 1) + 2 * (c &&& 1) + (d &&& 1) := by
    simp only [Nat.shiftLeft_eq]
    omega
  simp only [hex_str_loop, if_neg h0, if_neg h1, if_neg h2, if_pos h3, hv]
  rw [(hexNibble_digit _ (by omega)).2.2]

theorem hex_str_loop_nibbles (n : Nat) : ∀ (bits : List Nat) (i : Nat) (out : QString),
    bits.length = 4 * n → i % 4 = 0 →
    hex_str_loop bits i 0 out = (0, out ++ nibbleChars (bits.map (fun b => b &&& 1))) := by
  induction n with
  | zero =>
    intro bits i out hl _
    have : bits = [] := List.eq_nil_of_length_eq_zero (by omega)
    subst this
    simp [hex_str_loop, nibbleChars]
  | succ n ih =>
    intro bits i out hl hi
    match bits, hl with
    | a :: b :: c :: d :: rest, hl =>
      rw [hex_str_loop_four a b c d rest i out hi,
        ih rest (i + 4) _ (by simp only [List.length_cons] at hl; omega) (by omega)]
      simp [nibbleChars]
    | [], hl => simp at hl
    | [_], hl => simp at hl; omega
    | [_, _], hl => simp at hl; omega
    | [_, _, _], hl => simp at hl; omega

theorem hex_str_from_bits_nibbles (n : Nat) (bits : List Nat) (hl : bits.length = 4 * n) :
    SBFcoDecoder.hex_str_from_bits bits = nibbleChars (bits.map (fun b => b &&& 1)) := by
  unfold SBFcoDecoder.hex_str_from_bits
  have hrem : bits.length % 4 = 0 := by omega
  simp only [hrem, ne_eq, not_true_eq_false, if_false]
  rw [hex_str_loop_nibbles n bits 0 [] hl (by norm_num)]
  rfl

theorem nibbleChars_props (n : Nat) : ∀ (bits : List Nat), bits.length = 4 * n → isBits bits →
    (nibbleChars bits).length = n ∧ ∀ c ∈ nibbleChars bits, isHexChar c = true := by
  induction n with
  | zero =>
    intro bits hl _
    have : bits = [] := List.eq_nil_of_length_eq_zero (by omega)
    subst this
    simp [nibbleChars]
  | succ n ih =>
    intro bits hl hb
    match bits, hl, hb with
    | a :: b :: c :: d :: rest, hl, hb =>
      obtain ⟨ha, hb1, hc, hd, hr⟩ := isBits_cons4 hb
      obtain ⟨h1, h2⟩ := ih rest (by simp only [List.length_cons] at hl; omega) hr
      simp only [nibbleChars, List.length_cons, h1, List.mem_cons, true_and]
      intro x hx
      rcases hx with rfl | hx
      · exact (hexNibble_digit _ (by omega)).2.1
      · exact h2 x hx
    | [], hl, _ => simp at hl
    | [_], hl, _ => simp at hl; omega
    | [_, _], hl, _ => simp at hl; omega
    | [_, _, _], hl, _ => simp at hl; omega

theorem filter_isHexChar_of_all (s : QString) (h : ∀ c ∈ s, isHexChar c = true) :
    s.filter isHexChar = s :=
  List.filter_eq_self.mpr h

theorem read_hex_bits_flatMap (s : QString) :
    SBFcoDecoder.read_hex_bits s = (s.filter isHexChar).flatMap (fun c =>
      (List.range 4).map (fun j => (hexNibble c >>> (3 - j)) &&& 1)) := by
  unfold SBFcoDecoder.read_hex_bits
  exact map_range_chunks 4 (fun c j => (hexNibble c >>> (3 - j)) &&& 1) '0' _ (by norm_num)

theorem read_hex_bits_length (s : QString) (h : ∀ c ∈ s, isHexChar c = true) :
    (SBFcoDecoder.read_hex_bits s).length = s.length * 4 := by
  unfold SBFcoDecoder.read_hex_bits
  simp only [List.length_map, List.length_range, filter_isHexChar_of_all s h]

theorem nibble_bits (a b c d : Nat) (ha : a ≤ 1) (hb : b ≤ 1) (hc : c ≤ 1) (hd : d ≤ 1) :
    (List.range 4).map (fun j => ((8 * a + 4 * b + 2 * c + d) >>> (3 - j)) &&& 1) =
      [a, b, c, d] := by
  interval_cases a <;> interval_cases b <;> interval_cases c <;> interval_cases d <;> decide

theorem read_hex_bits_nibbleChars (n : Nat) : ∀ (bits : List Nat), bits.length = 4 * n →
    isBits bits → SBFcoDecoder.read_hex_bits (nibbleChars bits) = bits := by
  induction n with
  | zero =>
    intro bits hl _
    have : bits = [] := List.eq_nil_of_length_eq_zero (by omega)
    subst this
    rfl
  | succ n ih =>
    intro bits hl hb
    match bits, hl, hb with
    | a :: b :: c :: d :: rest, hl, hb =>
      obtain ⟨ha, hb1, hc, hd, hr⟩ := isBits_cons4 hb
      have hrest := ih rest (by simp only [List.length_cons] at hl; omega) hr
      rw [read_hex_bits_flatMap] at hrest ⊢
      have hv : 8 * a + 4 * b + 2 * c + d < 16 := by omega
      simp only [nibbleChars, List.filter_cons, (hexNibble_digit _ hv).2.1, if_true,
        List.flatMap_cons, (hexNibble_digit _ hv).1, hrest]
      rw [nibble_bits a b c d ha hb1 hc hd]
      rfl
    | [], hl, _ => simp at hl
    | [_], hl, _ => simp at hl; omega
    | [_, _], hl, _ => simp at hl; omega
    | [_, _, _], hl, _ => simp at hl; omega

theorem hexPairsToBytes_length (n : Nat) : ∀ (s : QString), s.length = 2 * n →
    (hexPairsToBytes s).length = n := by
  induction n with
  | zero =>
    intro s hl
    have : s = [] := List.eq_nil_of_length_eq_zero (by omega)
    subst this
    rfl
  | succ n ih =>
    intro s hl
    match s, hl with
    | a :: b :: rest, hl =>
      simp only [hexPairsToBytes, List.length_cons]
      rw [ih rest (by simp only [List.length_cons] at hl; omega)]
    | [], hl => simp at hl
    | [_], hl => simp at hl; omega

theorem bitAt_cons (x : Nat) (xs : List Nat) (k : Nat) :
    bitAt (x :: xs) (k + 8) = bitAt xs k := by
  unfold bitAt
  have h1 : (k + 8) / 8 = k / 8 + 1 := by omega
  have h2 : (k + 8) % 8 = k % 8 := by omega
  rw [h1, h2, List.getD_cons_succ]

theorem byte_bits (a0 a1 a2 a3 a4 a5 a6 a7 : Nat) (xs : List Nat)
    (h0 : a0 ≤ 1) (h1 : a1 ≤ 1) (h2 : a2 ≤ 1) (h3 : a3 ≤ 1)
    (h4 : a4 ≤ 1) (h5 : a5 ≤ 1) (h6 : a6 ≤ 1) (h7 : a7 ≤ 1) (k : Nat) (hk : k < 8) :
    bitAt ((((8 * a0 + 4 * a1 + 2 * a2 + a3) <<< 4) ||| (8 * a4 + 4 * a5 + 2 * a6 + a7)) % 256
      :: xs) k = [a0, a1, a2, a3, a4, a5, a6, a7].getD k 0 := by
  have hor : ((8 * a0 + 4 * a1 + 2 * a2 + a3) <<< 4) ||| (8 * a4 + 4 * a5 + 2 * a6 + a7) =
      2 ^ 4 * (8 * a0 + 4 * a1 + 2 * a2 + a3) + (8 * a4 + 4 * a5 + 2 * a6 + a7) := by
    rw [Nat.shiftLeft_eq, Nat.mul_comm, Nat.mul_add_lt_is_or (by omega)]
  rw [hor]
  unfold bitAt
  interval_cases k <;> simp <;> omega

theorem output_bits (n : Nat) : ∀ (bits : List Nat), bits.length = 8 * n + 4 → isBits bits →
    ∀ k, k < bits.length →
      bitAt (hexPairsToBytes (nibbleChars bits ++ ['0'])) k = bits.getD k 0 := by
  induction n with
  | zero =>
    intro bits hl hb k hk
    match bits, hl, hb, hk with
    | [a, b, c, d], _, hb, hk =>
      obtain ⟨ha, hb1, hc, hd, _⟩ := isBits_cons4 hb
      have hv : 8 * a + 4 * b + 2 * c + d < 16 := by omega
      simp only [nibbleChars, List.nil_append, List.cons_append, hexPairsToBytes,
        (hexNibble_digit _ hv).1]
      simp only [List.length_cons, List.length_nil] at hk
      have h := byte_bits a b c d 0 0 0 0 [] ha hb1 hc hd (by norm_num) (by norm_num)
        (by norm_num) (by norm_num) k (by omega)
      have hz : hexNibble '0' = 8 * 0 + 4 * 0 + 2 * 0 + 0 := by decide
      rw [hz, h]
      interval_cases k <;> rfl
    | [], hl, _, _ => simp at hl
    | [_], hl, _, _ => simp at hl
    | [_, _], hl, _, _ => simp at hl
    | [_, _, _], hl, _, _ => simp at hl
    | _ :: _ :: _ :: _ :: _ :: _, hl, _, _ => simp at hl
  | succ n ih =>
    intro bits hl hb k hk
    match bits, hl, hb, hk with
    | a0 :: a1 :: a2 :: a3 :: a4 :: a5 :: a6 :: a7 :: rest, hl, hb, hk =>
      obtain ⟨h0, h1, h2, h3, hr⟩ := isBits_cons4 hb
      obtain ⟨h4, h5, h6, h7, hr2⟩ := isBits_cons4 hr
      have hv1 : 8 * a0 + 4 * a1 + 2 * a2 + a3 < 16 := by omega
      have hv2 : 8 * a4 + 4 * a5 + 2 * a6 + a7 < 16 := by omega
      simp only [nibbleChars, List.cons_append, hexPairsToBytes, (hexNibble_digit _ hv1).1,
        (hexNibble_digit _ hv2).1]
      by_cases hk8 : k < 8
      · rw [byte_bits a0 a1 a2 a3 a4 a5 a6 a7 _ h0 h1 h2 h3 h4 h5 h6 h7 k hk8]
        interval_cases k <;> rfl
      · obtain ⟨j, rfl⟩ : ∃ j, k = j + 8 := ⟨k - 8, by omega⟩
        rw [bitAt_cons]
        have hl2 : rest.length = 8 * n + 4 := by
          simp only [List.length_cons] at hl; omega
        have h := ih rest hl2 hr2 j (by simp only [List.length_cons] at hk; omega)
        exact h.trans (by simp [List.getD_cons_succ])
    | [], hl, _, _ =>
      exact absurd hl (by simp only [List.length_cons, List.length_nil]; omega)
    | [_], hl, _, _ =>
      exact absurd hl (by simp only [List.length_cons, List.length_nil]; omega)
    | [_, _], hl, _, _ =>
      exact absurd hl (by simp only [List.length_cons, List.length_nil]; omega)
    | [_, _, _], hl, _, _ =>
      exact absurd hl (by simp only [List.length_cons, List.length_nil]; omega)
    | [_, _, _, _], hl, _, _ =>
      exact absurd hl (by simp only [List.length_cons, List.length_nil]; omega)
    | [_, _, _, _, _], hl, _, _ =>
      exact absurd hl (by simp only [List.length_cons, List.length_nil]; omega)
    | [_, _, _, _, _, _], hl, _, _ =>
      exact absurd hl (by simp only [List.length_cons, List.length_nil]; omega)
    | [_, _, _, _, _, _, _], hl, _, _ =>
      exact absurd hl (by simp only [List.length_cons, List.length_nil]; omega)

theorem gf2bin_length (c : List Nat) : (gf2bin c).length = c.length * 6 := by
  simp [gf2bin]

theorem gf2bin_isBits (c : List Nat) : isBits (gf2bin c) := by
  intro b hb
  unfold gf2bin at hb
  rw [List.mem_map] at hb
  obtain ⟨k, _, rfl⟩ := hb
  exact and_one_le _

theorem gf2bin_getD (c : List Nat) (i j : Nat) (hi : i < c.length) (hj : j < 6) :
    (gf2bin c).getD (i * 6 + j) 0 = (c.getD i 0 >>> (5 - j)) &&& 1 := by
  have hk : i * 6 + j < c.length * 6 := by omega
  have h1 : (i * 6 + j) / 6 = i := by omega
  have h2 : (i * 6 + j) % 6 = j := by omega
  unfold gf2bin
  rw [List.getD_eq_getElem _ _ (by simpa using hk), List.getElem_map, List.getElem_range, h1, h2]

theorem six_bits_value : ∀ c, c < 64 →
    (List.range 6).foldl (fun v j => ((v <<< 1) ||| (((c >>> (5 - j)) &&& 1) &&& 1)) % 256) 0
      = c := by
  set_option maxRecDepth 100000 in decide

theorem symbolsOf_gf2bin (C : List Nat) (hC : ∀ c ∈ C, c < 64) : symbolsOf (gf2bin C) = C := by
  unfold symbolsOf
  have hlen : (gf2bin C).length / 6 = C.length := by
    rw [gf2bin_length]; omega
  rw [hlen]
  apply List.ext_getElem
  · simp
  · intro i h1 h2
    rw [List.getElem_map, List.getElem_range]
    have hfold : (List.range 6).foldl
        (fun v j => ((v <<< 1) ||| ((gf2bin C).getD (i * 6 + j) 0 &&& 1)) % 256) 0 =
        (List.range 6).foldl
        (fun v j => ((v <<< 1) ||| (((C[i] >>> (5 - j)) &&& 1) &&& 1)) % 256) 0 := by
      apply List.foldl_ext
      intro v j hj
      rw [List.mem_range] at hj
      rw [gf2bin_getD C i j h2 hj, List.getD_eq_getElem C 0 h2]
    rw [hfold]
    exact six_bits_value _ (hC _ (List.getElem_mem h2))

theorem countBitErrors_self (l : List Nat) : countBitErrors l l = 0 := by
  unfold countBitErrors
  rw [List.countP_eq_zero]
  intro ab hab
  have : ab.1 = ab.2 := by
    rw [List.zip_eq_zipWith] at hab
    induction l with
    | nil => simp at hab
    | cons a l ih =>
      simp only [List.zipWith_cons_cons, List.mem_cons] at hab
      rcases hab with rfl | h
      · rfl
      · exact ih h
  simp [this]

theorem bcnv3Loop_shape {μ : Type} (bp : BeliefPropagation μ) (edges : List (Nat × Nat × Nat))
    (m : Nat) (syms : List Nat) : ∀ (left : Nat) (st : μ) (code : List Nat) (done : Nat),
    ∃ code1 : List Nat, code1.length = code.length ∧
      (bcnv3Loop bp edges m syms left st code done).1 = gf2bin code1 := by
  intro left
  induction left with
  | zero =>
    intro st code done
    exact ⟨code, rfl, rfl⟩
  | succ left ih =>
    intro st code done
    unfold bcnv3Loop
    by_cases hc : check_parity edges m code = true
    · rw [if_pos hc]
      exact ⟨code, rfl, rfl⟩
    · rw [if_neg hc]
      obtain ⟨c1, h1, h2⟩ := ih (bp.update st)
        ((List.range code.length).map (fun i => bp.argmin (bp.update st) i % 256)) (done + 1)
      refine ⟨c1, ?_, h2⟩
      rw [h1]
      simp

theorem fold_row (code : List Nat) (i : Nat) : ∀ (es : List (Nat × Nat)) (s : List Nat),
    i < s.length →
    (es.map (fun e => (i, e.1, e.2))).foldl
      (fun s e => s.set e.1 (s.getD e.1 0 ^^^ GF_MUL e.2.2 (code.getD e.2.1 0))) s =
    s.set i (es.foldl (fun a e => a ^^^ GF_MUL e.2 (code.getD e.1 0)) (s.getD i 0)) := by
  intro es
  induction es with
  | nil =>
    intro s hi
    simp only [List.map_nil, List.foldl_nil]
    rw [List.getD_eq_getElem s 0 hi]
    apply List.ext_getElem
    · simp
    · intro n h1 h2
      rw [List.getElem_set]
      by_cases hin : i = n
      · subst hin; simp
      · rw [if_neg hin]
  | cons e es ih =>
    intro s hi
    simp only [List.map_cons, List.foldl_cons]
    rw [ih _ (by simpa using hi), List.set_set]
    congr 2
    rw [List.getD_eq_getElem _ 0 (by simpa using hi), List.getElem_set_self]

/-- The syndrome of row `r` as the edges of the row give it. -/
theorem fold_rows (H_idx H_ele : List (List Nat)) (code : List Nat) (m : Nat) :
    ∀ k, k ≤ m →
    ((List.range k).flatMap (fun i =>
      (List.range (H_idx.getD i []).length).map (fun j =>
        (i, (H_idx.getD i []).getD j 0, (H_ele.getD i []).getD j 0)))).foldl
      (fun s e => s.set e.1 (s.getD e.1 0 ^^^ GF_MUL e.2.2 (code.getD e.2.1 0)))
      (List.replicate m 0) =
    (List.range m).map (fun r => if r < k then
      (List.range (H_idx.getD r []).length).foldl (fun a j =>
        a ^^^ GF_MUL ((H_ele.getD r []).getD j 0) (code.getD ((H_idx.getD r []).getD j 0) 0)) 0
      else 0) := by
  intro k
  induction k with
  | zero =>
    intro _
    apply List.ext_getElem
    · simp
    · intro n h1 h2
      simp
  | succ k ih =>
    intro hk
    have hrow : (List.range (H_idx.getD k []).length).map (fun j =>
        (k, (H_idx.getD k []).getD j 0, (H_ele.getD k []).getD j 0)) =
        ((List.range (H_idx.getD k []).length).map (fun j =>
          ((H_idx.getD k []).getD j 0, (H_ele.getD k []).getD j 0))).map
          (fun e => (k, e.1, e.2)) := by
      rw [List.map_map]; rfl
    rw [List.range_succ, List.flatMap_append, List.foldl_append, ih (by omega)]
    simp only [List.flatMap_cons, List.flatMap_nil, List.append_nil]
    rw [hrow, fold_row code k _ _ (by simpa using hk), List.foldl_map]
    apply List.ext_getElem
    · simp
    · intro n h1 h2
      have hn : n < m := by simpa using h2
      rw [List.getElem_set, List.getElem_map, List.getElem_map, List.getElem_range,
        List.getD_eq_getElem _ 0 (by simpa using hk), List.getElem_map, List.getElem_range]
      by_cases hkn : k = n
      · subst hkn
        simp
      · rw [if_neg hkn]
        by_cases hlt : n < k
        · rw [if_pos hlt, if_pos (by omega)]
        · rw [if_neg hlt, if_neg (by omega)]

theorem H_rows_four : ∀ r, r < 81 → (H_idx_raw.getD r []).length = 4 := by
  set_option maxRecDepth 100000 in decide

theorem check_parity_iff (C : List Nat) :
    check_parity (edgesOf H_idx_raw H_ele_raw) 81 C = true ↔ ∀ i, i < 81 → rowSyndrome C i = 0 := by
  have hlen : H_idx_raw.length = 81 := by decide
  unfold check_parity edgesOf
  rw [hlen]
  simp only []
  rw [fold_rows H_idx_raw H_ele_raw C 81 81 (le_refl _), List.all_eq_true]
  constructor
  · intro h i hi
    have := h _ (List.mem_map.mpr ⟨i, List.mem_range.mpr hi, rfl⟩)
    rw [if_pos hi, H_rows_four i hi] at this
    unfold rowSyndrome
    rw [List.foldl_map]
    exact of_decide_eq_true this
  · intro h x hx
    rw [List.mem_map] at hx
    obtain ⟨i, hi, rfl⟩ := hx
    rw [List.mem_range] at hi
    rw [if_pos hi, H_rows_four i hi]
    have := h i hi
    unfold rowSyndrome at this
    rw [List.foldl_map] at this
    exact decide_eq_true this

theorem gf2bin_eq_symbolBits (C : List Nat) : gf2bin C = symbolBits C := by
  unfold gf2bin symbolBits
  rw [map_range_chunks 6 (fun c j => (c >>> (5 - j)) &&& 1) 0 C (by norm_num)]
  congr 1
  funext c
  simp [List.range_succ, Nat.shiftRight_eq_div_pow, Nat.and_one_is_mod]

theorem ldpcInput_length (navHex : QString) (hlen : navHex.length = 248)
    (hhex : ∀ c ∈ navHex, isHexChar c = true) : (ldpcInput navHex).length = 972 := by
  unfold ldpcInput
  have h2 : navHex.length ≥ 2 := by omega
  have hr : (SBFcoDecoder.read_hex_bits (navHex.take (navHex.length - 2))).length = 984 := by
    rw [read_hex_bits_length _ (fun c hc => hhex c (List.mem_of_mem_take hc)), List.length_take,
      hlen]
    rfl
  simp only [h2, if_true, hr]
  rw [if_pos (by norm_num), List.length_drop, hr]

theorem inner_shape {μ : Type} (bp : BeliefPropagation μ) (syms : List Nat)
    (h : syms.length = 972) :
    ∃ code1 : List Nat, code1.length = 162 ∧
      (SBFcoDecoder.decode_LDPC_BCNV3_bits bp H_idx_raw H_ele_raw 81 syms).1 = gf2bin code1 := by
  unfold SBFcoDecoder.decode_LDPC_BCNV3_bits
  have hn : ¬ syms.length / 6 ≤ 0 := by rw [h]; norm_num
  rw [if_neg hn]
  obtain ⟨c1, h1, h2⟩ := bcnv3Loop_shape bp (edgesOf H_idx_raw H_ele_raw) 81 syms 15
    (bp.start (symbolsOf syms)) (symbolsOf syms) 0
  refine ⟨c1, ?_, h2⟩
  rw [h1]
  simp [symbolsOf, h]

theorem navbitsRaw_of_bits {μ : Type} (bp : BeliefPropagation μ) (navBits : QString)
    (B : List Nat) (hB : B.length = 972) (hb : isBits B)
    (hdec : (SBFcoDecoder.decode_LDPC_BCNV3_bits bp H_idx_raw H_ele_raw 81
      (ldpcInput navBits)).1 = B) :
    SBFcoDecoder.decode_LDPC_navbitsRaw bp navBits = hexPairsToBytes (nibbleChars B ++ ['0']) := by
  obtain ⟨hlen, hall⟩ := nibbleChars_props 243 B (by rw [hB]) hb
  have hall2 : ∀ c ∈ nibbleChars B ++ ['0'], isHexChar c = true := by
    intro c hc
    rw [List.mem_append] at hc
    rcases hc with hc | hc
    · exact hall c hc
    · rw [List.mem_singleton] at hc
      subst hc
      decide
  unfold SBFcoDecoder.decode_LDPC_navbitsRaw SBFcoDecoder.hexToBytesSanitized
  simp only [hdec]
  rw [hex_str_from_bits_nibbles 243 B (by rw [hB]), map_and_one_of_isBits B hb]
  have hodd : (nibbleChars B).length % 2 = 1 := by rw [hlen]
  rw [if_pos hodd, filter_isHexChar_of_all _ hall2]
  have heven : ¬ (nibbleChars B ++ ['0']).length % 2 = 1 := by
    rw [List.length_append, hlen]; decide
  rw [if_neg heven]

theorem navbitsRaw_bytes {μ : Type} (bp : BeliefPropagation μ) (navBits : QString)
    (hlen : navBits.length = 248) (hhex : ∀ c ∈ navBits, isHexChar c = true) :
    (SBFcoDecoder.decode_LDPC_navbitsRaw bp navBits).length = 122 ∧
    ∀ k, k < 972 → bitAt (SBFcoDecoder.decode_LDPC_navbitsRaw bp navBits) k =
      (SBFcoDecoder.decode_LDPC_BCNV3_bits bp H_idx_raw H_ele_raw 81
        (ldpcInput navBits)).1.getD k 0 := by
  obtain ⟨c1, h1, h2⟩ := inner_shape bp (ldpcInput navBits) (ldpcInput_length navBits hlen hhex)
  have hB : (gf2bin c1).length = 972 := by rw [gf2bin_length, h1]
  have hb := gf2bin_isBits c1
  rw [navbitsRaw_of_bits bp navBits (gf2bin c1) hB hb h2, h2]
  obtain ⟨hl, -⟩ := nibbleChars_props 243 (gf2bin c1) (by rw [hB]) hb
  refine ⟨hexPairsToBytes_length 122 _ (by rw [List.length_append, hl]; rfl), ?_⟩
  intro k hk
  exact output_bits 121 (gf2bin c1) (by rw [hB]) hb k (by rw [hB]; exact hk)

theorem getbitu_first_six (data : List Nat) (n : Nat) :
    PPPB2bDecoder.getbitu (data.take (n + 1)) 0 6 = PPPB2bDecoder.getbitu data 0 6 := by
  unfold PPPB2bDecoder.getbitu
  apply List.foldl_ext
  intro bits i hi
  rw [List.mem_range] at hi
  have h0 : (0 + i) / 8 = 0 := by omega
  rw [h0]
  cases data with
  | nil => rfl
  | cons x xs => rfl

theorem fillmem_mask_into_empty (st : PPPB2bDecoder) (p : pppdata) (hm : p.mestype = 1)
    (hst : st.ssr_masks = []) :
    ∃ st1 : PPPB2bDecoder, PPPB2bDecoder.b2b_fillmem st p = some (st1, []) ∧
      st1.ssr_masks.length = 1 := by
  unfold PPPB2bDecoder.b2b_fillmem
  rw [if_pos hm]
  simp only [hst, List.any_nil, List.length_nil, if_true]
  refine ⟨_, rfl, ?_⟩
  simp [IF_MAXMASK]

theorem parsecorrData_type1 (mh : Message_header)
    (hm : PPPB2bDecoder.getbitu mh.data 0 6 = 1) :
    ∃ p : pppdata, parsecorrData mh = some p ∧ p.mestype = 1 := by
  unfold parsecorrData
  simp only [b2b_parse_ppp_type1 _ _ hm, if_true]
  exact ⟨_, rfl, rfl⟩

/-- A subtype-1 message handed to `b2b_parsecorr` while the mask table is empty
leaves one mask entry. -/
theorem parsecorr_mask_into_empty (st : PPPB2bDecoder) (mh : Message_header)
    (hm : PPPB2bDecoder.getbitu mh.data 0 6 = 1) (hst : st.ssr_masks = []) :
    ∃ st1 : PPPB2bDecoder, PPPB2bDecoder.b2b_parsecorr st mh = some (true, st1, []) ∧
      st1.ssr_masks.length = 1 := by
  obtain ⟨p, hp, hmes⟩ := parsecorrData_type1 mh hm
  obtain ⟨st1, h1, h2⟩ := fillmem_mask_into_empty st p hmes hst
  refine ⟨st1, ?_, h2⟩
  unfold PPPB2bDecoder.b2b_parsecorr
  rw [hp]
  simp only [h1]

theorem pageText_props (C p : List Nat) (t1 t2 : Char) (hC : C.length = 162)
    (hp : p.length = 12) (hpb : isBits p) :
    (pageText p C t1 t2).length = 248 ∧ ldpcInput (pageText p C t1 t2) = gf2bin C ∧
    (isHexChar t1 = true → isHexChar t2 = true →
      ∀ c ∈ pageText p C t1 t2, isHexChar c = true) := by
  have hB : (gf2bin C).length = 972 := by rw [gf2bin_length, hC]
  have hb := gf2bin_isBits C
  have hpBl : (p ++ gf2bin C).length = 4 * 246 := by rw [List.length_append, hp, hB]
  have hpBb : isBits (p ++ gf2bin C) := by
    intro x hx
    rw [List.mem_append] at hx
    rcases hx with hx | hx
    · exact hpb x hx
    · exact hb x hx
  obtain ⟨hnl, hnh⟩ := nibbleChars_props 246 (p ++ gf2bin C) hpBl hpBb
  have htext : pageText p C t1 t2 = nibbleChars (p ++ gf2bin C) ++ [t1, t2] := by
    rw [gf2bin_eq_symbolBits]; rfl
  have hlen : (pageText p C t1 t2).length = 248 := by
    rw [htext, List.length_append, hnl]; rfl
  refine ⟨hlen, ?_, ?_⟩
  · unfold ldpcInput
    have h2 : (pageText p C t1 t2).length ≥ 2 := by omega
    have htake : (pageText p C t1 t2).take ((pageText p C t1 t2).length - 2) =
        nibbleChars (p ++ gf2bin C) := by
      rw [hlen, htext]
      exact List.take_left' hnl
    simp only [h2, if_true, htake]
    rw [read_hex_bits_nibbleChars 246 (p ++ gf2bin C) hpBl hpBb, if_pos (by rw [hpBl]; norm_num)]
    exact List.drop_left' hp
  · intro h1 h2 c hc
    rw [htext, List.mem_append] at hc
    rcases hc with hc | hc
    · exact hnh c hc
    · simp only [List.mem_cons, List.mem_singleton, List.not_mem_nil, or_false] at hc
      rcases hc with rfl | rfl
      · exact h1
      · exact h2

/-- C11: for every word `C` of 162 symbols of GF(64) with zero syndrome in all 81
rows of `H_idx_raw`/`H_ele_raw`, every 12 prefix bits `p` and every two trailing
characters, the page text made of `p`, the bits of `C` (six per symbol, most
significant first) and the two characters has 248 characters; on it the inner
decoder returns the bits of `C` with 0 bit errors after 0 passes of belief
propagation, whatever the floating-point part does, and
`decode_LDPC_navbitsRaw` returns 122 bytes whose first 972 bits are the bits of
`C`. -/
theorem ldpc_round_trip_of_codeword {μ : Type} (bp : BeliefPropagation μ) (C p : List Nat)
    (t1 t2 : Char) (hC : C.length = 162) (hsym : ∀ c ∈ C, c < 64)
    (hsyn : ∀ i, i < 81 → rowSyndrome C i = 0) (hp : p.length = 12) (hpb : isBits p) :
    (pageText p C t1 t2).length = 248 ∧
    SBFcoDecoder.decode_LDPC_BCNV3_bits bp H_idx_raw H_ele_raw 81
      (ldpcInput (pageText p C t1 t2)) = (symbolBits C, 0, 0) ∧
    (SBFcoDecoder.decode_LDPC_navbitsRaw bp (pageText p C t1 t2)).length = 122 ∧
    ∀ k, k < 972 →
      bitAt (SBFcoDecoder.decode_LDPC_navbitsRaw bp (pageText p C t1 t2)) k =
        (symbolBits C).getD k 0 := by
  have hB : (gf2bin C).length = 972 := by rw [gf2bin_length, hC]
  have hb := gf2bin_isBits C
  obtain ⟨hlen, hin, -⟩ := pageText_props C p t1 t2 hC hp hpb
  have hinner : SBFcoDecoder.decode_LDPC_BCNV3_bits bp H_idx_raw H_ele_raw 81 (gf2bin C) =
      (gf2bin C, 0, 0) := by
    unfold SBFcoDecoder.decode_LDPC_BCNV3_bits
    have hn : ¬ (gf2bin C).length / 6 ≤ 0 := by rw [hB]; norm_num
    rw [if_neg hn]
    simp only [symbolsOf_gf2bin C hsym]
    unfold bcnv3Loop
    rw [if_pos ((check_parity_iff C).mpr hsyn), countBitErrors_self]
    rfl
  rw [hin, hinner]
  have hraw := navbitsRaw_of_bits bp (pageText p C t1 t2) (gf2bin C) hB hb (by rw [hin, hinner])
  rw [hraw, ← gf2bin_eq_symbolBits]
  obtain ⟨hl, -⟩ := nibbleChars_props 243 (gf2bin C) (by rw [hB]) hb
  refine ⟨hlen, rfl, hexPairsToBytes_length 122 _ (by rw [List.length_append, hl]; rfl), ?_⟩
  intro k hk
  exact output_bits 121 (gf2bin C) (by rw [hB]) hb k (by rw [hB]; exact hk)

theorem ldpc_round_trip_of_codeword_witness :
    sampleCodeword.length = 162 ∧ (∀ i, i < 81 → rowSyndrome sampleCodeword i = 0) ∧
    (pageText [1, 0, 1, 0, 0, 1, 0, 1, 1, 1, 0, 0] sampleCodeword '7' 'E').length = 248 ∧
    SBFcoDecoder.decode_LDPC_BCNV3_bits keepReceived H_idx_raw H_ele_raw 81
      (ldpcInput (pageText [1, 0, 1, 0, 0, 1, 0, 1, 1, 1, 0, 0] sampleCodeword '7' 'E')) =
      (symbolBits sampleCodeword, 0, 0) :=
  have hsyn : ∀ i, i < 81 → rowSyndrome sampleCodeword i = 0 := by
    decide!
  have h := ldpc_round_trip_of_codeword keepReceived sampleCodeword
    [1, 0, 1, 0, 0, 1, 0, 1, 1, 1, 0, 0] '7' 'E' (by decide!)
    (by decide!) hsyn (by decide) (by unfold isBits; decide)
  ⟨by decide!, hsyn, h.1, h.2.1⟩

theorem keepReceived_loop (edges : List (Nat × Nat × Nat)) (m : Nat) (syms : List Nat) :
    ∀ (left : Nat) (code : List Nat) (done : Nat), (∀ c ∈ code, c < 256) →
    check_parity edges m code = false →
    bcnv3Loop keepReceived edges m syms left code code done = (gf2bin code, -1, done + left) := by
  intro left
  induction left with
  | zero =>
    intro code done _ _
    rfl
  | succ left ih =>
    intro code done hb hc
    have hsame : (List.range code.length).map (fun i => code.getD i 0 % 256) = code := by
      apply List.ext_getElem
      · simp
      · intro i h1 h2
        rw [List.getElem_map, List.getElem_range, List.getD_eq_getElem code 0 h2]
        exact Nat.mod_eq_of_lt (hb _ (List.getElem_mem h2))
    unfold bcnv3Loop
    rw [if_neg (by rw [hc]; exact Bool.false_ne_true)]
    simp only [keepReceived, hsame]
    have h := ih code (done + 1) hb hc
    simp only [keepReceived] at h
    rw [h, Nat.add_assoc, Nat.add_comm 1 left]

/-- With `keepReceived` a page whose word is not a codeword ends with status -1
after 15 passes, and the bytes returned carry the bits of the word. -/
theorem keepReceived_page (C p : List Nat) (t1 t2 : Char) (hC : C.length = 162)
    (hsym : ∀ c ∈ C, c < 64) (hp : p.length = 12) (hpb : isBits p)
    (ht1 : isHexChar t1 = true) (ht2 : isHexChar t2 = true)
    (hpar : ¬ ∀ i, i < 81 → rowSyndrome C i = 0) (hfirst : C.getD 0 0 = 1) :
    (pageText p C t1 t2).length = 248 ∧
    (∀ c ∈ pageText p C t1 t2, isHexChar c = true) ∧
    (SBFcoDecoder.decode_LDPC_BCNV3_bits keepReceived H_idx_raw H_ele_raw 81
      (ldpcInput (pageText p C t1 t2))).2.1 = -1 ∧
    msbFirstValue (SBFcoDecoder.decode_LDPC_navbitsRaw keepReceived (pageText p C t1 t2)) 0 6
      = 1 := by
  obtain ⟨hlen, hin, hhex⟩ := pageText_props C p t1 t2 hC hp hpb
  have hpar2 : check_parity (edgesOf H_idx_raw H_ele_raw) 81 C = false := by
    rw [← Bool.not_eq_true, check_parity_iff]
    exact hpar
  have hinner : SBFcoDecoder.decode_LDPC_BCNV3_bits keepReceived H_idx_raw H_ele_raw 81
      (ldpcInput (pageText p C t1 t2)) = (gf2bin C, -1, 15) := by
    rw [hin]
    unfold SBFcoDecoder.decode_LDPC_BCNV3_bits
    rw [if_neg (by rw [gf2bin_length, hC]; norm_num)]
    simp only [symbolsOf_gf2bin C hsym]
    have h := keepReceived_loop (edgesOf H_idx_raw H_ele_raw) 81 (gf2bin C) 15 C 0
      (fun c hc => by have := hsym c hc; omega) hpar2
    rw [Nat.zero_add] at h
    exact h
  refine ⟨hlen, hhex ht1 ht2, by rw [hinner], ?_⟩
  obtain ⟨-, hbits⟩ := navbitsRaw_bytes keepReceived (pageText p C t1 t2) hlen (hhex ht1 ht2)
  have key : ∀ j, j < 6 →
      bitAt (SBFcoDecoder.decode_LDPC_navbitsRaw keepReceived (pageText p C t1 t2)) (0 + j) =
        (1 >>> (5 - j)) &&& 1 := by
    intro j hj
    rw [hbits (0 + j) (by omega), hinner]
    have := gf2bin_getD C 0 j (by omega) hj
    rw [Nat.zero_mul, hfirst] at this
    exact this
  unfold msbFirstValue
  simp only [Finset.sum_range_succ, Finset.sum_range_zero]
  rw [key 0 (by norm_num), key 1 (by norm_num), key 2 (by norm_num), key 3 (by norm_num),
    key 4 (by norm_num), key 5 (by norm_num)]
  decide

theorem samplePage_props :
    samplePage.length = 248 ∧ (∀ c ∈ samplePage, isHexChar c = true) ∧
    (SBFcoDecoder.decode_LDPC_BCNV3_bits keepReceived H_idx_raw H_ele_raw 81
      (ldpcInput samplePage)).2.1 = -1 ∧
    msbFirstValue (SBFcoDecoder.decode_LDPC_navbitsRaw keepReceived samplePage) 0 6 = 1 := by
  have hC : (1 :: List.replicate 161 0).length = 162 := by
    rw [List.length_cons, List.length_replicate]
  have hsym : ∀ c ∈ 1 :: List.replicate 161 0, c < 64 := by
    intro c hc
    rw [List.mem_cons] at hc
    rcases hc with rfl | hc
    · norm_num
    · rw [List.eq_of_mem_replicate hc]; norm_num
  have hpb : isBits (List.replicate 12 0) := by
    intro b hb
    rw [List.eq_of_mem_replicate hb]; norm_num
  have hpar : ¬ ∀ i, i < 81 → rowSyndrome (1 :: List.replicate 161 0) i = 0 :=
    fun h => absurd (h 17 (by norm_num)) (by decide!)
  unfold samplePage
  exact keepReceived_page (1 :: List.replicate 161 0) (List.replicate 12 0) '0' '0' hC hsym
    (List.length_replicate 12 0) hpb (by decide) (by decide) hpar rfl

/-- C12 (as stated) fails: the page of 248 characters '0' gives 122 bytes, fewer
than 124, whatever the floating-point part does. -/
theorem zero_page_decodes_to_122_bytes :
    (List.replicate 248 '0').length = 248 ∧
    (∀ c ∈ List.replicate 248 '0', isHexChar c = true) ∧
    ∀ (μ : Type) (bp : BeliefPropagation μ),
      (SBFcoDecoder.decode_LDPC_navbitsRaw bp (List.replicate 248 '0')).length = 122 ∧
      ¬ 124 ≤ (SBFcoDecoder.decode_LDPC_navbitsRaw bp (List.replicate 248 '0')).length := by
  have h1 : (List.replicate 248 '0').length = 248 := List.length_replicate 248 '0'
  have h2 : ∀ c ∈ List.replicate 248 '0', isHexChar c = true := by
    intro c hc
    rw [List.eq_of_mem_replicate hc]
    decide
  refine ⟨h1, h2, ?_⟩
  intro μ bp
  have h := (navbitsRaw_bytes bp (List.replicate 248 '0') h1 h2).1
  rw [h]
  exact ⟨rfl, by norm_num⟩

/-- C12 (as amended): for every NAVBits text of 248 hexadecimal characters the
byte payload returned by `decode_LDPC_navbitsRaw` has exactly 122 bytes, whether
or not the decoder converged: 246 characters give 984 bits, 972 after the 12
dropped ones, that is 243 characters, padded to 244. -/
theorem navbits_payload_has_122_bytes {μ : Type} (bp : BeliefPropagation μ) (navBits : QString)
    (hlen : navBits.length = 248) (hhex : ∀ c ∈ navBits, isHexChar c = true) :
    (SBFcoDecoder.decode_LDPC_navbitsRaw bp navBits).length = 122 :=
  (navbitsRaw_bytes bp navBits hlen hhex).1

theorem navbits_payload_has_122_bytes_witness :
    samplePage.length = 248 ∧ (∀ c ∈ samplePage, isHexChar c = true) ∧
    (SBFcoDecoder.decode_LDPC_navbitsRaw keepReceived samplePage).length = 122 :=
  ⟨samplePage_props.1, samplePage_props.2.1,
    navbits_payload_has_122_bytes keepReceived samplePage samplePage_props.1
      samplePage_props.2.1⟩

/-- C13 (the code, against the claim): for every page of 248 hexadecimal
characters on which the inner decoder returns status -1, whatever the
floating-point part does, `decode_LDPC_navbitsRaw` still returns the bytes of
the hard decision, and `decode_b2b_payload` stores the page time and hands these
bytes to `b2b_parsecorr`, whose result is the result of the page.  When the
first six of these bits read as subtype 1 and the mask table is empty, the page
leaves a mask entry in the table. -/
theorem unconverged_page_is_parsed {μ : Type} (bp : BeliefPropagation μ) (st : PPPB2bDecoder)
    (navHex : QString) (WNc TOW : Nat)
    (hlen : navHex.length = 248) (hhex : ∀ c ∈ navHex, isHexChar c = true)
    (_hfail : (SBFcoDecoder.decode_LDPC_BCNV3_bits bp H_idx_raw H_ele_raw 81
      (ldpcInput navHex)).2.1 = -1) :
    (∀ k, k < 972 → bitAt (SBFcoDecoder.decode_LDPC_navbitsRaw bp navHex) k =
      (SBFcoDecoder.decode_LDPC_BCNV3_bits bp H_idx_raw H_ele_raw 81
        (ldpcInput navHex)).1.getD k 0) ∧
    PPPB2bDecoder.decodePage bp st navHex WNc TOW =
      (PPPB2bDecoder.b2b_parsecorr { st with lastTime := bncTime.set WNc TOW }
        { current_PRN := 59, BDSweek := WNc, BDSsecond := TOW,
          data := SBFcoDecoder.decode_LDPC_navbitsRaw bp navHex }).map (fun r => r.2) ∧
    (msbFirstValue (SBFcoDecoder.decode_LDPC_navbitsRaw bp navHex) 0 6 = 1 →
      st.ssr_masks = [] →
      ∃ st1 : PPPB2bDecoder, PPPB2bDecoder.decodePage bp st navHex WNc TOW = some (st1, []) ∧
        st1.ssr_masks.length = 1) := by
  obtain ⟨h122, hbits⟩ := navbitsRaw_bytes bp navHex hlen hhex
  have htake : (SBFcoDecoder.decode_LDPC_navbitsRaw bp navHex).take 1024 =
      SBFcoDecoder.decode_LDPC_navbitsRaw bp navHex :=
    List.take_of_length_le (by rw [h122]; norm_num)
  have hpage : PPPB2bDecoder.decodePage bp st navHex WNc TOW =
      (PPPB2bDecoder.b2b_parsecorr { st with lastTime := bncTime.set WNc TOW }
        { current_PRN := 59, BDSweek := WNc, BDSsecond := TOW,
          data := SBFcoDecoder.decode_LDPC_navbitsRaw bp navHex }).map (fun r => r.2) := by
    unfold PPPB2bDecoder.decodePage
    simp only [h122, htake]
    rw [if_pos (by norm_num)]
    cases PPPB2bDecoder.b2b_parsecorr { st with lastTime := bncTime.set WNc TOW }
      { current_PRN := 59, BDSweek := WNc, BDSsecond := TOW,
        data := SBFcoDecoder.decode_LDPC_navbitsRaw bp navHex } <;> rfl
  refine ⟨hbits, hpage, ?_⟩
  intro hm hst
  obtain ⟨st1, h1, h2⟩ := parsecorr_mask_into_empty { st with lastTime := bncTime.set WNc TOW }
    { current_PRN := 59, BDSweek := WNc, BDSsecond := TOW,
      data := SBFcoDecoder.decode_LDPC_navbitsRaw bp navHex }
    (by rw [getbitu_eq_msbFirstValue _ 0 6 (by norm_num)]; exact hm) hst
  exact ⟨st1, by rw [hpage, h1]; rfl, h2⟩

theorem unconverged_page_is_parsed_witness :
    samplePage.length = 248 ∧ (∀ c ∈ samplePage, isHexChar c = true) ∧
    (SBFcoDecoder.decode_LDPC_BCNV3_bits keepReceived H_idx_raw H_ele_raw 81
      (ldpcInput samplePage)).2.1 = -1 ∧
    ∃ st1 : PPPB2bDecoder,
      PPPB2bDecoder.decodePage keepReceived PPPB2bDecoder.init samplePage 2300 1000 =
        some (st1, []) ∧ st1.ssr_masks.length = 1 :=
  ⟨samplePage_props.1, samplePage_props.2.1, samplePage_props.2.2.1,
    (unconverged_page_is_parsed keepReceived PPPB2bDecoder.init samplePage 2300 1000
      samplePage_props.1 samplePage_props.2.1 samplePage_props.2.2.1).2.2
      samplePage_props.2.2.2 rfl⟩

/-! Slot numbering and time conversion -/

/-- C29 (the code, against the claim): `syssig_prn` gives BeiDou for 1..63, GPS
for 64..99 only, Galileo for 101..136 only and GLONASS for 138..173 only; the
slots 100, 137 and 174 get no constellation, although `satslot_prn` numbers
them 37 within GPS, Galileo and GLONASS.  A subtype-2 message for slot 100,
ingested into the fresh decoder, stores `iode[99] = 5` and appends nothing to
the pending orbit buffer. -/
theorem syssig_prn_misses_last_slot_of_each_system :
    (∀ s : Int, syssig_prn s =
      if 1 ≤ s ∧ s ≤ 63 then 0 else if 64 ≤ s ∧ s ≤ 99 then 1
      else if 101 ≤ s ∧ s ≤ 136 then 2 else if 138 ≤ s ∧ s ≤ 173 then 3 else -1) ∧
    (∀ s : Int, satslot_prn s =
      if 1 ≤ s ∧ s ≤ 63 then s else if 64 ≤ s ∧ s ≤ 100 then s - 63
      else if 101 ≤ s ∧ s ≤ 137 then s - 100 else if 138 ≤ s ∧ s ≤ 174 then s - 137 else -1) ∧
    (syssig_prn 100 = -1 ∧ syssig_prn 137 = -1 ∧ syssig_prn 174 = -1) ∧
    (satslot_prn 100 = 37 ∧ satslot_prn 137 = 37 ∧ satslot_prn 174 = 37) ∧
    (match PPPB2bDecoder.b2b_fillmem PPPB2bDecoder.init
        (sampleOrbitMessage 0 (sampleTrack 100 5 1 7)) with
      | some r => (r.1.ssr_orbits.map (fun o => o.iode.getD 99 0), r.1.orbBuffer, r.2)
      | none => ([], [], [])) = ([5], [], []) := by
  refine ⟨?_, ?_, by decide, by decide, by decide!⟩
  · intro s
    unfold syssig_prn
    have e1 : (64 ≤ s ∧ s < 100) ↔ (64 ≤ s ∧ s ≤ 99) := by omega
    have e2 : (101 ≤ s ∧ s < 137) ↔ (101 ≤ s ∧ s ≤ 136) := by omega
    have e3 : (138 ≤ s ∧ s < 174) ↔ (138 ≤ s ∧ s ≤ 173) := by omega
    simp only [e1, e2, e3]
  · intro s
    rfl

theorem tdiv_nonneg_eq (a b : Int) (ha : 0 ≤ a) (hb : 0 ≤ b) : a.tdiv b = a / b :=
  Int.tdiv_eq_ediv ha hb

/-- C30: for a week `week ≥ 0` and whole seconds `0 ≤ sow < 604800` whose day
number fits an `int`, `wksow2mjd` returns
`mjd = floor((sow + week * 604800) / 86400) + 44244` and
`sod = (sow + week * 604800) mod 86400`, and `mjd2wksow` takes the pair back to
`(week, sow)`; for `mjd ≥ 44244` and whole seconds `0 ≤ sod < 86400`,
`wksow2mjd` takes `mjd2wksow (mjd, sod)` back to `(mjd, sod)`. -/
theorem wksow2mjd_mjd2wksow_inverse (week sow mjd sod : Int)
    (hw : 0 ≤ week) (hs0 : 0 ≤ sow) (hs1 : sow < 604800)
    (_hfit : (sow + week * 604800) / 86400 + 44244 < 2147483648)
    (hm : 44244 ≤ mjd) (hd0 : 0 ≤ sod) (hd1 : sod < 86400) :
    PPPB2bDecoder.wksow2mjd week sow =
      ((sow + week * 604800) / 86400 + 44244, (sow + week * 604800) % 86400) ∧
    PPPB2bDecoder.mjd2wksow (PPPB2bDecoder.wksow2mjd week sow).1
      (PPPB2bDecoder.wksow2mjd week sow).2 = (week, sow) ∧
    PPPB2bDecoder.wksow2mjd (PPPB2bDecoder.mjd2wksow mjd sod).1
      (PPPB2bDecoder.mjd2wksow mjd sod).2 = (mjd, sod) := by
  have h1 : PPPB2bDecoder.wksow2mjd week sow =
      ((sow + week * 604800) / 86400 + 44244, (sow + week * 604800) % 86400) := by
    unfold PPPB2bDecoder.wksow2mjd
    rw [Int.tdiv_eq_ediv (by omega) (by norm_num), Int.tmod_eq_emod (by omega) (by norm_num)]
  refine ⟨h1, ?_, ?_⟩
  · rw [h1]
    unfold PPPB2bDecoder.mjd2wksow
    simp only []
    have hT : ((sow + week * 604800) / 86400 + 44244 - 44244) * 86400 +
        (sow + week * 604800) % 86400 = sow + week * 604800 := by omega
    rw [hT, Int.tdiv_eq_ediv (by omega) (by norm_num)]
    have hq : (sow + week * 604800) / 604800 = week := by omega
    rw [hq]
    congr 1
    omega
  · unfold PPPB2bDecoder.mjd2wksow
    simp only []
    rw [Int.tdiv_eq_ediv (by omega) (by norm_num)]
    unfold PPPB2bDecoder.wksow2mjd
    have hT : (mjd - 44244) * 86400 + sod -
        ((mjd - 44244) * 86400 + sod) / 604800 * 604800 +
        ((mjd - 44244) * 86400 + sod) / 604800 * 604800 = (mjd - 44244) * 86400 + sod := by
      omega
    rw [hT, Int.tdiv_eq_ediv (by omega) (by norm_num), Int.tmod_eq_emod (by omega) (by norm_num)]
    congr 1 <;> omega

theorem wksow2mjd_mjd2wksow_inverse_witness :
    (100000 + 900 * 604800 : Int) / 86400 + 44244 < 2147483648 ∧
    PPPB2bDecoder.wksow2mjd 900 100000 = (50545, 13600) ∧
    PPPB2bDecoder.mjd2wksow (PPPB2bDecoder.wksow2mjd 900 100000).1
      (PPPB2bDecoder.wksow2mjd 900 100000).2 = (900, 100000) ∧
    PPPB2bDecoder.wksow2mjd (PPPB2bDecoder.mjd2wksow 50545 13600).1
      (PPPB2bDecoder.mjd2wksow 50545 13600).2 = (50545, 13600) :=
  ⟨by norm_num, by decide,
    (wksow2mjd_mjd2wksow_inverse 900 100000 50545 13600 (by norm_num) (by norm_num)
      (by norm_num) (by norm_num) (by norm_num) (by norm_num) (by norm_num)).2⟩

/-! The IODE cross-reference (`b2b_updateiode`) -/

theorem find?_window (l : List ppp_ssr_orbit) (SSR : Int) (q : ppp_ssr_orbit → Bool) :
    (l.reverse).find? (fun o => decide (o.SSR = SSR) && q o) =
      ((l.filter (fun o => decide (o.SSR = SSR))).reverse).find? q := by
  rw [← List.filter_reverse, List.find?_filter]
  congr 1
  funext o
  by_cases h1 : o.SSR = SSR <;> by_cases h2 : q o = true <;> simp [h1, h2]

/-- What `b2b_updateiode` returns, in terms of the most recent set among
`recentOrbits` whose `iodcorr[prn]` is `iodcrc`. -/
theorem b2b_updateiode_eq (ssr_orbits : List ppp_ssr_orbit) (SSR : Int) (prn : Nat)
    (iodcrc : Int) :
    PPPB2bDecoder.b2b_updateiode ssr_orbits SSR prn iodcrc =
      match (recentOrbits ssr_orbits SSR).find?
          (fun o => decide (o.iodcorr.getD prn 0 = iodcrc)) with
      | some o => o.iode.getD prn 0
      | none => -1 := by
  unfold PPPB2bDecoder.b2b_updateiode recentOrbits
  rw [find?_window]

/-! Emission: what is appended, what is published -/

theorem emitCorrections_eq (st : PPPB2bDecoder) (p : pppdata) :
    PPPB2bDecoder.emitCorrections st p =
      PPPB2bDecoder.processBufferedCorrections
        { st with
          orbBuffer := st.orbBuffer ++ orbPushed st p
          clkBuffer := st.clkBuffer ++ clkPushed st p } := by
  unfold PPPB2bDecoder.emitCorrections orbPushed clkPushed
  cases st.ssr_orbits.find? (fun o => decide (o.SSR = (p.SSR : Int))) <;>
    cases st.ssr_clocks.find? (fun c => decide (c.SSR = (p.SSR : Int))) <;>
    by_cases h2 : p.mestype = 2 <;> by_cases h4 : p.mestype = 4 <;>
    simp [h2, h4]

theorem processBufferedCorrections_tables (st : PPPB2bDecoder) :
    (PPPB2bDecoder.processBufferedCorrections st).1.ssr_masks = st.ssr_masks ∧
    (PPPB2bDecoder.processBufferedCorrections st).1.ssr_orbits = st.ssr_orbits ∧
    (PPPB2bDecoder.processBufferedCorrections st).1.ssr_clocks = st.ssr_clocks ∧
    (PPPB2bDecoder.processBufferedCorrections st).1.lastTime = st.lastTime := by
  unfold PPPB2bDecoder.processBufferedCorrections
  simp only []
  split_ifs <;> exact ⟨rfl, rfl, rfl, rfl⟩

theorem emitCorrections_tables (st : PPPB2bDecoder) (p : pppdata) :
    (PPPB2bDecoder.emitCorrections st p).1.ssr_masks = st.ssr_masks ∧
    (PPPB2bDecoder.emitCorrections st p).1.ssr_orbits = st.ssr_orbits ∧
    (PPPB2bDecoder.emitCorrections st p).1.ssr_clocks = st.ssr_clocks ∧
    (PPPB2bDecoder.emitCorrections st p).1.lastTime = st.lastTime := by
  rw [emitCorrections_eq]
  exact processBufferedCorrections_tables _

/-! The cases of `b2b_fillmem` -/

theorem b2b_fillmem_mask (st : PPPB2bDecoder) (p : pppdata) (hm : p.mestype = 1) :
    PPPB2bDecoder.b2b_fillmem st p =
      if st.ssr_masks.any (fun m => decide (m.SSR = (p.SSR : Int)) &&
          decide (m.iodp = (p.type1.IODP : Int))) = false then
        some ({ st with ssr_masks :=
          (if st.ssr_masks.length ≥ IF_MAXMASK then st.ssr_masks.tail else st.ssr_masks) ++
            [{ SSR := p.SSR, iodp := p.type1.IODP, cmake := p.type1.prn_make }] }, [])
      else some (st, []) := by
  unfold PPPB2bDecoder.b2b_fillmem
  rw [if_pos hm]

theorem b2b_fillmem_orbit (st : PPPB2bDecoder) (p : pppdata) (hm : p.mestype = 2) :
    PPPB2bDecoder.b2b_fillmem st p =
      if st.ssr_orbits.findIdx (orbitHasKey p) < st.ssr_orbits.length then
        (fillOrbitRecords (st.ssr_orbits.getD (st.ssr_orbits.findIdx (orbitHasKey p))
            ppp_ssr_orbit.zero) p.type2.trasub).map
          (fun o => PPPB2bDecoder.emitCorrections
            { st with ssr_orbits := st.ssr_orbits.set (st.ssr_orbits.findIdx (orbitHasKey p)) o }
            p)
      else
        (fillOrbitRecords
          { (if st.ssr_orbits.length ≥ IF_MAXSSR then st.ssr_orbits.getLastD ppp_ssr_orbit.zero
              else ppp_ssr_orbit.zero) with
            bweek := p.BDSweek
            bsow := p.BDSsow
            SSR := p.SSR
            iodcorr := List.replicate IF_MAXSAT (-1)
            iode := List.replicate IF_MAXSAT (-1) } p.type2.trasub).map
          (fun o => PPPB2bDecoder.emitCorrections
            { st with ssr_orbits :=
              (if st.ssr_orbits.length ≥ IF_MAXSSR then st.ssr_orbits.tail
                else st.ssr_orbits) ++ [o] } p) := by
  unfold PPPB2bDecoder.b2b_fillmem
  rw [if_neg (by omega), if_pos hm]
  simp only [decide_eq_true_eq]
  by_cases hf : st.ssr_orbits.findIdx (orbitHasKey p) < st.ssr_orbits.length
  · have hf2 := hf
    unfold orbitHasKey at hf2
    rw [if_pos hf, if_pos hf2]
    unfold orbitHasKey
    cases fillOrbitRecords _ p.type2.trasub <;> rfl
  · have hf2 := hf
    unfold orbitHasKey at hf2
    rw [if_neg hf, if_neg hf2]
    cases fillOrbitRecords _ p.type2.trasub <;> rfl

theorem b2b_fillmem_clock (st : PPPB2bDecoder) (p : pppdata) (hm : p.mestype = 4) :
    PPPB2bDecoder.b2b_fillmem st p =
      some (PPPB2bDecoder.emitCorrections { st with ssr_clocks := clockTable st p } p) := by
  unfold PPPB2bDecoder.b2b_fillmem
  rw [if_neg (by omega), if_neg (by omega), if_pos hm]
  unfold clockTable clockFilled clockTarget clockHasKey
  simp only [decide_eq_true_eq]
  by_cases hf : st.ssr_clocks.findIdx (fun c => decide (c.SSR = (p.SSR : Int)) &&
      decide (c.bweek = p.BDSweek) && decide (c.bsow = p.BDSsow)) < st.ssr_clocks.length
  · simp only [hf, if_true]
  · simp only [hf, if_false]

theorem b2b_fillmem_none (st : PPPB2bDecoder) (p : pppdata) (h1 : p.mestype ≠ 1)
    (h2 : p.mestype ≠ 2) (h4 : p.mestype ≠ 4) :
    PPPB2bDecoder.b2b_fillmem st p = some (st, []) := by
  unfold PPPB2bDecoder.b2b_fillmem
  rw [if_neg h1, if_neg h2, if_neg h4]

/-! No correction with `iod = -1` -/

theorem orbCorrsOf_iod (t : bncTime) (o : ppp_ssr_orbit) :
    ∀ x ∈ orbCorrsOf t o, x.iod ≠ -1 := by
  intro x hx
  unfold orbCorrsOf at hx
  rw [List.mem_filterMap] at hx
  obtain ⟨isat, -, h⟩ := hx
  by_cases h1 : o.iode.getD isat 0 = -1
  · rw [if_pos h1] at h; exact absurd h (by simp)
  · rw [if_neg h1] at h
    by_cases h2 : syssig_prn ((isat : Int) + 1) < 0
    · rw [if_pos h2] at h; exact absurd h (by simp)
    · rw [if_neg h2, Option.some.injEq] at h
      rw [← h]
      exact h1

theorem clkCorrsOf_iod (t : bncTime) (c : ppp_ssr_clock) :
    ∀ x ∈ clkCorrsOf t c, x.iod ≠ -1 := by
  intro x hx
  unfold clkCorrsOf at hx
  rw [List.mem_filterMap] at hx
  obtain ⟨isat, -, h⟩ := hx
  by_cases h1 : c.iode.getD isat 0 = -1
  · rw [if_pos h1] at h; exact absurd h (by simp)
  · rw [if_neg h1] at h
    by_cases h2 : syssig_prn ((isat : Int) + 1) < 0
    · rw [if_pos h2] at h; exact absurd h (by simp)
    · rw [if_neg h2, Option.some.injEq] at h
      rw [← h]
      exact h1

theorem orbPushed_iod (st : PPPB2bDecoder) (p : pppdata) : ∀ x ∈ orbPushed st p, x.iod ≠ -1 := by
  intro x hx
  unfold orbPushed at hx
  cases hf : st.ssr_orbits.find? (fun o => decide (o.SSR = (p.SSR : Int))) with
  | none => rw [hf] at hx; exact absurd hx (List.not_mem_nil x)
  | some o =>
    rw [hf] at hx
    by_cases h2 : p.mestype = 2
    · simp only [h2, if_true] at hx
      exact orbCorrsOf_iod _ _ x hx
    · simp only [h2, if_false] at hx
      exact absurd hx (List.not_mem_nil x)

theorem clkPushed_iod (st : PPPB2bDecoder) (p : pppdata) : ∀ x ∈ clkPushed st p, x.iod ≠ -1 := by
  intro x hx
  unfold clkPushed at hx
  cases hf : st.ssr_clocks.find? (fun c => decide (c.SSR = (p.SSR : Int))) with
  | none => rw [hf] at hx; exact absurd hx (List.not_mem_nil x)
  | some c =>
    rw [hf] at hx
    by_cases h4 : p.mestype = 4
    · simp only [h4, if_true] at hx
      exact clkCorrsOf_iod _ _ x hx
    · simp only [h4, if_false] at hx
      exact absurd hx (List.not_mem_nil x)

theorem processBufferedCorrections_cases (st : PPPB2bDecoder) :
    (|bncTime.diff st.lastTime
        (if st.lastEmitTime = none then st.lastTime else st.lastEmitTime)| ≥ 5 ∧
      PPPB2bDecoder.processBufferedCorrections st =
        ({ st with orbBuffer := [], clkBuffer := [], lastEmitTime := st.lastTime },
          (if st.orbBuffer = [] then []
            else [B2bSignal.newOrbCorrections
              (st.orbBuffer.map (fun o => { o with time := st.lastTime }))]) ++
          (if st.clkBuffer = [] then []
            else [B2bSignal.newClkCorrections
              (st.clkBuffer.map (fun c => { c with time := st.lastTime }))]))) ∨
    (¬ |bncTime.diff st.lastTime
        (if st.lastEmitTime = none then st.lastTime else st.lastEmitTime)| ≥ 5 ∧
      PPPB2bDecoder.processBufferedCorrections st =
        ({ st with lastEmitTime :=
            if st.lastEmitTime = none then st.lastTime else st.lastEmitTime }, [])) := by
  unfold PPPB2bDecoder.processBufferedCorrections
  by_cases h : |bncTime.diff st.lastTime
      (if st.lastEmitTime = none then st.lastTime else st.lastEmitTime)| ≥ 5
  · exact Or.inl ⟨h, by simp only [h, if_true]⟩
  · exact Or.inr ⟨h, by simp only [h, if_false]⟩

theorem processBufferedCorrections_iod (st : PPPB2bDecoder) (h : pendingIodsDefined st) :
    pendingIodsDefined (PPPB2bDecoder.processBufferedCorrections st).1 ∧
    publishedIodsDefined (PPPB2bDecoder.processBufferedCorrections st).2 := by
  obtain ⟨ho, hc⟩ := h
  rcases processBufferedCorrections_cases st with ⟨-, heq⟩ | ⟨-, heq⟩
  · rw [heq]
    refine ⟨⟨fun o hoo => absurd hoo (List.not_mem_nil o),
      fun c hcc => absurd hcc (List.not_mem_nil c)⟩, ?_⟩
    intro s hs
    simp only [List.mem_append] at hs
    rcases hs with hs | hs
    · by_cases he : st.orbBuffer = []
      · rw [if_pos he] at hs; exact absurd hs (List.not_mem_nil s)
      · rw [if_neg he, List.mem_singleton] at hs
        subst hs
        simp only [B2bSignal.iods, List.map_map, List.mem_map, Function.comp, not_exists, not_and]
        intro x hx heq2
        exact ho x hx heq2
    · by_cases he : st.clkBuffer = []
      · rw [if_pos he] at hs; exact absurd hs (List.not_mem_nil s)
      · rw [if_neg he, List.mem_singleton] at hs
        subst hs
        simp only [B2bSignal.iods, List.map_map, List.mem_map, Function.comp, not_exists, not_and]
        intro x hx heq2
        exact hc x hx heq2
  · rw [heq]
    exact ⟨⟨ho, hc⟩, fun s hs => absurd hs (List.not_mem_nil s)⟩

theorem emitCorrections_iod (st : PPPB2bDecoder) (p : pppdata) (h : pendingIodsDefined st) :
    pendingIodsDefined (PPPB2bDecoder.emitCorrections st p).1 ∧
    publishedIodsDefined (PPPB2bDecoder.emitCorrections st p).2 := by
  rw [emitCorrections_eq]
  apply processBufferedCorrections_iod
  obtain ⟨ho, hc⟩ := h
  constructor
  · intro o hoo
    simp only [List.mem_append] at hoo
    rcases hoo with h1 | h1
    · exact ho o h1
    · exact orbPushed_iod st p o h1
  · intro c hcc
    simp only [List.mem_append] at hcc
    rcases hcc with h1 | h1
    · exact hc c h1
    · exact clkPushed_iod st p c h1

theorem b2b_fillmem_iod (st : PPPB2bDecoder) (p : pppdata) (r : PPPB2bDecoder × List B2bSignal)
    (hr : PPPB2bDecoder.b2b_fillmem st p = some r) (h : pendingIodsDefined st) :
    pendingIodsDefined r.1 ∧ publishedIodsDefined r.2 := by
  have hnil : publishedIodsDefined [] := fun s hs => absurd hs (List.not_mem_nil s)
  by_cases h1 : p.mestype = 1
  · rw [b2b_fillmem_mask st p h1] at hr
    split_ifs at hr <;> rw [Option.some.injEq] at hr <;> subst hr <;> exact ⟨h, hnil⟩
  · by_cases h2 : p.mestype = 2
    · rw [b2b_fillmem_orbit st p h2] at hr
      split_ifs at hr <;>
      · rw [Option.map_eq_some'] at hr
        obtain ⟨o, -, rfl⟩ := hr
        exact emitCorrections_iod _ p h
    · by_cases h4 : p.mestype = 4
      · rw [b2b_fillmem_clock st p h4, Option.some.injEq] at hr
        subst hr
        exact emitCorrections_iod _ p h
      · rw [b2b_fillmem_none st p h1 h2 h4, Option.some.injEq] at hr
        subst hr
        exact ⟨h, hnil⟩

theorem ingestAll_iod (msgs : List (bncTime × pppdata)) :
    ∀ (st0 st : PPPB2bDecoder) (sigs : List B2bSignal), pendingIodsDefined st0 →
    ingestAll st0 msgs = some (st, sigs) →
    pendingIodsDefined st ∧ publishedIodsDefined sigs := by
  induction msgs with
  | nil =>
    intro st0 st sigs h0 h
    simp only [ingestAll, Option.some.injEq, Prod.mk.injEq] at h
    obtain ⟨rfl, rfl⟩ := h
    exact ⟨h0, fun s hs => absurd hs (List.not_mem_nil s)⟩
  | cons tp rest ih =>
    intro st0 st sigs h0 h
    simp only [ingestAll] at h
    cases hf : PPPB2bDecoder.b2b_fillmem { st0 with lastTime := tp.1 } tp.2 with
    | none => rw [hf] at h; exact absurd h (by simp)
    | some r =>
      rw [hf] at h
      simp only [] at h
      obtain ⟨hr1, hr2⟩ := b2b_fillmem_iod _ _ r hf h0
      cases hg : ingestAll r.1 rest with
      | none => rw [hg] at h; exact absurd h (by simp)
      | some r2 =>
        rw [hg] at h
        simp only [Option.some.injEq, Prod.mk.injEq] at h
        obtain ⟨rfl, rfl⟩ := h
        obtain ⟨h1, h2⟩ := ih r.1 r2.1 r2.2 hr1 hg
        refine ⟨h1, ?_⟩
        intro s hs
        rw [List.mem_append] at hs
        rcases hs with hs | hs
        · exact hr2 s hs
        · exact h2 s hs

/-- The pending buffers in runs that stay inside the arrays: in every state
reached from the decoder after its constructor by a sequence of ingested
messages, whatever their page times, each write of which stayed inside the
arrays, no item of the pending orbit buffer or of the pending clock buffer has
`iod = -1`, and none of the lists published on the way holds such an item. -/
theorem reachable_buffers_have_no_iod_minus_one (msgs : List (bncTime × pppdata))
    (st : PPPB2bDecoder) (sigs : List B2bSignal)
    (h : ingestAll PPPB2bDecoder.init msgs = some (st, sigs)) :
    (∀ o ∈ st.orbBuffer, o.iod ≠ -1) ∧ (∀ c ∈ st.clkBuffer, c.iod ≠ -1) ∧
    (∀ s ∈ sigs, (-1 : Int) ∉ s.iods) := by
  have h0 : pendingIodsDefined PPPB2bDecoder.init :=
    ⟨fun o ho => absurd ho (List.not_mem_nil o), fun c hc => absurd hc (List.not_mem_nil c)⟩
  obtain ⟨⟨h1, h2⟩, h3⟩ := ingestAll_iod msgs PPPB2bDecoder.init st sigs h0 h
  exact ⟨h1, h2, h3⟩

/-! The emission cadence (`processBufferedCorrections`) -/

theorem runPage_first (st : PPPB2bDecoder) (r : PageRun) (h : st.lastEmitTime = none) :
    runPage st r =
      ({ st with
          lastTime := some r.t
          orbBuffer := st.orbBuffer ++ r.orb
          clkBuffer := st.clkBuffer ++ r.clk
          lastEmitTime := some r.t }, []) := by
  unfold runPage
  rcases processBufferedCorrections_cases
    { st with lastTime := some r.t, orbBuffer := st.orbBuffer ++ r.orb,
              clkBuffer := st.clkBuffer ++ r.clk } with ⟨h5, -⟩ | ⟨-, heq⟩
  · simp only [h, if_true, bncTime.diff, sub_self, abs_zero] at h5
    exact absurd h5 (by norm_num)
  · rw [heq]
    simp only [h, if_true]

theorem runPage_later (st : PPPB2bDecoder) (r : PageRun) (e : Int)
    (h : st.lastEmitTime = some e) :
    (5 ≤ |r.t - e| ∧
      runPage st r =
        ({ st with
            lastTime := some r.t
            orbBuffer := []
            clkBuffer := []
            lastEmitTime := some r.t },
          (if st.orbBuffer ++ r.orb = [] then []
            else [B2bSignal.newOrbCorrections
              ((st.orbBuffer ++ r.orb).map (fun o => { o with time := some r.t }))]) ++
          (if st.clkBuffer ++ r.clk = [] then []
            else [B2bSignal.newClkCorrections
              ((st.clkBuffer ++ r.clk).map (fun c => { c with time := some r.t }))]))) ∨
    (|r.t - e| < 5 ∧
      runPage st r =
        ({ st with
            lastTime := some r.t
            orbBuffer := st.orbBuffer ++ r.orb
            clkBuffer := st.clkBuffer ++ r.clk
            lastEmitTime := some e }, [])) := by
  unfold runPage
  have hne : ¬ (some e : bncTime) = none := by simp
  rcases processBufferedCorrections_cases
    { st with lastTime := some r.t, orbBuffer := st.orbBuffer ++ r.orb,
              clkBuffer := st.clkBuffer ++ r.clk } with ⟨h5, heq⟩ | ⟨h5, heq⟩
  · simp only [h, hne, if_false, bncTime.diff] at h5
    exact Or.inl ⟨h5, by rw [heq]⟩
  · simp only [h, hne, if_false, bncTime.diff] at h5
    refine Or.inr ⟨by omega, ?_⟩
    rw [heq]
    simp only [h, hne, if_false]

theorem runPages_spacing (rs : List PageRun) :
    ∀ (st : PPPB2bDecoder) (e : Int), st.lastEmitTime = some e → (∀ r ∈ rs, e ≤ r.t) →
    List.Pairwise (fun a b => a ≤ b) (rs.map (fun r => r.t)) →
    (∀ x ∈ runPages st rs, x.2 ≠ [] → e + 5 ≤ x.1) ∧
    List.Pairwise (fun a b => a.2 ≠ [] → b.2 ≠ [] → a.1 + 5 ≤ b.1) (runPages st rs) := by
  induction rs with
  | nil =>
    intro st e _ _ _
    exact ⟨fun x hx => absurd hx (List.not_mem_nil x), List.Pairwise.nil⟩
  | cons r rest ih =>
    intro st e he hge hmono
    rw [List.map_cons, List.pairwise_cons] at hmono
    obtain ⟨hr, hrest⟩ := hmono
    have hre : e ≤ r.t := hge r (List.mem_cons_self r rest)
    have hrt : ∀ r1 ∈ rest, r.t ≤ r1.t := fun r1 h1 =>
      hr r1.t (List.mem_map.mpr ⟨r1, h1, rfl⟩)
    simp only [runPages]
    rcases runPage_later st r e he with ⟨h5, heq⟩ | ⟨h5, heq⟩
    · have h5' : e + 5 ≤ r.t := by
        rw [abs_of_nonneg (by omega)] at h5; omega
      have hst1 : (runPage st r).1.lastEmitTime = some r.t := by rw [heq]
      obtain ⟨i1, i2⟩ := ih (runPage st r).1 r.t hst1 hrt hrest
      refine ⟨?_, ?_⟩
      · intro x hx hne
        rw [List.mem_cons] at hx
        rcases hx with rfl | hx
        · exact h5'
        · have := i1 x hx hne; omega
      · rw [List.pairwise_cons]
        exact ⟨fun x hx _ hne => i1 x hx hne, i2⟩
    · have hst1 : (runPage st r).1.lastEmitTime = some e := by rw [heq]
      have hnil : (runPage st r).2 = [] := by rw [heq]
      obtain ⟨i1, i2⟩ := ih (runPage st r).1 e hst1
        (fun r1 h1 => hge r1 (List.mem_cons_of_mem r h1)) hrest
      refine ⟨?_, ?_⟩
      · intro x hx hne
        rw [List.mem_cons] at hx
        rcases hx with rfl | hx
        · exact absurd hnil hne
        · exact i1 x hx hne
      · rw [List.pairwise_cons]
        exact ⟨fun x _ hne _ => absurd hnil hne, i2⟩

/-- C28: for runs of `processBufferedCorrections` at non-decreasing page times,
starting with an undefined last-emit time: the first run publishes nothing; of
any two runs that publish, the later one has a page time at least 5 seconds
after the earlier one; a published list is the pending buffer of that run, in
its order, with every item's time set to the page time of the run; and after a
run whose page time is at least 5 seconds from the last-emit time both pending
buffers are empty and the last-emit time is that page time. -/
theorem emission_cadence (st0 : PPPB2bDecoder) (rs : List PageRun)
    (h0 : st0.lastEmitTime = none)
    (hmono : List.Pairwise (fun a b => a ≤ b) (rs.map (fun r => r.t))) :
    (∀ r rest, rs = r :: rest → (runPage st0 r).2 = []) ∧
    List.Pairwise (fun a b => a.2 ≠ [] → b.2 ≠ [] → a.1 + 5 ≤ b.1) (runPages st0 rs) ∧
    (∀ (st : PPPB2bDecoder) (r : PageRun),
      (∀ l, B2bSignal.newOrbCorrections l ∈ (runPage st r).2 →
        l = (st.orbBuffer ++ r.orb).map (fun o => { o with time := some r.t })) ∧
      (∀ l, B2bSignal.newClkCorrections l ∈ (runPage st r).2 →
        l = (st.clkBuffer ++ r.clk).map (fun c => { c with time := some r.t })) ∧
      (∀ e, st.lastEmitTime = some e → 5 ≤ |r.t - e| →
        (runPage st r).1.orbBuffer = [] ∧ (runPage st r).1.clkBuffer = [] ∧
        (runPage st r).1.lastEmitTime = some r.t)) := by
  refine ⟨?_, ?_, ?_⟩
  · intro r rest _
    rw [runPage_first st0 r h0]
  · cases rs with
    | nil => exact List.Pairwise.nil
    | cons r rest =>
      rw [List.map_cons, List.pairwise_cons] at hmono
      obtain ⟨hr, hrest⟩ := hmono
      have hnil : (runPage st0 r).2 = [] := by rw [runPage_first st0 r h0]
      have hst1 : (runPage st0 r).1.lastEmitTime = some r.t := by rw [runPage_first st0 r h0]
      obtain ⟨-, i2⟩ := runPages_spacing rest (runPage st0 r).1 r.t hst1
        (fun r1 h1 => hr r1.t (List.mem_map.mpr ⟨r1, h1, rfl⟩)) hrest
      simp only [runPages]
      rw [List.pairwise_cons]
      exact ⟨fun x _ hne _ => absurd hnil hne, i2⟩
  · intro st r
    have hsig : ∀ s ∈ (runPage st r).2,
        s = B2bSignal.newOrbCorrections
          ((st.orbBuffer ++ r.orb).map (fun o => { o with time := some r.t })) ∨
        s = B2bSignal.newClkCorrections
          ((st.clkBuffer ++ r.clk).map (fun c => { c with time := some r.t })) := by
      intro s hs
      cases he : st.lastEmitTime with
      | none => rw [runPage_first st r he] at hs; exact absurd hs (List.not_mem_nil s)
      | some e =>
        rcases runPage_later st r e he with ⟨-, heq⟩ | ⟨-, heq⟩
        · rw [heq] at hs
          simp only [List.mem_append] at hs
          rcases hs with hs | hs
          · by_cases hb : st.orbBuffer ++ r.orb = []
            · rw [if_pos hb] at hs; exact absurd hs (List.not_mem_nil s)
            · rw [if_neg hb, List.mem_singleton] at hs; exact Or.inl hs
          · by_cases hb : st.clkBuffer ++ r.clk = []
            · rw [if_pos hb] at hs; exact absurd hs (List.not_mem_nil s)
            · rw [if_neg hb, List.mem_singleton] at hs; exact Or.inr hs
        · rw [heq] at hs; exact absurd hs (List.not_mem_nil s)
    refine ⟨?_, ?_, ?_⟩
    · intro l hl
      rcases hsig _ hl with h | h
      · exact B2bSignal.newOrbCorrections.inj h
      · exact absurd h (by simp)
    · intro l hl
      rcases hsig _ hl with h | h
      · exact absurd h (by simp)
      · exact B2bSignal.newClkCorrections.inj h
    · intro e he h5
      rcases runPage_later st r e he with ⟨-, heq⟩ | ⟨hlt, -⟩
      · rw [heq]
        exact ⟨rfl, rfl, rfl⟩
      · omega

/-! Allocation and eviction in the three tables -/

theorem fillOrbitRecord_key (o o1 : ppp_ssr_orbit) (t : Trackcp)
    (h : fillOrbitRecord o t = some o1) :
    o1.SSR = o.SSR ∧ o1.bweek = o.bweek ∧ o1.bsow = o.bsow := by
  unfold fillOrbitRecord at h
  split_ifs at h <;> rw [Option.some.injEq] at h <;> subst h <;> exact ⟨rfl, rfl, rfl⟩

theorem fillOrbitRecords_key (ts : List Trackcp) : ∀ (o o1 : ppp_ssr_orbit),
    fillOrbitRecords o ts = some o1 →
    o1.SSR = o.SSR ∧ o1.bweek = o.bweek ∧ o1.bsow = o.bsow := by
  induction ts with
  | nil =>
    intro o o1 h
    simp only [fillOrbitRecords, Option.some.injEq] at h
    subst h
    exact ⟨rfl, rfl, rfl⟩
  | cons t ts ih =>
    intro o o1 h
    simp only [fillOrbitRecords] at h
    cases hf : fillOrbitRecord o t with
    | none => rw [hf] at h; exact absurd h (by simp)
    | some o2 =>
      rw [hf] at h
      obtain ⟨a1, a2, a3⟩ := fillOrbitRecord_key o o2 t hf
      obtain ⟨b1, b2, b3⟩ := ih o2 o1 h
      exact ⟨b1.trans a1, b2.trans a2, b3.trans a3⟩

theorem fillOrbitRecords_some (ts : List Trackcp)
    (hs : ∀ t ∈ ts, t.ura ≠ 0 → 1 ≤ t.satslot ∧ t.satslot ≤ 255) :
    ∀ o : ppp_ssr_orbit, ∃ o1, fillOrbitRecords o ts = some o1 := by
  induction ts with
  | nil => intro o; exact ⟨o, rfl⟩
  | cons t ts ih =>
    intro o
    have ht := hs t (List.mem_cons_self t ts)
    have hrest := ih (fun t1 h1 => hs t1 (List.mem_cons_of_mem t h1))
    simp only [fillOrbitRecords]
    unfold fillOrbitRecord
    by_cases hu : t.ura = 0
    · rw [if_pos hu]
      exact hrest o
    · rw [if_neg hu, if_pos (by have := ht hu; simp only [IF_MAXSAT]; omega)]
      exact hrest _

theorem fillClockRecord_key (orbits : List ppp_ssr_orbit) (cmake : List Nat) (t4 : ppp_sub4)
    (clk : ppp_ssr_clock) (i : Nat) :
    (fillClockRecord orbits cmake t4 clk i).SSR = clk.SSR ∧
    (fillClockRecord orbits cmake t4 clk i).bweek = clk.bweek ∧
    (fillClockRecord orbits cmake t4 clk i).bsow = clk.bsow ∧
    (fillClockRecord orbits cmake t4 clk i).iodp = clk.iodp := by
  unfold fillClockRecord
  simp only []
  split_ifs <;> exact ⟨rfl, rfl, rfl, rfl⟩

theorem foldl_fillClockRecord_key (orbits : List ppp_ssr_orbit) (cmake : List Nat)
    (t4 : ppp_sub4) (is : List Nat) : ∀ clk : ppp_ssr_clock,
    (is.foldl (fillClockRecord orbits cmake t4) clk).SSR = clk.SSR ∧
    (is.foldl (fillClockRecord orbits cmake t4) clk).bweek = clk.bweek ∧
    (is.foldl (fillClockRecord orbits cmake t4) clk).bsow = clk.bsow ∧
    (is.foldl (fillClockRecord orbits cmake t4) clk).iodp = clk.iodp := by
  induction is with
  | nil => intro clk; exact ⟨rfl, rfl, rfl, rfl⟩
  | cons i is ih =>
    intro clk
    rw [List.foldl_cons]
    obtain ⟨a1, a2, a3, a4⟩ := ih (fillClockRecord orbits cmake t4 clk i)
    obtain ⟨b1, b2, b3, b4⟩ := fillClockRecord_key orbits cmake t4 clk i
    exact ⟨a1.trans b1, a2.trans b2, a3.trans b3, a4.trans b4⟩

theorem clockFilled_key (st : PPPB2bDecoder) (p : pppdata) :
    (clockFilled st p).SSR = (clockTarget st p).SSR ∧
    (clockFilled st p).bweek = (clockTarget st p).bweek ∧
    (clockFilled st p).bsow = (clockTarget st p).bsow ∧
    (clockFilled st p).iodp = (clockTarget st p).iodp := by
  unfold clockFilled
  cases st.ssr_masks.find? (fun m => decide (m.iodp = (clockTarget st p).iodp)) with
  | none => exact ⟨rfl, rfl, rfl, rfl⟩
  | some m => exact foldl_fillClockRecord_key _ _ _ _ _

theorem findIdx_not_lt {α : Type} (l : List α) (q : α → Bool) (h : ∀ x ∈ l, q x = false) :
    ¬ l.findIdx q < l.length := by
  rw [List.findIdx_lt_length]
  rintro ⟨x, hx, hq⟩
  rw [h x hx] at hq
  exact absurd hq (by simp)

theorem clockTarget_fresh (st : PPPB2bDecoder) (p : pppdata)
    (h : ∀ c ∈ st.ssr_clocks, clockHasKey p c = false) :
    (clockTarget st p).SSR = (p.SSR : Int) ∧ (clockTarget st p).bweek = p.BDSweek ∧
    (clockTarget st p).bsow = p.BDSsow ∧ (clockTarget st p).iodp = (p.type4.IODP : Int) ∧
    (clockTarget st p).iode = List.replicate 255 (-1) ∧
    (clockTarget st p).iodcorr = List.replicate 255 (-1) := by
  unfold clockTarget
  simp only []
  rw [if_neg (findIdx_not_lt _ _ h)]
  exact ⟨rfl, rfl, rfl, rfl, rfl, rfl⟩

/-- Eviction in the three tables: when the mask table holds 16 entries and a
subtype-1 message brings a new (SSR, IODP), the table afterwards is the old one
without its first entry, followed by the new entry; when the orbit table holds 120 sets and a subtype-2
message brings a new (SSR, week, sow) (its sub-records with `ura ≠ 0` naming
slots 1..255), the table afterwards is the old one without its first set,
followed by a set with the key of the message; likewise for the clock table and
a subtype-4 message. -/
theorem full_table_drops_oldest (st : PPPB2bDecoder) (p : pppdata) :
    (p.mestype = 1 → st.ssr_masks.length = 16 →
      (∀ m ∈ st.ssr_masks, ¬ (m.SSR = (p.SSR : Int) ∧ m.iodp = (p.type1.IODP : Int))) →
      ∃ st1, PPPB2bDecoder.b2b_fillmem st p = some (st1, []) ∧
        st1.ssr_masks = st.ssr_masks.tail ++
          [{ SSR := p.SSR, iodp := p.type1.IODP, cmake := p.type1.prn_make }] ∧
        st1.ssr_orbits = st.ssr_orbits ∧ st1.ssr_clocks = st.ssr_clocks) ∧
    (p.mestype = 2 → st.ssr_orbits.length = 120 →
      (∀ o ∈ st.ssr_orbits, orbitHasKey p o = false) →
      (∀ t ∈ p.type2.trasub, t.ura ≠ 0 → 1 ≤ t.satslot ∧ t.satslot ≤ 255) →
      ∃ r o, PPPB2bDecoder.b2b_fillmem st p = some r ∧
        r.1.ssr_orbits = st.ssr_orbits.tail ++ [o] ∧
        o.SSR = (p.SSR : Int) ∧ o.bweek = p.BDSweek ∧ o.bsow = p.BDSsow ∧
        r.1.ssr_masks = st.ssr_masks ∧ r.1.ssr_clocks = st.ssr_clocks) ∧
    (p.mestype = 4 → st.ssr_clocks.length = 120 →
      (∀ c ∈ st.ssr_clocks, clockHasKey p c = false) →
      ∃ r c, PPPB2bDecoder.b2b_fillmem st p = some r ∧
        r.1.ssr_clocks = st.ssr_clocks.tail ++ [c] ∧
        c.SSR = (p.SSR : Int) ∧ c.bweek = p.BDSweek ∧ c.bsow = p.BDSsow ∧
        r.1.ssr_masks = st.ssr_masks ∧ r.1.ssr_orbits = st.ssr_orbits) := by
  refine ⟨?_, ?_, ?_⟩
  · intro hm hlen hnew
    have hany : st.ssr_masks.any (fun m => decide (m.SSR = (p.SSR : Int)) &&
        decide (m.iodp = (p.type1.IODP : Int))) = false := by
      rw [List.any_eq_false]
      intro m hmem
      have := hnew m hmem
      simpa using this
    rw [b2b_fillmem_mask st p hm, if_pos hany, if_pos (by rw [hlen]; decide)]
    exact ⟨_, rfl, rfl, rfl, rfl⟩
  · intro hm hlen hnew hslots
    rw [b2b_fillmem_orbit st p hm, if_neg (findIdx_not_lt _ _ hnew)]
    have hfull : st.ssr_orbits.length ≥ IF_MAXSSR := by rw [hlen]; decide
    simp only [hfull, if_true]
    obtain ⟨o1, ho1⟩ := fillOrbitRecords_some p.type2.trasub hslots
      { st.ssr_orbits.getLastD ppp_ssr_orbit.zero with
        bweek := p.BDSweek
        bsow := p.BDSsow
        SSR := p.SSR
        iodcorr := List.replicate IF_MAXSAT (-1)
        iode := List.replicate IF_MAXSAT (-1) }
    obtain ⟨k1, k2, k3⟩ := fillOrbitRecords_key _ _ _ ho1
    rw [ho1]
    obtain ⟨e1, e2, e3, -⟩ := emitCorrections_tables
      { st with ssr_orbits := st.ssr_orbits.tail ++ [o1] } p
    exact ⟨_, o1, rfl, e2, k1, k2, k3, e1, e3⟩
  · intro hm hlen hnew
    rw [b2b_fillmem_clock st p hm]
    obtain ⟨e1, e2, e3, -⟩ := emitCorrections_tables
      { st with ssr_clocks := clockTable st p } p
    obtain ⟨t1, t2, t3, -⟩ := clockTarget_fresh st p hnew
    obtain ⟨f1, f2, f3, -⟩ := clockFilled_key st p
    refine ⟨_, clockFilled st p, rfl, ?_, f1.trans t1, f2.trans t2, f3.trans t3, e1, e2⟩
    rw [e3]
    unfold clockTable
    simp only []
    rw [if_neg (findIdx_not_lt _ _ hnew), if_pos (by rw [hlen]; decide)]

/-! Clock messages: the mask, the slots and the value for "not available" -/

theorem getD_set_other {α : Type} (l : List α) (i j : Nat) (v d : α) (h : i ≠ j) :
    (l.set i v).getD j d = l.getD j d := by
  simp [List.getD_eq_getElem?_getD, List.getElem?_set_ne h]

theorem getD_set_same {α : Type} (l : List α) (i : Nat) (v d : α) (h : i < l.length) :
    (l.set i v).getD i d = v := by
  rw [List.getD_eq_getElem _ _ (by rw [List.length_set]; exact h), List.getElem_set_self]

theorem set_getD_self {α : Type} (l : List α) (i : Nat) (d : α) (h : i < l.length) :
    l.set i (l.getD i d) = l := by
  rw [List.getD_eq_getElem l d h]
  apply List.ext_getElem
  · simp
  · intro n h1 h2
    rw [List.getElem_set]
    by_cases hin : i = n
    · subst hin; simp
    · rw [if_neg hin]

theorem find?_eq_findIdx {α : Type} (l : List α) (q : α → Bool) (d : α) :
    l.find? q = if l.findIdx q < l.length then some (l.getD (l.findIdx q) d) else none := by
  induction l with
  | nil => simp
  | cons a l ih =>
    rw [List.findIdx_cons]
    by_cases ha : q a = true
    · simp [ha]
    · have ha2 : q a = false := by simpa using ha
      rw [List.find?_cons_of_neg _ ha, ih]
      simp only [ha2, cond_false, List.length_cons, Nat.add_lt_add_iff_right,
        List.getD_cons_succ]

theorem find?_set_findIdx {α : Type} (l : List α) (q : α → Bool) (x : α)
    (h : l.findIdx q < l.length) (hx : q x = true) :
    (l.set (l.findIdx q) x).find? q = some x := by
  induction l with
  | nil => simp at h
  | cons a l ih =>
    rw [List.findIdx_cons] at h ⊢
    by_cases ha : q a = true
    · simp only [ha, cond_true, List.set_cons_zero]
      rw [List.find?_cons_of_pos _ hx]
    · have ha2 : q a = false := by simpa using ha
      simp only [ha2, cond_false, List.length_cons, Nat.add_lt_add_iff_right] at h
      simp only [ha2, cond_false, List.set_cons_succ]
      rw [List.find?_cons_of_neg _ ha]
      exact ih h

theorem subtype_prn_loop_range (ipos : Nat) (l : List Nat) : ∀ (i b : Nat),
    subtype_prn_loop ipos l i b = -1 ∨
      ((i : Int) ≤ subtype_prn_loop ipos l i b ∧
        subtype_prn_loop ipos l i b < (i : Int) + l.length) := by
  induction l with
  | nil => intro i b; exact Or.inl rfl
  | cons m rest ih =>
    intro i b
    simp only [subtype_prn_loop]
    split_ifs with h1 h2
    · right; simp only [List.length_cons]; push_cast; omega
    · rcases ih (i + 1) (b + 1) with h | ⟨h3, h4⟩
      · exact Or.inl h
      · right; simp only [List.length_cons]; push_cast at h3 h4 ⊢; omega
    · right; simp only [List.length_cons]; push_cast; omega
    · rcases ih (i + 1) b with h | ⟨h3, h4⟩
      · exact Or.inl h
      · right; simp only [List.length_cons]; push_cast at h3 h4 ⊢; omega

theorem subtype_prn_loop_inj (k1 k2 : Nat) (l : List Nat) : ∀ (i b : Nat),
    subtype_prn_loop k1 l i b = subtype_prn_loop k2 l i b →
    subtype_prn_loop k1 l i b ≠ -1 → k1 = k2 := by
  induction l with
  | nil => intro i b _ h; exact absurd rfl h
  | cons m rest ih =>
    intro i b heq hne
    simp only [subtype_prn_loop] at heq hne
    by_cases hk1 : (if m = 1 then b + 1 else b) = k1
    · by_cases hk2 : (if m = 1 then b + 1 else b) = k2
      · exact hk1.symm.trans hk2
      · rw [if_pos hk1, if_neg hk2] at heq
        rcases subtype_prn_loop_range k2 rest (i + 1) (if m = 1 then b + 1 else b) with h | ⟨h, -⟩
        · rw [h] at heq; omega
        · rw [← heq] at h; push_cast at h; omega
    · by_cases hk2 : (if m = 1 then b + 1 else b) = k2
      · rw [if_neg hk1, if_pos hk2] at heq
        rcases subtype_prn_loop_range k1 rest (i + 1) (if m = 1 then b + 1 else b) with h | ⟨h, -⟩
        · rw [if_neg hk1] at hne; exact absurd h hne
        · rw [heq] at h; push_cast at h; omega
      · rw [if_neg hk1, if_neg hk2] at heq
        rw [if_neg hk1] at hne
        exact ih _ _ heq hne

theorem clockUnavailable_iff (c : Int) (h : |c| ≤ 16384) :
    clockUnavailable c = true ↔ 16377 ≤ |c| := by
  unfold clockUnavailable
  rw [decide_eq_true_eq, abs_lt]
  constructor <;> intro h1 <;> omega

theorem fillClockRecord_other_slot (orbits : List ppp_ssr_orbit) (cmake : List Nat)
    (t4 : ppp_sub4) (clk : ppp_ssr_clock) (j S : Nat)
    (hj : PPPB2bDecoder.subtype_prn cmake t4.subtupe1 (j + 1) ≠ (S : Int)) :
    (fillClockRecord orbits cmake t4 clk j).iodcorr.getD S 0 = clk.iodcorr.getD S 0 ∧
    (fillClockRecord orbits cmake t4 clk j).iode.getD S 0 = clk.iode.getD S 0 ∧
    (fillClockRecord orbits cmake t4 clk j).C0.length = clk.C0.length := by
  have hrange := subtype_prn_loop_range (t4.subtupe1 * 23 + (j + 1)) cmake 0 0
  have hne : PPPB2bDecoder.subtype_prn cmake t4.subtupe1 (j + 1) ≠ -1 →
      (PPPB2bDecoder.subtype_prn cmake t4.subtupe1 (j + 1)).toNat ≠ S := by
    intro h1 h2
    unfold PPPB2bDecoder.subtype_prn at h1 h2 hj
    rcases hrange with h | ⟨h, -⟩
    · exact h1 h
    · apply hj
      omega
  unfold fillClockRecord
  simp only []
  by_cases h1 : PPPB2bDecoder.subtype_prn cmake t4.subtupe1 (j + 1) = -1
  · rw [if_pos h1]
    exact ⟨rfl, rfl, rfl⟩
  · rw [if_neg h1]
    split_ifs
    · exact ⟨rfl, rfl, by simp⟩
    · exact ⟨getD_set_other _ _ _ _ _ (hne h1), getD_set_other _ _ _ _ _ (hne h1), by simp⟩

theorem fillClockRecord_unavailable (orbits : List ppp_ssr_orbit) (cmake : List Nat)
    (t4 : ppp_sub4) (clk : ppp_ssr_clock) (i S : Nat)
    (hS : PPPB2bDecoder.subtype_prn cmake t4.subtupe1 (i + 1) = (S : Int))
    (hlen : S < clk.C0.length) (hc : clockUnavailable (t4.c.getD i 0) = true) :
    (fillClockRecord orbits cmake t4 clk i).iodcorr.getD S 0 = clk.iodcorr.getD S 0 ∧
    (fillClockRecord orbits cmake t4 clk i).iode.getD S 0 = clk.iode.getD S 0 ∧
    (fillClockRecord orbits cmake t4 clk i).C0.length = clk.C0.length := by
  unfold fillClockRecord
  simp only [hS, Int.toNat_ofNat]
  rw [if_neg (by omega), getD_set_same _ _ _ _ hlen, if_pos hc]
  exact ⟨rfl, rfl, by simp⟩

theorem foldl_fillClockRecord_slot (orbits : List ppp_ssr_orbit) (cmake : List Nat)
    (t4 : ppp_sub4) (i S : Nat)
    (hS : PPPB2bDecoder.subtype_prn cmake t4.subtupe1 (i + 1) = (S : Int))
    (hc : clockUnavailable (t4.c.getD i 0) = true) (js : List Nat) :
    ∀ clk : ppp_ssr_clock, S < clk.C0.length →
    (js.foldl (fillClockRecord orbits cmake t4) clk).iodcorr.getD S 0 = clk.iodcorr.getD S 0 ∧
    (js.foldl (fillClockRecord orbits cmake t4) clk).iode.getD S 0 = clk.iode.getD S 0 := by
  induction js with
  | nil => intro clk _; exact ⟨rfl, rfl⟩
  | cons j js ih =>
    intro clk hlen
    rw [List.foldl_cons]
    have hstep : (fillClockRecord orbits cmake t4 clk j).iodcorr.getD S 0 = clk.iodcorr.getD S 0 ∧
        (fillClockRecord orbits cmake t4 clk j).iode.getD S 0 = clk.iode.getD S 0 ∧
        (fillClockRecord orbits cmake t4 clk j).C0.length = clk.C0.length := by
      by_cases hji : PPPB2bDecoder.subtype_prn cmake t4.subtupe1 (j + 1) = (S : Int)
      · have hij : j = i := by
          have h1 : t4.subtupe1 * 23 + (j + 1) = t4.subtupe1 * 23 + (i + 1) := by
            apply subtype_prn_loop_inj _ _ cmake 0 0
            · unfold PPPB2bDecoder.subtype_prn at hji hS
              rw [hji, hS]
            · unfold PPPB2bDecoder.subtype_prn at hji
              rw [hji]; omega
          omega
        subst hij
        exact fillClockRecord_unavailable orbits cmake t4 clk j S hS hlen hc
      · exact fillClockRecord_other_slot orbits cmake t4 clk j S hji
    obtain ⟨s1, s2, s3⟩ := hstep
    obtain ⟨a1, a2⟩ := ih (fillClockRecord orbits cmake t4 clk j) (by rw [s3]; exact hlen)
    exact ⟨a1.trans s1, a2.trans s2⟩

theorem clockTarget_found (st : PPPB2bDecoder) (p : pppdata) (c0 : ppp_ssr_clock)
    (h : st.ssr_clocks.find? (clockHasKey p) = some c0) :
    clockTarget st p = c0 ∧ st.ssr_clocks.findIdx (clockHasKey p) < st.ssr_clocks.length ∧
    clockHasKey p c0 = true ∧ c0 ∈ st.ssr_clocks := by
  have hk := List.find?_some h
  have hmem := List.mem_of_find?_eq_some h
  rw [find?_eq_findIdx _ _ ppp_ssr_clock.zero] at h
  by_cases hf : st.ssr_clocks.findIdx (clockHasKey p) < st.ssr_clocks.length
  · rw [if_pos hf, Option.some.injEq] at h
    refine ⟨?_, hf, hk, hmem⟩
    unfold clockTarget
    simp only []
    rw [if_pos hf]
    exact h
  · rw [if_neg hf] at h
    exact absurd h (by simp)

theorem clockTarget_absent (st : PPPB2bDecoder) (p : pppdata)
    (h : st.ssr_clocks.find? (clockHasKey p) = none) :
    ∀ c ∈ st.ssr_clocks, clockHasKey p c = false := by
  rw [List.find?_eq_none] at h
  intro c hc
  have := h c hc
  simpa using this

theorem clockHasKey_of_fields (p : pppdata) (c : ppp_ssr_clock) (h1 : c.SSR = (p.SSR : Int))
    (h2 : c.bweek = p.BDSweek) (h3 : c.bsow = p.BDSsow) : clockHasKey p c = true := by
  unfold clockHasKey
  simp [h1, h2, h3]

theorem clockHasKey_congr (p : pppdata) (c c1 : ppp_ssr_clock) (h1 : c1.SSR = c.SSR)
    (h2 : c1.bweek = c.bweek) (h3 : c1.bsow = c.bsow) : clockHasKey p c1 = clockHasKey p c := by
  unfold clockHasKey
  rw [h1, h2, h3]

/-- The clock set with the key of the message after `case 4` of `b2b_fillmem`
is the set that the loop over the sub-records has filled. -/
theorem clockTable_find (st : PPPB2bDecoder) (p : pppdata) :
    (clockTable st p).find? (clockHasKey p) = some (clockFilled st p) := by
  obtain ⟨f1, f2, f3, -⟩ := clockFilled_key st p
  unfold clockTable
  simp only []
  cases hfind : st.ssr_clocks.find? (clockHasKey p) with
  | some c0 =>
    obtain ⟨ht, hf, hk, -⟩ := clockTarget_found st p c0 hfind
    rw [if_pos hf]
    apply find?_set_findIdx _ _ _ hf
    rw [clockHasKey_congr p (clockTarget st p) _ f1 f2 f3, ht]
    exact hk
  | none =>
    have hno := clockTarget_absent st p hfind
    obtain ⟨t1, t2, t3, -⟩ := clockTarget_fresh st p hno
    rw [if_neg (findIdx_not_lt _ _ hno), List.find?_append]
    have hkept : (if st.ssr_clocks.length ≥ IF_MAXSSR then st.ssr_clocks.tail
        else st.ssr_clocks).find? (clockHasKey p) = none := by
      rw [List.find?_eq_none]
      intro c hc
      have hmem : c ∈ st.ssr_clocks := by
        split_ifs at hc
        · exact List.mem_of_mem_tail hc
        · exact hc
      rw [hno c hmem]
      simp
    rw [hkept, Option.none_or,
      List.find?_cons_of_pos _ (clockHasKey_of_fields p _ (f1.trans t1) (f2.trans t2)
        (f3.trans t3))]

/-- C23: a subtype-4 message, a mask found for the IODP of the target clock set,
and a sub-record `i` that the mask maps to slot `S` and whose raw value has
absolute value 16377..16384 (so that `| |C0| - 26.2128 | < 0.01`): after the
ingestion the clock set with the key of the message has, at slot `S`, the
`iodcorr` and `iode` that the set had before the message, and -1 when the
message has allocated the set. -/
theorem unavailable_clock_keeps_iod (st : PPPB2bDecoder) (p : pppdata) (i S : Nat)
    (m : ppp_ssr_mask) (hm : p.mestype = 4)
    (hwf : ∀ c ∈ st.ssr_clocks, c.C0.length = 255) (hS255 : S < 255)
    (hmask : st.ssr_masks.find? (fun m => decide (m.iodp =
      match st.ssr_clocks.find? (clockHasKey p) with
      | some c0 => c0.iodp
      | none => (p.type4.IODP : Int))) = some m)
    (hS : PPPB2bDecoder.subtype_prn m.cmake p.type4.subtupe1 (i + 1) = (S : Int))
    (hc1 : 16377 ≤ |p.type4.c.getD i 0|) (hc2 : |p.type4.c.getD i 0| ≤ 16384) :
    clockUnavailable (p.type4.c.getD i 0) = true ∧
    ∃ r c1, PPPB2bDecoder.b2b_fillmem st p = some r ∧
      r.1.ssr_clocks.find? (clockHasKey p) = some c1 ∧
      (∀ c0, st.ssr_clocks.find? (clockHasKey p) = some c0 →
        c1.iodcorr.getD S 0 = c0.iodcorr.getD S 0 ∧ c1.iode.getD S 0 = c0.iode.getD S 0) ∧
      (st.ssr_clocks.find? (clockHasKey p) = none →
        c1.iodcorr.getD S 0 = -1 ∧ c1.iode.getD S 0 = -1) := by
  have hun := (clockUnavailable_iff _ hc2).mpr hc1
  refine ⟨hun, ?_⟩
  obtain ⟨-, -, e3, -⟩ := emitCorrections_tables { st with ssr_clocks := clockTable st p } p
  refine ⟨_, clockFilled st p, b2b_fillmem_clock st p hm, ?_, ?_, ?_⟩
  · rw [e3]; exact clockTable_find st p
  · intro c0 hc0
    obtain ⟨ht, -, -, hmem⟩ := clockTarget_found st p c0 hc0
    rw [hc0] at hmask
    unfold clockFilled
    rw [ht, hmask]
    exact foldl_fillClockRecord_slot st.ssr_orbits m.cmake p.type4 i S hS hun _ c0
      (by rw [hwf c0 hmem]; exact hS255)
  · intro hnone
    have hno := clockTarget_absent st p hnone
    obtain ⟨-, -, -, t4, t5, t6⟩ := clockTarget_fresh st p hno
    rw [hnone] at hmask
    have hlenT : S < (clockTarget st p).C0.length := by
      unfold clockTarget
      simp only []
      rw [if_neg (findIdx_not_lt _ _ hno)]
      by_cases hfull : st.ssr_clocks.length ≥ IF_MAXSSR
      · simp only [hfull, decide_True, if_true]
        have hne : st.ssr_clocks ≠ [] := by
          intro h0; rw [h0] at hfull; simp [IF_MAXSSR] at hfull
        have hl : st.ssr_clocks.getLastD ppp_ssr_clock.zero ∈ st.ssr_clocks := by
          rw [List.getLastD_eq_getLast? , List.getLast?_eq_getLast _ hne]
          exact List.getLast_mem hne
        rw [hwf _ hl]; exact hS255
      · simp only [hfull, decide_False, Bool.false_eq_true, if_false, ppp_ssr_clock.zero,
          List.length_replicate]
        exact hS255
    unfold clockFilled
    rw [t4, hmask]
    obtain ⟨a1, a2⟩ := foldl_fillClockRecord_slot st.ssr_orbits m.cmake p.type4 i S hS hun
      (List.range 23) (clockTarget st p) hlenT
    rw [a1, a2, t5, t6]
    have hrep : (List.replicate 255 (-1 : Int)).getD S 0 = -1 := by
      rw [List.getD_eq_getElem _ _ (by rw [List.length_replicate]; exact hS255),
        List.getElem_replicate]
    exact ⟨hrep, hrep⟩

/-- C26: a subtype-4 message for which the mask table has no entry with the IODP
of the target clock set writes no value of any slot: when the clock set with
the key of the message exists, the clock table is unchanged; when the message
allocates the set, the table is the old one (without its first set when it held
120) followed by a set with `iodcorr = iode = -1` in all 255 slots; and a mask
ingested afterwards leaves the clock table as it is. -/
theorem clock_without_mask_writes_no_slot (st : PPPB2bDecoder) (p : pppdata)
    (hm : p.mestype = 4)
    (hno : ∀ m ∈ st.ssr_masks, m.iodp ≠
      match st.ssr_clocks.find? (clockHasKey p) with
      | some c0 => c0.iodp
      | none => (p.type4.IODP : Int)) :
    ∃ r, PPPB2bDecoder.b2b_fillmem st p = some r ∧
      (∀ c0, st.ssr_clocks.find? (clockHasKey p) = some c0 →
        r.1.ssr_clocks = st.ssr_clocks) ∧
      (st.ssr_clocks.find? (clockHasKey p) = none →
        ∃ c, r.1.ssr_clocks =
            (if st.ssr_clocks.length ≥ 120 then st.ssr_clocks.tail else st.ssr_clocks) ++ [c] ∧
          c.iodcorr = List.replicate 255 (-1) ∧ c.iode = List.replicate 255 (-1) ∧
          c.SSR = (p.SSR : Int) ∧ c.bweek = p.BDSweek ∧ c.bsow = p.BDSsow ∧
          c.iodp = (p.type4.IODP : Int)) ∧
      (∀ q : pppdata, q.mestype = 1 →
        ∃ r2, PPPB2bDecoder.b2b_fillmem r.1 q = some r2 ∧ r2.1.ssr_clocks = r.1.ssr_clocks) := by
  obtain ⟨-, -, e3, -⟩ := emitCorrections_tables { st with ssr_clocks := clockTable st p } p
  have hfilled : ∀ x : Int, (∀ m ∈ st.ssr_masks, m.iodp ≠ x) → (clockTarget st p).iodp = x →
      clockFilled st p = clockTarget st p := by
    intro x hx heq
    unfold clockFilled
    have hnone : st.ssr_masks.find? (fun m => decide (m.iodp = (clockTarget st p).iodp)) = none := by
      rw [List.find?_eq_none]
      intro m hmem
      rw [heq]
      simpa using hx m hmem
    rw [hnone]
  refine ⟨_, b2b_fillmem_clock st p hm, ?_, ?_, ?_⟩
  · intro c0 hc0
    obtain ⟨ht, hf, -, -⟩ := clockTarget_found st p c0 hc0
    rw [hc0] at hno
    rw [e3]
    unfold clockTable
    simp only []
    rw [if_pos hf, hfilled c0.iodp hno (by rw [ht])]
    unfold clockTarget
    simp only []
    rw [if_pos hf]
    exact set_getD_self _ _ _ hf
  · intro hnone
    have hnk := clockTarget_absent st p hnone
    obtain ⟨t1, t2, t3, t4, t5, t6⟩ := clockTarget_fresh st p hnk
    rw [hnone] at hno
    refine ⟨clockTarget st p, ?_, t6, t5, t1, t2, t3, t4⟩
    rw [e3]
    unfold clockTable
    simp only []
    rw [if_neg (findIdx_not_lt _ _ hnk), hfilled _ hno t4]
    rfl
  · intro q hq
    rw [b2b_fillmem_mask _ q hq]
    split_ifs <;> exact ⟨_, rfl, rfl⟩

/-! The code at failing inputs: which set is emitted -/

/-- C27 (the code at a failing input): two subtype-2 messages with the same SSR
and different seconds of week, the first for slot 1 (IODN 10), the second for
slot 2 (IODN 20), ingested into the fresh decoder.  The second message fills its
own set (second 148, `iode[1] = 20`), but the items that its ingestion appends
to the pending orbit buffer are those of the first set of the table with that
SSR (second 100): C01 with iod 10 once more, and nothing for slot 2. -/
theorem orbit_items_come_from_first_set_of_SSR :
    (match ingestAll PPPB2bDecoder.init
        [(some 1000, sampleOrbitMessage 100 (sampleTrack 1 10 1 7))] with
      | some r => (r.1.orbBuffer.map (fun o => (o.sys, o.prn, o.iod, o.xr.1)), r.2)
      | none => ([], [])) = ([('C', 1, 10, 7)], []) ∧
    (match ingestAll PPPB2bDecoder.init
        [(some 1000, sampleOrbitMessage 100 (sampleTrack 1 10 1 7)),
         (some 1000, sampleOrbitMessage 148 (sampleTrack 2 20 2 9))] with
      | some r =>
        (r.1.ssr_orbits.map (fun o => (o.bsow, o.iode.getD 0 0, o.iode.getD 1 0)),
         r.1.orbBuffer.map (fun o => (o.sys, o.prn, o.iod, o.xr.1)), r.2)
      | none => ([], [], [])) =
      ([(100, 10, -1), (148, -1, 20)], [('C', 1, 10, 7), ('C', 1, 10, 7)], []) := by
  constructor <;> decide!

/-- C24 (the code at a failing input): after the mask of slot 1, an orbit message
and a clock message for slot 1 (second 100, raw value 100), a clock message
whose sub-record for slot 1 carries the raw value 16383 (26.2128 m) still
appends a ClkCorr for C01.  When it comes for a later second (106) its own set
keeps `iode[0] = -1`, but the items appended are those of the first clock set of
that SSR: C01 with iod 10 and the value 100 again.  When it comes for the same
second (100), the value 16383 is written into the set, `iode[0] = 10` stays, and
C01 is appended with iod 10 and the value 16383. -/
theorem unavailable_clock_is_still_emitted :
    clockUnavailable 16383 = true ∧
    (match ingestAll PPPB2bDecoder.init ((sampleSession 106 16383).take 3) with
      | some r => (r.1.clkBuffer.map (fun c => (c.sys, c.prn, c.iod, c.C0)), r.2)
      | none => ([], [])) = ([('C', 1, 10, 100)], []) ∧
    (match ingestAll PPPB2bDecoder.init (sampleSession 106 16383) with
      | some r =>
        (r.1.ssr_clocks.map (fun c => (c.bsow, c.C0.getD 0 0, c.iodcorr.getD 0 0, c.iode.getD 0 0)),
         r.1.clkBuffer.map (fun c => (c.sys, c.prn, c.iod, c.C0)), r.2)
      | none => ([], [], [])) =
      ([(100, 100, 1, 10), (106, 16383, -1, -1)],
       [('C', 1, 10, 100), ('C', 1, 10, 100)], []) ∧
    (match ingestAll PPPB2bDecoder.init (sampleSession 100 16383) with
      | some r =>
        (r.1.ssr_clocks.map (fun c => (c.bsow, c.C0.getD 0 0, c.iodcorr.getD 0 0, c.iode.getD 0 0)),
         r.1.clkBuffer.map (fun c => (c.sys, c.prn, c.iod, c.C0)), r.2)
      | none => ([], [], [])) =
      ([(100, 16383, 1, 10)], [('C', 1, 10, 100), ('C', 1, 10, 16383)], []) := by
  refine ⟨by decide, ?_, ?_, ?_⟩ <;> decide!

/-! The orbit table keeps `iode` and `iodcorr` together -/

theorem fillOrbitRecord_consistent (o o1 : ppp_ssr_orbit) (t : Trackcp)
    (h : fillOrbitRecord o t = some o1)
    (ho : ∀ S : Nat, o.iode.getD S 0 = -1 → o.iodcorr.getD S 0 = -1) :
    ∀ S : Nat, o1.iode.getD S 0 = -1 → o1.iodcorr.getD S 0 = -1 := by
  unfold fillOrbitRecord at h
  by_cases hu : t.ura = 0
  · rw [if_pos hu, Option.some.injEq] at h
    subst h
    exact ho
  · rw [if_neg hu] at h
    by_cases hs : 1 ≤ t.satslot ∧ t.satslot ≤ IF_MAXSAT
    · rw [if_pos hs, Option.some.injEq] at h
      subst h
      intro S hS
      simp only [] at hS ⊢
      by_cases hidx : t.satslot - 1 = S
      · subst hidx
        by_cases hlen : t.satslot - 1 < o.iode.length
        · rw [getD_set_same _ _ _ _ hlen] at hS
          omega
        · rw [List.set_eq_of_length_le (by omega)] at hS
          rw [List.getD_eq_default _ _ (by omega)] at hS
          omega
      · rw [getD_set_other _ _ _ _ _ hidx] at hS ⊢
        exact ho S hS
    · rw [if_neg hs] at h
      exact absurd h (by simp)

theorem fillOrbitRecords_consistent (ts : List Trackcp) : ∀ (o o1 : ppp_ssr_orbit),
    fillOrbitRecords o ts = some o1 →
    (∀ S : Nat, o.iode.getD S 0 = -1 → o.iodcorr.getD S 0 = -1) →
    ∀ S : Nat, o1.iode.getD S 0 = -1 → o1.iodcorr.getD S 0 = -1 := by
  induction ts with
  | nil =>
    intro o o1 h ho
    simp only [fillOrbitRecords, Option.some.injEq] at h
    subst h
    exact ho
  | cons t ts ih =>
    intro o o1 h ho
    simp only [fillOrbitRecords] at h
    cases hf : fillOrbitRecord o t with
    | none => rw [hf] at h; exact absurd h (by simp)
    | some o2 =>
      rw [hf] at h
      exact ih o2 o1 h (fillOrbitRecord_consistent o o2 t hf ho)

theorem b2b_fillmem_consistent (st : PPPB2bDecoder) (p : pppdata)
    (r : PPPB2bDecoder × List B2bSignal) (hr : PPPB2bDecoder.b2b_fillmem st p = some r)
    (h : orbitsConsistent st) : orbitsConsistent r.1 := by
  by_cases h1 : p.mestype = 1
  · rw [b2b_fillmem_mask st p h1] at hr
    split_ifs at hr <;> rw [Option.some.injEq] at hr <;> subst hr <;> exact h
  · by_cases h2 : p.mestype = 2
    · rw [b2b_fillmem_orbit st p h2] at hr
      by_cases hf : st.ssr_orbits.findIdx (orbitHasKey p) < st.ssr_orbits.length
      · rw [if_pos hf, Option.map_eq_some'] at hr
        obtain ⟨o1, ho1, rfl⟩ := hr
        intro o ho
        rw [(emitCorrections_tables _ p).2.1] at ho
        rcases List.mem_or_eq_of_mem_set ho with hm | rfl
        · exact h o hm
        · apply fillOrbitRecords_consistent _ _ _ ho1
          apply h
          rw [List.getD_eq_getElem _ _ hf]
          exact List.getElem_mem hf
      · rw [if_neg hf, Option.map_eq_some'] at hr
        obtain ⟨o1, ho1, rfl⟩ := hr
        intro o ho
        rw [(emitCorrections_tables _ p).2.1] at ho
        simp only [List.mem_append, List.mem_singleton] at ho
        rcases ho with hm | rfl
        · apply h
          split_ifs at hm
          · exact List.mem_of_mem_tail hm
          · exact hm
        · apply fillOrbitRecords_consistent _ _ _ ho1
          intro S hS
          exact hS
    · by_cases h4 : p.mestype = 4
      · rw [b2b_fillmem_clock st p h4, Option.some.injEq] at hr
        subst hr
        intro o ho
        rw [(emitCorrections_tables _ p).2.1] at ho
        exact h o ho
      · rw [b2b_fillmem_none st p h1 h2 h4, Option.some.injEq] at hr
        subst hr
        exact h

theorem ingestAll_consistent (msgs : List (bncTime × pppdata)) :
    ∀ (st0 st : PPPB2bDecoder) (sigs : List B2bSignal), orbitsConsistent st0 →
    ingestAll st0 msgs = some (st, sigs) → orbitsConsistent st := by
  induction msgs with
  | nil =>
    intro st0 st sigs h0 h
    simp only [ingestAll, Option.some.injEq, Prod.mk.injEq] at h
    obtain ⟨rfl, -⟩ := h
    exact h0
  | cons tp rest ih =>
    intro st0 st sigs h0 h
    simp only [ingestAll] at h
    cases hf : PPPB2bDecoder.b2b_fillmem { st0 with lastTime := tp.1 } tp.2 with
    | none => rw [hf] at h; exact absurd h (by simp)
    | some r =>
      rw [hf] at h
      simp only [] at h
      have hr1 := b2b_fillmem_consistent _ _ r hf h0
      cases hg : ingestAll r.1 rest with
      | none => rw [hg] at h; exact absurd h (by simp)
      | some r2 =>
        rw [hg] at h
        simp only [Option.some.injEq, Prod.mk.injEq] at h
        obtain ⟨rfl, -⟩ := h
        exact ih r.1 r2.1 r2.2 hr1 hg

/-! Runs with and without a write outside the arrays -/

theorem fillOrbitRecords_outside (ts : List Trackcp)
    (h : ∃ t ∈ ts, t.ura ≠ 0 ∧ (t.satslot = 0 ∨ 255 < t.satslot)) :
    ∀ o : ppp_ssr_orbit, fillOrbitRecords o ts = none := by
  induction ts with
  | nil =>
    obtain ⟨t, ht, -⟩ := h
    exact absurd ht (List.not_mem_nil t)
  | cons t0 ts ih =>
    intro o
    simp only [fillOrbitRecords]
    cases hf : fillOrbitRecord o t0 with
    | none => rfl
    | some o1 =>
      simp only []
      apply ih
      obtain ⟨t, ht, hu, hs⟩ := h
      rcases List.mem_cons.mp ht with rfl | hmem
      · exfalso
        unfold fillOrbitRecord at hf
        rw [if_neg hu, if_neg (by simp only [IF_MAXSAT]; omega)] at hf
        exact absurd hf (by simp)
      · exact ⟨t, hmem, hu, hs⟩

theorem b2b_fillmem_orbit_outside (st : PPPB2bDecoder) (p : pppdata) (hm : p.mestype = 2)
    (h : ∃ t ∈ p.type2.trasub, t.ura ≠ 0 ∧ (t.satslot = 0 ∨ 255 < t.satslot)) :
    PPPB2bDecoder.b2b_fillmem st p = none := by
  rw [b2b_fillmem_orbit st p hm]
  split_ifs <;> rw [fillOrbitRecords_outside _ h] <;> rfl

theorem b2b_fillmem_inside (st : PPPB2bDecoder) (p : pppdata)
    (h : p.mestype = 2 → ∀ t ∈ p.type2.trasub, t.ura ≠ 0 → 1 ≤ t.satslot ∧ t.satslot ≤ 255) :
    ∃ r, PPPB2bDecoder.b2b_fillmem st p = some r := by
  by_cases h1 : p.mestype = 1
  · rw [b2b_fillmem_mask st p h1]
    by_cases hany : st.ssr_masks.any (fun m => decide (m.SSR = (p.SSR : Int)) &&
        decide (m.iodp = (p.type1.IODP : Int))) = false
    · rw [if_pos hany]
      exact ⟨_, rfl⟩
    · rw [if_neg hany]
      exact ⟨_, rfl⟩
  · by_cases h2 : p.mestype = 2
    · have key : ∀ (o : ppp_ssr_orbit) (f : ppp_ssr_orbit → PPPB2bDecoder × List B2bSignal),
          ∃ r, (fillOrbitRecords o p.type2.trasub).map f = some r := by
        intro o f
        obtain ⟨o1, ho1⟩ := fillOrbitRecords_some p.type2.trasub (h h2) o
        rw [ho1]
        exact ⟨_, rfl⟩
      rw [b2b_fillmem_orbit st p h2]
      by_cases hf : st.ssr_orbits.findIdx (orbitHasKey p) < st.ssr_orbits.length
      · rw [if_pos hf]
        exact key _ _
      · rw [if_neg hf]
        exact key _ _
    · by_cases h4 : p.mestype = 4
      · rw [b2b_fillmem_clock st p h4]
        exact ⟨_, rfl⟩
      · rw [b2b_fillmem_none st p h1 h2 h4]
        exact ⟨_, rfl⟩

theorem writesInside_cons (tp : bncTime × pppdata) (rest : List (bncTime × pppdata)) :
    writesInside (tp :: rest) = true ↔
      (tp.2.mestype = 2 →
        ∀ t ∈ tp.2.type2.trasub, t.ura ≠ 0 → 1 ≤ t.satslot ∧ t.satslot ≤ 255) ∧
      writesInside rest = true := by
  unfold writesInside
  rw [List.all_cons, Bool.and_eq_true]
  apply and_congr_left
  intro _
  rw [Bool.or_eq_true, decide_eq_true_eq, List.all_eq_true]
  constructor
  · intro h h2 t ht hu
    rcases h with h | h
    · exact absurd h2 h
    · have := h t ht
      rw [Bool.or_eq_true, decide_eq_true_eq, Bool.and_eq_true, decide_eq_true_eq,
        decide_eq_true_eq] at this
      rcases this with h0 | h0
      · exact absurd h0 hu
      · exact ⟨h0.1, by have := h0.2; simp only [IF_MAXSAT] at this; exact this⟩
  · intro h
    by_cases h2 : tp.2.mestype = 2
    · right
      intro t ht
      rw [Bool.or_eq_true, decide_eq_true_eq, Bool.and_eq_true, decide_eq_true_eq,
        decide_eq_true_eq]
      by_cases hu : t.ura = 0
      · exact Or.inl hu
      · exact Or.inr ⟨(h h2 t ht hu).1, by simp only [IF_MAXSAT]; exact (h h2 t ht hu).2⟩
    · exact Or.inl h2

theorem ingestAll_some_iff (msgs : List (bncTime × pppdata)) :
    ∀ st : PPPB2bDecoder, (∃ r, ingestAll st msgs = some r) ↔ writesInside msgs = true := by
  induction msgs with
  | nil =>
    intro st
    exact ⟨fun _ => rfl, fun _ => ⟨_, rfl⟩⟩
  | cons tp rest ih =>
    intro st
    rw [writesInside_cons]
    simp only [ingestAll]
    constructor
    · rintro ⟨r, hr⟩
      cases hf : PPPB2bDecoder.b2b_fillmem { st with lastTime := tp.1 } tp.2 with
      | none => rw [hf] at hr; exact absurd hr (by simp)
      | some r1 =>
        rw [hf] at hr
        simp only [] at hr
        cases hi : ingestAll r1.1 rest with
        | none => rw [hi] at hr; exact absurd hr (by simp)
        | some r2 =>
          refine ⟨?_, (ih r1.1).mp ⟨r2, hi⟩⟩
          intro h2 t ht hu
          by_contra hbad
          rw [b2b_fillmem_orbit_outside _ tp.2 h2 ⟨t, ht, hu, by omega⟩] at hf
          exact absurd hf (by simp)
    · rintro ⟨h1, h2⟩
      obtain ⟨r1, hr1⟩ := b2b_fillmem_inside { st with lastTime := tp.1 } tp.2 h1
      obtain ⟨r2, hr2⟩ := (ih r1.1).mpr h2
      rw [hr1]
      simp only []
      rw [hr2]
      exact ⟨_, rfl⟩

theorem ingestAll_none_iff (msgs : List (bncTime × pppdata)) (st : PPPB2bDecoder) :
    ingestAll st msgs = none ↔ writesInside msgs = false := by
  rw [← Bool.not_eq_true, ← ingestAll_some_iff msgs st]
  cases ingestAll st msgs with
  | none => simp
  | some r => simp

/-! The IODE cross-reference, settled -/

/-- C22 (as stated) fails: after one orbit message with SSR 1 (slot 1:
`iodcorr[0] = 1`, `iode[0] = 10`) and seven orbit messages with SSR 2, the set
with SSR 1 is the only one, hence among the seven most recent, of its SSR and has
`iodcorr[0] = 1` and `iode[0] = 10`, but `b2b_updateiode(1, 0, 1)` returns -1:
the last seven cells of the table all hold SSR 2. -/
theorem iode_lookup_misses_older_set_of_same_SSR :
    (match ingestAll PPPB2bDecoder.init sampleMixedSession with
      | some r =>
        (r.1.ssr_orbits.map (fun o => (o.SSR, o.iodcorr.getD 0 0, o.iode.getD 0 0)),
         (mostRecentSevenOfSSR r.1.ssr_orbits 1).map
           (fun o => (o.SSR, o.iodcorr.getD 0 0, o.iode.getD 0 0)),
         PPPB2bDecoder.b2b_updateiode r.1.ssr_orbits 1 0 1)
      | none => ([], [], 0)) =
      ([(1, 1, 10), (2, -1, -1), (2, -1, -1), (2, -1, -1), (2, -1, -1), (2, -1, -1),
        (2, -1, -1), (2, -1, -1)], [(1, 1, 10)], -1) := by
  decide!

/-- C22 (as amended): `b2b_updateiode(SSR, S, X)` looks at the orbit sets among the last seven
cells of the orbit table whose SSR is the given one.  It returns `E ≠ -1` exactly
when the most recent of them with `iodcorr[S] = X` has `iode[S] = E`; it returns
-1 exactly when none of them has `iodcorr[S] = X` or the most recent one that
has it holds `iode[S] = -1`.  The latter does not occur in a table in which every
set with `iodcorr[S] = X` has `iode[S] ≠ -1`, where -1 is therefore returned
exactly when no set has `iodcorr[S] = X`; the orbit tables reached from the
decoder after its constructor by ingested messages are such tables, for
`X ≠ -1`, as long as each write of the ingestion stayed inside the arrays; and
a run has a result whenever every sub-record with `ura ≠ 0` of its subtype-2
messages names a slot in 1..255. -/
theorem b2b_updateiode_most_recent_match (ssr_orbits : List ppp_ssr_orbit) (SSR : Int)
    (S : Nat) (X : Int) :
    (∀ E : Int, E ≠ -1 →
      (PPPB2bDecoder.b2b_updateiode ssr_orbits SSR S X = E ↔
        ∃ o, (recentOrbits ssr_orbits SSR).find?
          (fun o => decide (o.iodcorr.getD S 0 = X)) = some o ∧ o.iode.getD S 0 = E)) ∧
    (PPPB2bDecoder.b2b_updateiode ssr_orbits SSR S X = -1 ↔
      ((∀ o ∈ recentOrbits ssr_orbits SSR, o.iodcorr.getD S 0 ≠ X) ∨
        ∃ o, (recentOrbits ssr_orbits SSR).find?
          (fun o => decide (o.iodcorr.getD S 0 = X)) = some o ∧ o.iode.getD S 0 = -1)) ∧
    ((∀ o ∈ ssr_orbits, o.iodcorr.getD S 0 = X → o.iode.getD S 0 ≠ -1) →
      (PPPB2bDecoder.b2b_updateiode ssr_orbits SSR S X = -1 ↔
        ∀ o ∈ recentOrbits ssr_orbits SSR, o.iodcorr.getD S 0 ≠ X)) ∧
    (∀ (msgs : List (bncTime × pppdata)) (st : PPPB2bDecoder) (sigs : List B2bSignal),
      ingestAll PPPB2bDecoder.init msgs = some (st, sigs) → st.ssr_orbits = ssr_orbits →
      X ≠ -1 → ∀ o ∈ ssr_orbits, o.iodcorr.getD S 0 = X → o.iode.getD S 0 ≠ -1) ∧
    (∀ msgs : List (bncTime × pppdata), writesInside msgs = true →
      ∃ st sigs, ingestAll PPPB2bDecoder.init msgs = some (st, sigs)) := by
  have hinside : ∀ msgs : List (bncTime × pppdata), writesInside msgs = true →
      ∃ st sigs, ingestAll PPPB2bDecoder.init msgs = some (st, sigs) := by
    intro msgs h
    obtain ⟨r, hr⟩ := (ingestAll_some_iff msgs PPPB2bDecoder.init).mpr h
    exact ⟨r.1, r.2, hr⟩
  have hreach : ∀ (msgs : List (bncTime × pppdata)) (st : PPPB2bDecoder)
      (sigs : List B2bSignal),
      ingestAll PPPB2bDecoder.init msgs = some (st, sigs) → st.ssr_orbits = ssr_orbits →
      X ≠ -1 → ∀ o ∈ ssr_orbits, o.iodcorr.getD S 0 = X → o.iode.getD S 0 ≠ -1 := by
    intro msgs st sigs hing heq hX o ho hx hE
    have hcons := ingestAll_consistent msgs PPPB2bDecoder.init st sigs
      (fun o ho => absurd ho (List.not_mem_nil o)) hing
    rw [← heq] at ho
    have := hcons o ho S hE
    rw [hx] at this
    exact hX this
  rw [b2b_updateiode_eq]
  have hnone : (recentOrbits ssr_orbits SSR).find?
      (fun o => decide (o.iodcorr.getD S 0 = X)) = none ↔
      ∀ o ∈ recentOrbits ssr_orbits SSR, o.iodcorr.getD S 0 ≠ X := by
    rw [List.find?_eq_none]
    constructor
    · intro h o ho hx
      exact h o ho (decide_eq_true hx)
    · intro h o ho hx
      exact h o ho (of_decide_eq_true hx)
  have hmem : ∀ o ∈ recentOrbits ssr_orbits SSR, o ∈ ssr_orbits := by
    intro o ho
    unfold recentOrbits at ho
    rw [List.mem_reverse] at ho
    exact List.mem_of_mem_drop (List.mem_of_mem_filter ho)
  cases hf : (recentOrbits ssr_orbits SSR).find?
      (fun o => decide (o.iodcorr.getD S 0 = X)) with
  | none =>
    have hall := hnone.mp hf
    refine ⟨?_, ?_, ?_, hreach, hinside⟩
    · intro E hE
      constructor
      · intro h; exact absurd h.symm hE
      · rintro ⟨o, ho, -⟩; exact absurd ho (by simp)
    · exact ⟨fun _ => Or.inl hall, fun _ => rfl⟩
    · intro _
      exact ⟨fun _ => hall, fun _ => rfl⟩
  | some o =>
    have hx : o.iodcorr.getD S 0 = X := by
      have h := List.find?_some hf
      exact of_decide_eq_true h
    have ho : o ∈ recentOrbits ssr_orbits SSR := List.mem_of_find?_eq_some hf
    refine ⟨?_, ?_, ?_, hreach, hinside⟩
    · intro E _
      constructor
      · intro h; exact ⟨o, rfl, h⟩
      · rintro ⟨o1, ho1, h1⟩
        rw [Option.some.injEq] at ho1
        subst ho1
        exact h1
    · constructor
      · intro h; exact Or.inr ⟨o, rfl, h⟩
      · rintro (h | ⟨o1, ho1, h1⟩)
        · exact absurd hx (h o ho)
        · rw [Option.some.injEq] at ho1
          subst ho1
          exact h1
    · intro hwf
      constructor
      · intro h; exact absurd h (hwf o (hmem o ho) hx)
      · intro h; exact absurd hx (h o ho)

/-! Instances -/

/-- What `emitCorrections` does is a run of `processBufferedCorrections` on the
items it has appended, at the page time stored in `_lastTime`. -/
theorem emitCorrections_eq_runPage (st : PPPB2bDecoder) (p : pppdata) (t : Int)
    (h : st.lastTime = some t) :
    PPPB2bDecoder.emitCorrections st p =
      runPage st { t := t, orb := orbPushed st p, clk := clkPushed st p } := by
  rw [emitCorrections_eq]
  unfold runPage
  simp only [← h]

theorem full_table_drops_oldest_witness :
    sampleMaskMessage.mestype = 1 ∧ sampleFullMaskStore.ssr_masks.length = 16 ∧
    ∃ st1, PPPB2bDecoder.b2b_fillmem sampleFullMaskStore sampleMaskMessage = some (st1, []) ∧
      st1.ssr_masks = sampleFullMaskStore.ssr_masks.tail ++
        [{ SSR := sampleMaskMessage.SSR, iodp := sampleMaskMessage.type1.IODP,
           cmake := sampleMaskMessage.type1.prn_make }] ∧
      st1.ssr_orbits = sampleFullMaskStore.ssr_orbits ∧
      st1.ssr_clocks = sampleFullMaskStore.ssr_clocks :=
  ⟨by decide, by decide,
    (full_table_drops_oldest sampleFullMaskStore sampleMaskMessage).1 (by decide) (by decide)
      (by decide!)⟩

theorem unavailable_clock_keeps_iod_witness :
    (16377 : Int) ≤ |(sampleClockMessage 100 16383).type4.c.getD 0 0| ∧
    PPPB2bDecoder.subtype_prn (1 :: List.replicate 254 0)
      (sampleClockMessage 100 16383).type4.subtupe1 (0 + 1) = ((0 : Nat) : Int) ∧
    ∃ r c1, PPPB2bDecoder.b2b_fillmem sampleClockStore (sampleClockMessage 100 16383) = some r ∧
      r.1.ssr_clocks.find? (clockHasKey (sampleClockMessage 100 16383)) = some c1 ∧
      (∀ c0, sampleClockStore.ssr_clocks.find? (clockHasKey (sampleClockMessage 100 16383))
          = some c0 →
        c1.iodcorr.getD 0 0 = c0.iodcorr.getD 0 0 ∧ c1.iode.getD 0 0 = c0.iode.getD 0 0) ∧
      (sampleClockStore.ssr_clocks.find? (clockHasKey (sampleClockMessage 100 16383)) = none →
        c1.iodcorr.getD 0 0 = -1 ∧ c1.iode.getD 0 0 = -1) :=
  ⟨by decide, by decide!,
    (unavailable_clock_keeps_iod sampleClockStore (sampleClockMessage 100 16383) 0 0
      { SSR := 1, iodp := 3, cmake := 1 :: List.replicate 254 0 } (by decide) (by decide!)
      (by norm_num) (by decide!) (by decide!) (by decide) (by decide)).2⟩

theorem reachable_buffers_have_no_iod_minus_one_witness :
    (ingestAll PPPB2bDecoder.init (sampleSession 106 16383)).isSome = true ∧
    ∀ r, ingestAll PPPB2bDecoder.init (sampleSession 106 16383) = some r →
      (∀ o ∈ r.1.orbBuffer, o.iod ≠ -1) ∧ (∀ c ∈ r.1.clkBuffer, c.iod ≠ -1) ∧
      (∀ s ∈ r.2, (-1 : Int) ∉ s.iods) :=
  ⟨by decide!, fun r hr =>
    reachable_buffers_have_no_iod_minus_one (sampleSession 106 16383) r.1 r.2 hr⟩

theorem clock_without_mask_writes_no_slot_witness :
    (sampleClockMessage 100 100).mestype = 4 ∧ PPPB2bDecoder.init.ssr_masks = [] ∧
    ∃ r, PPPB2bDecoder.b2b_fillmem PPPB2bDecoder.init (sampleClockMessage 100 100) = some r ∧
      (∀ c0, PPPB2bDecoder.init.ssr_clocks.find? (clockHasKey (sampleClockMessage 100 100))
          = some c0 → r.1.ssr_clocks = PPPB2bDecoder.init.ssr_clocks) ∧
      (PPPB2bDecoder.init.ssr_clocks.find? (clockHasKey (sampleClockMessage 100 100)) = none →
        ∃ c, r.1.ssr_clocks =
            (if PPPB2bDecoder.init.ssr_clocks.length ≥ 120 then
              PPPB2bDecoder.init.ssr_clocks.tail else PPPB2bDecoder.init.ssr_clocks) ++ [c] ∧
          c.iodcorr = List.replicate 255 (-1) ∧ c.iode = List.replicate 255 (-1) ∧
          c.SSR = ((sampleClockMessage 100 100).SSR : Int) ∧
          c.bweek = (sampleClockMessage 100 100).BDSweek ∧
          c.bsow = (sampleClockMessage 100 100).BDSsow ∧
          c.iodp = ((sampleClockMessage 100 100).type4.IODP : Int)) ∧
      (∀ q : pppdata, q.mestype = 1 →
        ∃ r2, PPPB2bDecoder.b2b_fillmem r.1 q = some r2 ∧ r2.1.ssr_clocks = r.1.ssr_clocks) :=
  ⟨by decide, rfl,
    clock_without_mask_writes_no_slot PPPB2bDecoder.init (sampleClockMessage 100 100)
      (by decide) (fun m hm => absurd hm (List.not_mem_nil m))⟩

theorem emission_cadence_witness :
    PPPB2bDecoder.init.lastEmitTime = none ∧
    (runPages PPPB2bDecoder.init samplePageRuns).map (fun x => (x.1, x.2.length)) =
      [(1000, 0), (1006, 1), (1009, 0), (1012, 1)] ∧
    List.Pairwise (fun a b => a.2 ≠ [] → b.2 ≠ [] → a.1 + 5 ≤ b.1)
      (runPages PPPB2bDecoder.init samplePageRuns) :=
  ⟨rfl, by decide,
    (emission_cadence PPPB2bDecoder.init samplePageRuns rfl
      (by simp [samplePageRuns])).2.1⟩

theorem b2b_updateiode_most_recent_match_witness :
    PPPB2bDecoder.b2b_updateiode sampleOrbitTable 1 0 2 = 20 ∧
    PPPB2bDecoder.b2b_updateiode sampleOrbitTable 1 0 3 = -1 :=
  ⟨((b2b_updateiode_most_recent_match sampleOrbitTable 1 0 2).1 20 (by decide)).mpr
      ⟨sampleOrbitTable.getD 1 ppp_ssr_orbit.zero, by decide!, by decide!⟩,
   ((b2b_updateiode_most_recent_match sampleOrbitTable 1 0 3).2.2.1 (by decide!)).mpr
      (by decide!)⟩

/-! Counts and keys of the three tables -/

theorem ingestAll_induction (P : PPPB2bDecoder → Prop)
    (hstep : ∀ (st : PPPB2bDecoder) (t : bncTime) (p : pppdata)
      (r : PPPB2bDecoder × List B2bSignal), P st →
      PPPB2bDecoder.b2b_fillmem { st with lastTime := t } p = some r → P r.1)
    (msgs : List (bncTime × pppdata)) :
    ∀ (st0 st : PPPB2bDecoder) (sigs : List B2bSignal), P st0 →
    ingestAll st0 msgs = some (st, sigs) → P st := by
  induction msgs with
  | nil =>
    intro st0 st sigs h0 h
    simp only [ingestAll, Option.some.injEq, Prod.mk.injEq] at h
    obtain ⟨rfl, -⟩ := h
    exact h0
  | cons tp rest ih =>
    intro st0 st sigs h0 h
    simp only [ingestAll] at h
    cases hf : PPPB2bDecoder.b2b_fillmem { st0 with lastTime := tp.1 } tp.2 with
    | none => rw [hf] at h; exact absurd h (by simp)
    | some r =>
      rw [hf] at h
      simp only [] at h
      have hr1 := hstep st0 tp.1 tp.2 r h0 hf
      cases hg : ingestAll r.1 rest with
      | none => rw [hg] at h; exact absurd h (by simp)
      | some r2 =>
        rw [hg] at h
        simp only [Option.some.injEq, Prod.mk.injEq] at h
        obtain ⟨rfl, -⟩ := h
        exact ih r.1 r2.1 r2.2 hr1 hg

/-- A table to which a cell with a new key is appended, the first cell being
dropped when the table is full, stays within the capacity and keeps its keys
distinct. -/
theorem keyed_append {α κ : Type} (key : α → κ) (l : List α) (x : α) (cap : Nat)
    (hcap : 0 < cap) (hlen : l.length ≤ cap) (hnd : (l.map key).Nodup)
    (hnew : ∀ y ∈ l, key y ≠ key x) :
    ((if l.length ≥ cap then l.tail else l) ++ [x]).length ≤ cap ∧
    (((if l.length ≥ cap then l.tail else l) ++ [x]).map key).Nodup := by
  have hsub : ∀ y ∈ (if l.length ≥ cap then l.tail else l), y ∈ l := by
    intro y hy
    split_ifs at hy
    · exact List.mem_of_mem_tail hy
    · exact hy
  have hnd2 : ((if l.length ≥ cap then l.tail else l).map key).Nodup := by
    split_ifs
    · rw [List.map_tail]
      exact hnd.sublist (List.tail_sublist _)
    · exact hnd
  constructor
  · rw [List.length_append, List.length_singleton]
    split_ifs with hfull
    · rw [List.length_tail]; omega
    · omega
  · rw [List.map_append, List.map_singleton, List.nodup_append]
    refine ⟨hnd2, List.nodup_singleton _, ?_⟩
    intro k hk1 hk2
    rw [List.mem_singleton] at hk2
    rw [List.mem_map] at hk1
    obtain ⟨y, hy, rfl⟩ := hk1
    exact hnew y (hsub y hy) hk2

/-- A table in which one cell is replaced by a cell of the same key keeps its
keys. -/
theorem keyed_set {α κ : Type} (key : α → κ) (l : List α) (i : Nat) (x d : α)
    (hi : i < l.length) (hk : key x = key (l.getD i d)) :
    (l.set i x).map key = l.map key := by
  apply List.ext_getElem
  · simp only [List.length_map, List.length_set]
  · intro n h1 h2
    simp only [List.length_map, List.length_set] at h1
    simp only [List.getElem_map, List.getElem_set]
    split_ifs with hn
    · subst hn
      rw [hk, List.getD_eq_getElem _ _ hi]
    · rfl

theorem b2b_fillmem_wellFormed (st : PPPB2bDecoder) (p : pppdata)
    (r : PPPB2bDecoder × List B2bSignal) (h : tablesWellFormed st)
    (hr : PPPB2bDecoder.b2b_fillmem st p = some r) : tablesWellFormed r.1 := by
  obtain ⟨hl1, hl2, hl3, hn1, hn2, hn3⟩ := h
  by_cases h1 : p.mestype = 1
  · rw [b2b_fillmem_mask st p h1] at hr
    by_cases hany : st.ssr_masks.any (fun m => decide (m.SSR = (p.SSR : Int)) &&
        decide (m.iodp = (p.type1.IODP : Int))) = false
    · rw [if_pos hany, Option.some.injEq] at hr
      subst hr
      have hnew : ∀ m ∈ st.ssr_masks, maskKey m ≠
          maskKey { SSR := p.SSR, iodp := p.type1.IODP, cmake := p.type1.prn_make } := by
        intro m hm hk
        rw [List.any_eq_false] at hany
        apply hany m hm
        simp only [maskKey, Prod.mk.injEq] at hk
        simp only [Bool.and_eq_true, decide_eq_true_eq]
        exact hk
      obtain ⟨a, b⟩ := keyed_append maskKey st.ssr_masks _ IF_MAXMASK (by decide) hl1 hn1 hnew
      exact ⟨a, hl2, hl3, b, hn2, hn3⟩
    · rw [if_neg hany, Option.some.injEq] at hr
      subst hr
      exact ⟨hl1, hl2, hl3, hn1, hn2, hn3⟩
  · by_cases h2 : p.mestype = 2
    · rw [b2b_fillmem_orbit st p h2] at hr
      by_cases hf : st.ssr_orbits.findIdx (orbitHasKey p) < st.ssr_orbits.length
      · rw [if_pos hf, Option.map_eq_some'] at hr
        obtain ⟨o1, ho1, rfl⟩ := hr
        obtain ⟨e1, e2, e3, -⟩ := emitCorrections_tables
          { st with ssr_orbits := st.ssr_orbits.set (st.ssr_orbits.findIdx (orbitHasKey p)) o1 } p
        obtain ⟨k1, k2, k3⟩ := fillOrbitRecords_key _ _ _ ho1
        have hk : orbitKey o1 = orbitKey (st.ssr_orbits.getD
            (st.ssr_orbits.findIdx (orbitHasKey p)) ppp_ssr_orbit.zero) := by
          simp only [orbitKey, k1, k2, k3]
        have hset := keyed_set orbitKey st.ssr_orbits _ o1 ppp_ssr_orbit.zero hf hk
        refine ⟨?_, ?_, ?_, ?_, ?_, ?_⟩
        · rw [e1]; exact hl1
        · rw [e2]; simp only [List.length_set]; exact hl2
        · rw [e3]; exact hl3
        · rw [e1]; exact hn1
        · rw [e2]; simp only []; rw [hset]; exact hn2
        · rw [e3]; exact hn3
      · rw [if_neg hf, Option.map_eq_some'] at hr
        obtain ⟨o1, ho1, rfl⟩ := hr
        obtain ⟨e1, e2, e3, -⟩ := emitCorrections_tables
          { st with ssr_orbits :=
            (if st.ssr_orbits.length ≥ IF_MAXSSR then st.ssr_orbits.tail
              else st.ssr_orbits) ++ [o1] } p
        obtain ⟨k1, k2, k3⟩ := fillOrbitRecords_key _ _ _ ho1
        simp only [] at k1 k2 k3
        have hnew : ∀ o ∈ st.ssr_orbits, orbitKey o ≠ orbitKey o1 := by
          intro o ho hk
          apply hf
          rw [List.findIdx_lt_length]
          refine ⟨o, ho, ?_⟩
          simp only [orbitKey, Prod.mk.injEq, k1, k2, k3] at hk
          simp only [orbitHasKey, Bool.and_eq_true, decide_eq_true_eq]
          exact ⟨⟨hk.1, hk.2.1⟩, hk.2.2⟩
        obtain ⟨a, b⟩ := keyed_append orbitKey st.ssr_orbits o1 IF_MAXSSR (by decide) hl2 hn2 hnew
        refine ⟨?_, ?_, ?_, ?_, ?_, ?_⟩
        · rw [e1]; exact hl1
        · rw [e2]; exact a
        · rw [e3]; exact hl3
        · rw [e1]; exact hn1
        · rw [e2]; exact b
        · rw [e3]; exact hn3
    · by_cases h4 : p.mestype = 4
      · rw [b2b_fillmem_clock st p h4, Option.some.injEq] at hr
        subst hr
        obtain ⟨e1, e2, e3, -⟩ := emitCorrections_tables
          { st with ssr_clocks := clockTable st p } p
        obtain ⟨f1, f2, f3, -⟩ := clockFilled_key st p
        have hclk : (clockTable st p).length ≤ IF_MAXSSR ∧
            ((clockTable st p).map clockKey).Nodup := by
          unfold clockTable
          simp only []
          by_cases hf : st.ssr_clocks.findIdx (clockHasKey p) < st.ssr_clocks.length
          · rw [if_pos hf]
            have ht : clockTarget st p = st.ssr_clocks.getD
                (st.ssr_clocks.findIdx (clockHasKey p)) ppp_ssr_clock.zero := by
              unfold clockTarget
              simp only []
              rw [if_pos hf]
            have hk : clockKey (clockFilled st p) = clockKey (st.ssr_clocks.getD
                (st.ssr_clocks.findIdx (clockHasKey p)) ppp_ssr_clock.zero) := by
              rw [← ht]
              simp only [clockKey, f1, f2, f3]
            rw [keyed_set clockKey st.ssr_clocks _ _ ppp_ssr_clock.zero hf hk]
            simp only [List.length_set]
            exact ⟨hl3, hn3⟩
          · rw [if_neg hf]
            have hno : ∀ c ∈ st.ssr_clocks, clockHasKey p c = false := by
              intro c hc
              by_contra hcon
              apply hf
              rw [List.findIdx_lt_length]
              exact ⟨c, hc, by simpa using hcon⟩
            obtain ⟨t1, t2, t3, -⟩ := clockTarget_fresh st p hno
            have hnew : ∀ c ∈ st.ssr_clocks, clockKey c ≠ clockKey (clockFilled st p) := by
              intro c hc hk
              have hc0 := hno c hc
              simp only [clockKey, Prod.mk.injEq, f1, f2, f3, t1, t2, t3] at hk
              simp only [clockHasKey, hk.1, hk.2.1, hk.2.2, decide_True, Bool.and_self] at hc0
              exact absurd hc0 (by decide)
            exact keyed_append clockKey st.ssr_clocks _ IF_MAXSSR (by decide) hl3 hn3 hnew
        refine ⟨?_, ?_, ?_, ?_, ?_, ?_⟩
        · rw [e1]; exact hl1
        · rw [e2]; exact hl2
        · rw [e3]; exact hclk.1
        · rw [e1]; exact hn1
        · rw [e2]; exact hn2
        · rw [e3]; exact hclk.2
      · rw [b2b_fillmem_none st p h1 h2 h4, Option.some.injEq] at hr
        subst hr
        exact ⟨hl1, hl2, hl3, hn1, hn2, hn3⟩

/-- The tables in runs that stay inside the arrays: in every store reached from
the decoder after its constructor by a sequence of messages handed to
`b2b_fillmem`, each write of which stayed inside the arrays, the
mask table holds at most 16 entries, the orbit and the clock table at most 120
sets, no two mask entries share (SSR, IODP), no two orbit sets share (SSR, week,
second of week), and no two clock sets do. -/
theorem reachable_tables_bounded_with_distinct_keys (msgs : List (bncTime × pppdata))
    (st : PPPB2bDecoder) (sigs : List B2bSignal)
    (h : ingestAll PPPB2bDecoder.init msgs = some (st, sigs)) :
    st.ssr_masks.length ≤ 16 ∧ st.ssr_orbits.length ≤ 120 ∧ st.ssr_clocks.length ≤ 120 ∧
    st.ssr_masks.Pairwise (fun a b => ¬ (a.SSR = b.SSR ∧ a.iodp = b.iodp)) ∧
    st.ssr_orbits.Pairwise
      (fun a b => ¬ (a.SSR = b.SSR ∧ a.bweek = b.bweek ∧ a.bsow = b.bsow)) ∧
    st.ssr_clocks.Pairwise
      (fun a b => ¬ (a.SSR = b.SSR ∧ a.bweek = b.bweek ∧ a.bsow = b.bsow)) := by
  have h0 : tablesWellFormed PPPB2bDecoder.init :=
    ⟨by decide, by decide, by decide, List.nodup_nil, List.nodup_nil, List.nodup_nil⟩
  have hstep : ∀ (st : PPPB2bDecoder) (t : bncTime) (p : pppdata)
      (r : PPPB2bDecoder × List B2bSignal), tablesWellFormed st →
      PPPB2bDecoder.b2b_fillmem { st with lastTime := t } p = some r →
      tablesWellFormed r.1 :=
    fun st t p r hw hr => b2b_fillmem_wellFormed { st with lastTime := t } p r hw hr
  obtain ⟨l1, l2, l3, n1, n2, n3⟩ :=
    ingestAll_induction tablesWellFormed hstep msgs PPPB2bDecoder.init st sigs h0 h
  refine ⟨l1, l2, l3, ?_, ?_, ?_⟩
  · rw [List.Nodup, List.pairwise_map] at n1
    exact n1.imp (fun hab hc => hab (by simp only [maskKey, Prod.mk.injEq]; exact hc))
  · rw [List.Nodup, List.pairwise_map] at n2
    exact n2.imp (fun hab hc => hab (by simp only [orbitKey, Prod.mk.injEq]; exact hc))
  · rw [List.Nodup, List.pairwise_map] at n3
    exact n3.imp (fun hab hc => hab (by simp only [clockKey, Prod.mk.injEq]; exact hc))

theorem reachable_tables_bounded_with_distinct_keys_witness :
    (ingestAll PPPB2bDecoder.init (sampleSession 100 16383)).isSome = true ∧
    ∀ r, ingestAll PPPB2bDecoder.init (sampleSession 100 16383) = some r →
      r.1.ssr_masks.length ≤ 16 ∧ r.1.ssr_orbits.length ≤ 120 ∧ r.1.ssr_clocks.length ≤ 120 ∧
      r.1.ssr_masks.Pairwise (fun a b => ¬ (a.SSR = b.SSR ∧ a.iodp = b.iodp)) ∧
      r.1.ssr_orbits.Pairwise
        (fun a b => ¬ (a.SSR = b.SSR ∧ a.bweek = b.bweek ∧ a.bsow = b.bsow)) ∧
      r.1.ssr_clocks.Pairwise
        (fun a b => ¬ (a.SSR = b.SSR ∧ a.bweek = b.bweek ∧ a.bsow = b.bsow)) :=
  ⟨by decide!, fun r hr =>
    reachable_tables_bounded_with_distinct_keys (sampleSession 100 16383) r.1 r.2 hr⟩

/-! The search of `subtype_prn` -/

theorem subtype_prn_loop_spec (ipos : Nat) (l : List Nat) : ∀ (i b : Nat), b < ipos →
    (∀ q : Nat, subtype_prn_loop ipos l i b = ((i + q : Nat) : Int) ↔
      (q < l.length ∧ l.getD q 0 = 1 ∧ b + (l.take q).count 1 + 1 = ipos)) ∧
    (subtype_prn_loop ipos l i b = -1 ↔ b + l.count 1 < ipos) := by
  induction l with
  | nil =>
    intro i b hb
    simp only [subtype_prn_loop, List.length_nil, List.count_nil]
    constructor
    · intro q
      constructor
      · intro h; omega
      · rintro ⟨h, -⟩; omega
    · constructor
      · intro _; omega
      · intro _; trivial
  | cons m rest ih =>
    intro i b hb
    simp only [subtype_prn_loop]
    by_cases hm : m = 1
    · subst hm
      rw [if_pos rfl]
      by_cases hk : b + 1 = ipos
      · rw [if_pos hk]
        constructor
        · intro q
          cases q with
          | zero =>
            simp only [List.length_cons, List.getD_cons_zero, List.take_zero, List.count_nil]
            constructor
            · intro _; exact ⟨by omega, trivial, by omega⟩
            · intro _; rfl
          | succ q =>
            simp only [List.length_cons, List.getD_cons_succ, List.take_succ_cons,
              List.count_cons_self]
            constructor
            · intro h; push_cast at h; omega
            · rintro ⟨-, -, h⟩; omega
        · simp only [List.count_cons_self]
          constructor
          · intro h; omega
          · intro h; omega
      · rw [if_neg hk]
        obtain ⟨ih1, ih2⟩ := ih (i + 1) (b + 1) (by omega)
        constructor
        · intro q
          cases q with
          | zero =>
            simp only [List.length_cons, List.getD_cons_zero, List.take_zero, List.count_nil]
            constructor
            · intro h
              rcases subtype_prn_loop_range ipos rest (i + 1) (b + 1) with h1 | ⟨h1, -⟩
              · rw [h1] at h; omega
              · rw [h] at h1; push_cast at h1; omega
            · rintro ⟨-, -, h⟩; omega
          | succ q =>
            simp only [List.length_cons, List.getD_cons_succ, List.take_succ_cons,
              List.count_cons_self]
            have e : ((i + (q + 1) : Nat) : Int) = ((i + 1 + q : Nat) : Int) := by
              push_cast; ring
            rw [e, ih1 q]
            constructor
            · rintro ⟨a, b1, c⟩; exact ⟨by omega, b1, by omega⟩
            · rintro ⟨a, b1, c⟩; exact ⟨by omega, b1, by omega⟩
        · simp only [List.count_cons_self]
          rw [ih2]
          constructor <;> intro h <;> omega
    · rw [if_neg hm, if_neg (by omega)]
      obtain ⟨ih1, ih2⟩ := ih (i + 1) b hb
      have hc : (m :: rest).count 1 = rest.count 1 := List.count_cons_of_ne (fun h => hm h.symm) rest
      constructor
      · intro q
        cases q with
        | zero =>
          simp only [List.length_cons, List.getD_cons_zero, List.take_zero, List.count_nil]
          constructor
          · intro h
            rcases subtype_prn_loop_range ipos rest (i + 1) b with h1 | ⟨h1, -⟩
            · rw [h1] at h; omega
            · rw [h] at h1; push_cast at h1; omega
          · rintro ⟨-, h, -⟩; exact absurd h hm
        | succ q =>
          simp only [List.length_cons, List.getD_cons_succ, List.take_succ_cons]
          rw [List.count_cons_of_ne (fun h => hm h.symm)]
          have e : ((i + (q + 1) : Nat) : Int) = ((i + 1 + q : Nat) : Int) := by
            push_cast; ring
          rw [e, ih1 q]
          constructor
          · rintro ⟨a, b1, c⟩; exact ⟨by omega, b1, c⟩
          · rintro ⟨a, b1, c⟩; exact ⟨by omega, b1, c⟩
      · rw [hc, ih2]

theorem count_take_succ (l : List Nat) (q : Nat) (hq : q < l.length) (h1 : l.getD q 0 = 1) :
    (l.take (q + 1)).count 1 = (l.take q).count 1 + 1 := by
  rw [List.take_succ, List.count_append]
  rw [List.getD_eq_getElem _ _ hq] at h1
  rw [List.getElem?_eq_getElem hq, h1]
  rfl

/-- C32: for a mask of 255 entries and `ix ≥ 1`, `subtype_prn(mask, subtype,
ix)` returns the position `p` (counted from 0) for which `mask[p] = 1` and
exactly `subtype * 23 + ix` of the entries `mask[0..p]` are 1; it returns -1
exactly when fewer than `subtype * 23 + ix` entries of the mask are 1; and two
different `ix` never give the same position. -/
theorem subtype_prn_finds_the_kth_one (make : List Nat) (subtype ix : Nat)
    (hlen : make.length = 255) (hix : 1 ≤ ix) :
    (∀ p : Nat, PPPB2bDecoder.subtype_prn make subtype ix = (p : Int) ↔
      (p < 255 ∧ make.getD p 0 = 1 ∧ (make.take (p + 1)).count 1 = subtype * 23 + ix)) ∧
    (PPPB2bDecoder.subtype_prn make subtype ix = -1 ↔ make.count 1 < subtype * 23 + ix) ∧
    (PPPB2bDecoder.subtype_prn make subtype ix = -1 ∨
      ∃ p : Nat, PPPB2bDecoder.subtype_prn make subtype ix = (p : Int)) ∧
    (∀ ix2 : Nat, ix2 ≠ ix → PPPB2bDecoder.subtype_prn make subtype ix ≠ -1 →
      PPPB2bDecoder.subtype_prn make subtype ix2 ≠
        PPPB2bDecoder.subtype_prn make subtype ix) := by
  obtain ⟨h1, h2⟩ := subtype_prn_loop_spec (subtype * 23 + ix) make 0 0 (by omega)
  unfold PPPB2bDecoder.subtype_prn
  refine ⟨?_, ?_, ?_, ?_⟩
  · intro p
    have e : ((p : Nat) : Int) = ((0 + p : Nat) : Int) := by rw [Nat.zero_add]
    rw [e, h1 p, hlen]
    constructor
    · rintro ⟨a, b, c⟩
      exact ⟨a, b, by rw [count_take_succ make p (by omega) b]; omega⟩
    · rintro ⟨a, b, c⟩
      rw [count_take_succ make p (by omega) b] at c
      exact ⟨a, b, by omega⟩
  · rw [h2]
    constructor <;> intro h <;> omega
  · rcases subtype_prn_loop_range (subtype * 23 + ix) make 0 0 with h | ⟨h, -⟩
    · exact Or.inl h
    · right
      refine ⟨(subtype_prn_loop (subtype * 23 + ix) make 0 0).toNat, ?_⟩
      push_cast at h
      omega
  · intro ix2 hne hnot heq
    have := subtype_prn_loop_inj (subtype * 23 + ix) (subtype * 23 + ix2) make 0 0 heq.symm hnot
    omega

theorem subtype_prn_finds_the_kth_one_witness :
    (sampleSlotMaskMessage.type1.prn_make).length = 255 ∧ 1 ≤ 1 ∧
    PPPB2bDecoder.subtype_prn sampleSlotMaskMessage.type1.prn_make 0 1 = 0 ∧
    PPPB2bDecoder.subtype_prn sampleSlotMaskMessage.type1.prn_make 0 2 = -1 :=
  ⟨by decide!, by decide,
    ((subtype_prn_finds_the_kth_one sampleSlotMaskMessage.type1.prn_make 0 1
      (by decide!) (by decide)).1 0).mpr ⟨by decide, by decide!, by decide!⟩,
    (subtype_prn_finds_the_kth_one sampleSlotMaskMessage.type1.prn_make 0 2
      (by decide!) (by decide)).2.1.mpr (by decide!)⟩

/-! The bits of a hexadecimal text (`read_hex_bits`) -/

theorem isHexChar_cases (c : Char) (h : isHexChar c = true) :
    ∃ n : Nat, c = Char.ofNat n ∧
      ((48 ≤ n ∧ n ≤ 57) ∨ (97 ≤ n ∧ n ≤ 102) ∨ (65 ≤ n ∧ n ≤ 70)) := by
  have hc : c = Char.ofNat c.toNat := (Char.ofNat_toNat c).symm
  unfold isHexChar at h
  rw [decide_eq_true_eq] at h
  simp only [Char.le_def, UInt32.le_def, BitVec.le_def] at h
  have h0 : ('0' : Char).val.toBitVec.toNat = 48 := rfl
  have h9 : ('9' : Char).val.toBitVec.toNat = 57 := rfl
  have ha : ('a' : Char).val.toBitVec.toNat = 97 := rfl
  have hf : ('f' : Char).val.toBitVec.toNat = 102 := rfl
  have hA : ('A' : Char).val.toBitVec.toNat = 65 := rfl
  have hF : ('F' : Char).val.toBitVec.toNat = 70 := rfl
  rw [h0, h9, ha, hf, hA, hF] at h
  have hn : c.val.toBitVec.toNat = c.toNat := rfl
  rw [hn] at h
  exact ⟨c.toNat, hc, h⟩

theorem hexNibble_eq_value (c : Char) (h : isHexChar c = true) :
    hexNibble c = hexDigitValue c ∧ hexNibble c < 16 ∧
    hexNibble c.toLower = hexNibble c ∧ hexNibble c.toUpper = hexNibble c := by
  obtain ⟨n, rfl, hn⟩ := isHexChar_cases c h
  rcases hn with ⟨h1, h2⟩ | ⟨h1, h2⟩ | ⟨h1, h2⟩
  · interval_cases n <;> decide!
  · interval_cases n <;> decide!
  · interval_cases n <;> decide!

theorem read_hex_bits_getD (hex : QString) (k j : Nat)
    (hk : k < (hex.filter isHexChar).length) (hj : j < 4) :
    (SBFcoDecoder.read_hex_bits hex).getD (4 * k + j) 0 =
      hexNibble ((hex.filter isHexChar).getD k '0') / 2 ^ (3 - j) % 2 := by
  unfold SBFcoDecoder.read_hex_bits
  simp only []
  have hlt : 4 * k + j < ((List.range ((hex.filter isHexChar).length * 4)).map
      (fun i => (hexNibble ((hex.filter isHexChar).getD (i / 4) '0') >>> (3 - i % 4)) &&& 1)).length := by
    rw [List.length_map, List.length_range]; omega
  rw [List.getD_eq_getElem _ _ hlt, List.getElem_map, List.getElem_range]
  have e1 : (4 * k + j) / 4 = k := by omega
  have e2 : (4 * k + j) % 4 = j := by omega
  rw [e1, e2, Nat.shiftRight_eq_div_pow, Nat.and_one_is_mod]

theorem filter_isHexChar_insert (a b : QString) (c : Char) (h : isHexChar c = false) :
    (a ++ c :: b).filter isHexChar = (a ++ b).filter isHexChar := by
  rw [List.filter_append, List.filter_append, List.filter_cons_of_neg (by rw [h]; decide)]

/-- C33 (as stated) fails: the text "1G2" is not rejected; the character 'G',
neither a hexadecimal digit nor white space, is dropped and the text gives the
eight bits of "12". -/
theorem read_hex_bits_drops_other_characters :
    SBFcoDecoder.read_hex_bits ['1', 'G', '2'] = [0, 0, 0, 1, 0, 0, 1, 0] ∧
    SBFcoDecoder.read_hex_bits ['1', 'G', '2'] = SBFcoDecoder.read_hex_bits ['1', '2'] ∧
    isHexChar 'G' = false ∧ Char.isWhitespace 'G' = false := by
  decide

/-- C33 (as amended): `read_hex_bits` returns four bits for each hexadecimal
digit of the text, in the order of the text and most significant bit first: with
`s` the digits of the text, bit `4 k + j` is bit `3 - j` of the value of `s[k]`;
upper and lower case digits have the same value; and every other character,
white space or not, gives no bits: no text is rejected. -/
theorem read_hex_bits_msb_first (hex : QString) :
    (SBFcoDecoder.read_hex_bits hex).length = 4 * (hex.filter isHexChar).length ∧
    (∀ k j : Nat, k < (hex.filter isHexChar).length → j < 4 →
      (SBFcoDecoder.read_hex_bits hex).getD (4 * k + j) 0 =
        hexDigitValue ((hex.filter isHexChar).getD k '0') / 2 ^ (3 - j) % 2) ∧
    (∀ c : Char, isHexChar c = true →
      hexDigitValue c < 16 ∧ hexNibble c = hexDigitValue c ∧
      hexNibble c.toLower = hexNibble c ∧ hexNibble c.toUpper = hexNibble c) ∧
    (∀ (a b : QString) (c : Char), isHexChar c = false →
      SBFcoDecoder.read_hex_bits (a ++ c :: b) = SBFcoDecoder.read_hex_bits (a ++ b)) := by
  refine ⟨?_, ?_, ?_, ?_⟩
  · unfold SBFcoDecoder.read_hex_bits
    simp only [List.length_map, List.length_range]
    omega
  · intro k j hk hj
    rw [read_hex_bits_getD hex k j hk hj]
    have hmem : (hex.filter isHexChar).getD k '0' ∈ hex.filter isHexChar := by
      rw [List.getD_eq_getElem _ _ hk]
      exact List.getElem_mem hk
    rw [(hexNibble_eq_value _ (List.mem_filter.mp hmem).2).1]
  · intro c hc
    obtain ⟨h1, h2, h3, h4⟩ := hexNibble_eq_value c hc
    exact ⟨by rw [← h1]; exact h2, h1, h3, h4⟩
  · intro a b c hc
    unfold SBFcoDecoder.read_hex_bits
    simp only []
    rw [filter_isHexChar_insert a b c hc]

theorem read_hex_bits_msb_first_witness :
    SBFcoDecoder.read_hex_bits ['a', ' ', 'B'] = SBFcoDecoder.read_hex_bits ['a', 'B'] ∧
    (SBFcoDecoder.read_hex_bits ['a', ' ', 'B']).length = 8 ∧
    (SBFcoDecoder.read_hex_bits ['a', ' ', 'B']).getD (4 * 1 + 2) 0 = 11 / 2 ^ (3 - 2) % 2 :=
  ⟨(read_hex_bits_msb_first ['a', ' ', 'B']).2.2.2 ['a'] ['B'] ' ' (by decide),
   (read_hex_bits_msb_first ['a', ' ', 'B']).1,
   (read_hex_bits_msb_first ['a', ' ', 'B']).2.1 1 2 (by decide) (by decide)⟩

/-! The field GF(64) of the tables `GF_VEC`, `GF_POW`, `GF_MUL` -/

theorem GF_VEC_is_xPowMod : ∀ i, i < 63 → GF_VEC.getD i 0 = xPowMod i := by
  decide!

theorem GF_POW_of_GF_VEC : ∀ i, i < 63 →
    GF_POW.getD (GF_VEC.getD i 0) 0 = i ∧ 1 ≤ GF_VEC.getD i 0 ∧ GF_VEC.getD i 0 ≤ 63 := by
  decide!

theorem GF_VEC_of_GF_POW : ∀ a, a < 64 → 1 ≤ a →
    GF_VEC.getD (GF_POW.getD a 0) 0 = a ∧ GF_POW.getD a 0 < 63 := by
  decide!

theorem GF_MUL_comm (a b : Nat) : GF_MUL a b = GF_MUL b a := by
  unfold GF_MUL
  by_cases h : a = 0 ∨ b = 0
  · rw [if_pos h, if_pos h.symm]
  · rw [if_neg h, if_neg (fun h1 => h h1.symm), Nat.add_comm]

theorem GF_MUL_zero (a : Nat) : GF_MUL a 0 = 0 ∧ GF_MUL 0 a = 0 := by
  unfold GF_MUL
  constructor
  · rw [if_pos (Or.inr rfl)]
  · rw [if_pos (Or.inl rfl)]

theorem GF_MUL_nonzero (a b : Nat) (ha1 : 1 ≤ a) (ha : a < 64) (hb1 : 1 ≤ b) (hb : b < 64) :
    GF_MUL a b = GF_VEC.getD ((GF_POW.getD a 0 + GF_POW.getD b 0) % 63) 0 ∧
    1 ≤ GF_MUL a b ∧ GF_MUL a b < 64 ∧
    GF_POW.getD (GF_MUL a b) 0 = (GF_POW.getD a 0 + GF_POW.getD b 0) % 63 := by
  have e : GF_MUL a b = GF_VEC.getD ((GF_POW.getD a 0 + GF_POW.getD b 0) % 63) 0 := by
    unfold GF_MUL
    rw [if_neg (by omega)]
  obtain ⟨h1, h2, h3⟩ := GF_POW_of_GF_VEC ((GF_POW.getD a 0 + GF_POW.getD b 0) % 63)
    (Nat.mod_lt _ (by decide))
  rw [e]
  exact ⟨rfl, h2, by omega, h1⟩

theorem GF_MUL_assoc (a b c : Nat) (ha : a < 64) (hb : b < 64) (hc : c < 64) :
    GF_MUL (GF_MUL a b) c = GF_MUL a (GF_MUL b c) := by
  by_cases ha0 : a = 0
  · subst ha0
    rw [(GF_MUL_zero b).2, (GF_MUL_zero c).2, (GF_MUL_zero _).2]
  by_cases hb0 : b = 0
  · subst hb0
    rw [(GF_MUL_zero a).1, (GF_MUL_zero c).2, (GF_MUL_zero a).1]
  by_cases hc0 : c = 0
  · subst hc0
    rw [(GF_MUL_zero _).1, (GF_MUL_zero b).1, (GF_MUL_zero a).1]
  obtain ⟨-, x1, x2, x3⟩ := GF_MUL_nonzero a b (by omega) ha (by omega) hb
  obtain ⟨-, y1, y2, y3⟩ := GF_MUL_nonzero b c (by omega) hb (by omega) hc
  rw [(GF_MUL_nonzero (GF_MUL a b) c x1 x2 (by omega) hc).1,
    (GF_MUL_nonzero a (GF_MUL b c) (by omega) ha y1 y2).1, x3, y3]
  congr 1
  omega

theorem GF_MUL_one : ∀ a, a < 64 → GF_MUL 1 a = a ∧ GF_MUL a 1 = a := by
  decide!

theorem GF_MUL_inverse (a : Nat) (ha : a < 64) (ha1 : 1 ≤ a) :
    ∃ b, b < 64 ∧ 1 ≤ b ∧ GF_MUL a b = 1 := by
  obtain ⟨-, hp⟩ := GF_VEC_of_GF_POW a ha ha1
  obtain ⟨h1, h2, h3⟩ := GF_POW_of_GF_VEC ((63 - GF_POW.getD a 0) % 63)
    (Nat.mod_lt _ (by decide))
  refine ⟨GF_VEC.getD ((63 - GF_POW.getD a 0) % 63) 0, by omega, h2, ?_⟩
  rw [(GF_MUL_nonzero a _ ha1 ha h2 (by omega)).1, h1]
  have e : (GF_POW.getD a 0 + (63 - GF_POW.getD a 0) % 63) % 63 = 0 := by omega
  rw [e]
  rfl

theorem GF_MUL_bits : ∀ a, a < 64 → ∀ b, b < 64 →
    GF_MUL a b = gfTerm a b 0 ^^^ gfTerm a b 1 ^^^ gfTerm a b 2 ^^^ gfTerm a b 3 ^^^
      gfTerm a b 4 ^^^ gfTerm a b 5 := by
  decide!

theorem gfTerm_xor (a b c k : Nat) :
    gfTerm a (b ^^^ c) k = gfTerm a b k ^^^ gfTerm a c k := by
  unfold gfTerm
  rw [Nat.testBit_xor]
  cases b.testBit k <;> cases c.testBit k <;> simp

theorem GF_MUL_xor (a b c : Nat) (ha : a < 64) (hb : b < 64) (hc : c < 64) :
    GF_MUL a (b ^^^ c) = GF_MUL a b ^^^ GF_MUL a c := by
  have hbc : b ^^^ c < 64 := Nat.xor_lt_two_pow (n := 6) hb hc
  rw [GF_MUL_bits a ha (b ^^^ c) hbc, GF_MUL_bits a ha b hb, GF_MUL_bits a ha c hc]
  simp only [gfTerm_xor]
  ac_rfl

/-- C34: the tables define the field GF(64).  `GF_VEC[i]` is `x^i` modulo
`x^6 + x + 1` for `i < 63`; `GF_POW` is the inverse of `GF_VEC`
(`GF_POW[GF_VEC[i]] = i` for `i < 63`, `GF_VEC[GF_POW[a]] = a` for
`1 ≤ a ≤ 63`); and `GF_MUL` on 0..63 is commutative and associative, has 1 as
identity and 0 as absorbing element, distributes over XOR, and gives every
element other than 0 an inverse. -/
theorem gf64_tables_define_a_field :
    GF_VEC.length = 63 ∧ GF_POW.length = 64 ∧
    (∀ i, i < 63 → GF_VEC.getD i 0 = xPowMod i) ∧
    (∀ i, i < 63 → GF_POW.getD (GF_VEC.getD i 0) 0 = i) ∧
    (∀ a, 1 ≤ a → a ≤ 63 → GF_VEC.getD (GF_POW.getD a 0) 0 = a) ∧
    (∀ a b, a < 64 → b < 64 → GF_MUL a b < 64 ∧ GF_MUL a b = GF_MUL b a) ∧
    (∀ a b c, a < 64 → b < 64 → c < 64 → GF_MUL (GF_MUL a b) c = GF_MUL a (GF_MUL b c)) ∧
    (∀ a, a < 64 → GF_MUL 1 a = a ∧ GF_MUL a 1 = a ∧ GF_MUL 0 a = 0 ∧ GF_MUL a 0 = 0) ∧
    (∀ a b c, a < 64 → b < 64 → c < 64 →
      GF_MUL a (b ^^^ c) = GF_MUL a b ^^^ GF_MUL a c ∧
      GF_MUL (b ^^^ c) a = GF_MUL b a ^^^ GF_MUL c a) ∧
    (∀ a, 1 ≤ a → a ≤ 63 → ∃ b, 1 ≤ b ∧ b ≤ 63 ∧ GF_MUL a b = 1 ∧ GF_MUL b a = 1) := by
  refine ⟨rfl, rfl, GF_VEC_is_xPowMod, fun i hi => (GF_POW_of_GF_VEC i hi).1,
    fun a h1 h2 => (GF_VEC_of_GF_POW a (by omega) h1).1, ?_, GF_MUL_assoc, ?_, ?_, ?_⟩
  · intro a b ha hb
    refine ⟨?_, GF_MUL_comm a b⟩
    by_cases h0 : a = 0 ∨ b = 0
    · unfold GF_MUL
      rw [if_pos h0]
      decide
    · exact (GF_MUL_nonzero a b (by omega) ha (by omega) hb).2.2.1
  · intro a ha
    exact ⟨(GF_MUL_one a ha).1, (GF_MUL_one a ha).2, (GF_MUL_zero a).2, (GF_MUL_zero a).1⟩
  · intro a b c ha hb hc
    refine ⟨GF_MUL_xor a b c ha hb hc, ?_⟩
    rw [GF_MUL_comm (b ^^^ c) a, GF_MUL_comm b a, GF_MUL_comm c a]
    exact GF_MUL_xor a b c ha hb hc
  · intro a h1 h2
    obtain ⟨b, hb, hb1, hab⟩ := GF_MUL_inverse a (by omega) h1
    exact ⟨b, hb1, by omega, hab, by rw [GF_MUL_comm]; exact hab⟩

/-! The parity-check tables -/

theorem H_idx_raw_rows : H_idx_raw.length = 81 ∧
    ∀ r ∈ H_idx_raw, r.length = 4 ∧ r.Nodup ∧ ∀ c ∈ r, c < 162 := by
  decide!

theorem H_ele_raw_rows : H_ele_raw.length = 81 ∧
    ∀ r ∈ H_ele_raw, r.length = 4 ∧ ∀ e ∈ r, 1 ≤ e ∧ e ≤ 63 := by
  decide!

theorem H_idx_raw_columns :
    ∀ c, c < 162 → H_idx_raw.countP (fun r => decide (c ∈ r)) = 2 := by
  decide!

theorem edgesOf_raw_in_range : (edgesOf H_idx_raw H_ele_raw).length = 324 ∧
    ∀ e ∈ edgesOf H_idx_raw H_ele_raw, e.1 < 81 ∧ e.2.1 < 162 ∧ 1 ≤ e.2.2 ∧ e.2.2 ≤ 63 := by
  decide!

/-- C35: the tables are well formed for a code of 81 checks on 162 symbols.
Both have 81 rows of 4 entries; the entries of `H_idx_raw` lie in 0..161 and
those of a row are pairwise different; the entries of `H_ele_raw` lie in 1..63;
every column 0..161 occurs in exactly two rows; and every edge that
`decode_LDPC_BCNV3_bits` builds from the tables has its check below 81, its
symbol below 162 and its coefficient in 1..63, so that a word of 162 symbols is
never read outside its bounds. -/
theorem parity_check_tables_well_formed :
    H_idx_raw.length = 81 ∧ H_ele_raw.length = 81 ∧
    (∀ r ∈ H_idx_raw, r.length = 4 ∧ r.Nodup ∧ ∀ c ∈ r, c < 162) ∧
    (∀ r ∈ H_ele_raw, r.length = 4 ∧ ∀ e ∈ r, 1 ≤ e ∧ e ≤ 63) ∧
    (∀ c, c < 162 → H_idx_raw.countP (fun r => decide (c ∈ r)) = 2) ∧
    (edgesOf H_idx_raw H_ele_raw).length = 324 ∧
    (∀ e ∈ edgesOf H_idx_raw H_ele_raw, e.1 < 81 ∧ e.2.1 < 162 ∧ 1 ≤ e.2.2 ∧ e.2.2 ≤ 63) ∧
    (∀ code : List Nat, code.length = 162 →
      ∀ e ∈ edgesOf H_idx_raw H_ele_raw, e.2.1 < code.length) :=
  ⟨H_idx_raw_rows.1, H_ele_raw_rows.1, H_idx_raw_rows.2, H_ele_raw_rows.2, H_idx_raw_columns,
    edgesOf_raw_in_range.1, edgesOf_raw_in_range.2,
    fun code hc e he => by rw [hc]; exact (edgesOf_raw_in_range.2 e he).2.1⟩

/-! The calendar: `mjd2date` and `md_julday` -/

theorem md_julday_eq (y m d : Int) (hy : 1 ≤ y) (hm1 : 1 ≤ m) (hm2 : m ≤ 12) (hd1 : 1 ≤ d)
    (hd2 : d ≤ 31) :
    md_julday y m d =
      365 * y - 678941 + (if m ≤ 2 then (y - 1) / 4 - (y - 1) / 100 + (y - 1) / 400
        else y / 4 - y / 100 + y / 400) + d + doy_of_month.getD (m - 1).toNat 0 := by
  unfold md_julday
  rw [if_neg (by omega)]
  simp only []
  rw [if_pos (by omega)]
  by_cases h : m ≤ 2
  · rw [if_pos h, if_pos h, tdiv_nonneg_eq _ _ (by omega) (by decide),
      tdiv_nonneg_eq _ _ (by omega) (by decide), tdiv_nonneg_eq _ _ (by omega) (by decide)]
    omega
  · rw [if_neg h, if_neg h, tdiv_nonneg_eq _ _ (by omega) (by decide),
      tdiv_nonneg_eq _ _ (by omega) (by decide), tdiv_nonneg_eq _ _ (by omega) (by decide)]
    omega

theorem md_julday_january (y : Int) (hy : 1 ≤ y) :
    md_julday y 1 1 = 365 * y - 678940 + (y - 1) / 4 - (y - 1) / 100 + (y - 1) / 400 := by
  rw [md_julday_eq y 1 1 hy (by decide) (by decide) (by decide) (by decide), if_pos (by decide)]
  have e : doy_of_month.getD ((1 : Int) - 1).toNat 0 = 0 := by decide
  rw [e]
  omega

theorem isLeapYear_iff (y : Int) (hy : 0 ≤ y) :
    isLeapYear y = true ↔ leapYear y := by
  unfold isLeapYear leapYear
  rw [decide_eq_true_eq, Int.tmod_eq_emod hy (by decide), Int.tmod_eq_emod hy (by decide),
    Int.tmod_eq_emod hy (by decide)]

theorem leap_day_count (y : Int) :
    (leapYear y → (y / 4 - y / 100 + y / 400) -
      ((y - 1) / 4 - (y - 1) / 100 + (y - 1) / 400) = 1) ∧
    (¬ leapYear y → (y / 4 - y / 100 + y / 400) -
      ((y - 1) / 4 - (y - 1) / 100 + (y - 1) / 400) = 0) := by
  unfold leapYear
  constructor
  · intro h; omega
  · intro h; omega

theorem year_length (y : Int) (hy : 1 ≤ y) :
    md_julday (y + 1) 1 1 - md_julday y 1 1 = if isLeapYear y = true then 366 else 365 := by
  rw [md_julday_january (y + 1) (by omega), md_julday_january y hy]
  have e : y + 1 - 1 = y := by omega
  rw [e]
  obtain ⟨l1, l2⟩ := leap_day_count y
  by_cases hl : isLeapYear y = true
  · rw [if_pos hl]
    have h3 := l1 ((isLeapYear_iff y (by omega)).mp hl)
    linarith
  · rw [if_neg hl]
    have h3 := l2 (fun h => hl ((isLeapYear_iff y (by omega)).mpr h))
    linarith

theorem year_estimate (jd : Int) (h1 : 44244 ≤ jd) (h2 : jd ≤ 88069) :
    1981 ≤ (jd + 678940) / 365 ∧ (jd + 678940) / 365 ≤ 2102 ∧
    jd - md_julday ((jd + 678940) / 365) 1 1 < 0 ∧
    0 ≤ jd - md_julday ((jd + 678940) / 365 - 1 - 1) 1 1 ∧
    (jd < md_julday ((jd + 678940) / 365 - 1) 1 1 → (jd + 678940) / 365 - 1 - 1 ≤ 2100 ∧
      1980 ≤ (jd + 678940) / 365 - 1 - 1) ∧
    (md_julday ((jd + 678940) / 365 - 1) 1 1 ≤ jd → (jd + 678940) / 365 - 1 ≤ 2100) ∧
    (md_julday ((jd + 678940) / 365 - 1) 1 1 ≤ jd → 1980 ≤ (jd + 678940) / 365 - 1) := by
  rw [md_julday_january _ (by omega), md_julday_january _ (by omega),
    md_julday_january _ (by omega)]
  generalize hY : (jd + 678940) / 365 = Y
  have a1 : 365 * Y ≤ jd + 678940 := by rw [← hY]; omega
  have a2 : jd + 678940 < 365 * Y + 365 := by rw [← hY]; omega
  have e1 : Y - 1 - 1 - 1 = Y - 3 := by ring
  have e2 : Y - 1 - 1 = Y - 2 := by ring
  rw [e1, e2]
  refine ⟨by omega, by omega, by omega, by omega, ?_, ?_, ?_⟩
  · intro h; omega
  · intro h; omega
  · intro h; omega

theorem mjd2doy_eq (jd : Int) (fuel : Nat) (h1 : 44244 ≤ jd) (h2 : jd ≤ 88069)
    (hf : 3 ≤ fuel) :
    ∃ y doy, mjd2doy fuel jd = some (y, doy) ∧ 1980 ≤ y ∧ y ≤ 2100 ∧
      doy = jd - md_julday y 1 1 + 1 ∧ 1 ≤ doy ∧
      doy ≤ (if isLeapYear y = true then 366 else 365) := by
  obtain ⟨f, rfl⟩ : ∃ f, fuel = f + 3 := ⟨fuel - 3, by omega⟩
  have hY : Int.tdiv (jd + 678940) 365 = (jd + 678940) / 365 :=
    tdiv_nonneg_eq _ _ (by omega) (by decide)
  obtain ⟨b1, b2, b3, b4, b5, b6, b7⟩ := year_estimate jd h1 h2
  unfold mjd2doy
  simp only []
  rw [hY, mjd2doy_loop, if_pos (by omega), mjd2doy_loop]
  by_cases hs : jd - md_julday ((jd + 678940) / 365 - 1) 1 1 + 1 ≤ 0
  · rw [if_pos hs, mjd2doy_loop, if_neg (by omega)]
    have hyl := year_length ((jd + 678940) / 365 - 1 - 1) (by omega)
    have e : (jd + 678940) / 365 - 1 - 1 + 1 = (jd + 678940) / 365 - 1 := by ring
    rw [e] at hyl
    refine ⟨_, _, rfl, by omega, by omega, rfl, by omega, ?_⟩
    rw [← hyl]
    omega
  · rw [if_neg hs]
    have hyl := year_length ((jd + 678940) / 365 - 1) (by omega)
    have e : (jd + 678940) / 365 - 1 + 1 = (jd + 678940) / 365 := by ring
    rw [e] at hyl
    refine ⟨_, _, rfl, by omega, by omega, rfl, by omega, ?_⟩
    rw [← hyl]
    omega

theorem monthLoop_days : ∀ leap : Bool, ∀ n : Nat, n < 366 → (leap = false → n < 365) →
    (monthLoop (days_in_month leap) ((n : Int) + 1) 0).isSome = true ∧
    1 ≤ ((monthLoop (days_in_month leap) ((n : Int) + 1) 0).getD (0, 0)).1 ∧
    ((monthLoop (days_in_month leap) ((n : Int) + 1) 0).getD (0, 0)).1 ≤ 12 ∧
    1 ≤ ((monthLoop (days_in_month leap) ((n : Int) + 1) 0).getD (0, 0)).2 ∧
    ((monthLoop (days_in_month leap) ((n : Int) + 1) 0).getD (0, 0)).2 ≤
      (if ((monthLoop (days_in_month leap) ((n : Int) + 1) 0).getD (0, 0)).1 = 2 then
        (if leap = true then 29 else 28)
      else if ((monthLoop (days_in_month leap) ((n : Int) + 1) 0).getD (0, 0)).1 = 4 ∨
          ((monthLoop (days_in_month leap) ((n : Int) + 1) 0).getD (0, 0)).1 = 6 ∨
          ((monthLoop (days_in_month leap) ((n : Int) + 1) 0).getD (0, 0)).1 = 9 ∨
          ((monthLoop (days_in_month leap) ((n : Int) + 1) 0).getD (0, 0)).1 = 11 then 30
      else 31) ∧
    ((monthLoop (days_in_month leap) ((n : Int) + 1) 0).getD (0, 0)).2 +
      doy_of_month.getD
        (((monthLoop (days_in_month leap) ((n : Int) + 1) 0).getD (0, 0)).1 - 1).toNat 0 +
      (if ((monthLoop (days_in_month leap) ((n : Int) + 1) 0).getD (0, 0)).1 ≤ 2 then 0
        else if leap = true then 1 else 0) = (n : Int) + 1 := by
  decide!

theorem mjd2doy_loop_fuel (jd : Int) (r : Int × Int) : ∀ (n k : Nat) (y0 d0 : Int),
    mjd2doy_loop jd n y0 d0 = some r → mjd2doy_loop jd (n + k) y0 d0 = some r := by
  intro n
  induction n with
  | zero => intro k y0 d0 h; simp only [mjd2doy_loop] at h; exact absurd h (by simp)
  | succ n ih =>
    intro k y0 d0 h
    have e : n + 1 + k = (n + k) + 1 := by omega
    rw [e]
    simp only [mjd2doy_loop] at h ⊢
    split_ifs at h ⊢ with hc
    · exact ih k _ _ h
    · exact h

theorem monthLength_eq (y m : Int) (hy : 0 ≤ y) :
    monthLength y m = if m = 2 then (if isLeapYear y = true then 29 else 28)
      else if m = 4 ∨ m = 6 ∨ m = 9 ∨ m = 11 then 30 else 31 := by
  unfold monthLength
  by_cases hl : isLeapYear y = true
  · rw [if_pos hl, if_pos ((isLeapYear_iff y hy).mp hl)]
  · rw [if_neg hl, if_neg (fun h => hl ((isLeapYear_iff y hy).mpr h))]

/-- C36: for every day number `jd` from 44244 (1980-01-06) to 88069
(2100-01-01), and a bound of at least 3 on the passes of the loop of `mjd2doy`,
`mjd2date` returns a year `y`, a month `m` in 1..12 and a day `d` in 1..(length
of month `m` in year `y`, `y` being a leap year iff it is divisible by 4 and not
by 100, or by 400), and `md_julday(y, m, d) = jd`; and week 0 + 1356, second 0,
converts to 2006-01-01, 00:00:00. -/
theorem mjd2date_inverts_md_julday (jd sod : Int) (fuel : Nat) (h1 : 44244 ≤ jd)
    (h2 : jd ≤ 88069) (hf : 3 ≤ fuel) :
    (∃ y m d h mi s, mjd2date fuel jd sod = some (y, m, d, h, mi, s) ∧
      1980 ≤ y ∧ y ≤ 2100 ∧ 1 ≤ m ∧ m ≤ 12 ∧ 1 ≤ d ∧ d ≤ monthLength y m ∧
      md_julday y m d = jd) ∧
    mjd2date fuel (PPPB2bDecoder.wksow2mjd (0 + 1356) 0).1
      (PPPB2bDecoder.wksow2mjd (0 + 1356) 0).2 = some (2006, 1, 1, 0, 0, 0) := by
  constructor
  · obtain ⟨y, doy, hdoy, hy1, hy2, hd, hd1, hd2⟩ := mjd2doy_eq jd fuel h1 h2 hf
    have hn : (((doy - 1).toNat : Nat) : Int) + 1 = doy := by omega
    have hb1 : (doy - 1).toNat < 366 := by
      split_ifs at hd2 <;> omega
    have hb2 : isLeapYear y = false → (doy - 1).toNat < 365 := by
      intro hl
      rw [if_neg (by rw [hl]; decide)] at hd2
      omega
    have key := monthLoop_days (isLeapYear y) (doy - 1).toNat hb1 hb2
    rw [hn] at key
    unfold mjd2date yeardoy2monthday
    rw [hdoy]
    simp only []
    cases hml : monthLoop (days_in_month (isLeapYear y)) doy 0 with
    | none =>
      rw [hml] at key
      exact absurd key.1 (by decide)
    | some md =>
      rw [hml] at key
      simp only [Option.getD_some] at key
      obtain ⟨-, k1, k2, k3, k4, k5⟩ := key
      refine ⟨y, md.1, md.2, _, _, _, rfl, hy1, hy2, k1, k2, k3, ?_, ?_⟩
      · rw [monthLength_eq y md.1 (by omega)]
        exact k4
      · have hd31 : md.2 ≤ 31 := by
          split_ifs at k4 <;> omega
        rw [md_julday_eq y md.1 md.2 (by omega) k1 k2 k3 hd31]
        rw [md_julday_january y (by omega)] at hd
        obtain ⟨l1, l2⟩ := leap_day_count y
        by_cases hm : md.1 ≤ 2
        · rw [if_pos hm] at k5 ⊢
          linarith
        · rw [if_neg hm] at k5 ⊢
          by_cases hl : isLeapYear y = true
          · rw [if_pos hl] at k5
            have h3 := l1 ((isLeapYear_iff y (by omega)).mp hl)
            linarith
          · rw [if_neg hl] at k5
            have h3 := l2 (fun h => hl ((isLeapYear_iff y (by omega)).mpr h))
            linarith
  · obtain ⟨f, rfl⟩ : ∃ f, fuel = 3 + f := ⟨fuel - 3, by omega⟩
    have h3 : mjd2doy 3 (PPPB2bDecoder.wksow2mjd (0 + 1356) 0).1 = some (2006, 1) := by
      decide!
    have h4 : mjd2doy (3 + f) (PPPB2bDecoder.wksow2mjd (0 + 1356) 0).1 = some (2006, 1) :=
      mjd2doy_loop_fuel _ _ 3 f _ _ h3
    unfold mjd2date
    rw [h4]
    decide!

theorem mjd2date_inverts_md_julday_witness :
    (44244 : Int) ≤ 60000 ∧ (60000 : Int) ≤ 88069 ∧ 3 ≤ 5 ∧
    (∃ y m d h mi s, mjd2date 5 60000 3661 = some (y, m, d, h, mi, s) ∧
      1980 ≤ y ∧ y ≤ 2100 ∧ 1 ≤ m ∧ m ≤ 12 ∧ 1 ≤ d ∧ d ≤ monthLength y m ∧
      md_julday y m d = 60000) :=
  ⟨by decide, by decide, by decide,
    (mjd2date_inverts_md_julday 60000 3661 5 (by decide) (by decide) (by decide)).1⟩

/-! Frames shorter than their header -/

/-- C37 (the code, against the claim): a declared length of 1..7 is accepted.
With at least 8 bytes in the accumulator and the length field at offset 6
holding `len` in 1..7, `takeOneFrame` extracts the first `len` bytes as a frame;
the reads of CRC, type and length at the offsets 2..7 of that frame then fall
outside it.  The input 24 40 00 00 00 00 03 00 gives a frame of 3 bytes, which
`Decode` hands on as a block (outside the copy the model reads 0, so the CRC
field reads 0 and the checksum runs over no byte). -/
theorem frame_shorter_than_header_is_extracted :
    (∀ acc : List Nat, 8 ≤ acc.length → 1 ≤ U2 acc 6 → U2 acc 6 ≤ 7 →
      takeOneFrame acc = some (acc.take (U2 acc 6), acc.drop (U2 acc 6)) ∧
      (acc.take (U2 acc 6)).length = U2 acc 6 ∧ (acc.take (U2 acc 6)).length < 8) ∧
    takeOneFrame [0x24, 0x40, 0, 0, 0, 0, 3, 0] = some ([0x24, 0x40, 0], [0, 0, 0, 3, 0]) ∧
    Decode SBFDecoder.init [0x24, 0x40, 0, 0, 0, 0, 3, 0] =
      (t_irc.success,
        { acc := [0, 0, 0, 3, 0], logTypes := 1, typeList := [0], totalFrames := 1 },
        [SbfEvent.block [0x24, 0x40, 0] 0]) := by
  refine ⟨?_, by decide, by decide!⟩
  intro acc h8 h1 h7
  refine ⟨?_, ?_, ?_⟩
  · unfold takeOneFrame hasWholeFrame
    simp only []
    rw [if_neg (by omega), if_neg (by omega), if_pos (by omega)]
  · rw [List.length_take]; omega
  · rw [List.length_take]; omega

/-! Orbit sub-records that name no slot of the arrays -/

/-- C38 (the code, against the claim): the slot index of an orbit sub-record is
not checked.  A subtype-2 message with a sub-record of `ura ≠ 0` whose `satslot`
is 0 or above 255 makes `b2b_fillmem` write `RAC`, `iodcorr`, `iode` and `ura`
at index `satslot - 1` outside 0..254 (the model gives no result then).  The
parser delivers such sub-records: the sample pages parse to subtype 2 with
`satslot = 0`, and `satslot = 300`, and `ura ≠ 0`. -/
theorem orbit_slot_index_is_not_checked :
    (∀ (st : PPPB2bDecoder) (p : pppdata), p.mestype = 2 →
      (∃ t ∈ p.type2.trasub, t.ura ≠ 0 ∧ (t.satslot = 0 ∨ 255 < t.satslot)) →
      PPPB2bDecoder.b2b_fillmem st p = none) ∧
    ((parsecorrData sampleSlotZeroHeader).map (fun p =>
        (p.mestype, (p.type2.trasub.getD 0 Trackcp.zero).satslot,
          (p.type2.trasub.getD 0 Trackcp.zero).ura)) = some (2, 0, 8)) ∧
    PPPB2bDecoder.b2b_parsecorr PPPB2bDecoder.init sampleSlotZeroHeader = none ∧
    ((parsecorrData sampleSlot300Header).map (fun p =>
        (p.mestype, (p.type2.trasub.getD 0 Trackcp.zero).satslot,
          (p.type2.trasub.getD 0 Trackcp.zero).ura)) = some (2, 300, 8)) ∧
    PPPB2bDecoder.b2b_parsecorr PPPB2bDecoder.init sampleSlot300Header = none := by
  refine ⟨?_, by decide!, by decide!, by decide!, by decide!⟩
  intro st p hm h
  rw [b2b_fillmem_orbit st p hm]
  split_ifs <;> rw [fillOrbitRecords_outside _ h] <;> rfl

/-! The accesses of `b2b_parse_ppp`: bits read and array elements written -/

theorem parse3Records_inside (data : List Nat) : ∀ (n a r : Nat), a + n ≤ 31 →
    r ≤ 34 + 253 * a →
    (∀ rd ∈ (parse3Records data n a r).reads, rd.1 + rd.2 ≤ 8192) ∧
    (∀ w ∈ (parse3Records data n a r).writes, w.inside = true) := by
  intro n
  induction n with
  | zero =>
    intro a r _ _
    simp [parse3Records]
  | succ n ih =>
    intro a r ha hr
    have h4 := getbitu_lt data (r + 9) 4 (by decide)
    have h4b : PPPB2bDecoder.getbitu data (r + 9) 4 % 256 < 16 := by
      have : (2 : Nat) ^ 4 = 16 := by decide
      omega
    obtain ⟨i1, i2⟩ := ih (a + 1) (r + 13 + 16 * (PPPB2bDecoder.getbitu data (r + 9) 4 % 256))
      (by omega) (by omega)
    simp only [parse3Records, ParseTrace.append, List.forall_mem_append, List.forall_mem_cons,
      List.forall_mem_flatMap, List.forall_mem_map, List.mem_range, PppCell.inside,
      Bool.and_eq_true, decide_eq_true_eq]
    repeat' apply And.intro
    all_goals first
      | exact i1
      | exact i2
      | omega
      | exact fun _ h => absurd h (List.not_mem_nil _)
      | (intro b hb
         repeat' apply And.intro
         all_goals first
           | omega
           | exact fun _ h => absurd h (List.not_mem_nil _))

theorem trackReads_inside (r : Nat) (hr : r + 69 ≤ 8192) :
    ∀ rd ∈ trackReads r, rd.1 + rd.2 ≤ 8192 := by
  simp only [trackReads, List.forall_mem_cons]
  refine ⟨by omega, by omega, by omega, by omega, by omega, by omega, by omega, by omega,
    fun _ h => absurd h (List.not_mem_nil _)⟩

theorem parse_reads_inside (data : List Nat) :
    ∀ rd ∈ (PPPB2bDecoder.b2b_parse_ppp_trace data).reads, rd.1 + rd.2 ≤ 8192 := by
  have hc := getbitu_lt data 29 5 (by decide)
  have ho := getbitu_lt data 34 3 (by decide)
  have e5 : (2 : Nat) ^ 5 = 32 := by decide
  have e3 : (2 : Nat) ^ 3 = 8 := by decide
  rw [e5] at hc
  rw [e3] at ho
  have hhead : ∀ rd ∈ [(0, 6), (6, 17), (23, 4), (27, 2), (462, 24)], rd.1 + rd.2 ≤ 8192 := by
    decide
  unfold PPPB2bDecoder.b2b_parse_ppp_trace
  simp only []
  by_cases h8 : 8 ≤ PPPB2bDecoder.getbitu data 0 6 ∧ PPPB2bDecoder.getbitu data 0 6 ≤ 63
  · rw [if_pos h8]
    exact hhead
  rw [if_neg h8]
  by_cases h1 : PPPB2bDecoder.getbitu data 0 6 = 1
  · rw [if_pos h1]
    decide!
  rw [if_neg h1]
  by_cases h2 : PPPB2bDecoder.getbitu data 0 6 = 2
  · rw [if_pos h2]
    decide!
  rw [if_neg h2]
  by_cases h3 : PPPB2bDecoder.getbitu data 0 6 = 3
  · rw [if_pos h3]
    have h3r := (parse3Records_inside data (PPPB2bDecoder.getbitu data 29 5 % 256) 0 34
      (by omega) (by omega)).1
    simp only [ParseTrace.append, List.forall_mem_append, List.forall_mem_cons]
    repeat' apply And.intro
    all_goals first
      | exact h3r
      | omega
      | exact fun _ h => absurd h (List.not_mem_nil _)
  rw [if_neg h3]
  by_cases h4 : PPPB2bDecoder.getbitu data 0 6 = 4
  · rw [if_pos h4]
    decide!
  rw [if_neg h4]
  by_cases h5 : PPPB2bDecoder.getbitu data 0 6 = 5
  · rw [if_pos h5]
    decide!
  rw [if_neg h5]
  by_cases h6 : PPPB2bDecoder.getbitu data 0 6 = 6
  · rw [if_pos h6]
    simp only [ParseTrace.append, List.forall_mem_append, List.forall_mem_flatMap,
      List.mem_range]
    simp only [List.forall_mem_cons]
    repeat' apply And.intro
    all_goals first
      | omega
      | exact fun _ h => absurd h (List.not_mem_nil _)
      | (intro a ha
         first
           | exact trackReads_inside _ (by omega)
           | (repeat' apply And.intro
              all_goals first
                | omega
                | exact fun _ h => absurd h (List.not_mem_nil _)))
  rw [if_neg h6]
  by_cases h7 : PPPB2bDecoder.getbitu data 0 6 = 7
  · rw [if_pos h7]
    simp only [ParseTrace.append, List.forall_mem_append, List.forall_mem_flatMap,
      List.mem_range]
    simp only [List.forall_mem_cons]
    repeat' apply And.intro
    all_goals first
      | omega
      | exact fun _ h => absurd h (List.not_mem_nil _)
      | (intro a ha
         first
           | exact trackReads_inside _ (by omega)
           | (repeat' apply And.intro
              all_goals first
                | omega
                | exact fun _ h => absurd h (List.not_mem_nil _)))
  rw [if_neg h7]
  exact hhead

theorem parse_writes_inside (data : List Nat) (h6 : PPPB2bDecoder.getbitu data 0 6 ≠ 6)
    (h7 : PPPB2bDecoder.getbitu data 0 6 ≠ 7) :
    ∀ w ∈ (PPPB2bDecoder.b2b_parse_ppp_trace data).writes, w.inside = true := by
  have hc := getbitu_lt data 29 5 (by decide)
  have e5 : (2 : Nat) ^ 5 = 32 := by decide
  rw [e5] at hc
  unfold PPPB2bDecoder.b2b_parse_ppp_trace
  simp only []
  by_cases h8 : 8 ≤ PPPB2bDecoder.getbitu data 0 6 ∧ PPPB2bDecoder.getbitu data 0 6 ≤ 63
  · rw [if_pos h8]
    exact fun _ h => absurd h (List.not_mem_nil _)
  rw [if_neg h8]
  by_cases h1 : PPPB2bDecoder.getbitu data 0 6 = 1
  · rw [if_pos h1]
    decide!
  rw [if_neg h1]
  by_cases h2 : PPPB2bDecoder.getbitu data 0 6 = 2
  · rw [if_pos h2]
    decide!
  rw [if_neg h2]
  by_cases h3 : PPPB2bDecoder.getbitu data 0 6 = 3
  · rw [if_pos h3]
    have h3w := (parse3Records_inside data (PPPB2bDecoder.getbitu data 29 5 % 256) 0 34
      (by omega) (by omega)).2
    simp only [ParseTrace.append, List.nil_append]
    exact h3w
  rw [if_neg h3]
  by_cases h4 : PPPB2bDecoder.getbitu data 0 6 = 4
  · rw [if_pos h4]
    decide!
  rw [if_neg h4]
  by_cases h5 : PPPB2bDecoder.getbitu data 0 6 = 5
  · rw [if_pos h5]
    decide!
  rw [if_neg h5, if_neg h6, if_neg h7]
  exact fun _ h => absurd h (List.not_mem_nil _)

theorem parse_writes_counts (data : List Nat)
    (h : PPPB2bDecoder.getbitu data 0 6 = 6 ∨ PPPB2bDecoder.getbitu data 0 6 = 7) :
    (∀ w ∈ (PPPB2bDecoder.b2b_parse_ppp_trace data).writes, w.inside = true) ↔
      (PPPB2bDecoder.getbitu data 29 5 ≤ 22 ∧ PPPB2bDecoder.getbitu data 34 3 ≤ 6) := by
  have hc := getbitu_lt data 29 5 (by decide)
  have ho := getbitu_lt data 34 3 (by decide)
  have e5 : (2 : Nat) ^ 5 = 32 := by decide
  have e3 : (2 : Nat) ^ 3 = 8 := by decide
  rw [e5] at hc
  rw [e3] at ho
  have m1 : PPPB2bDecoder.getbitu data 29 5 % 256 = PPPB2bDecoder.getbitu data 29 5 := by omega
  have m2 : PPPB2bDecoder.getbitu data 34 3 % 256 = PPPB2bDecoder.getbitu data 34 3 := by omega
  unfold PPPB2bDecoder.b2b_parse_ppp_trace
  simp only []
  rcases h with h | h
  · have k8 : ¬ (8 ≤ PPPB2bDecoder.getbitu data 0 6 ∧ PPPB2bDecoder.getbitu data 0 6 ≤ 63) := by
      omega
    have k1 : PPPB2bDecoder.getbitu data 0 6 ≠ 1 := by omega
    have k2 : PPPB2bDecoder.getbitu data 0 6 ≠ 2 := by omega
    have k3 : PPPB2bDecoder.getbitu data 0 6 ≠ 3 := by omega
    have k4 : PPPB2bDecoder.getbitu data 0 6 ≠ 4 := by omega
    have k5 : PPPB2bDecoder.getbitu data 0 6 ≠ 5 := by omega
    rw [if_neg k8, if_neg k1, if_neg k2, if_neg k3, if_neg k4, if_neg k5, if_pos h, m1, m2]
    simp only [ParseTrace.append, List.nil_append, List.forall_mem_append, List.forall_mem_map,
      List.mem_range, PppCell.inside, decide_eq_true_eq]
    constructor
    · rintro ⟨a1, a2⟩
      constructor
      · by_contra hn
        have := a1 22 (by omega)
        omega
      · by_contra hn
        have := a2 6 (by omega)
        omega
    · rintro ⟨a1, a2⟩
      exact ⟨fun a ha => by omega, fun a ha => by omega⟩
  · have k8 : ¬ (8 ≤ PPPB2bDecoder.getbitu data 0 6 ∧ PPPB2bDecoder.getbitu data 0 6 ≤ 63) := by
      omega
    have k1 : PPPB2bDecoder.getbitu data 0 6 ≠ 1 := by omega
    have k2 : PPPB2bDecoder.getbitu data 0 6 ≠ 2 := by omega
    have k3 : PPPB2bDecoder.getbitu data 0 6 ≠ 3 := by omega
    have k4 : PPPB2bDecoder.getbitu data 0 6 ≠ 4 := by omega
    have k5 : PPPB2bDecoder.getbitu data 0 6 ≠ 5 := by omega
    have k6 : PPPB2bDecoder.getbitu data 0 6 ≠ 6 := by omega
    rw [if_neg k8, if_neg k1, if_neg k2, if_neg k3, if_neg k4, if_neg k5, if_neg k6, if_pos h,
      m1, m2]
    simp only [ParseTrace.append, List.nil_append, List.forall_mem_append, List.forall_mem_map,
      List.mem_range, PppCell.inside, decide_eq_true_eq]
    constructor
    · rintro ⟨a1, a2⟩
      constructor
      · by_contra hn
        have := a1 22 (by omega)
        omega
      · by_contra hn
        have := a2 6 (by omega)
        omega
    · rintro ⟨a1, a2⟩
      exact ⟨fun a ha => by omega, fun a ha => by omega⟩

theorem sampleCountsPage_fields :
    sampleCountsPage.length = 1024 ∧ PPPB2bDecoder.getbitu sampleCountsPage 0 6 = 6 ∧
    PPPB2bDecoder.getbitu sampleCountsPage 29 5 = 31 ∧
    PPPB2bDecoder.getbitu sampleCountsPage 34 3 = 7 := by
  decide!

theorem sampleCountsPage_parsed :
    (PPPB2bDecoder.b2b_parse_ppp sampleCountsPage pppdata.zero).1 = true := by
  decide!

theorem sampleCountsPage_writes :
    (PPPB2bDecoder.b2b_parse_ppp_trace sampleCountsPage).writes =
      (List.range 31).map PppCell.clock_N_sub6 ++ (List.range 7).map PppCell.numO6 := by
  decide!

/-- C39 (the code, against the claim): the loops of `case 6` and `case 7` run
to the counts read from the page, which the arrays do not hold.  For every page
all bits read lie inside the 1024 bytes, and for the subtypes other than 6 and 7
(subtype 3 among them: at most 31 records with at most 15 pairs each) all array
elements written lie inside their arrays.  For subtype 6 and 7 they do so
exactly when `NUMC ≤ 22` and `NUMO ≤ 6`; the fields allow up to 31 and 7.  The
sample page of subtype 6 with `NUMC = 31` and `NUMO = 7` is parsed with return
value `true`, writing `clock_N_sub6[0..30]` and `numO[0..6]`. -/
theorem record_counts_are_not_checked_against_arrays :
    (∀ data : List Nat, ∀ rd ∈ (PPPB2bDecoder.b2b_parse_ppp_trace data).reads,
      rd.1 + rd.2 ≤ 8 * 1024) ∧
    (∀ data : List Nat, PPPB2bDecoder.getbitu data 0 6 ≠ 6 →
      PPPB2bDecoder.getbitu data 0 6 ≠ 7 →
      ∀ w ∈ (PPPB2bDecoder.b2b_parse_ppp_trace data).writes, w.inside = true) ∧
    (∀ data : List Nat,
      PPPB2bDecoder.getbitu data 0 6 = 6 ∨ PPPB2bDecoder.getbitu data 0 6 = 7 →
      ((∀ w ∈ (PPPB2bDecoder.b2b_parse_ppp_trace data).writes, w.inside = true) ↔
        (PPPB2bDecoder.getbitu data 29 5 ≤ 22 ∧ PPPB2bDecoder.getbitu data 34 3 ≤ 6))) ∧
    sampleCountsPage.length = 1024 ∧ PPPB2bDecoder.getbitu sampleCountsPage 0 6 = 6 ∧
    PPPB2bDecoder.getbitu sampleCountsPage 29 5 = 31 ∧
    PPPB2bDecoder.getbitu sampleCountsPage 34 3 = 7 ∧
    (PPPB2bDecoder.b2b_parse_ppp sampleCountsPage pppdata.zero).1 = true ∧
    (PPPB2bDecoder.b2b_parse_ppp_trace sampleCountsPage).writes =
      (List.range 31).map PppCell.clock_N_sub6 ++ (List.range 7).map PppCell.numO6 ∧
    PppCell.inside (PppCell.clock_N_sub6 22) = false ∧
    PppCell.inside (PppCell.numO6 6) = false :=
  ⟨parse_reads_inside, parse_writes_inside, parse_writes_counts,
    sampleCountsPage_fields.1, sampleCountsPage_fields.2.1, sampleCountsPage_fields.2.2.1,
    sampleCountsPage_fields.2.2.2, sampleCountsPage_parsed, sampleCountsPage_writes,
    by decide, by decide⟩

/-! The time that `b2b_parsecorr` gives a message -/

theorem b2b_parse_ppp_time (data : List Nat) (p0 : pppdata) :
    (PPPB2bDecoder.b2b_parse_ppp data p0).2.BDSsod = PPPB2bDecoder.getbitu data 6 17 ∧
    (PPPB2bDecoder.b2b_parse_ppp data p0).2.BDSweek = p0.BDSweek ∧
    (PPPB2bDecoder.b2b_parse_ppp data p0).2.BDSsow = p0.BDSsow := by
  unfold PPPB2bDecoder.b2b_parse_ppp
  simp only []
  split_ifs <;> exact ⟨rfl, rfl, rfl⟩

theorem parsecorrData_time (mh : Message_header) (p : pppdata)
    (hp : parsecorrData mh = some p) :
    p.BDSweek =
      (parsecorrTime mh.BDSweek mh.BDSsecond (PPPB2bDecoder.getbitu mh.data 6 17)).1 ∧
    p.BDSsow =
      (parsecorrTime mh.BDSweek mh.BDSsecond (PPPB2bDecoder.getbitu mh.data 6 17)).2 := by
  unfold parsecorrData at hp
  simp only [] at hp
  obtain ⟨t1, t2, t3⟩ := b2b_parse_ppp_time mh.data
    { pppdata.zero with
      BDSsow := mh.BDSsecond, BDSweek := mh.BDSweek,
      BDSsod := (PPPB2bDecoder.wksow2mjd mh.BDSweek mh.BDSsecond).2, prn := mh.current_PRN }
  simp only [] at t2 t3
  rw [t1, t2, t3] at hp
  unfold parsecorrTime
  simp only []
  split_ifs at hp with hok n1 n0
  · rw [Option.some.injEq] at hp
    subst hp
    rw [if_pos n1]
    simp only [and_self]
  · rw [Option.some.injEq] at hp
    subst hp
    rw [if_neg n1, if_pos n0]
    simp only [and_self]
  · rw [Option.some.injEq] at hp
    subst hp
    rw [if_neg n1, if_neg n0]
    simp only [and_self]

theorem mjd2wksow_instant (mjd sod : Int) (h : 0 ≤ (mjd - 44244) * 86400 + sod) :
    (PPPB2bDecoder.mjd2wksow mjd sod).1 * 604800 + (PPPB2bDecoder.mjd2wksow mjd sod).2 =
      (mjd - 44244) * 86400 + sod ∧
    0 ≤ (PPPB2bDecoder.mjd2wksow mjd sod).2 ∧ (PPPB2bDecoder.mjd2wksow mjd sod).2 < 604800 := by
  unfold PPPB2bDecoder.mjd2wksow
  simp only []
  rw [tdiv_nonneg_eq _ _ h (by decide)]
  refine ⟨by ring, ?_, ?_⟩ <;> omega

theorem parsecorrTime_spec (W s d : Int) (hW : 1 ≤ W) (hs0 : 0 ≤ s) (hs : s < 604800)
    (hd0 : 0 ≤ d) (hd : d < 86400) :
    ((parsecorrTime W s d).1 * 604800 + (parsecorrTime W s d).2) % 86400 = d ∧
    0 ≤ (parsecorrTime W s d).2 ∧ (parsecorrTime W s d).2 < 604800 ∧
    (d - (W * 604800 + s) % 86400 ≠ 43200 →
      |(parsecorrTime W s d).1 * 604800 + (parsecorrTime W s d).2 - (W * 604800 + s)| ≤ 43200) ∧
    (d - (W * 604800 + s) % 86400 = 43200 →
      (parsecorrTime W s d).1 * 604800 + (parsecorrTime W s d).2 - (W * 604800 + s) = 129600) := by
  have hq : (PPPB2bDecoder.wksow2mjd W s).1 = (s + W * 604800) / 86400 + 44244 := by
    unfold PPPB2bDecoder.wksow2mjd
    simp only []
    rw [tdiv_nonneg_eq _ _ (by omega) (by decide)]
  obtain ⟨a1, a2, a3⟩ := mjd2wksow_instant ((s + W * 604800) / 86400 + 44244 + -1) d (by omega)
  obtain ⟨b1, b2, b3⟩ := mjd2wksow_instant ((s + W * 604800) / 86400 + 44244 + 0) d (by omega)
  obtain ⟨c1, c2, c3⟩ := mjd2wksow_instant ((s + W * 604800) / 86400 + 44244 + 1) d (by omega)
  unfold parsecorrTime
  simp only []
  rw [hq]
  split_ifs with n1 n0
  · rw [decide_eq_true_eq, abs_lt] at n1
    generalize PPPB2bDecoder.mjd2wksow ((s + W * 604800) / 86400 + 44244 + -1) d = wa at *
    rw [abs_le]
    exact ⟨by omega, a2, a3, fun _ => by omega, fun h => by omega⟩
  · rw [decide_eq_true_eq, abs_lt] at n1 n0
    generalize PPPB2bDecoder.mjd2wksow ((s + W * 604800) / 86400 + 44244 + -1) d = wa at *
    generalize PPPB2bDecoder.mjd2wksow ((s + W * 604800) / 86400 + 44244 + 0) d = wb at *
    rw [abs_le]
    exact ⟨by omega, b2, b3, fun _ => by omega, fun h => by omega⟩
  · rw [decide_eq_true_eq, abs_lt] at n1 n0
    generalize PPPB2bDecoder.mjd2wksow ((s + W * 604800) / 86400 + 44244 + -1) d = wa at *
    generalize PPPB2bDecoder.mjd2wksow ((s + W * 604800) / 86400 + 44244 + 0) d = wb at *
    generalize PPPB2bDecoder.mjd2wksow ((s + W * 604800) / 86400 + 44244 + 1) d = wc at *
    rw [abs_le]
    exact ⟨by omega, c2, c3, fun _ => by omega, fun h => by omega⟩

/-- C40 (the code, against the claim): the week and second of week that
`b2b_parsecorr` hands to `b2b_fillmem` always denote an instant whose second of
day is the field `d` of the message, and this instant is within 43200 s of the
header instant unless `d` is exactly 43200 s ahead of the header's second of
day: then neither the day before nor the same day passes the test
`fabs(ddif) < 43200`, the loop ends with `i = 1`, and the instant taken is
129600 s after the header.  The sample page (header week 1, second 0, field
43200) is stored under week 1, second 129600. -/
theorem half_day_tie_moves_message_to_next_day :
    (∀ (mh : Message_header) (p : pppdata), 1 ≤ mh.BDSweek → mh.BDSsecond < 604800 →
      PPPB2bDecoder.getbitu mh.data 6 17 < 86400 → parsecorrData mh = some p →
      (p.BDSweek * 604800 + p.BDSsow) % 86400 = (PPPB2bDecoder.getbitu mh.data 6 17 : Int) ∧
      0 ≤ p.BDSsow ∧ p.BDSsow < 604800 ∧
      ((PPPB2bDecoder.getbitu mh.data 6 17 : Int) -
          ((mh.BDSweek : Int) * 604800 + mh.BDSsecond) % 86400 ≠ 43200 →
        |p.BDSweek * 604800 + p.BDSsow - ((mh.BDSweek : Int) * 604800 + mh.BDSsecond)|
          ≤ 43200) ∧
      ((PPPB2bDecoder.getbitu mh.data 6 17 : Int) -
          ((mh.BDSweek : Int) * 604800 + mh.BDSsecond) % 86400 = 43200 →
        p.BDSweek * 604800 + p.BDSsow - ((mh.BDSweek : Int) * 604800 + mh.BDSsecond)
          = 129600)) ∧
    (parsecorrData sampleNoonHeader).map
        (fun p => (p.mestype, p.BDSsod, p.BDSweek, p.BDSsow)) = some (2, 43200, 1, 129600) ∧
    (PPPB2bDecoder.b2b_parsecorr PPPB2bDecoder.init sampleNoonHeader).map
        (fun r => (r.1, r.2.1.ssr_orbits.map (fun o => (o.bweek, o.bsow)))) =
      some (true, [(1, 129600)]) := by
  refine ⟨?_, by decide!, by decide!⟩
  intro mh p hW hs hd hp
  obtain ⟨e1, e2⟩ := parsecorrData_time mh p hp
  rw [e1, e2]
  exact parsecorrTime_spec mh.BDSweek mh.BDSsecond (PPPB2bDecoder.getbitu mh.data 6 17)
    (by exact_mod_cast hW) (Int.ofNat_zero_le _) (by exact_mod_cast hs) (Int.ofNat_zero_le _)
    (by exact_mod_cast hd)

/-! Writes outside the arrays, and what depends on their absence -/

theorem sampleSlotZeroMessage_outside :
    sampleSlotZeroMessage.mestype = 2 ∧
    ∃ t ∈ sampleSlotZeroMessage.type2.trasub, t.ura ≠ 0 ∧ (t.satslot = 0 ∨ 255 < t.satslot) :=
  ⟨rfl, sampleTrack 0 10 1 7, List.mem_cons_self _ _, by decide, Or.inl rfl⟩

/-- C10 (as stated) fails: a C59 page whose NAVBits bytes at offsets 12..15 are
EC 0F C3 12, so that the text of the bytes (the words read big-endian) begins
with "EC0FC", is not dropped: the text built by the code begins with "12C30FEC"
and the page goes to the LDPC decoder.  The page with the bytes 12 C3 0F EC,
whose text as big-endian words begins with "12C30", is the one dropped. -/
theorem idle_check_reads_words_in_host_order :
    startsWithCI (navHexBigEndianOf (testPayload 241 0xEC 0x0F 0xC3 0x12))
      ['E', 'C', '0', 'F', 'C'] = true ∧
    (navHexOf (testPayload 241 0xEC 0x0F 0xC3 0x12)).take 8 =
      ['1', '2', 'C', '3', '0', 'F', 'E', 'C'] ∧
    ldpcCalled (PPPB2bDecoder.decode_b2b_payload (fun (s : Nat) _ _ _ => s + 1) 0
      (testPayload 241 0xEC 0x0F 0xC3 0x12)).2.2 = true ∧
    (PPPB2bDecoder.decode_b2b_payload (fun (s : Nat) _ _ _ => s + 1) 0
      (testPayload 241 0xEC 0x0F 0xC3 0x12)).2.1 = 1 ∧
    startsWithCI (navHexBigEndianOf (testPayload 241 0x12 0xC3 0x0F 0xEC))
      ['E', 'C', '0', 'F', 'C'] = false ∧
    ldpcCalled (PPPB2bDecoder.decode_b2b_payload (fun (s : Nat) _ _ _ => s + 1) 0
      (testPayload 241 0x12 0xC3 0x0F 0xEC)).2.2 = false ∧
    (PPPB2bDecoder.decode_b2b_payload (fun (s : Nat) _ _ _ => s + 1) 0
      (testPayload 241 0x12 0xC3 0x0F 0xEC)).2.1 = 0 := by
  refine ⟨by decide!, by decide!, by decide!, by decide!, by decide!, by decide!, by decide!⟩

/-- C21 (the code, against the claim): eviction works as claimed in the mask
table and in the clock table, and in the orbit table as long as the sub-records
with `ura ≠ 0` name slots 1..255.  A subtype-2 message with a new key whose
sub-record names `satslot = 0` makes `b2b_fillmem`, after the oldest set is
dropped and the new one allocated, write `RAC`, `iodcorr`, `iode` and `ura` of
the new set at index -1, outside the arrays: the model has no result for the
full table `sampleFullOrbitStore` and the message `sampleSlotZeroMessage`. -/
theorem eviction_then_write_outside_new_orbit_set :
    (∀ (st : PPPB2bDecoder) (p : pppdata),
      (p.mestype = 1 → st.ssr_masks.length = 16 →
        (∀ m ∈ st.ssr_masks, ¬ (m.SSR = (p.SSR : Int) ∧ m.iodp = (p.type1.IODP : Int))) →
        ∃ st1, PPPB2bDecoder.b2b_fillmem st p = some (st1, []) ∧
          st1.ssr_masks = st.ssr_masks.tail ++
            [{ SSR := p.SSR, iodp := p.type1.IODP, cmake := p.type1.prn_make }] ∧
          st1.ssr_orbits = st.ssr_orbits ∧ st1.ssr_clocks = st.ssr_clocks) ∧
      (p.mestype = 2 → st.ssr_orbits.length = 120 →
        (∀ o ∈ st.ssr_orbits, orbitHasKey p o = false) →
        (∀ t ∈ p.type2.trasub, t.ura ≠ 0 → 1 ≤ t.satslot ∧ t.satslot ≤ 255) →
        ∃ r o, PPPB2bDecoder.b2b_fillmem st p = some r ∧
          r.1.ssr_orbits = st.ssr_orbits.tail ++ [o] ∧
          o.SSR = (p.SSR : Int) ∧ o.bweek = p.BDSweek ∧ o.bsow = p.BDSsow ∧
          r.1.ssr_masks = st.ssr_masks ∧ r.1.ssr_clocks = st.ssr_clocks) ∧
      (p.mestype = 4 → st.ssr_clocks.length = 120 →
        (∀ c ∈ st.ssr_clocks, clockHasKey p c = false) →
        ∃ r c, PPPB2bDecoder.b2b_fillmem st p = some r ∧
          r.1.ssr_clocks = st.ssr_clocks.tail ++ [c] ∧
          c.SSR = (p.SSR : Int) ∧ c.bweek = p.BDSweek ∧ c.bsow = p.BDSsow ∧
          r.1.ssr_masks = st.ssr_masks ∧ r.1.ssr_orbits = st.ssr_orbits) ∧
      (p.mestype = 2 →
        (∃ t ∈ p.type2.trasub, t.ura ≠ 0 ∧ (t.satslot = 0 ∨ 255 < t.satslot)) →
        PPPB2bDecoder.b2b_fillmem st p = none)) ∧
    sampleFullOrbitStore.ssr_orbits.length = 120 ∧
    sampleSlotZeroMessage.mestype = 2 ∧
    (∀ o ∈ sampleFullOrbitStore.ssr_orbits, orbitHasKey sampleSlotZeroMessage o = false) ∧
    sampleSlotZeroMessage.type2.trasub.map (fun t => (t.satslot, t.ura)) =
      [(0, 8), (0, 0), (0, 0), (0, 0), (0, 0), (0, 0)] ∧
    PPPB2bDecoder.b2b_fillmem sampleFullOrbitStore sampleSlotZeroMessage = none := by
  refine ⟨fun st p => ⟨(full_table_drops_oldest st p).1, (full_table_drops_oldest st p).2.1,
    (full_table_drops_oldest st p).2.2, b2b_fillmem_orbit_outside st p⟩,
    by decide!, rfl, by decide!, by decide!, ?_⟩
  exact b2b_fillmem_orbit_outside _ _ sampleSlotZeroMessage_outside.1
    sampleSlotZeroMessage_outside.2

/-- C31 (the code, against the claim): every run of ingestion whose writes stay
inside the arrays has a result, in which the counts are within 16, 120 and 120
and the keys are distinct in each table.  The claim speaks of every sequence of
messages.  After `sampleZeroKeyMessage` the orbit table holds one set with the
key (0, 0, 0); `sampleSlotZeroMessage`, ingested next, allocates a second set
and then writes its sub-record at index -1, outside the arrays (in the source
`RAC[-1][1]` and `RAC[-1][2]` are the bytes of `SSR`, `bweek` and `bsow` of the
set): the model has no state for this run, nor for any run with a write outside
the arrays. -/
theorem tables_well_formed_until_write_outside :
    (∀ msgs : List (bncTime × pppdata), writesInside msgs = true →
      ∃ st sigs, ingestAll PPPB2bDecoder.init msgs = some (st, sigs) ∧
        st.ssr_masks.length ≤ 16 ∧ st.ssr_orbits.length ≤ 120 ∧ st.ssr_clocks.length ≤ 120 ∧
        st.ssr_masks.Pairwise (fun a b => ¬ (a.SSR = b.SSR ∧ a.iodp = b.iodp)) ∧
        st.ssr_orbits.Pairwise
          (fun a b => ¬ (a.SSR = b.SSR ∧ a.bweek = b.bweek ∧ a.bsow = b.bsow)) ∧
        st.ssr_clocks.Pairwise
          (fun a b => ¬ (a.SSR = b.SSR ∧ a.bweek = b.bweek ∧ a.bsow = b.bsow))) ∧
    (∀ msgs : List (bncTime × pppdata), writesInside msgs = false →
      ingestAll PPPB2bDecoder.init msgs = none) ∧
    (ingestAll PPPB2bDecoder.init [(some 1000, sampleZeroKeyMessage)]).map
        (fun r => r.1.ssr_orbits.map (fun o => (o.SSR, o.bweek, o.bsow))) =
      some [(0, 0, 0)] ∧
    (sampleSlotZeroMessage.SSR, sampleSlotZeroMessage.BDSweek, sampleSlotZeroMessage.BDSsow,
      sampleSlotZeroMessage.type2.trasub.map
        (fun t => (t.satslot, t.ura, t.radial, t.Tangentialdir, t.Normaldir))) =
      (1, 900, 100, [(0, 8, 7, 0, 0), (0, 0, 0, 0, 0), (0, 0, 0, 0, 0), (0, 0, 0, 0, 0),
        (0, 0, 0, 0, 0), (0, 0, 0, 0, 0)]) ∧
    writesInside [(some 1000, sampleZeroKeyMessage), (some 1000, sampleSlotZeroMessage)]
      = false ∧
    ingestAll PPPB2bDecoder.init
      [(some 1000, sampleZeroKeyMessage), (some 1000, sampleSlotZeroMessage)] = none := by
  refine ⟨?_, fun msgs h => (ingestAll_none_iff msgs _).mpr h, by decide!, rfl, by decide!,
    by decide!⟩
  intro msgs h
  obtain ⟨r, hr⟩ := (ingestAll_some_iff msgs PPPB2bDecoder.init).mpr h
  exact ⟨r.1, r.2, hr, reachable_tables_bounded_with_distinct_keys msgs r.1 r.2 hr⟩

end B2b
